import Mathlib

/-! # Synchronisation primitives of `threads/synch.c`

A shallow embedding of the semaphore, lock and condition-variable code of
`threads/synch.c` as transitions on an explicit kernel state.

* Every thread has a list of pending instructions (its saved continuation).
  One `step` executes the first pending instruction of the running thread.
  An instruction is a piece of `synch.c` that runs without a context switch:
  control leaves the running thread only inside `thread_block` (called by
  `sema_down`) and `thread_yield` (called by `test_max_priority` in `sema_up`,
  and by the timer).
  A timer interrupt is taken between two instructions, when interrupts are on.
* The counter of a semaphore is a C `unsigned`: a natural number below `2^32`
  with wrap-around increment and decrement.
* Semaphores, locks and condition variables are named by index, so a `NULL`
  argument cannot be written down and the `ASSERT (... != NULL)` lines have no
  counterpart.  The other assertions stop the kernel (`Kernel.PANIC`).
* `threads/thread.c`, `threads/thread.h`, `threads/interrupt.c` and
  `lib/kernel/list.c` are not part of the sources at hand.  What `synch.c`
  uses from them is modelled from the specification; each such definition says
  so in its doc comment.
-/

namespace Synch

/-! ## Data model -/

/-- Thread handle: index into the thread arena. -/
abbrev Tid := Nat

/-- Interrupt level, `enum intr_level`. -/
inductive intr_level where
  | INTR_OFF
  | INTR_ON
deriving DecidableEq, Repr

/-- Life-cycle state of a thread as far as this layer is concerned. -/
inductive thread_status where
  | THREAD_RUNNING
  | THREAD_READY
  | THREAD_BLOCKED
deriving DecidableEq, Repr

/-- `struct semaphore`: an `unsigned` counter and the list of waiting threads. -/
structure semaphore where
  value : Nat
  waiters : List Tid
deriving DecidableEq, Repr

/-- `struct lock`: the holder (`NULL` is `none`) and the embedded semaphore. -/
structure lock where
  holder : Option Tid
  semaphore : semaphore
deriving DecidableEq, Repr

/-- `struct condition`: the list of waiting `semaphore_elem`s.  A
`semaphore_elem` is a local of the `cond_wait` frame of the waiting thread, so
it is named by the handle of that thread. -/
structure condition where
  waiters : List Tid
deriving DecidableEq, Repr

/-- Modelled from the spec: `struct thread` of `threads/thread.h`, which is not
among the sources.  The fields are those `synch.c` reads and writes
(`priority`, `wait_on_lock`, `donations`) and those the specification lists for
a thread: base priority, effective priority, donor set, `wait_on_lock`. -/
structure thread where
  status : thread_status
  priority : Int
  init_priority : Int
  wait_on_lock : Option Nat
  donations : List Tid
deriving DecidableEq, Repr

/-- Address of a `struct semaphore`: free-standing, embedded in a lock, or the
private semaphore of the `semaphore_elem` of a waiting thread. -/
inductive SemaRef where
  | sema (i : Nat)
  | lock (l : Nat)
  | waiter (t : Tid)
deriving DecidableEq, Repr

/-- Instructions: the entry points of `synch.c` and the points inside them at
which a thread can be suspended and later resumed. -/
inductive Instr where
  | sema_init (s : SemaRef) (v : Nat)
  | sema_down (s : SemaRef)
  | sema_try_down (s : SemaRef)
  | sema_up (s : SemaRef)
  | lock_init (l : Nat)
  | lock_acquire (l : Nat)
  | lock_try_acquire (l : Nat)
  | lock_release (l : Nat)
  | lock_held_by_current_thread (l : Nat)
  | cond_init (c : Nat)
  | cond_wait (c : Nat) (l : Nat)
  | cond_signal (c : Nat) (l : Nat)
  | cond_broadcast (c : Nat) (l : Nat)
  /-- Inside `sema_down`, at the test of the `while` loop, after
  `thread_block ()` returned; `old_level` is the saved interrupt level. -/
  | sema_down_loop (s : SemaRef) (old_level : intr_level)
  /-- `intr_set_level (old_level)` at the end of a function. -/
  | intr_set_level (old_level : intr_level)
  /-- Donation path of `lock_acquire` after `sema_down` returned:
  `lock->holder = t; t->wait_on_lock = NULL;`. -/
  | lock_acquire_ret (l : Nat)
  /-- Second path of `lock_acquire` after `sema_down` returned:
  `lock->holder = thread_current (); intr_set_level (old_level);`. -/
  | lock_acquire_mlfqs_ret (l : Nat) (old_level : intr_level)
  /-- Second path of `lock_release` after `sema_up` returned:
  `lock->holder = NULL; intr_set_level (old_level);`. -/
  | lock_release_mlfqs_ret (l : Nat) (old_level : intr_level)
deriving DecidableEq, Repr

/-- The kernel state `synch.c` works on. -/
structure Kernel where
  /-- The global `thread_mlfqs`: `false` selects the donation policy. -/
  thread_mlfqs : Bool
  threads : Tid → thread
  /-- Number of thread records in the arena. -/
  nthreads : Nat
  /-- The thread returned by `thread_current ()`. -/
  cur : Tid
  /-- The idle thread, which runs when no thread is ready. -/
  idle_thread : Tid
  ready_list : List Tid
  semas : Nat → semaphore
  locks : Nat → lock
  /-- The private semaphore of the `semaphore_elem` of each thread. -/
  elems : Tid → semaphore
  conds : Nat → condition
  /-- Pending instructions of each thread. -/
  cont : Tid → List Instr
  /-- Value returned by the last `bool` function each thread called. -/
  retval : Tid → Bool
  /-- Current interrupt level of the processor. -/
  intr : intr_level
  /-- Result of `intr_context ()`. -/
  in_intr : Bool
  /-- The word that `list_entry (list_begin (&waiters), struct thread,
  elem)->priority` reads when the waiter list of the private semaphore of a
  `semaphore_elem` is empty, so that `list_begin` is the tail sentinel of the
  list and not an element of a thread. -/
  junk : Tid → Int
  /-- Set once an `ASSERT` has failed: the kernel has halted. -/
  panicked : Bool

/-- Point update of a total map. -/
def upd {β : Type} (f : Nat → β) (a : Nat) (b : β) : Nat → β :=
  fun x => if x = a then b else f x

/-! ## Machine arithmetic on the `unsigned` counter -/

/-- Number of values of a C `unsigned`. -/
def UINT_RANGE : Nat := 4294967296

/-- `value++` on an `unsigned`. -/
def uint_inc (v : Nat) : Nat := (v + 1) % 4294967296

/-- `value--` on an `unsigned`: `0` wraps to `2^32 - 1`. -/
def uint_dec (v : Nat) : Nat := (v + 4294967295) % 4294967296

/-! ## The list library -/

/-- Modelled from the spec: `list_insert_ordered` of `lib/kernel/list.c`
("insert-by-comparator"; "new entries with equal priority inserted without
reordering existing ones"): the element goes in front of the first element
that it is `less` than, at the back when there is none. -/
def list_insert_ordered {α : Type} (less : α → α → Bool) (x : α) : List α → List α
  | [] => [x]
  | e :: l => if less x e then x :: e :: l else e :: list_insert_ordered less x l

/-- Modelled from the spec: insertion step of the stable sort: the element,
which precedes all of the list in the original order, goes in front of the
first element that is not `less` than it. -/
def sort_insert {α : Type} (less : α → α → Bool) (x : α) : List α → List α
  | [] => [x]
  | e :: l => if less e x then e :: sort_insert less x l else x :: e :: l

/-- Modelled from the spec: `list_sort` of `lib/kernel/list.c` ("stable
sort"): the stable arrangement of the list in which no element is `less` than
one before it. -/
def list_sort {α : Type} (less : α → α → Bool) : List α → List α
  | [] => []
  | x :: l => sort_insert less x (list_sort less l)

/-! ## State access -/

/-- Read the semaphore at an address. -/
def Kernel.getSema (K : Kernel) : SemaRef → semaphore
  | .sema i => K.semas i
  | .lock l => (K.locks l).semaphore
  | .waiter t => K.elems t

/-- Write the semaphore at an address. -/
def Kernel.setSema (K : Kernel) (r : SemaRef) (s : semaphore) : Kernel :=
  match r with
  | .sema i => { K with semas := upd K.semas i s }
  | .lock l => { K with locks := upd K.locks l { K.locks l with semaphore := s } }
  | .waiter t => { K with elems := upd K.elems t s }

/-- Write a thread record. -/
def Kernel.setThread (K : Kernel) (t : Tid) (th : thread) : Kernel :=
  { K with threads := upd K.threads t th }

/-- Write the holder of a lock. -/
def Kernel.setHolder (K : Kernel) (l : Nat) (h : Option Tid) : Kernel :=
  { K with locks := upd K.locks l { K.locks l with holder := h } }

/-- Put instructions in front of the pending instructions of the running
thread: the rest of the calling function, to run when the callee returns. -/
def Kernel.push (K : Kernel) (is : List Instr) : Kernel :=
  { K with cont := upd K.cont K.cur (is ++ K.cont K.cur) }

/-- A failed `ASSERT`: the kernel halts in the state it is in. -/
def Kernel.PANIC (K : Kernel) : Kernel :=
  { K with panicked := true }

/-- Record the `bool` a function returns to the running thread. -/
def Kernel.ret (K : Kernel) (b : Bool) : Kernel :=
  { K with retval := upd K.retval K.cur b }

/-! ## The thread system -/

/-- Modelled from the spec: `cmp_priority` of `threads/thread.c` ("order two
thread handles by descending effective priority"). -/
def cmp_priority (K : Kernel) (a b : Tid) : Bool :=
  decide ((K.threads a).priority > (K.threads b).priority)

/-- Modelled from the spec: the scheduler's choice of the next thread to run,
the most eligible ready thread (highest effective priority, the longest
waiting among equals), or the idle thread when none is ready. -/
def next_thread_to_run (K : Kernel) : Tid :=
  match list_sort (cmp_priority K) K.ready_list with
  | [] => K.idle_thread
  | t :: _ => t

/-- Modelled from the spec: `schedule` of `threads/thread.c`: dispatch the
chosen thread.  Interrupts are off across the switch; the resumed thread
restores its own level. -/
def schedule (K : Kernel) : Kernel :=
  let n := next_thread_to_run K
  { K with
    cur := n
    ready_list := K.ready_list.erase n
    threads := upd K.threads n { K.threads n with status := .THREAD_RUNNING }
    intr := .INTR_OFF }

/-- Modelled from the spec: `thread_block` of `threads/thread.c` ("block the
calling thread"): `RUNNING → BLOCKED`, then another thread is dispatched. -/
def thread_block (K : Kernel) : Kernel :=
  schedule (K.setThread K.cur { K.threads K.cur with status := .THREAD_BLOCKED })

/-- Modelled from the spec: `thread_unblock` of `threads/thread.c` ("unblock a
specified thread, making it ready"): `BLOCKED → READY`. -/
def thread_unblock (t : Tid) (K : Kernel) : Kernel :=
  { K with
    threads := upd K.threads t { K.threads t with status := .THREAD_READY }
    ready_list := K.ready_list ++ [t] }

/-- Modelled from the spec: `thread_yield` of `threads/thread.c`: the running
thread becomes ready and the most eligible ready thread is dispatched. -/
def thread_yield (K : Kernel) : Kernel :=
  if K.cur = K.idle_thread then schedule K
  else
    schedule
      { K with
        threads := upd K.threads K.cur { K.threads K.cur with status := .THREAD_READY }
        ready_list := K.ready_list ++ [K.cur] }

/-- Modelled from the spec: the test of `test_max_priority` of
`threads/thread.c` ("compare the running thread's priority against the most
eligible ready thread"): some ready thread outranks the running thread. -/
def outranked (K : Kernel) : Bool :=
  K.ready_list.any fun t => decide ((K.threads K.cur).priority < (K.threads t).priority)

/-- Modelled from the spec: `test_max_priority` of `threads/thread.c` ("yield
if outranked"), followed by the `intr_set_level (old_level)` with which its
caller `sema_up` ends.  When the thread yields, that statement is what it
resumes with. -/
def test_max_priority (old_level : intr_level) (K : Kernel) : Kernel :=
  if outranked K then thread_yield (K.push [Instr.intr_set_level old_level])
  else { K with intr := old_level }

/-- Modelled from the spec: `refresh_priority` of `threads/thread.c`, applied
to thread `t` ("effective priority becomes `max (base, max priority among the
donors)`"). -/
def refresh_priority_of (t : Tid) (K : Kernel) : Kernel :=
  K.setThread t
    { K.threads t with
      priority :=
        ((K.threads t).donations.map fun d => (K.threads d).priority).foldl max
          (K.threads t).init_priority }

/-- Modelled from the spec: `refresh_priority` of `threads/thread.c`
("recompute the caller's effective priority as `max (base, remaining donors'
priorities)`"). -/
def refresh_priority (K : Kernel) : Kernel :=
  refresh_priority_of K.cur K

/-- Modelled from the spec: `remove_with_lock` of `threads/thread.c` ("remove,
from the caller's donor set, every donor whose `wait_on_lock` is this lock"). -/
def remove_with_lock (l : Nat) (K : Kernel) : Kernel :=
  K.setThread K.cur
    { K.threads K.cur with
      donations :=
        (K.threads K.cur).donations.filter fun d =>
          decide ((K.threads d).wait_on_lock ≠ some l) }

/-- Modelled from the spec: the walk of `donate_priority` along the chain of
`wait_on_lock` links, starting at thread `t`: the holder of the lock `t` waits
on has its effective priority recomputed from its base and its donors, then
the same is done from that holder, "and so on along the chain of held locks".
The walk ends at a thread that waits on no lock or on a lock without holder;
the first argument bounds its length. -/
def donate_walk : Nat → Tid → Kernel → Kernel
  | 0, _, K => K
  | n + 1, t, K =>
    match (K.threads t).wait_on_lock with
    | none => K
    | some l =>
      match (K.locks l).holder with
      | none => K
      | some h => donate_walk n h (refresh_priority_of h K)

/-- Modelled from the spec: `donate_priority` of `threads/thread.c`
("priority propagation"), from the running thread.  The reference loop has no
bound and relies on the lock-wait graph being acyclic; the walk here is given
one iteration per thread record, which a chain without a cycle cannot
exceed. -/
def donate_priority (K : Kernel) : Kernel :=
  donate_walk K.nthreads K.cur K

/-! ## Semaphores -/

/-- `sema_init`: set the counter, empty the waiter list. -/
def sema_init (s : SemaRef) (v : Nat) (K : Kernel) : Kernel :=
  K.setSema s { value := v, waiters := [] }

/-- The `while` loop of `sema_down` and what follows it, entered with
interrupts off.  With the counter at zero the running thread is put on the
waiter list in priority order and blocked, to resume at the test of the loop;
otherwise the counter is decremented and the interrupt level restored. -/
def sema_down_loop (s : SemaRef) (old_level : intr_level) (K : Kernel) : Kernel :=
  if (K.getSema s).value = 0 then
    thread_block
      ((K.setSema s
          { K.getSema s with
            waiters := list_insert_ordered (cmp_priority K) K.cur (K.getSema s).waiters }).push
        [Instr.sema_down_loop s old_level])
  else
    { K.setSema s { K.getSema s with value := uint_dec (K.getSema s).value } with
      intr := old_level }

/-- `sema_down`. -/
def sema_down (s : SemaRef) (K : Kernel) : Kernel :=
  if K.in_intr then K.PANIC
  else sema_down_loop s K.intr { K with intr := .INTR_OFF }

/-- `sema_try_down`. -/
def sema_try_down (s : SemaRef) (K : Kernel) : Kernel :=
  if (K.getSema s).value > 0 then
    (K.setSema s { K.getSema s with value := uint_dec (K.getSema s).value }).ret true
  else K.ret false

/-- `sema_up`. -/
def sema_up (s : SemaRef) (K : Kernel) : Kernel :=
  let old_level := K.intr
  let K0 := { K with intr := intr_level.INTR_OFF }
  let K1 :=
    match list_sort (cmp_priority K0) (K0.getSema s).waiters with
    | [] => K0
    | t :: rest => thread_unblock t (K0.setSema s { K0.getSema s with waiters := rest })
  let K2 := K1.setSema s { K1.getSema s with value := uint_inc (K1.getSema s).value }
  test_max_priority old_level K2

/-! ## Locks -/

/-- `lock_init`. -/
def lock_init (l : Nat) (K : Kernel) : Kernel :=
  sema_init (.lock l) 1 (K.setHolder l none)

/-- `lock_held_by_current_thread`, as a predicate of the state. -/
def lock_held_by_current_thread (l : Nat) (K : Kernel) : Bool :=
  decide ((K.locks l).holder = some K.cur)

/-- The donation block of `lock_acquire` (the statement `if (lock->holder !=
NULL) ...` of the donation path): with the lock held, the running thread
records the lock it is about to wait on and, if it outranks the holder, joins
the donors of the holder and propagates its priority. -/
def lock_acquire_donate (l : Nat) (K : Kernel) : Kernel :=
  let t := K.cur
  match (K.locks l).holder with
  | none => K
  | some h =>
    let Kw := K.setThread t { K.threads t with wait_on_lock := some l }
    if (Kw.threads h).priority < (Kw.threads t).priority then
      donate_priority
        (Kw.setThread h { Kw.threads h with donations := (Kw.threads h).donations ++ [t] })
    else Kw

/-- `lock_acquire`. -/
def lock_acquire (l : Nat) (K : Kernel) : Kernel :=
  if !K.thread_mlfqs then
    let K1 := lock_acquire_donate l K
    if K1.in_intr then K1.PANIC
    else if lock_held_by_current_thread l K1 then K1.PANIC
    else sema_down (.lock l) (K1.push [Instr.lock_acquire_ret l])
  else
    let old_level := K.intr
    sema_down (.lock l)
      ({ K with intr := intr_level.INTR_OFF }.push [Instr.lock_acquire_mlfqs_ret l old_level])

/-- Donation path of `lock_acquire` after `sema_down`:
`lock->holder = t; t->wait_on_lock = NULL;`.  The local `t` was set from
`thread_current ()` on entry and this is the same thread, so it is the running
thread. -/
def lock_acquire_ret (l : Nat) (K : Kernel) : Kernel :=
  let t := K.cur
  let K1 := K.setHolder l (some t)
  K1.setThread t { K1.threads t with wait_on_lock := none }

/-- Second path of `lock_acquire` after `sema_down`:
`lock->holder = thread_current (); intr_set_level (old_level);`. -/
def lock_acquire_mlfqs_ret (l : Nat) (old_level : intr_level) (K : Kernel) : Kernel :=
  { K.setHolder l (some K.cur) with intr := old_level }

/-- `lock_try_acquire`. -/
def lock_try_acquire (l : Nat) (K : Kernel) : Kernel :=
  if lock_held_by_current_thread l K then K.PANIC
  else
    let K1 := sema_try_down (.lock l) K
    if K1.retval K1.cur then K1.setHolder l (some K1.cur) else K1

/-- `lock_release`.  The statements of the donation path run with interrupts
on; this is the call run without preemption between them, and
`lock_release_preempted` is the call with other transitions in between. -/
def lock_release (l : Nat) (K : Kernel) : Kernel :=
  if !K.thread_mlfqs then
    if !lock_held_by_current_thread l K then K.PANIC
    else
      let K1 := remove_with_lock l K
      let K2 := refresh_priority K1
      let K3 := K2.setHolder l none
      sema_up (.lock l) K3
  else
    let old_level := K.intr
    sema_up (.lock l)
      ({ K with intr := intr_level.INTR_OFF }.push [Instr.lock_release_mlfqs_ret l old_level])

/-- Second path of `lock_release` after `sema_up`:
`lock->holder = NULL; intr_set_level (old_level);`. -/
def lock_release_mlfqs_ret (l : Nat) (old_level : intr_level) (K : Kernel) : Kernel :=
  { K.setHolder l none with intr := old_level }

/-! ## Condition variables -/

/-- The `priority` field that `cmp_sem_priority` reads for a
`semaphore_elem`: that of the first thread on the waiter list of its private
semaphore.  With the list empty, `list_begin` is the tail sentinel and the
word read is not a field of any thread. -/
def front_priority (K : Kernel) (e : Tid) : Int :=
  match (K.elems e).waiters with
  | [] => K.junk e
  | t :: _ => (K.threads t).priority

/-- `cmp_sem_priority`. -/
def cmp_sem_priority (K : Kernel) (a b : Tid) : Bool :=
  if front_priority K a > front_priority K b then true else false

/-- `cond_init`. -/
def cond_init (c : Nat) (K : Kernel) : Kernel :=
  { K with conds := upd K.conds c { waiters := [] } }

/-- `cond_wait`.  The `semaphore_elem` is the local `waiter` of the running
thread. -/
def cond_wait (c : Nat) (l : Nat) (K : Kernel) : Kernel :=
  if K.in_intr then K.PANIC
  else if !lock_held_by_current_thread l K then K.PANIC
  else
    let w := K.cur
    let K1 := sema_init (.waiter w) 0 K
    let K2 :=
      { K1 with
        conds :=
          upd K1.conds c
            { waiters := list_insert_ordered (cmp_sem_priority K1) w (K1.conds c).waiters } }
    lock_release l (K2.push [Instr.sema_down (.waiter w), Instr.lock_acquire l])

/-- `cond_signal`. -/
def cond_signal (c : Nat) (l : Nat) (K : Kernel) : Kernel :=
  if K.in_intr then K.PANIC
  else if !lock_held_by_current_thread l K then K.PANIC
  else
    match list_sort (cmp_sem_priority K) (K.conds c).waiters with
    | [] => K
    | w :: rest => sema_up (.waiter w) { K with conds := upd K.conds c { waiters := rest } }

/-- `cond_broadcast`: one turn of the `while` loop.  With waiters left,
`cond_signal` is called and the loop resumed after it. -/
def cond_broadcast (c : Nat) (l : Nat) (K : Kernel) : Kernel :=
  if (K.conds c).waiters.isEmpty then K
  else cond_signal c l (K.push [Instr.cond_broadcast c l])

/-! ## Execution -/

/-- Execute one instruction on behalf of the running thread. -/
def exec (i : Instr) (K : Kernel) : Kernel :=
  match i with
  | .sema_init s v => sema_init s v K
  | .sema_down s => sema_down s K
  | .sema_try_down s => sema_try_down s K
  | .sema_up s => sema_up s K
  | .lock_init l => lock_init l K
  | .lock_acquire l => lock_acquire l K
  | .lock_try_acquire l => lock_try_acquire l K
  | .lock_release l => lock_release l K
  | .lock_held_by_current_thread l => K.ret (lock_held_by_current_thread l K)
  | .cond_init c => cond_init c K
  | .cond_wait c l => cond_wait c l K
  | .cond_signal c l => cond_signal c l K
  | .cond_broadcast c l => cond_broadcast c l K
  | .sema_down_loop s old_level => sema_down_loop s old_level K
  | .intr_set_level old_level => { K with intr := old_level }
  | .lock_acquire_ret l => lock_acquire_ret l K
  | .lock_acquire_mlfqs_ret l old_level => lock_acquire_mlfqs_ret l old_level K
  | .lock_release_mlfqs_ret l old_level => lock_release_mlfqs_ret l old_level K

/-- The running thread executes its first pending instruction.  Nothing
happens once the kernel has halted or when the thread has nothing pending. -/
def step (K : Kernel) : Kernel :=
  if K.panicked then K
  else
    match K.cont K.cur with
    | [] => K
    | i :: rest => exec i { K with cont := upd K.cont K.cur rest }

/-- The instructions a thread may call: the functions `synch.c` exports, with
an initial value that fits an `unsigned`. -/
def Instr.callable : Instr → Bool
  | .sema_init _ v => decide (v < 4294967296)
  | .sema_down _ => true
  | .sema_try_down _ => true
  | .sema_up _ => true
  | .lock_init _ => true
  | .lock_acquire _ => true
  | .lock_try_acquire _ => true
  | .lock_release _ => true
  | .lock_held_by_current_thread _ => true
  | .cond_init _ => true
  | .cond_wait _ _ => true
  | .cond_signal _ _ => true
  | .cond_broadcast _ _ => true
  | _ => false

/-- What can happen next: the running thread, with nothing pending, calls a
function of `synch.c`; the running thread executes its next pending
instruction; the timer preempts the running thread. -/
inductive Action where
  | call (i : Instr)
  | step
  | timer
deriving DecidableEq, Repr

/-- One transition of the kernel. -/
def Kernel.act (K : Kernel) : Action → Kernel
  | .call i =>
    if K.panicked || !(K.cont K.cur).isEmpty || !i.callable || decide (K.cur = K.idle_thread)
    then K
    else exec i K
  | .step => step K
  | .timer =>
    if K.panicked || decide (K.intr = intr_level.INTR_OFF) then K
    else thread_yield (K.push [Instr.intr_set_level intr_level.INTR_ON])

/-- Run a sequence of transitions. -/
def Kernel.run (K : Kernel) (as : List Action) : Kernel :=
  as.foldl Kernel.act K

/-! ## Initial states -/

/-- A thread record as `thread_create` leaves it: no lock awaited, no donor,
effective priority equal to the base priority. -/
def thread.create (p : Int) (st : thread_status) : thread :=
  { status := st, priority := p, init_priority := p, wait_on_lock := none, donations := [] }

/-- A kernel with thread `0` as the idle thread, thread `running` running and
the threads `ready` ready to run, at the priorities `pri`; every semaphore
at zero without waiters, every lock initialised and free, interrupts on.  A
ready thread turns interrupts on when it is first dispatched. -/
def Kernel.boot (mlfqs : Bool) (pri : Tid → Int) (n : Nat) (running : Tid)
    (ready : List Tid) : Kernel :=
  { thread_mlfqs := mlfqs
    threads := fun t =>
      thread.create (pri t)
        (if t = running then thread_status.THREAD_RUNNING
         else if t ∈ ready then thread_status.THREAD_READY
         else thread_status.THREAD_BLOCKED)
    nthreads := n
    cur := running
    idle_thread := 0
    ready_list := ready
    semas := fun _ => { value := 0, waiters := [] }
    locks := fun _ => { holder := none, semaphore := { value := 1, waiters := [] } }
    elems := fun _ => { value := 0, waiters := [] }
    conds := fun _ => { waiters := [] }
    cont := fun t => if t ∈ ready then [Instr.intr_set_level intr_level.INTR_ON] else []
    retval := fun _ => false
    intr := intr_level.INTR_ON
    in_intr := false
    junk := fun _ => 0
    panicked := false }

/-! ## Sequences of semaphore operations -/

/-- Execute instructions one after the other, each on behalf of the thread
that is running when its turn comes. -/
def exec_seq (is : List Instr) (K : Kernel) : Kernel :=
  is.foldl (fun K1 i => exec i K1) K

/-- The operations on the semaphore at `s`: `sema_init` with a value that fits
an `unsigned`, `sema_down` (from its entry, or resumed at the test of its loop
after a wake-up), `sema_try_down` and `sema_up`. -/
def Instr.is_sema_op (s : SemaRef) : Instr → Bool
  | .sema_init r v => decide (r = s) && decide (v < 4294967296)
  | .sema_down r => decide (r = s)
  | .sema_down_loop r _ => decide (r = s)
  | .sema_try_down r => decide (r = s)
  | .sema_up r => decide (r = s)
  | _ => false

/-- The operations that can decrement the counter. -/
def Instr.is_down : Instr → Bool
  | .sema_down _ => true
  | .sema_down_loop _ _ => true
  | .sema_try_down _ => true
  | _ => false

/-- Priorities for examples: thread `1` at 3, thread `2` at 7. -/
def pri_3_7 : Tid → Int := fun t => if t = 1 then 3 else if t = 2 then 7 else 0

/-- A sequence of operations on semaphore `0`: initialise it to 1, down it,
try to down it again, up it. -/
def demo_sema_ops : List Instr :=
  [Instr.sema_init (.sema 0) 1, Instr.sema_down (.sema 0), Instr.sema_try_down (.sema 0),
    Instr.sema_up (.sema 0)]

/-- Two threads and one lock.  Thread 2 (priority 7) initialises lock `0` and
semaphore `0` and blocks on the semaphore.  Thread 1 (priority 3) acquires the
lock and ups the semaphore, which lets thread 2 run: it calls `lock_acquire`
and blocks.  Thread 1 calls `lock_release`; the woken thread 2 outranks it and
runs, completes its `lock_acquire`, and later blocks on the semaphore again.
Thread 1 then runs `lock_release` to its end. -/
def handoff_trace : List Action :=
  [ Action.call (.lock_init 0), Action.call (.sema_init (.sema 0) 0),
    Action.call (.sema_down (.sema 0)),
    Action.step, Action.call (.lock_acquire 0), Action.step,
    Action.call (.sema_up (.sema 0)),
    Action.step, Action.call (.lock_acquire 0),
    Action.step, Action.call (.lock_release 0),
    Action.step, Action.step, Action.call (.sema_down (.sema 0)),
    Action.step, Action.step ]

/-- Thread 2 initialises lock `0`, acquires it, and calls `lock_acquire` on it
a second time. -/
def reacquire_trace : List Action :=
  [ Action.call (.lock_init 0), Action.call (.lock_acquire 0), Action.step,
    Action.call (.lock_acquire 0) ]

/-- Thread 2 initialises lock `0` and semaphore `0`, acquires the lock and
blocks on the semaphore.  Thread 1, which does not hold the lock, calls
`lock_release` on it. -/
def foreign_release_trace : List Action :=
  [ Action.call (.lock_init 0), Action.call (.sema_init (.sema 0) 0),
    Action.call (.lock_acquire 0), Action.step, Action.call (.sema_down (.sema 0)),
    Action.step, Action.call (.lock_release 0) ]

/-- Priorities for examples: thread `1` at 5, thread `2` at 10. -/
def pri_5_10 : Tid → Int := fun t => if t = 1 then 5 else if t = 2 then 10 else 0

/-- Thread 3 runs; the threads `ws` are blocked on semaphore `0`, queued in
this order. -/
def two_waiters (ws : List Tid) : Kernel :=
  (Kernel.boot false pri_5_10 4 3 []).setSema (.sema 0) { value := 0, waiters := ws }

/-- Thread 3 runs and holds lock `0`; the threads `ws` wait on condition
variable `0`, their `semaphore_elem`s queued in this order, each thread
blocked on the private semaphore of its own element. -/
def two_cond_waiters (ws : List Tid) : Kernel :=
  { Kernel.boot false pri_5_10 4 3 [] with
    locks := fun _ => { holder := some 3, semaphore := { value := 0, waiters := [] } }
    elems := fun t => { value := 0, waiters := [t] }
    conds := fun _ => { waiters := ws } }

/-- A call, as opposed to the execution of a pending instruction or a
preemption. -/
def Action.is_call : Action → Bool
  | .call _ => true
  | _ => false

/-- Thread `t` calls nothing during the run `as` from `K`: whenever it runs,
it executes instructions that were pending already. -/
def no_call_by (t : Tid) : Kernel → List Action → Bool
  | _, [] => true
  | K, a :: as => !(a.is_call && decide (K.cur = t)) && no_call_by t (K.act a) as

/-- The chain of `wait_on_lock` links that starts at thread `t` has at most
`n` links: the walk of `donate_priority` with bound `n` reaches its end, a
thread that waits on no lock or on a lock without holder. -/
def walk_ends : Nat → Tid → Kernel → Bool
  | n, t, K =>
    match (K.threads t).wait_on_lock with
    | none => true
    | some l =>
      match (K.locks l).holder with
      | none => true
      | some h =>
        match n with
        | 0 => false
        | n + 1 => walk_ends n h K

/-- Priorities for examples: thread `1` at 5, thread `2` at 2, thread `3`
at 1. -/
def pri_5_2_1 : Tid → Int := fun t => if t = 1 then 5 else if t = 2 then 2 else if t = 3 then 1 else 0

/-- Three threads and one lock.  Thread 1 (priority 5) acquires lock `0` and
blocks on semaphore `0`.  Thread 2 (priority 2) calls `lock_acquire` and
blocks.  Thread 3 (priority 1) ups the semaphore, so thread 1 runs again.
Thread 1 calls `lock_release`, which wakes thread 2 but does not yield to it,
and then `lock_acquire` again (the first eleven transitions).  It then blocks
on the semaphore, thread 2 runs and finds the lock taken. -/
def regrab_trace : List Action :=
  [ Action.call (.lock_acquire 0), Action.step, Action.call (.sema_down (.sema 0)),
    Action.step, Action.call (.lock_acquire 0),
    Action.step, Action.call (.sema_up (.sema 0)),
    Action.step, Action.call (.lock_release 0), Action.call (.lock_acquire 0), Action.step,
    Action.call (.sema_down (.sema 0)), Action.step ]

/-- Thread `C` donates to thread `H` through lock `l`: under the donation
policy `H` holds `l`, whose counter is at zero, `C` is on the donor list of
`H`, waits on `l`, is suspended inside `lock_acquire (l)` (possibly with
restores of the interrupt level pending in front, left by preemptions), and
the effective priority of `H` is at least that of `C`. -/
structure Donating (C H : Tid) (l : Nat) (K : Kernel) : Prop where
  policy : K.thread_mlfqs = false
  holder : (K.locks l).holder = some H
  donor : C ∈ (K.threads H).donations
  waits : (K.threads C).wait_on_lock = some l
  order : (K.threads C).priority ≤ (K.threads H).priority
  distinct : C ≠ H
  taken : (K.locks l).semaphore.value = 0
  suspended : ∃ pre lv rest,
    K.cont C = pre ++ Instr.sema_down_loop (.lock l) lv :: Instr.lock_acquire_ret l :: rest ∧
      ∀ i ∈ pre, ∃ lv1, i = Instr.intr_set_level lv1

/-- The instructions that, executed by thread `cur`, neither release lock `l`
on behalf of its holder `H` nor reach into the lock from outside the lock
functions (re-initialise it, up or initialise its semaphore directly, or
resume inside a lock function on `l` that was never entered). -/
def Instr.keeps (l : Nat) (H cur : Tid) : Instr → Bool
  | .lock_init m => decide (m ≠ l)
  | .sema_init s _ => decide (s ≠ SemaRef.lock l)
  | .sema_up s => decide (s ≠ SemaRef.lock l)
  | .lock_release m => !(decide (m = l) && decide (cur = H))
  | .cond_wait _ m => !(decide (m = l) && decide (cur = H))
  | .lock_acquire_ret m => decide (m ≠ l)
  | .lock_acquire_mlfqs_ret m _ => decide (m ≠ l)
  | .lock_release_mlfqs_ret m _ => decide (m ≠ l)
  | _ => true

/-- For a `lock_acquire`: the wait chain of the caller, once it waits on the
lock, comes to an end within the bound of `donate_priority` (no cycle of
threads waiting for one another). -/
def walk_completes (K : Kernel) : Instr → Bool
  | .lock_acquire m =>
    walk_ends K.nthreads K.cur
      (K.setThread K.cur { K.threads K.cur with wait_on_lock := some m })
  | _ => true

/-- The instruction an action executes, if any. -/
def Kernel.next_instr (K : Kernel) : Action → Option Instr
  | .call i => some i
  | .step => (K.cont K.cur).head?
  | .timer => none

/-- Along the run `as` from `K`, the holder `H` of lock `l` does not release
it, nothing reaches into the lock from outside the lock functions, and every
`lock_acquire` is called with a wait chain that ends. -/
def quiet_run (H : Tid) (l : Nat) : Kernel → List Action → Bool
  | _, [] => true
  | K, a :: as =>
    (match K.next_instr a with
      | none => true
      | some i => i.keeps l H K.cur && walk_completes K i) &&
      quiet_run H l (K.act a) as

/-- Priorities for examples: thread `1` at 4, thread `2` at 6, thread `3`
at 9, thread `4` at 1. -/
def pri_4_6_9 : Tid → Int :=
  fun t => if t = 1 then 4 else if t = 2 then 6 else if t = 3 then 9 else if t = 4 then 1 else 0

/-- Priorities for examples: thread `1` at 6, thread `2` at 4, thread `3`
at 9, thread `4` at 1. -/
def pri_6_4_9 : Tid → Int :=
  fun t => if t = 1 then 6 else if t = 2 then 4 else if t = 3 then 9 else if t = 4 then 1 else 0

/-- A chain of two locks in which the middle thread does not outrank the last
holder (priorities `pri_4_6_9`).  Thread 3 blocks on semaphore `0`.  Thread 2
acquires lock `1` and blocks on semaphore `1`.  Thread 1 acquires lock `0`,
calls `lock_acquire` on lock `1` and blocks.  Thread 4 ups semaphore `0`;
thread 3 runs again and calls `lock_acquire` on lock `0`. -/
def chain_trace : List Action :=
  [ Action.call (.sema_down (.sema 0)),
    Action.step, Action.call (.lock_acquire 1), Action.step,
    Action.call (.sema_down (.sema 1)),
    Action.step, Action.call (.lock_acquire 0), Action.step, Action.call (.lock_acquire 1),
    Action.step, Action.call (.sema_up (.sema 0)),
    Action.step, Action.call (.lock_acquire 0) ]

/-- A chain of two locks in which the middle thread outranks the last holder
(priorities `pri_6_4_9`).  Thread 3 blocks on semaphore `0`.  Thread 1
acquires lock `0` and blocks on semaphore `1`.  Thread 2 acquires lock `1` and
ups semaphore `1`; thread 1 runs again, calls `lock_acquire` on lock `1`,
donates to thread 2 and blocks.  Thread 2 ups semaphore `0`; thread 3 runs
again and is about to call `lock_acquire` on lock `0`. -/
def nested_trace : List Action :=
  [ Action.call (.sema_down (.sema 0)),
    Action.step, Action.call (.lock_acquire 0), Action.step,
    Action.call (.sema_down (.sema 1)),
    Action.step, Action.call (.lock_acquire 1), Action.step,
    Action.call (.sema_up (.sema 1)),
    Action.step, Action.call (.lock_acquire 1),
    Action.step, Action.call (.sema_up (.sema 0)),
    Action.step ]

/-- The running thread resumes, takes lock `m` and releases it again. -/
def other_lock_run (m : Nat) : List Action :=
  [Action.step, Action.call (.lock_acquire m), Action.step, Action.call (.lock_release m)]

/-- A down operation on the semaphore at `s`, from its entry: `sema_down` or
`sema_try_down`. -/
def Instr.is_down_on (s : SemaRef) : Instr → Bool
  | .sema_down r => decide (r = s)
  | .sema_try_down r => decide (r = s)
  | _ => false

/-- Thread 2 runs; semaphore `0` has the counter `v` and the waiters `ws`. -/
def sema_at (v : Nat) (ws : List Tid) : Kernel :=
  (Kernel.boot false pri_3_7 3 2 [1]).setSema (.sema 0) { value := v, waiters := ws }

/-- Thread 2 runs; lock `0` has the holder `h`, the counter `v` and no
waiter. -/
def lock_at (h : Option Tid) (v : Nat) : Kernel :=
  { Kernel.boot false pri_3_7 3 2 [1] with
    locks := fun _ => { holder := h, semaphore := { value := v, waiters := [] } } }

/-- Three down operations on semaphore `0`, of both kinds. -/
def three_downs : List Instr :=
  [Instr.sema_down (.sema 0), Instr.sema_try_down (.sema 0), Instr.sema_down (.sema 0)]

/-- Priorities for examples: thread `1` at 9, thread `2` at 5, thread `3`
at 5, thread `4` at 2, thread `5` at 5. -/
def pri_9_5_5_2 : Tid → Int :=
  fun t => if t = 1 then 9 else if t = 2 then 5 else if t = 3 then 5 else if t = 4 then 2
    else if t = 5 then 5 else 0

/-- Thread 5 (priority 5) runs; threads 1, 2, 3 and 4 (priorities 9, 5, 5
and 2) are queued in this order on semaphore `0`, whose counter is 0. -/
def sorted_waiters : Kernel :=
  (Kernel.boot false pri_9_5_5_2 6 5 []).setSema (.sema 0) { value := 0, waiters := [1, 2, 3, 4] }

/-- Scenario A.  Thread 2 (priority 7) initialises semaphore `0` to 0 and
calls `sema_down`: it blocks and thread 1 (priority 3) runs.  Thread 1 calls
`sema_up` (the fifth transition), which wakes thread 2 and yields to it;
thread 2 resumes at the test of the loop. -/
def scenario_a_trace : List Action :=
  [ Action.call (.sema_init (.sema 0) 0), Action.call (.sema_down (.sema 0)),
    Action.step, Action.call (.sema_up (.sema 0)), Action.step ]

/-- The unit is taken before the waiter resumes.  Thread 1 (priority 3) calls
`sema_down` on semaphore `0` and blocks; thread 2 (priority 7) runs, calls
`sema_up`, which wakes thread 1 without yielding to it, takes the unit back
with `sema_try_down`, and blocks on semaphore `1`.  Thread 1 resumes at the
test of the loop. -/
def unit_taken_trace : List Action :=
  [ Action.call (.sema_down (.sema 0)),
    Action.step, Action.call (.sema_up (.sema 0)), Action.call (.sema_try_down (.sema 0)),
    Action.call (.sema_down (.sema 1)),
    Action.step ]

/-- Thread 2 (priority 10) runs and holds lock `0`; thread 1 (priority 5)
waits on condition variable `0`, blocked on the private semaphore of its
element; thread 3 is ready.  The word that `cmp_sem_priority` reads through
the tail sentinel of a waiter list that is empty is `j`. -/
def cond_wait_state (j : Int) : Kernel :=
  { Kernel.boot false pri_5_10 4 2 [3] with
    locks := fun _ => { holder := some 2, semaphore := { value := 0, waiters := [] } }
    elems := fun t => if t = 1 then { value := 0, waiters := [1] } else { value := 0, waiters := [] }
    conds := fun _ => { waiters := [1] }
    junk := fun _ => j }

/-- The statements with which `lock_acquire (l)` returns, on either path. -/
def Instr.is_acquire_ret (l : Nat) : Instr → Bool
  | .lock_acquire_ret m => decide (m = l)
  | .lock_acquire_mlfqs_ret m _ => decide (m = l)
  | _ => false

/-- What is pending of a call of `cond_wait` with lock `l` by thread `C` once
its element is queued, given the holder of the lock: the end of `lock_release`
on its second path; the `sema_down` on the private semaphore, not yet entered
or suspended in its loop; the `lock_acquire`, not yet entered, suspended, or
about to return; nothing.  From the end of `lock_release` up to the return of
`lock_acquire` the holder is not `C`. -/
inductive CondWaitPhase (C : Tid) (l : Nat) (holder : Option Tid) : List Instr → Prop where
  | releasing (lv : intr_level) :
    CondWaitPhase C l holder
      [Instr.lock_release_mlfqs_ret l lv, Instr.sema_down (.waiter C), Instr.lock_acquire l]
  | released (h : holder ≠ some C) :
    CondWaitPhase C l holder [Instr.sema_down (.waiter C), Instr.lock_acquire l]
  | waiting (lv : intr_level) (h : holder ≠ some C) :
    CondWaitPhase C l holder [Instr.sema_down_loop (.waiter C) lv, Instr.lock_acquire l]
  | woken (h : holder ≠ some C) : CondWaitPhase C l holder [Instr.lock_acquire l]
  | acquiring (lv : intr_level) (r : Instr) (h : holder ≠ some C)
    (hr : r.is_acquire_ret l = true) :
    CondWaitPhase C l holder [Instr.sema_down_loop (.lock l) lv, r]
  | acquired (r : Instr) (h : holder ≠ some C) (hr : r.is_acquire_ret l = true) :
    CondWaitPhase C l holder [r]
  | returned : CondWaitPhase C l holder []

/-- Thread `C` is inside a call of `cond_wait` with lock `l`, outside
interrupt context: restores of the interrupt level left by preemptions are
pending, followed by `body`, which is what is pending of the call. -/
structure InCondWait (C : Tid) (l : Nat) (K : Kernel) (body : List Instr) : Prop where
  context : K.in_intr = false
  pending : ∃ pre, K.cont C = pre ++ body ∧ ∀ i ∈ pre, ∃ lv, i = Instr.intr_set_level lv
  phase : CondWaitPhase C l (K.locks l).holder body

/-- A restore of the interrupt level. -/
def Instr.is_restore : Instr → Bool
  | .intr_set_level _ => true
  | _ => false

/-- Nothing but restores of the interrupt level is pending for thread `t`:
the function it called has returned. -/
def Kernel.returned (K : Kernel) (t : Tid) : Bool :=
  (K.cont t).all Instr.is_restore

/-- A wait and a signal.  Thread 2 (priority 7) acquires lock `0` and calls
`cond_wait` (the third transition); it blocks on its private semaphore and
thread 1 (priority 3) runs, acquires the lock and calls `cond_signal` (the
eighth transition), which yields to thread 2; thread 2 calls `lock_acquire`,
donates and blocks.  Thread 1 calls `lock_release`, thread 2 runs and returns
from `cond_wait`. -/
def cond_wait_trace : List Action :=
  [ Action.call (.lock_acquire 0), Action.step, Action.call (.cond_wait 0 0), Action.step,
    Action.step, Action.call (.lock_acquire 0), Action.step, Action.call (.cond_signal 0 0),
    Action.step, Action.step,
    Action.step, Action.call (.lock_release 0),
    Action.step, Action.step ]

/-- The first two statements of `cond_wait`: the private semaphore of the
element of the running thread is initialised to 0 and the element is queued
on the condition variable. -/
def cond_wait_enqueue (c : Nat) (K : Kernel) : Kernel :=
  { sema_init (.waiter K.cur) 0 K with
    conds := upd K.conds c
      { waiters := list_insert_ordered (cmp_sem_priority (sema_init (.waiter K.cur) 0 K))
          K.cur (K.conds c).waiters } }

/-- The kernel after `k` steps. -/
def Kernel.steps (K : Kernel) : Nat → Kernel
  | 0 => K
  | k + 1 => (step K).steps k

/-- Priorities of the broadcast example: thread 1 at 5, thread 2 at 10,
thread 3 at 7, thread 4 at 1. -/
def pri_5_10_7_1 : Tid → Int :=
  fun t => if t = 1 then 5 else if t = 2 then 10 else if t = 3 then 7 else if t = 4 then 1 else 0

/-- Two waits before a broadcast, under the donation policy.  Thread 2
(priority 10) acquires lock `0` and calls `cond_wait`; it blocks on its
private semaphore and thread 3 (priority 7) runs and blocks on semaphore `0`;
thread 1 (priority 5) runs, acquires the lock and calls `cond_wait`; thread 4
(priority 1) runs and ups semaphore `0`; thread 3 resumes and acquires the
lock. -/
def broadcast_trace : List Action :=
  [ Action.call (.lock_acquire 0), Action.step, Action.call (.cond_wait 0 0), Action.step,
    Action.step, Action.call (.sema_down (.sema 0)),
    Action.step, Action.call (.lock_acquire 0), Action.step, Action.call (.cond_wait 0 0),
    Action.step,
    Action.step, Action.call (.sema_up (.sema 0)),
    Action.step, Action.call (.lock_acquire 0), Action.step ]

/-- The same under the second policy, where `cond_wait` takes one more step,
the end of its `lock_release`. -/
def broadcast_trace_mlfqs : List Action :=
  [ Action.call (.lock_acquire 0), Action.step, Action.call (.cond_wait 0 0), Action.step,
    Action.step,
    Action.step, Action.call (.sema_down (.sema 0)),
    Action.step, Action.call (.lock_acquire 0), Action.step, Action.call (.cond_wait 0 0),
    Action.step, Action.step,
    Action.step, Action.call (.sema_up (.sema 0)),
    Action.step, Action.call (.lock_acquire 0), Action.step ]

/-- The state in which thread 3, holder of lock `0`, is about to execute
`cond_broadcast` on condition variable `0`, on which the threads 2 and 1
wait; thread 4 is ready. -/
def broadcast_state (mlfqs : Bool) : Kernel :=
  ((Kernel.boot mlfqs pri_5_10_7_1 5 2 [1, 3, 4]).run
      (if mlfqs then broadcast_trace_mlfqs else broadcast_trace)).push
    [Instr.cond_broadcast 0 0]

/-- The loop of `sema_self_test`, with `n` rounds in place of the ten of the
source: `sema_up (&sema[0]); sema_down (&sema[1]);`. -/
def sema_self_test_loop : Nat → List Instr
  | 0 => []
  | n + 1 => Instr.sema_up (.sema 0) :: Instr.sema_down (.sema 1) :: sema_self_test_loop n

/-- The loop of `sema_test_helper`, with `n` rounds in place of the ten of the
source: `sema_down (&sema[0]); sema_up (&sema[1]);`. -/
def sema_test_helper : Nat → List Instr
  | 0 => []
  | n + 1 => Instr.sema_down (.sema 0) :: Instr.sema_up (.sema 1) :: sema_test_helper n

/-- `sema_self_test` at the entry of its loop: the two semaphores have been
initialised to 0 and the helper thread has been created.  Thread 1 is the
thread that runs `sema_self_test`, thread 2 the helper, ready to run
`sema_test_helper`; thread 0 is the idle thread. -/
def sema_self_test (mlfqs : Bool) (pri : Tid → Int) (n : Nat) : Kernel :=
  { sema_init (.sema 1) 0 (sema_init (.sema 0) 0 (Kernel.boot mlfqs pri 3 1 [2])) with
    cont := fun t =>
      if t = 1 then sema_self_test_loop n
      else if t = 2 then Instr.intr_set_level intr_level.INTR_ON :: sema_test_helper n
      else [] }

/-- Modelled from the spec: a context switch in which the scheduler dispatches
the ready thread `t` in place of the running thread, whatever the priorities.
The specification treats "the scheduler's run-queue selection and dispatch" as
an external collaborator; with this transition every order in which the
threads can take turns is a run of the kernel. -/
def thread_switch (t : Tid) (K : Kernel) : Kernel :=
  { K with
    cur := t
    ready_list := (K.ready_list ++ [K.cur]).erase t
    threads :=
      upd (upd K.threads K.cur { K.threads K.cur with status := .THREAD_READY }) t
        { K.threads t with status := .THREAD_RUNNING }
    intr := .INTR_OFF }

/-- What can happen next while the threads of a closed system take turns: the
running thread executes its next pending instruction; the timer preempts the running
thread and the scheduler makes its choice by priority; the timer preempts the
running thread and the ready thread `t` is dispatched. -/
inductive Turn where
  | step
  | timer
  | switch (t : Tid)
deriving DecidableEq, Repr

/-- One transition of the kernel among threads that take turns. -/
def Kernel.turn (K : Kernel) : Turn → Kernel
  | .step => step K
  | .timer => K.act Action.timer
  | .switch t =>
    if K.panicked || decide (K.intr = intr_level.INTR_OFF) || !decide (t ∈ K.ready_list) then K
    else thread_switch t (K.push [Instr.intr_set_level intr_level.INTR_ON])

/-- Run a sequence of such transitions. -/
def Kernel.turns (K : Kernel) (ts : List Turn) : Kernel :=
  ts.foldl Kernel.turn K

/-- The other thread of the self-test. -/
def partner (t : Tid) : Tid :=
  if t = 1 then 2 else 1

/-- An instruction with which a thread that was switched out resumes: the
restore of the interrupt level, or the test of the loop of `sema_down`, which
ends with the restore. -/
def Instr.resumes : Instr → Bool
  | .intr_set_level .INTR_ON => true
  | .sema_down_loop _ .INTR_ON => true
  | _ => false

/-- The first pending instruction restores the interrupt level. -/
def resumes : List Instr → Bool
  | [] => false
  | i :: _ => i.resumes

/-- Pending restores of the interrupt level, left by `j` preemptions. -/
def restores (j : Nat) : List Instr :=
  List.replicate j (Instr.intr_set_level intr_level.INTR_ON)

/-- The scheduling state of the self-test, apart from the interrupt level: the
kernel has not halted, one of the two threads is running, and the other is
either blocked, with nothing on the ready list, or alone on the ready list
with a restore of the interrupt level to resume with. -/
structure Sched0 (K : Kernel) : Prop where
  alive : K.panicked = false
  context : K.in_intr = false
  idle : K.idle_thread = 0
  running : K.cur = 1 ∨ K.cur = 2
  status_cur : (K.threads K.cur).status = thread_status.THREAD_RUNNING
  rest :
    ((K.threads (partner K.cur)).status = thread_status.THREAD_BLOCKED ∧ K.ready_list = []) ∨
      ((K.threads (partner K.cur)).status = thread_status.THREAD_READY ∧
        K.ready_list = [partner K.cur] ∧ resumes (K.cont (partner K.cur)) = true)

/-- The scheduling state of the self-test: with interrupts off, the running
thread is about to restore them. -/
structure Sched (K : Kernel) : Prop where
  base : Sched0 K
  masked : K.intr = intr_level.INTR_OFF → resumes (K.cont K.cur) = true

/-- Where the two threads of the self-test stand: the two semaphores and what
each thread has pending, restores of the interrupt level apart.  In the
phases `a` the main thread is about to up semaphore 0; in the phases `b` the
helper is about to take the unit of semaphore 0; in the phases `c` the helper
is about to up semaphore 1; in the phases `d` the main thread is about to take
the unit of semaphore 1.  The other thread is about to down its semaphore, or
is blocked on it, or is done. -/
inductive Phase : semaphore → semaphore → List Instr → List Instr → Prop where
  | a_idle (k : Nat) :
    Phase ⟨0, []⟩ ⟨0, []⟩ (sema_self_test_loop k) (sema_test_helper k)
  | a_wait (k : Nat) :
    Phase ⟨0, [2]⟩ ⟨0, []⟩ (sema_self_test_loop (k + 1))
      (.sema_down_loop (.sema 0) .INTR_ON :: .sema_up (.sema 1) :: sema_test_helper k)
  | b_dd (j : Nat) :
    Phase ⟨1, []⟩ ⟨0, []⟩ (.sema_down (.sema 1) :: sema_self_test_loop j)
      (.sema_down (.sema 0) :: .sema_up (.sema 1) :: sema_test_helper j)
  | b_dl (j : Nat) :
    Phase ⟨1, []⟩ ⟨0, []⟩ (.sema_down (.sema 1) :: sema_self_test_loop j)
      (.sema_down_loop (.sema 0) .INTR_ON :: .sema_up (.sema 1) :: sema_test_helper j)
  | b_ld (j : Nat) :
    Phase ⟨1, []⟩ ⟨0, [1]⟩ (.sema_down_loop (.sema 1) .INTR_ON :: sema_self_test_loop j)
      (.sema_down (.sema 0) :: .sema_up (.sema 1) :: sema_test_helper j)
  | b_ll (j : Nat) :
    Phase ⟨1, []⟩ ⟨0, [1]⟩ (.sema_down_loop (.sema 1) .INTR_ON :: sema_self_test_loop j)
      (.sema_down_loop (.sema 0) .INTR_ON :: .sema_up (.sema 1) :: sema_test_helper j)
  | c_d (j : Nat) :
    Phase ⟨0, []⟩ ⟨0, []⟩ (.sema_down (.sema 1) :: sema_self_test_loop j)
      (.sema_up (.sema 1) :: sema_test_helper j)
  | c_l (j : Nat) :
    Phase ⟨0, []⟩ ⟨0, [1]⟩ (.sema_down_loop (.sema 1) .INTR_ON :: sema_self_test_loop j)
      (.sema_up (.sema 1) :: sema_test_helper j)
  | d_d_idle (j : Nat) :
    Phase ⟨0, []⟩ ⟨1, []⟩ (.sema_down (.sema 1) :: sema_self_test_loop j) (sema_test_helper j)
  | d_l_idle (j : Nat) :
    Phase ⟨0, []⟩ ⟨1, []⟩ (.sema_down_loop (.sema 1) .INTR_ON :: sema_self_test_loop j)
      (sema_test_helper j)
  | d_d_wait (j : Nat) :
    Phase ⟨0, [2]⟩ ⟨1, []⟩ (.sema_down (.sema 1) :: sema_self_test_loop (j + 1))
      (.sema_down_loop (.sema 0) .INTR_ON :: .sema_up (.sema 1) :: sema_test_helper j)
  | d_l_wait (j : Nat) :
    Phase ⟨0, [2]⟩ ⟨1, []⟩ (.sema_down_loop (.sema 1) .INTR_ON :: sema_self_test_loop (j + 1))
      (.sema_down_loop (.sema 0) .INTR_ON :: .sema_up (.sema 1) :: sema_test_helper j)

/-- The invariant of the self-test: the scheduling state, what the two threads
have pending and the state of the two semaphores, and that a thread is blocked
exactly when it is the waiter of the semaphore it downs. -/
structure PingPong (K : Kernel) : Prop where
  sched : Sched K
  forms : ∃ jm jh cm ch, K.cont 1 = restores jm ++ cm ∧ K.cont 2 = restores jh ++ ch ∧
    Phase (K.semas 0) (K.semas 1) cm ch
  blocked_main :
    (K.threads 1).status = thread_status.THREAD_BLOCKED ↔ (K.semas 1).waiters = [1]
  blocked_helper :
    (K.threads 2).status = thread_status.THREAD_BLOCKED ↔ (K.semas 0).waiters = [2]

/-- The part an instruction has in what a thread has left to do: a call of
`sema_up` or `sema_down` counts 2, a `sema_down` that was begun counts 1, a
restore of the interrupt level nothing. -/
def Instr.work : Instr → Nat
  | .sema_up _ => 2
  | .sema_down _ => 2
  | .sema_down_loop _ _ => 1
  | _ => 0

/-- What a thread has left to do. -/
def work : List Instr → Nat
  | [] => 0
  | i :: l => i.work + work l

/-- What the two threads of the self-test have left to do. -/
def Kernel.left (K : Kernel) : Nat :=
  work (K.cont 1) + work (K.cont 2)

/-- The donation path of `lock_release`, statement by statement.  Interrupts
are on while it runs, so the timer can take the processor from the caller
between two of its statements.  The transitions `as` are those taken after
`refresh_priority ()` and before `lock->holder = NULL`: the caller is
preempted, other threads run, the caller is dispatched again and restores its
interrupt level.  With no transition in between this is the donation path of
`lock_release`. -/
def lock_release_preempted (l : Nat) (as : List Action) (K : Kernel) : Kernel :=
  if !lock_held_by_current_thread l K then K.PANIC
  else
    let K1 := remove_with_lock l K
    let K2 := refresh_priority K1
    let K3 := (K2.run as).setHolder l none
    sema_up (.lock l) K3

/-- Priorities of the release example: threads 1 and 3 at 3, thread 2 at 9. -/
def pri_3_9_3 : Tid → Int :=
  fun t => if t = 1 then 3 else if t = 2 then 9 else if t = 3 then 3 else 0

/-- The state in which thread 1 is about to release lock `0`.  Thread 2
(priority 9) has called `sema_down` on semaphore `0` and is blocked; thread 1
(priority 3) has acquired lock `0`; thread 3 (priority 3) is ready. -/
def release_state : Kernel :=
  (Kernel.boot false pri_3_9_3 4 2 [1, 3]).run
    [Action.call (.sema_down (.sema 0)), Action.step, Action.call (.lock_acquire 0), Action.step]

/-- What happens while thread 1 is preempted inside `lock_release`: the timer
gives the processor to thread 3, its equal; thread 3 ups semaphore `0` and
yields to thread 2, which it has woken; thread 2 returns from `sema_down` and
calls `lock_acquire` on lock `0`, of which thread 1 is still the holder: it
donates and blocks; thread 1 is dispatched and restores its interrupt
level. -/
def release_race : List Action :=
  [Action.timer, Action.step, Action.call (.sema_up (.sema 0)), Action.step,
    Action.call (.lock_acquire 0), Action.step]

/-- The elements among `obs` whose private semaphore has its counter raised
by one by the transition `x`. -/
def upped_by_turn (obs : List Tid) (K : Kernel) (x : Turn) : List Tid :=
  obs.filter fun w => decide (((K.turn x).elems w).value = (K.elems w).value + 1)

/-- The private semaphores, among those of the elements `obs`, that are upped
along the transitions `xs`, in the order in which they are upped. -/
def ups_along (obs : List Tid) : Kernel → List Turn → List Tid
  | _, [] => []
  | K, x :: xs => upped_by_turn obs K x ++ ups_along obs (K.turn x) xs

/-- The transition `x` is a call of `cond_signal` by the loop of
`cond_broadcast (c, l)`: the running thread executes a turn of the loop and
finds the queue of the condition variable not empty. -/
def signal_at (c l : Nat) (K : Kernel) (x : Turn) : Nat :=
  if x = Turn.step ∧ K.panicked = false ∧
      (K.cont K.cur).head? = some (Instr.cond_broadcast c l) ∧ (K.conds c).waiters ≠ [] then 1
  else 0

/-- The number of calls of `cond_signal` made by the loop of
`cond_broadcast (c, l)` along the transitions `xs`. -/
def signals_along (c l : Nat) : Kernel → List Turn → Nat
  | _, [] => 0
  | K, x :: xs => signal_at c l K x + signals_along c l (K.turn x) xs

/-- What a thread `t` that can run beside the broadcasting thread has pending,
behind the restores of the interrupt level left by preemptions: nothing; or,
woken by a signal with the unit of its private semaphore not yet taken, the
rest of `cond_wait` from the test of the loop of `sema_down`; or the
`lock_acquire` with which `cond_wait` ends. -/
def Runner (l : Nat) (K : Kernel) (t : Tid) : Prop :=
  ∃ j, K.cont t = restores j ∨
    (∃ tail, K.cont t = restores j ++
        Instr.sema_down_loop (.waiter t) intr_level.INTR_ON :: Instr.lock_acquire l :: tail ∧
      K.elems t = { value := 1, waiters := [] }) ∨
    ∃ tail, K.cont t = restores j ++ Instr.lock_acquire l :: tail

/-- Thread `B`, holder of lock `l`, is inside a call of `cond_broadcast (c, l)`
made outside interrupt context with nothing pending behind it: at the test of
the loop, or, with the queue of the condition variable empty, past it.  `L`
are the threads that can run.  `B` is one of them and waits on no lock; the
others are as `Runner` says.  Each element of the queue has its thread blocked
on its private semaphore, suspended in `cond_wait` on this lock, and not among
`L`. -/
structure Pool (B : Tid) (c l : Nat) (L : List Tid) (K : Kernel) : Prop where
  alive : K.panicked = false
  context : K.in_intr = false
  records : 0 < K.nthreads
  holder : (K.locks l).holder = some B
  taken : (K.locks l).semaphore.value = 0
  unblocked : (K.threads B).wait_on_lock = none
  regular : K.idle_thread ∉ L ∧ K.idle_thread ∉ (K.conds c).waiters
  distinct : L.Nodup
  present : B ∈ L
  caller : ∃ j, K.cont B = restores j ++ [Instr.cond_broadcast c l] ∨
    (K.cont B = restores j ∧ (K.conds c).waiters = [])
  others : ∀ t ∈ L, t ≠ B → Runner l K t
  queue : (K.conds c).waiters.Nodup
  waiting : ∀ w ∈ (K.conds c).waiters, w ∉ L ∧ K.elems w = { value := 0, waiters := [w] } ∧
    ∃ tail, K.cont w =
      Instr.sema_down_loop (.waiter w) intr_level.INTR_ON :: Instr.lock_acquire l :: tail

/-- Thread `B`, holder of lock `l`, is inside a call of `cond_broadcast (c, l)`
(see `Pool`), the threads that can run being the running thread and the ready
threads.  A ready thread resumes with a restore of the interrupt level, and
with interrupts off the running thread is about to restore them. -/
structure Broadcast (B : Tid) (c l : Nat) (K : Kernel) : Prop where
  pool : Pool B c l (K.cur :: K.ready_list) K
  resume : ∀ t ∈ K.ready_list, resumes (K.cont t) = true
  masked : K.intr = intr_level.INTR_OFF → resumes (K.cont K.cur) = true

/-- The fields a context switch leaves alone: the synchronisation objects, the
priorities and awaited locks of the threads, and the flags of the kernel. -/
structure Same (K K1 : Kernel) : Prop where
  elems : K1.elems = K.elems
  conds : K1.conds = K.conds
  locks : K1.locks = K.locks
  prio : ∀ t, (K1.threads t).priority = (K.threads t).priority
  wait : ∀ t, (K1.threads t).wait_on_lock = (K.threads t).wait_on_lock
  alive : K1.panicked = K.panicked
  context : K1.in_intr = K.in_intr
  records : K1.nthreads = K.nthreads
  idle : K1.idle_thread = K.idle_thread

/-- What a transition `x` from `K` to `K1` does during the call of
`cond_broadcast`: the invariant is kept and no thread but `B` changes
priority; and either the transition is a call of `cond_signal`, which takes
the element at the head of the sorted queue off and ups its private semaphore
and no other, or the queue is as before and no private semaphore is upped. -/
def Advance (B : Tid) (c l : Nat) (K K1 : Kernel) (x : Turn) : Prop :=
  Broadcast B c l K1 ∧ (∀ u, u ≠ B → (K1.threads u).priority = (K.threads u).priority) ∧
    ((signal_at c l K x = 1 ∧ ∃ w ws1,
        list_sort (cmp_sem_priority K) (K.conds c).waiters = w :: ws1 ∧
          (K1.conds c).waiters = ws1 ∧ (K1.elems w).value = (K.elems w).value + 1 ∧
          ∀ e, e ≠ w → K1.elems e = K.elems e) ∨
      (signal_at c l K x = 0 ∧ (K1.conds c).waiters = (K.conds c).waiters ∧
        ∀ e, (K1.elems e).value ≠ (K.elems e).value + 1))

/-- Priorities of the second broadcast example: thread 1 at 8, thread 2 at 10,
the threads 3 and 4 at 7. -/
def pri_8_10_7_7 : Tid → Int :=
  fun t => if t = 1 then 8 else if t = 2 then 10 else if t = 3 then 7 else if t = 4 then 7 else 0

/-- Two waits before a broadcast, under the second policy.  Thread 2
(priority 10) acquires lock `0` and calls `cond_wait`; it blocks on its
private semaphore and thread 1 (priority 8) runs and does the same; thread 3
(priority 7) runs and acquires the lock. -/
def broadcast_tie_trace : List Action :=
  [ Action.call (.lock_acquire 0), Action.step, Action.call (.cond_wait 0 0), Action.step,
    Action.step,
    Action.step, Action.call (.lock_acquire 0), Action.step, Action.call (.cond_wait 0 0),
    Action.step, Action.step,
    Action.step, Action.call (.lock_acquire 0), Action.step ]

/-- The state in which thread 3, holder of lock `0`, is about to execute
`cond_broadcast` on condition variable `0`, on which the threads 2 and 1
wait, under the second policy; thread 4, at the priority of thread 3, is ready
and has not run yet. -/
def broadcast_tie_state : Kernel :=
  ((Kernel.boot true pri_8_10_7_7 5 2 [1, 3, 4]).run broadcast_tie_trace).push
    [Instr.cond_broadcast 0 0]

/-- The elements among `obs` whose private semaphore has its counter raised
by one by the transition `a`. -/
def upped_by_act (obs : List Tid) (K : Kernel) (a : Action) : List Tid :=
  obs.filter fun w => decide (((K.act a).elems w).value = (K.elems w).value + 1)

/-- The private semaphores, among those of the elements `obs`, that are upped
along the run `as`, in the order in which they are upped. -/
def ups_over (obs : List Tid) : Kernel → List Action → List Tid
  | _, [] => []
  | K, a :: as => upped_by_act obs K a ++ ups_over obs (K.act a) as

/-- The transition `a` is a call of `cond_signal` by the loop of
`cond_broadcast (c, l)` run by thread `B`: `B` executes a turn of the loop and
finds the queue of the condition variable not empty. -/
def signal_by (B : Tid) (c l : Nat) (K : Kernel) (a : Action) : Nat :=
  if a = Action.step ∧ K.panicked = false ∧ K.cur = B ∧
      (K.cont B).head? = some (Instr.cond_broadcast c l) ∧ (K.conds c).waiters ≠ [] then 1
  else 0

/-- The number of calls of `cond_signal` made by the loop of
`cond_broadcast (c, l)` run by thread `B` along the run `as`. -/
def signals_over (B : Tid) (c l : Nat) : Kernel → List Action → Nat
  | _, [] => 0
  | K, a :: as => signal_by B c l K a + signals_over B c l (K.act a) as

/-- The transition from `K` to `K1` leaves alone what the call of
`cond_broadcast (c, l)` works on: the holder of the lock, the queue of the
condition variable, the private semaphore and the priority of the thread of
each queued element; and it ups none of the private semaphores `obs`. -/
def leaves_alone (c l : Nat) (obs : List Tid) (K K1 : Kernel) : Bool :=
  decide ((K1.locks l).holder = (K.locks l).holder) &&
    decide ((K1.conds c).waiters = (K.conds c).waiters) &&
    ((K.conds c).waiters.all fun w =>
      decide (K1.elems w = K.elems w) &&
        decide ((K1.threads w).priority = (K.threads w).priority)) &&
    obs.all fun e => !decide ((K1.elems e).value = (K.elems e).value + 1)

/-- Along the run `as` from `K` thread `B` makes no call, and every transition
taken while another thread runs leaves alone what the call of
`cond_broadcast (c, l)` works on. -/
def undisturbed (B : Tid) (c l : Nat) (obs : List Tid) : Kernel → List Action → Bool
  | _, [] => true
  | K, a :: as =>
    (if K.cur = B then !a.is_call else leaves_alone c l obs K (K.act a)) &&
      undisturbed B c l obs (K.act a) as

/-- Thread `B`, holder of lock `l`, is inside a call of `cond_broadcast (c, l)`
made outside interrupt context with nothing pending behind it: restores of the
interrupt level left by preemptions are pending, followed by a turn of the
loop or, with the queue of the condition variable empty, by nothing.  Each
queued element is that of another thread and has its private semaphore at zero
with its thread as the only waiter. -/
structure Calling (B : Tid) (c l : Nat) (K : Kernel) : Prop where
  context : K.in_intr = false
  holder : (K.locks l).holder = some B
  pending : ∃ pre, (∀ i ∈ pre, ∃ lv, i = Instr.intr_set_level lv) ∧
    (K.cont B = pre ++ [Instr.cond_broadcast c l] ∨
      (K.cont B = pre ∧ (K.conds c).waiters = []))
  queue : (K.conds c).waiters.Nodup
  waiting : ∀ w ∈ (K.conds c).waiters, w ≠ B ∧ K.elems w = { value := 0, waiters := [w] }

/-- What a transition `a` from `K` does to the call of `cond_broadcast` by
thread `B`: the call is still as `Calling` says and no thread of a queued
element has changed priority; and either the transition is a call of
`cond_signal` by the loop, which takes the element at the head of the sorted
queue off and ups its private semaphore and no other, or the queue is as
before and none of the private semaphores `obs` is upped. -/
def Proceeds (B : Tid) (c l : Nat) (obs : List Tid) (K : Kernel) (a : Action) : Prop :=
  Calling B c l (K.act a) ∧
    (∀ w ∈ ((K.act a).conds c).waiters, ((K.act a).threads w).priority = (K.threads w).priority) ∧
    ((signal_by B c l K a = 1 ∧ ∃ w ws1,
        list_sort (cmp_sem_priority K) (K.conds c).waiters = w :: ws1 ∧
          ((K.act a).conds c).waiters = ws1 ∧
          ((K.act a).elems w).value = (K.elems w).value + 1 ∧
          ∀ e, e ≠ w → (K.act a).elems e = K.elems e) ∨
      (signal_by B c l K a = 0 ∧ ((K.act a).conds c).waiters = (K.conds c).waiters ∧
        ∀ e ∈ obs, ((K.act a).elems e).value ≠ (K.elems e).value + 1))

/-! ## Basic facts -/

theorem uint_dec_pos (v : Nat) (h0 : 0 < v) (h : v < 4294967296) : uint_dec v = v - 1 := by
  unfold uint_dec
  omega

theorem uint_inc_lt (v : Nat) : uint_inc v < 4294967296 := by
  unfold uint_inc
  omega

theorem getSema_setSema_same (K : Kernel) (s : SemaRef) (x : semaphore) :
    (K.setSema s x).getSema s = x := by
  cases s <;> simp [Kernel.setSema, Kernel.getSema, upd]

theorem getSema_setSema_ne (K : Kernel) (r s : SemaRef) (x : semaphore) (h : r ≠ s) :
    (K.setSema r x).getSema s = K.getSema s := by
  cases r <;> cases s <;> simp [Kernel.setSema, Kernel.getSema, upd] <;>
    first
      | (intro e; subst e; simp at h)
      | (split <;> simp_all)

theorem getSema_congr (K K1 : Kernel) (s : SemaRef) (h1 : K1.semas = K.semas)
    (h2 : K1.locks = K.locks) (h3 : K1.elems = K.elems) : K1.getSema s = K.getSema s := by
  cases s <;> simp [Kernel.getSema, h1, h2, h3]

@[simp] theorem getSema_push (K : Kernel) (is : List Instr) (s : SemaRef) :
    (K.push is).getSema s = K.getSema s := by
  cases s <;> rfl

@[simp] theorem getSema_setThread (K : Kernel) (t : Tid) (th : thread) (s : SemaRef) :
    (K.setThread t th).getSema s = K.getSema s := by
  cases s <;> rfl

@[simp] theorem getSema_PANIC (K : Kernel) (s : SemaRef) : K.PANIC.getSema s = K.getSema s := by
  cases s <;> rfl

@[simp] theorem getSema_ret (K : Kernel) (b : Bool) (s : SemaRef) :
    (K.ret b).getSema s = K.getSema s := by
  cases s <;> rfl

@[simp] theorem getSema_set_intr (K : Kernel) (lv : intr_level) (s : SemaRef) :
    Kernel.getSema { K with intr := lv } s = K.getSema s := by
  cases s <;> rfl

@[simp] theorem getSema_schedule (K : Kernel) (s : SemaRef) :
    (schedule K).getSema s = K.getSema s := by
  cases s <;> rfl

@[simp] theorem getSema_thread_block (K : Kernel) (s : SemaRef) :
    (thread_block K).getSema s = K.getSema s := by
  simp [thread_block]

@[simp] theorem getSema_thread_unblock (K : Kernel) (t : Tid) (s : SemaRef) :
    (thread_unblock t K).getSema s = K.getSema s := by
  cases s <;> rfl

@[simp] theorem getSema_thread_yield (K : Kernel) (s : SemaRef) :
    (thread_yield K).getSema s = K.getSema s := by
  unfold thread_yield
  split
  · simp
  · rw [getSema_schedule]
    cases s <;> rfl

@[simp] theorem getSema_test_max_priority (K : Kernel) (lv : intr_level) (s : SemaRef) :
    (test_max_priority lv K).getSema s = K.getSema s := by
  unfold test_max_priority
  split <;> simp

/-- The counter after one pass through the loop of `sema_down`. -/
theorem sema_down_loop_value (K : Kernel) (s : SemaRef) (lv : intr_level) :
    ((sema_down_loop s lv K).getSema s).value =
      if (K.getSema s).value = 0 then 0 else uint_dec (K.getSema s).value := by
  unfold sema_down_loop
  split
  · next h => simp [getSema_setSema_same, h]
  · simp [getSema_setSema_same]

/-- The counter after `sema_down`, from its entry to the first suspension or
the return. -/
theorem sema_down_value (K : Kernel) (s : SemaRef) :
    ((sema_down s K).getSema s).value =
      if K.in_intr = true ∨ (K.getSema s).value = 0 then (K.getSema s).value
      else uint_dec (K.getSema s).value := by
  unfold sema_down
  split
  · next h => simp [h]
  · next h =>
    rw [sema_down_loop_value]
    simp only [getSema_set_intr]
    split <;> simp_all

/-- The counter after `sema_try_down`. -/
theorem sema_try_down_value (K : Kernel) (s : SemaRef) :
    ((sema_try_down s K).getSema s).value =
      if (K.getSema s).value = 0 then 0 else uint_dec (K.getSema s).value := by
  unfold sema_try_down
  split
  · next h =>
    have : (K.getSema s).value ≠ 0 := by omega
    simp [getSema_setSema_same, this]
  · next h =>
    have : (K.getSema s).value = 0 := by omega
    simp [this]

/-- The counter after `sema_up`. -/
theorem sema_up_value (K : Kernel) (s : SemaRef) :
    ((sema_up s K).getSema s).value = uint_inc (K.getSema s).value := by
  unfold sema_up
  simp only [getSema_test_max_priority, getSema_setSema_same]
  split <;> simp [getSema_setSema_same]

/-- What one semaphore operation does to the counter. -/
theorem exec_sema_op_value (s : SemaRef) (K : Kernel) (i : Instr)
    (hi : i.is_sema_op s = true) (hK : (K.getSema s).value < UINT_RANGE) :
    ((exec i K).getSema s).value < UINT_RANGE ∧
      (i.is_down = true →
        ((exec i K).getSema s).value = (K.getSema s).value ∨
          (0 < (K.getSema s).value ∧
            (((exec i K).getSema s).value : Int) = ((K.getSema s).value : Int) - 1)) := by
  unfold UINT_RANGE at *
  cases i <;> simp [Instr.is_sema_op] at hi
  case sema_init r v =>
    obtain ⟨rfl, hv⟩ := hi
    simp [exec, sema_init, getSema_setSema_same, hv, Instr.is_down]
  case sema_down r =>
    subst hi
    simp only [exec, sema_down_value, Instr.is_down]
    split
    · simp [hK]
    · next h =>
      have h0 : 0 < (K.getSema r).value := by
        rcases Nat.eq_zero_or_pos (K.getSema r).value with h1 | h1
        · exact absurd (Or.inr h1) h
        · exact h1
      rw [uint_dec_pos _ h0 hK]
      refine ⟨by omega, fun _ => Or.inr ⟨h0, by omega⟩⟩
  case sema_down_loop r lv =>
    subst hi
    simp only [exec, sema_down_loop_value, Instr.is_down]
    split
    · next h => simp [h]
    · next h =>
      have h0 : 0 < (K.getSema r).value := Nat.pos_of_ne_zero h
      rw [uint_dec_pos _ h0 hK]
      refine ⟨by omega, fun _ => Or.inr ⟨h0, by omega⟩⟩
  case sema_try_down r =>
    subst hi
    simp only [exec, sema_try_down_value, Instr.is_down]
    split
    · next h => simp [h]
    · next h =>
      have h0 : 0 < (K.getSema r).value := Nat.pos_of_ne_zero h
      rw [uint_dec_pos _ h0 hK]
      refine ⟨by omega, fun _ => Or.inr ⟨h0, by omega⟩⟩
  case sema_up r =>
    subst hi
    simp only [exec, sema_up_value, Instr.is_down]
    exact ⟨uint_inc_lt _, by simp⟩

/-- The counter stays in the range of an `unsigned` along every sequence of
semaphore operations. -/
theorem exec_seq_value_lt (s : SemaRef) (ops : List Instr) :
    ∀ K : Kernel, (∀ i ∈ ops, i.is_sema_op s = true) → (K.getSema s).value < UINT_RANGE →
      ((exec_seq ops K).getSema s).value < UINT_RANGE := by
  induction ops with
  | nil => intro K _ h; simpa [exec_seq] using h
  | cons i ops ih =>
    intro K hops hK
    have h1 := (exec_sema_op_value s K i (hops i (by simp)) hK).1
    have := ih (exec i K) (fun j hj => hops j (by simp [hj])) h1
    simpa [exec_seq] using this

/-! ## Frame facts: the fields each primitive leaves alone -/

@[simp] theorem setSema_thread_mlfqs (K : Kernel) (r : SemaRef) (x : semaphore) :
    (K.setSema r x).thread_mlfqs = K.thread_mlfqs := by
  cases r <;> rfl

@[simp] theorem setSema_threads (K : Kernel) (r : SemaRef) (x : semaphore) :
    (K.setSema r x).threads = K.threads := by
  cases r <;> rfl

@[simp] theorem setSema_nthreads (K : Kernel) (r : SemaRef) (x : semaphore) :
    (K.setSema r x).nthreads = K.nthreads := by
  cases r <;> rfl

@[simp] theorem setSema_cur (K : Kernel) (r : SemaRef) (x : semaphore) :
    (K.setSema r x).cur = K.cur := by
  cases r <;> rfl

@[simp] theorem setSema_idle_thread (K : Kernel) (r : SemaRef) (x : semaphore) :
    (K.setSema r x).idle_thread = K.idle_thread := by
  cases r <;> rfl

@[simp] theorem setSema_ready_list (K : Kernel) (r : SemaRef) (x : semaphore) :
    (K.setSema r x).ready_list = K.ready_list := by
  cases r <;> rfl

@[simp] theorem setSema_conds (K : Kernel) (r : SemaRef) (x : semaphore) :
    (K.setSema r x).conds = K.conds := by
  cases r <;> rfl

@[simp] theorem setSema_cont (K : Kernel) (r : SemaRef) (x : semaphore) :
    (K.setSema r x).cont = K.cont := by
  cases r <;> rfl

@[simp] theorem setSema_retval (K : Kernel) (r : SemaRef) (x : semaphore) :
    (K.setSema r x).retval = K.retval := by
  cases r <;> rfl

@[simp] theorem setSema_intr (K : Kernel) (r : SemaRef) (x : semaphore) :
    (K.setSema r x).intr = K.intr := by
  cases r <;> rfl

@[simp] theorem setSema_in_intr (K : Kernel) (r : SemaRef) (x : semaphore) :
    (K.setSema r x).in_intr = K.in_intr := by
  cases r <;> rfl

@[simp] theorem setSema_junk (K : Kernel) (r : SemaRef) (x : semaphore) :
    (K.setSema r x).junk = K.junk := by
  cases r <;> rfl

@[simp] theorem setSema_panicked (K : Kernel) (r : SemaRef) (x : semaphore) :
    (K.setSema r x).panicked = K.panicked := by
  cases r <;> rfl

@[simp] theorem setThread_thread_mlfqs (K : Kernel) (t : Tid) (th : thread) :
    (K.setThread t th).thread_mlfqs = K.thread_mlfqs := by
  rfl

@[simp] theorem setThread_nthreads (K : Kernel) (t : Tid) (th : thread) :
    (K.setThread t th).nthreads = K.nthreads := by
  rfl

@[simp] theorem setThread_cur (K : Kernel) (t : Tid) (th : thread) :
    (K.setThread t th).cur = K.cur := by
  rfl

@[simp] theorem setThread_idle_thread (K : Kernel) (t : Tid) (th : thread) :
    (K.setThread t th).idle_thread = K.idle_thread := by
  rfl

@[simp] theorem setThread_ready_list (K : Kernel) (t : Tid) (th : thread) :
    (K.setThread t th).ready_list = K.ready_list := by
  rfl

@[simp] theorem setThread_semas (K : Kernel) (t : Tid) (th : thread) :
    (K.setThread t th).semas = K.semas := by
  rfl

@[simp] theorem setThread_locks (K : Kernel) (t : Tid) (th : thread) :
    (K.setThread t th).locks = K.locks := by
  rfl

@[simp] theorem setThread_elems (K : Kernel) (t : Tid) (th : thread) :
    (K.setThread t th).elems = K.elems := by
  rfl

@[simp] theorem setThread_conds (K : Kernel) (t : Tid) (th : thread) :
    (K.setThread t th).conds = K.conds := by
  rfl

@[simp] theorem setThread_cont (K : Kernel) (t : Tid) (th : thread) :
    (K.setThread t th).cont = K.cont := by
  rfl

@[simp] theorem setThread_retval (K : Kernel) (t : Tid) (th : thread) :
    (K.setThread t th).retval = K.retval := by
  rfl

@[simp] theorem setThread_intr (K : Kernel) (t : Tid) (th : thread) :
    (K.setThread t th).intr = K.intr := by
  rfl

@[simp] theorem setThread_in_intr (K : Kernel) (t : Tid) (th : thread) :
    (K.setThread t th).in_intr = K.in_intr := by
  rfl

@[simp] theorem setThread_junk (K : Kernel) (t : Tid) (th : thread) :
    (K.setThread t th).junk = K.junk := by
  rfl

@[simp] theorem setThread_panicked (K : Kernel) (t : Tid) (th : thread) :
    (K.setThread t th).panicked = K.panicked := by
  rfl

@[simp] theorem setHolder_thread_mlfqs (K : Kernel) (l : Nat) (h : Option Tid) :
    (K.setHolder l h).thread_mlfqs = K.thread_mlfqs := by
  rfl

@[simp] theorem setHolder_threads (K : Kernel) (l : Nat) (h : Option Tid) :
    (K.setHolder l h).threads = K.threads := by
  rfl

@[simp] theorem setHolder_nthreads (K : Kernel) (l : Nat) (h : Option Tid) :
    (K.setHolder l h).nthreads = K.nthreads := by
  rfl

@[simp] theorem setHolder_cur (K : Kernel) (l : Nat) (h : Option Tid) :
    (K.setHolder l h).cur = K.cur := by
  rfl

@[simp] theorem setHolder_idle_thread (K : Kernel) (l : Nat) (h : Option Tid) :
    (K.setHolder l h).idle_thread = K.idle_thread := by
  rfl

@[simp] theorem setHolder_ready_list (K : Kernel) (l : Nat) (h : Option Tid) :
    (K.setHolder l h).ready_list = K.ready_list := by
  rfl

@[simp] theorem setHolder_semas (K : Kernel) (l : Nat) (h : Option Tid) :
    (K.setHolder l h).semas = K.semas := by
  rfl

@[simp] theorem setHolder_elems (K : Kernel) (l : Nat) (h : Option Tid) :
    (K.setHolder l h).elems = K.elems := by
  rfl

@[simp] theorem setHolder_conds (K : Kernel) (l : Nat) (h : Option Tid) :
    (K.setHolder l h).conds = K.conds := by
  rfl

@[simp] theorem setHolder_cont (K : Kernel) (l : Nat) (h : Option Tid) :
    (K.setHolder l h).cont = K.cont := by
  rfl

@[simp] theorem setHolder_retval (K : Kernel) (l : Nat) (h : Option Tid) :
    (K.setHolder l h).retval = K.retval := by
  rfl

@[simp] theorem setHolder_intr (K : Kernel) (l : Nat) (h : Option Tid) :
    (K.setHolder l h).intr = K.intr := by
  rfl

@[simp] theorem setHolder_in_intr (K : Kernel) (l : Nat) (h : Option Tid) :
    (K.setHolder l h).in_intr = K.in_intr := by
  rfl

@[simp] theorem setHolder_junk (K : Kernel) (l : Nat) (h : Option Tid) :
    (K.setHolder l h).junk = K.junk := by
  rfl

@[simp] theorem setHolder_panicked (K : Kernel) (l : Nat) (h : Option Tid) :
    (K.setHolder l h).panicked = K.panicked := by
  rfl

@[simp] theorem push_thread_mlfqs (K : Kernel) (is : List Instr) :
    (K.push is).thread_mlfqs = K.thread_mlfqs := by
  rfl

@[simp] theorem push_threads (K : Kernel) (is : List Instr) :
    (K.push is).threads = K.threads := by
  rfl

@[simp] theorem push_nthreads (K : Kernel) (is : List Instr) :
    (K.push is).nthreads = K.nthreads := by
  rfl

@[simp] theorem push_cur (K : Kernel) (is : List Instr) :
    (K.push is).cur = K.cur := by
  rfl

@[simp] theorem push_idle_thread (K : Kernel) (is : List Instr) :
    (K.push is).idle_thread = K.idle_thread := by
  rfl

@[simp] theorem push_ready_list (K : Kernel) (is : List Instr) :
    (K.push is).ready_list = K.ready_list := by
  rfl

@[simp] theorem push_semas (K : Kernel) (is : List Instr) :
    (K.push is).semas = K.semas := by
  rfl

@[simp] theorem push_locks (K : Kernel) (is : List Instr) :
    (K.push is).locks = K.locks := by
  rfl

@[simp] theorem push_elems (K : Kernel) (is : List Instr) :
    (K.push is).elems = K.elems := by
  rfl

@[simp] theorem push_conds (K : Kernel) (is : List Instr) :
    (K.push is).conds = K.conds := by
  rfl

@[simp] theorem push_retval (K : Kernel) (is : List Instr) :
    (K.push is).retval = K.retval := by
  rfl

@[simp] theorem push_intr (K : Kernel) (is : List Instr) :
    (K.push is).intr = K.intr := by
  rfl

@[simp] theorem push_in_intr (K : Kernel) (is : List Instr) :
    (K.push is).in_intr = K.in_intr := by
  rfl

@[simp] theorem push_junk (K : Kernel) (is : List Instr) :
    (K.push is).junk = K.junk := by
  rfl

@[simp] theorem push_panicked (K : Kernel) (is : List Instr) :
    (K.push is).panicked = K.panicked := by
  rfl

@[simp] theorem PANIC_thread_mlfqs (K : Kernel) :
    K.PANIC.thread_mlfqs = K.thread_mlfqs := by
  rfl

@[simp] theorem PANIC_threads (K : Kernel) :
    K.PANIC.threads = K.threads := by
  rfl

@[simp] theorem PANIC_nthreads (K : Kernel) :
    K.PANIC.nthreads = K.nthreads := by
  rfl

@[simp] theorem PANIC_cur (K : Kernel) :
    K.PANIC.cur = K.cur := by
  rfl

@[simp] theorem PANIC_idle_thread (K : Kernel) :
    K.PANIC.idle_thread = K.idle_thread := by
  rfl

@[simp] theorem PANIC_ready_list (K : Kernel) :
    K.PANIC.ready_list = K.ready_list := by
  rfl

@[simp] theorem PANIC_semas (K : Kernel) :
    K.PANIC.semas = K.semas := by
  rfl

@[simp] theorem PANIC_locks (K : Kernel) :
    K.PANIC.locks = K.locks := by
  rfl

@[simp] theorem PANIC_elems (K : Kernel) :
    K.PANIC.elems = K.elems := by
  rfl

@[simp] theorem PANIC_conds (K : Kernel) :
    K.PANIC.conds = K.conds := by
  rfl

@[simp] theorem PANIC_cont (K : Kernel) :
    K.PANIC.cont = K.cont := by
  rfl

@[simp] theorem PANIC_retval (K : Kernel) :
    K.PANIC.retval = K.retval := by
  rfl

@[simp] theorem PANIC_intr (K : Kernel) :
    K.PANIC.intr = K.intr := by
  rfl

@[simp] theorem PANIC_in_intr (K : Kernel) :
    K.PANIC.in_intr = K.in_intr := by
  rfl

@[simp] theorem PANIC_junk (K : Kernel) :
    K.PANIC.junk = K.junk := by
  rfl

@[simp] theorem ret_thread_mlfqs (K : Kernel) (b : Bool) :
    (K.ret b).thread_mlfqs = K.thread_mlfqs := by
  rfl

@[simp] theorem ret_threads (K : Kernel) (b : Bool) :
    (K.ret b).threads = K.threads := by
  rfl

@[simp] theorem ret_nthreads (K : Kernel) (b : Bool) :
    (K.ret b).nthreads = K.nthreads := by
  rfl

@[simp] theorem ret_cur (K : Kernel) (b : Bool) :
    (K.ret b).cur = K.cur := by
  rfl

@[simp] theorem ret_idle_thread (K : Kernel) (b : Bool) :
    (K.ret b).idle_thread = K.idle_thread := by
  rfl

@[simp] theorem ret_ready_list (K : Kernel) (b : Bool) :
    (K.ret b).ready_list = K.ready_list := by
  rfl

@[simp] theorem ret_semas (K : Kernel) (b : Bool) :
    (K.ret b).semas = K.semas := by
  rfl

@[simp] theorem ret_locks (K : Kernel) (b : Bool) :
    (K.ret b).locks = K.locks := by
  rfl

@[simp] theorem ret_elems (K : Kernel) (b : Bool) :
    (K.ret b).elems = K.elems := by
  rfl

@[simp] theorem ret_conds (K : Kernel) (b : Bool) :
    (K.ret b).conds = K.conds := by
  rfl

@[simp] theorem ret_cont (K : Kernel) (b : Bool) :
    (K.ret b).cont = K.cont := by
  rfl

@[simp] theorem ret_intr (K : Kernel) (b : Bool) :
    (K.ret b).intr = K.intr := by
  rfl

@[simp] theorem ret_in_intr (K : Kernel) (b : Bool) :
    (K.ret b).in_intr = K.in_intr := by
  rfl

@[simp] theorem ret_junk (K : Kernel) (b : Bool) :
    (K.ret b).junk = K.junk := by
  rfl

@[simp] theorem ret_panicked (K : Kernel) (b : Bool) :
    (K.ret b).panicked = K.panicked := by
  rfl

@[simp] theorem schedule_thread_mlfqs (K : Kernel) :
    (schedule K).thread_mlfqs = K.thread_mlfqs := by
  rfl

@[simp] theorem schedule_nthreads (K : Kernel) :
    (schedule K).nthreads = K.nthreads := by
  rfl

@[simp] theorem schedule_idle_thread (K : Kernel) :
    (schedule K).idle_thread = K.idle_thread := by
  rfl

@[simp] theorem schedule_semas (K : Kernel) :
    (schedule K).semas = K.semas := by
  rfl

@[simp] theorem schedule_locks (K : Kernel) :
    (schedule K).locks = K.locks := by
  rfl

@[simp] theorem schedule_elems (K : Kernel) :
    (schedule K).elems = K.elems := by
  rfl

@[simp] theorem schedule_conds (K : Kernel) :
    (schedule K).conds = K.conds := by
  rfl

@[simp] theorem schedule_cont (K : Kernel) :
    (schedule K).cont = K.cont := by
  rfl

@[simp] theorem schedule_retval (K : Kernel) :
    (schedule K).retval = K.retval := by
  rfl

@[simp] theorem schedule_in_intr (K : Kernel) :
    (schedule K).in_intr = K.in_intr := by
  rfl

@[simp] theorem schedule_junk (K : Kernel) :
    (schedule K).junk = K.junk := by
  rfl

@[simp] theorem schedule_panicked (K : Kernel) :
    (schedule K).panicked = K.panicked := by
  rfl

@[simp] theorem thread_block_thread_mlfqs (K : Kernel) :
    (thread_block K).thread_mlfqs = K.thread_mlfqs := by
  rfl

@[simp] theorem thread_block_nthreads (K : Kernel) :
    (thread_block K).nthreads = K.nthreads := by
  rfl

@[simp] theorem thread_block_idle_thread (K : Kernel) :
    (thread_block K).idle_thread = K.idle_thread := by
  rfl

@[simp] theorem thread_block_semas (K : Kernel) :
    (thread_block K).semas = K.semas := by
  rfl

@[simp] theorem thread_block_locks (K : Kernel) :
    (thread_block K).locks = K.locks := by
  rfl

@[simp] theorem thread_block_elems (K : Kernel) :
    (thread_block K).elems = K.elems := by
  rfl

@[simp] theorem thread_block_conds (K : Kernel) :
    (thread_block K).conds = K.conds := by
  rfl

@[simp] theorem thread_block_cont (K : Kernel) :
    (thread_block K).cont = K.cont := by
  rfl

@[simp] theorem thread_block_retval (K : Kernel) :
    (thread_block K).retval = K.retval := by
  rfl

@[simp] theorem thread_block_in_intr (K : Kernel) :
    (thread_block K).in_intr = K.in_intr := by
  rfl

@[simp] theorem thread_block_junk (K : Kernel) :
    (thread_block K).junk = K.junk := by
  rfl

@[simp] theorem thread_block_panicked (K : Kernel) :
    (thread_block K).panicked = K.panicked := by
  rfl

@[simp] theorem thread_unblock_thread_mlfqs (t : Tid) (K : Kernel) :
    (thread_unblock t K).thread_mlfqs = K.thread_mlfqs := by
  rfl

@[simp] theorem thread_unblock_nthreads (t : Tid) (K : Kernel) :
    (thread_unblock t K).nthreads = K.nthreads := by
  rfl

@[simp] theorem thread_unblock_cur (t : Tid) (K : Kernel) :
    (thread_unblock t K).cur = K.cur := by
  rfl

@[simp] theorem thread_unblock_idle_thread (t : Tid) (K : Kernel) :
    (thread_unblock t K).idle_thread = K.idle_thread := by
  rfl

@[simp] theorem thread_unblock_semas (t : Tid) (K : Kernel) :
    (thread_unblock t K).semas = K.semas := by
  rfl

@[simp] theorem thread_unblock_locks (t : Tid) (K : Kernel) :
    (thread_unblock t K).locks = K.locks := by
  rfl

@[simp] theorem thread_unblock_elems (t : Tid) (K : Kernel) :
    (thread_unblock t K).elems = K.elems := by
  rfl

@[simp] theorem thread_unblock_conds (t : Tid) (K : Kernel) :
    (thread_unblock t K).conds = K.conds := by
  rfl

@[simp] theorem thread_unblock_cont (t : Tid) (K : Kernel) :
    (thread_unblock t K).cont = K.cont := by
  rfl

@[simp] theorem thread_unblock_retval (t : Tid) (K : Kernel) :
    (thread_unblock t K).retval = K.retval := by
  rfl

@[simp] theorem thread_unblock_intr (t : Tid) (K : Kernel) :
    (thread_unblock t K).intr = K.intr := by
  rfl

@[simp] theorem thread_unblock_in_intr (t : Tid) (K : Kernel) :
    (thread_unblock t K).in_intr = K.in_intr := by
  rfl

@[simp] theorem thread_unblock_junk (t : Tid) (K : Kernel) :
    (thread_unblock t K).junk = K.junk := by
  rfl

@[simp] theorem thread_unblock_panicked (t : Tid) (K : Kernel) :
    (thread_unblock t K).panicked = K.panicked := by
  rfl

@[simp] theorem thread_yield_thread_mlfqs (K : Kernel) :
    (thread_yield K).thread_mlfqs = K.thread_mlfqs := by
  unfold thread_yield; split <;> rfl

@[simp] theorem thread_yield_nthreads (K : Kernel) :
    (thread_yield K).nthreads = K.nthreads := by
  unfold thread_yield; split <;> rfl

@[simp] theorem thread_yield_idle_thread (K : Kernel) :
    (thread_yield K).idle_thread = K.idle_thread := by
  unfold thread_yield; split <;> rfl

@[simp] theorem thread_yield_semas (K : Kernel) :
    (thread_yield K).semas = K.semas := by
  unfold thread_yield; split <;> rfl

@[simp] theorem thread_yield_locks (K : Kernel) :
    (thread_yield K).locks = K.locks := by
  unfold thread_yield; split <;> rfl

@[simp] theorem thread_yield_elems (K : Kernel) :
    (thread_yield K).elems = K.elems := by
  unfold thread_yield; split <;> rfl

@[simp] theorem thread_yield_conds (K : Kernel) :
    (thread_yield K).conds = K.conds := by
  unfold thread_yield; split <;> rfl

@[simp] theorem thread_yield_cont (K : Kernel) :
    (thread_yield K).cont = K.cont := by
  unfold thread_yield; split <;> rfl

@[simp] theorem thread_yield_retval (K : Kernel) :
    (thread_yield K).retval = K.retval := by
  unfold thread_yield; split <;> rfl

@[simp] theorem thread_yield_in_intr (K : Kernel) :
    (thread_yield K).in_intr = K.in_intr := by
  unfold thread_yield; split <;> rfl

@[simp] theorem thread_yield_junk (K : Kernel) :
    (thread_yield K).junk = K.junk := by
  unfold thread_yield; split <;> rfl

@[simp] theorem thread_yield_panicked (K : Kernel) :
    (thread_yield K).panicked = K.panicked := by
  unfold thread_yield; split <;> rfl

@[simp] theorem test_max_priority_thread_mlfqs (lv : intr_level) (K : Kernel) :
    (test_max_priority lv K).thread_mlfqs = K.thread_mlfqs := by
  unfold test_max_priority; split <;> simp

@[simp] theorem test_max_priority_nthreads (lv : intr_level) (K : Kernel) :
    (test_max_priority lv K).nthreads = K.nthreads := by
  unfold test_max_priority; split <;> simp

@[simp] theorem test_max_priority_idle_thread (lv : intr_level) (K : Kernel) :
    (test_max_priority lv K).idle_thread = K.idle_thread := by
  unfold test_max_priority; split <;> simp

@[simp] theorem test_max_priority_semas (lv : intr_level) (K : Kernel) :
    (test_max_priority lv K).semas = K.semas := by
  unfold test_max_priority; split <;> simp

@[simp] theorem test_max_priority_locks (lv : intr_level) (K : Kernel) :
    (test_max_priority lv K).locks = K.locks := by
  unfold test_max_priority; split <;> simp

@[simp] theorem test_max_priority_elems (lv : intr_level) (K : Kernel) :
    (test_max_priority lv K).elems = K.elems := by
  unfold test_max_priority; split <;> simp

@[simp] theorem test_max_priority_conds (lv : intr_level) (K : Kernel) :
    (test_max_priority lv K).conds = K.conds := by
  unfold test_max_priority; split <;> simp

@[simp] theorem test_max_priority_retval (lv : intr_level) (K : Kernel) :
    (test_max_priority lv K).retval = K.retval := by
  unfold test_max_priority; split <;> simp

@[simp] theorem test_max_priority_in_intr (lv : intr_level) (K : Kernel) :
    (test_max_priority lv K).in_intr = K.in_intr := by
  unfold test_max_priority; split <;> simp

@[simp] theorem test_max_priority_junk (lv : intr_level) (K : Kernel) :
    (test_max_priority lv K).junk = K.junk := by
  unfold test_max_priority; split <;> simp

@[simp] theorem test_max_priority_panicked (lv : intr_level) (K : Kernel) :
    (test_max_priority lv K).panicked = K.panicked := by
  unfold test_max_priority; split <;> simp

@[simp] theorem refresh_priority_of_thread_mlfqs (t : Tid) (K : Kernel) :
    (refresh_priority_of t K).thread_mlfqs = K.thread_mlfqs := by
  rfl

@[simp] theorem refresh_priority_of_nthreads (t : Tid) (K : Kernel) :
    (refresh_priority_of t K).nthreads = K.nthreads := by
  rfl

@[simp] theorem refresh_priority_of_cur (t : Tid) (K : Kernel) :
    (refresh_priority_of t K).cur = K.cur := by
  rfl

@[simp] theorem refresh_priority_of_idle_thread (t : Tid) (K : Kernel) :
    (refresh_priority_of t K).idle_thread = K.idle_thread := by
  rfl

@[simp] theorem refresh_priority_of_ready_list (t : Tid) (K : Kernel) :
    (refresh_priority_of t K).ready_list = K.ready_list := by
  rfl

@[simp] theorem refresh_priority_of_semas (t : Tid) (K : Kernel) :
    (refresh_priority_of t K).semas = K.semas := by
  rfl

@[simp] theorem refresh_priority_of_locks (t : Tid) (K : Kernel) :
    (refresh_priority_of t K).locks = K.locks := by
  rfl

@[simp] theorem refresh_priority_of_elems (t : Tid) (K : Kernel) :
    (refresh_priority_of t K).elems = K.elems := by
  rfl

@[simp] theorem refresh_priority_of_conds (t : Tid) (K : Kernel) :
    (refresh_priority_of t K).conds = K.conds := by
  rfl

@[simp] theorem refresh_priority_of_cont (t : Tid) (K : Kernel) :
    (refresh_priority_of t K).cont = K.cont := by
  rfl

@[simp] theorem refresh_priority_of_retval (t : Tid) (K : Kernel) :
    (refresh_priority_of t K).retval = K.retval := by
  rfl

@[simp] theorem refresh_priority_of_intr (t : Tid) (K : Kernel) :
    (refresh_priority_of t K).intr = K.intr := by
  rfl

@[simp] theorem refresh_priority_of_in_intr (t : Tid) (K : Kernel) :
    (refresh_priority_of t K).in_intr = K.in_intr := by
  rfl

@[simp] theorem refresh_priority_of_junk (t : Tid) (K : Kernel) :
    (refresh_priority_of t K).junk = K.junk := by
  rfl

@[simp] theorem refresh_priority_of_panicked (t : Tid) (K : Kernel) :
    (refresh_priority_of t K).panicked = K.panicked := by
  rfl

@[simp] theorem refresh_priority_thread_mlfqs (K : Kernel) :
    (refresh_priority K).thread_mlfqs = K.thread_mlfqs := by
  rfl

@[simp] theorem refresh_priority_nthreads (K : Kernel) :
    (refresh_priority K).nthreads = K.nthreads := by
  rfl

@[simp] theorem refresh_priority_cur (K : Kernel) :
    (refresh_priority K).cur = K.cur := by
  rfl

@[simp] theorem refresh_priority_idle_thread (K : Kernel) :
    (refresh_priority K).idle_thread = K.idle_thread := by
  rfl

@[simp] theorem refresh_priority_ready_list (K : Kernel) :
    (refresh_priority K).ready_list = K.ready_list := by
  rfl

@[simp] theorem refresh_priority_semas (K : Kernel) :
    (refresh_priority K).semas = K.semas := by
  rfl

@[simp] theorem refresh_priority_locks (K : Kernel) :
    (refresh_priority K).locks = K.locks := by
  rfl

@[simp] theorem refresh_priority_elems (K : Kernel) :
    (refresh_priority K).elems = K.elems := by
  rfl

@[simp] theorem refresh_priority_conds (K : Kernel) :
    (refresh_priority K).conds = K.conds := by
  rfl

@[simp] theorem refresh_priority_cont (K : Kernel) :
    (refresh_priority K).cont = K.cont := by
  rfl

@[simp] theorem refresh_priority_retval (K : Kernel) :
    (refresh_priority K).retval = K.retval := by
  rfl

@[simp] theorem refresh_priority_intr (K : Kernel) :
    (refresh_priority K).intr = K.intr := by
  rfl

@[simp] theorem refresh_priority_in_intr (K : Kernel) :
    (refresh_priority K).in_intr = K.in_intr := by
  rfl

@[simp] theorem refresh_priority_junk (K : Kernel) :
    (refresh_priority K).junk = K.junk := by
  rfl

@[simp] theorem refresh_priority_panicked (K : Kernel) :
    (refresh_priority K).panicked = K.panicked := by
  rfl

@[simp] theorem remove_with_lock_thread_mlfqs (l : Nat) (K : Kernel) :
    (remove_with_lock l K).thread_mlfqs = K.thread_mlfqs := by
  rfl

@[simp] theorem remove_with_lock_nthreads (l : Nat) (K : Kernel) :
    (remove_with_lock l K).nthreads = K.nthreads := by
  rfl

@[simp] theorem remove_with_lock_cur (l : Nat) (K : Kernel) :
    (remove_with_lock l K).cur = K.cur := by
  rfl

@[simp] theorem remove_with_lock_idle_thread (l : Nat) (K : Kernel) :
    (remove_with_lock l K).idle_thread = K.idle_thread := by
  rfl

@[simp] theorem remove_with_lock_ready_list (l : Nat) (K : Kernel) :
    (remove_with_lock l K).ready_list = K.ready_list := by
  rfl

@[simp] theorem remove_with_lock_semas (l : Nat) (K : Kernel) :
    (remove_with_lock l K).semas = K.semas := by
  rfl

@[simp] theorem remove_with_lock_locks (l : Nat) (K : Kernel) :
    (remove_with_lock l K).locks = K.locks := by
  rfl

@[simp] theorem remove_with_lock_elems (l : Nat) (K : Kernel) :
    (remove_with_lock l K).elems = K.elems := by
  rfl

@[simp] theorem remove_with_lock_conds (l : Nat) (K : Kernel) :
    (remove_with_lock l K).conds = K.conds := by
  rfl

@[simp] theorem remove_with_lock_cont (l : Nat) (K : Kernel) :
    (remove_with_lock l K).cont = K.cont := by
  rfl

@[simp] theorem remove_with_lock_retval (l : Nat) (K : Kernel) :
    (remove_with_lock l K).retval = K.retval := by
  rfl

@[simp] theorem remove_with_lock_intr (l : Nat) (K : Kernel) :
    (remove_with_lock l K).intr = K.intr := by
  rfl

@[simp] theorem remove_with_lock_in_intr (l : Nat) (K : Kernel) :
    (remove_with_lock l K).in_intr = K.in_intr := by
  rfl

@[simp] theorem remove_with_lock_junk (l : Nat) (K : Kernel) :
    (remove_with_lock l K).junk = K.junk := by
  rfl

@[simp] theorem remove_with_lock_panicked (l : Nat) (K : Kernel) :
    (remove_with_lock l K).panicked = K.panicked := by
  rfl

@[simp] theorem donate_walk_thread_mlfqs (n : Nat) :
    ∀ (t : Tid) (K : Kernel), (donate_walk n t K).thread_mlfqs = K.thread_mlfqs := by
  induction n with
  | zero => intro t K; rfl
  | succ n ih =>
    intro t K
    unfold donate_walk
    split
    · rfl
    · split
      · rfl
      · rw [ih]; rfl

@[simp] theorem donate_priority_thread_mlfqs (K : Kernel) :
    (donate_priority K).thread_mlfqs = K.thread_mlfqs := by
  unfold donate_priority
  rw [donate_walk_thread_mlfqs]

@[simp] theorem donate_walk_nthreads (n : Nat) :
    ∀ (t : Tid) (K : Kernel), (donate_walk n t K).nthreads = K.nthreads := by
  induction n with
  | zero => intro t K; rfl
  | succ n ih =>
    intro t K
    unfold donate_walk
    split
    · rfl
    · split
      · rfl
      · rw [ih]; rfl

@[simp] theorem donate_priority_nthreads (K : Kernel) :
    (donate_priority K).nthreads = K.nthreads := by
  unfold donate_priority
  rw [donate_walk_nthreads]

@[simp] theorem donate_walk_cur (n : Nat) :
    ∀ (t : Tid) (K : Kernel), (donate_walk n t K).cur = K.cur := by
  induction n with
  | zero => intro t K; rfl
  | succ n ih =>
    intro t K
    unfold donate_walk
    split
    · rfl
    · split
      · rfl
      · rw [ih]; rfl

@[simp] theorem donate_priority_cur (K : Kernel) :
    (donate_priority K).cur = K.cur := by
  unfold donate_priority
  rw [donate_walk_cur]

@[simp] theorem donate_walk_idle_thread (n : Nat) :
    ∀ (t : Tid) (K : Kernel), (donate_walk n t K).idle_thread = K.idle_thread := by
  induction n with
  | zero => intro t K; rfl
  | succ n ih =>
    intro t K
    unfold donate_walk
    split
    · rfl
    · split
      · rfl
      · rw [ih]; rfl

@[simp] theorem donate_priority_idle_thread (K : Kernel) :
    (donate_priority K).idle_thread = K.idle_thread := by
  unfold donate_priority
  rw [donate_walk_idle_thread]

@[simp] theorem donate_walk_ready_list (n : Nat) :
    ∀ (t : Tid) (K : Kernel), (donate_walk n t K).ready_list = K.ready_list := by
  induction n with
  | zero => intro t K; rfl
  | succ n ih =>
    intro t K
    unfold donate_walk
    split
    · rfl
    · split
      · rfl
      · rw [ih]; rfl

@[simp] theorem donate_priority_ready_list (K : Kernel) :
    (donate_priority K).ready_list = K.ready_list := by
  unfold donate_priority
  rw [donate_walk_ready_list]

@[simp] theorem donate_walk_semas (n : Nat) :
    ∀ (t : Tid) (K : Kernel), (donate_walk n t K).semas = K.semas := by
  induction n with
  | zero => intro t K; rfl
  | succ n ih =>
    intro t K
    unfold donate_walk
    split
    · rfl
    · split
      · rfl
      · rw [ih]; rfl

@[simp] theorem donate_priority_semas (K : Kernel) :
    (donate_priority K).semas = K.semas := by
  unfold donate_priority
  rw [donate_walk_semas]

@[simp] theorem donate_walk_locks (n : Nat) :
    ∀ (t : Tid) (K : Kernel), (donate_walk n t K).locks = K.locks := by
  induction n with
  | zero => intro t K; rfl
  | succ n ih =>
    intro t K
    unfold donate_walk
    split
    · rfl
    · split
      · rfl
      · rw [ih]; rfl

@[simp] theorem donate_priority_locks (K : Kernel) :
    (donate_priority K).locks = K.locks := by
  unfold donate_priority
  rw [donate_walk_locks]

@[simp] theorem donate_walk_elems (n : Nat) :
    ∀ (t : Tid) (K : Kernel), (donate_walk n t K).elems = K.elems := by
  induction n with
  | zero => intro t K; rfl
  | succ n ih =>
    intro t K
    unfold donate_walk
    split
    · rfl
    · split
      · rfl
      · rw [ih]; rfl

@[simp] theorem donate_priority_elems (K : Kernel) :
    (donate_priority K).elems = K.elems := by
  unfold donate_priority
  rw [donate_walk_elems]

@[simp] theorem donate_walk_conds (n : Nat) :
    ∀ (t : Tid) (K : Kernel), (donate_walk n t K).conds = K.conds := by
  induction n with
  | zero => intro t K; rfl
  | succ n ih =>
    intro t K
    unfold donate_walk
    split
    · rfl
    · split
      · rfl
      · rw [ih]; rfl

@[simp] theorem donate_priority_conds (K : Kernel) :
    (donate_priority K).conds = K.conds := by
  unfold donate_priority
  rw [donate_walk_conds]

@[simp] theorem donate_walk_cont (n : Nat) :
    ∀ (t : Tid) (K : Kernel), (donate_walk n t K).cont = K.cont := by
  induction n with
  | zero => intro t K; rfl
  | succ n ih =>
    intro t K
    unfold donate_walk
    split
    · rfl
    · split
      · rfl
      · rw [ih]; rfl

@[simp] theorem donate_priority_cont (K : Kernel) :
    (donate_priority K).cont = K.cont := by
  unfold donate_priority
  rw [donate_walk_cont]

@[simp] theorem donate_walk_retval (n : Nat) :
    ∀ (t : Tid) (K : Kernel), (donate_walk n t K).retval = K.retval := by
  induction n with
  | zero => intro t K; rfl
  | succ n ih =>
    intro t K
    unfold donate_walk
    split
    · rfl
    · split
      · rfl
      · rw [ih]; rfl

@[simp] theorem donate_priority_retval (K : Kernel) :
    (donate_priority K).retval = K.retval := by
  unfold donate_priority
  rw [donate_walk_retval]

@[simp] theorem donate_walk_intr (n : Nat) :
    ∀ (t : Tid) (K : Kernel), (donate_walk n t K).intr = K.intr := by
  induction n with
  | zero => intro t K; rfl
  | succ n ih =>
    intro t K
    unfold donate_walk
    split
    · rfl
    · split
      · rfl
      · rw [ih]; rfl

@[simp] theorem donate_priority_intr (K : Kernel) :
    (donate_priority K).intr = K.intr := by
  unfold donate_priority
  rw [donate_walk_intr]

@[simp] theorem donate_walk_in_intr (n : Nat) :
    ∀ (t : Tid) (K : Kernel), (donate_walk n t K).in_intr = K.in_intr := by
  induction n with
  | zero => intro t K; rfl
  | succ n ih =>
    intro t K
    unfold donate_walk
    split
    · rfl
    · split
      · rfl
      · rw [ih]; rfl

@[simp] theorem donate_priority_in_intr (K : Kernel) :
    (donate_priority K).in_intr = K.in_intr := by
  unfold donate_priority
  rw [donate_walk_in_intr]

@[simp] theorem donate_walk_junk (n : Nat) :
    ∀ (t : Tid) (K : Kernel), (donate_walk n t K).junk = K.junk := by
  induction n with
  | zero => intro t K; rfl
  | succ n ih =>
    intro t K
    unfold donate_walk
    split
    · rfl
    · split
      · rfl
      · rw [ih]; rfl

@[simp] theorem donate_priority_junk (K : Kernel) :
    (donate_priority K).junk = K.junk := by
  unfold donate_priority
  rw [donate_walk_junk]

@[simp] theorem donate_walk_panicked (n : Nat) :
    ∀ (t : Tid) (K : Kernel), (donate_walk n t K).panicked = K.panicked := by
  induction n with
  | zero => intro t K; rfl
  | succ n ih =>
    intro t K
    unfold donate_walk
    split
    · rfl
    · split
      · rfl
      · rw [ih]; rfl

@[simp] theorem donate_priority_panicked (K : Kernel) :
    (donate_priority K).panicked = K.panicked := by
  unfold donate_priority
  rw [donate_walk_panicked]

@[simp] theorem getSema_setHolder (K : Kernel) (l : Nat) (h : Option Tid) (s : SemaRef) :
    (K.setHolder l h).getSema s = K.getSema s := by
  cases s <;> simp [Kernel.setHolder, Kernel.getSema, upd]
  split <;> simp_all

@[simp] theorem holder_setSema (K : Kernel) (r : SemaRef) (x : semaphore) (l : Nat) :
    ((K.setSema r x).locks l).holder = (K.locks l).holder := by
  cases r <;> simp [Kernel.setSema, upd]
  split <;> simp_all

@[simp] theorem getSema_refresh_priority_of (t : Tid) (K : Kernel) (s : SemaRef) :
    (refresh_priority_of t K).getSema s = K.getSema s := by
  cases s <;> rfl

@[simp] theorem getSema_refresh_priority (K : Kernel) (s : SemaRef) :
    (refresh_priority K).getSema s = K.getSema s := by
  cases s <;> rfl

@[simp] theorem getSema_remove_with_lock (l : Nat) (K : Kernel) (s : SemaRef) :
    (remove_with_lock l K).getSema s = K.getSema s := by
  cases s <;> rfl

@[simp] theorem getSema_donate_walk (n : Nat) (t : Tid) (K : Kernel) (s : SemaRef) :
    (donate_walk n t K).getSema s = K.getSema s :=
  getSema_congr _ _ s (donate_walk_semas n t K) (donate_walk_locks n t K)
    (donate_walk_elems n t K)

@[simp] theorem getSema_donate_priority (K : Kernel) (s : SemaRef) :
    (donate_priority K).getSema s = K.getSema s := by
  unfold donate_priority
  simp

@[simp] theorem sema_init_thread_mlfqs (s : SemaRef) (v : Nat) (K : Kernel) :
    (sema_init s v K).thread_mlfqs = K.thread_mlfqs := by
  unfold sema_init; simp

@[simp] theorem sema_init_nthreads (s : SemaRef) (v : Nat) (K : Kernel) :
    (sema_init s v K).nthreads = K.nthreads := by
  unfold sema_init; simp

@[simp] theorem sema_init_idle_thread (s : SemaRef) (v : Nat) (K : Kernel) :
    (sema_init s v K).idle_thread = K.idle_thread := by
  unfold sema_init; simp

@[simp] theorem sema_init_conds (s : SemaRef) (v : Nat) (K : Kernel) :
    (sema_init s v K).conds = K.conds := by
  unfold sema_init; simp

@[simp] theorem sema_init_in_intr (s : SemaRef) (v : Nat) (K : Kernel) :
    (sema_init s v K).in_intr = K.in_intr := by
  unfold sema_init; simp

@[simp] theorem sema_init_junk (s : SemaRef) (v : Nat) (K : Kernel) :
    (sema_init s v K).junk = K.junk := by
  unfold sema_init; simp

@[simp] theorem sema_init_panicked (s : SemaRef) (v : Nat) (K : Kernel) :
    (sema_init s v K).panicked = K.panicked := by
  unfold sema_init; simp

@[simp] theorem sema_init_threads (s : SemaRef) (v : Nat) (K : Kernel) :
    (sema_init s v K).threads = K.threads := by
  unfold sema_init; simp

@[simp] theorem sema_init_cur (s : SemaRef) (v : Nat) (K : Kernel) :
    (sema_init s v K).cur = K.cur := by
  unfold sema_init; simp

@[simp] theorem sema_init_ready_list (s : SemaRef) (v : Nat) (K : Kernel) :
    (sema_init s v K).ready_list = K.ready_list := by
  unfold sema_init; simp

@[simp] theorem sema_init_cont (s : SemaRef) (v : Nat) (K : Kernel) :
    (sema_init s v K).cont = K.cont := by
  unfold sema_init; simp

@[simp] theorem sema_init_retval (s : SemaRef) (v : Nat) (K : Kernel) :
    (sema_init s v K).retval = K.retval := by
  unfold sema_init; simp

@[simp] theorem sema_init_intr (s : SemaRef) (v : Nat) (K : Kernel) :
    (sema_init s v K).intr = K.intr := by
  unfold sema_init; simp

@[simp] theorem sema_down_loop_thread_mlfqs (s : SemaRef) (lv : intr_level) (K : Kernel) :
    (sema_down_loop s lv K).thread_mlfqs = K.thread_mlfqs := by
  unfold sema_down_loop; split <;> simp

@[simp] theorem sema_down_loop_nthreads (s : SemaRef) (lv : intr_level) (K : Kernel) :
    (sema_down_loop s lv K).nthreads = K.nthreads := by
  unfold sema_down_loop; split <;> simp

@[simp] theorem sema_down_loop_idle_thread (s : SemaRef) (lv : intr_level) (K : Kernel) :
    (sema_down_loop s lv K).idle_thread = K.idle_thread := by
  unfold sema_down_loop; split <;> simp

@[simp] theorem sema_down_loop_conds (s : SemaRef) (lv : intr_level) (K : Kernel) :
    (sema_down_loop s lv K).conds = K.conds := by
  unfold sema_down_loop; split <;> simp

@[simp] theorem sema_down_loop_in_intr (s : SemaRef) (lv : intr_level) (K : Kernel) :
    (sema_down_loop s lv K).in_intr = K.in_intr := by
  unfold sema_down_loop; split <;> simp

@[simp] theorem sema_down_loop_junk (s : SemaRef) (lv : intr_level) (K : Kernel) :
    (sema_down_loop s lv K).junk = K.junk := by
  unfold sema_down_loop; split <;> simp

@[simp] theorem sema_down_loop_panicked (s : SemaRef) (lv : intr_level) (K : Kernel) :
    (sema_down_loop s lv K).panicked = K.panicked := by
  unfold sema_down_loop; split <;> simp

@[simp] theorem sema_down_loop_retval (s : SemaRef) (lv : intr_level) (K : Kernel) :
    (sema_down_loop s lv K).retval = K.retval := by
  unfold sema_down_loop; split <;> simp

@[simp] theorem sema_down_thread_mlfqs (s : SemaRef) (K : Kernel) :
    (sema_down s K).thread_mlfqs = K.thread_mlfqs := by
  unfold sema_down; split <;> simp

@[simp] theorem sema_down_nthreads (s : SemaRef) (K : Kernel) :
    (sema_down s K).nthreads = K.nthreads := by
  unfold sema_down; split <;> simp

@[simp] theorem sema_down_idle_thread (s : SemaRef) (K : Kernel) :
    (sema_down s K).idle_thread = K.idle_thread := by
  unfold sema_down; split <;> simp

@[simp] theorem sema_down_conds (s : SemaRef) (K : Kernel) :
    (sema_down s K).conds = K.conds := by
  unfold sema_down; split <;> simp

@[simp] theorem sema_down_in_intr (s : SemaRef) (K : Kernel) :
    (sema_down s K).in_intr = K.in_intr := by
  unfold sema_down; split <;> simp

@[simp] theorem sema_down_junk (s : SemaRef) (K : Kernel) :
    (sema_down s K).junk = K.junk := by
  unfold sema_down; split <;> simp

@[simp] theorem sema_down_retval (s : SemaRef) (K : Kernel) :
    (sema_down s K).retval = K.retval := by
  unfold sema_down; split <;> simp

@[simp] theorem sema_try_down_thread_mlfqs (s : SemaRef) (K : Kernel) :
    (sema_try_down s K).thread_mlfqs = K.thread_mlfqs := by
  unfold sema_try_down; split <;> simp

@[simp] theorem sema_try_down_nthreads (s : SemaRef) (K : Kernel) :
    (sema_try_down s K).nthreads = K.nthreads := by
  unfold sema_try_down; split <;> simp

@[simp] theorem sema_try_down_idle_thread (s : SemaRef) (K : Kernel) :
    (sema_try_down s K).idle_thread = K.idle_thread := by
  unfold sema_try_down; split <;> simp

@[simp] theorem sema_try_down_conds (s : SemaRef) (K : Kernel) :
    (sema_try_down s K).conds = K.conds := by
  unfold sema_try_down; split <;> simp

@[simp] theorem sema_try_down_in_intr (s : SemaRef) (K : Kernel) :
    (sema_try_down s K).in_intr = K.in_intr := by
  unfold sema_try_down; split <;> simp

@[simp] theorem sema_try_down_junk (s : SemaRef) (K : Kernel) :
    (sema_try_down s K).junk = K.junk := by
  unfold sema_try_down; split <;> simp

@[simp] theorem sema_try_down_panicked (s : SemaRef) (K : Kernel) :
    (sema_try_down s K).panicked = K.panicked := by
  unfold sema_try_down; split <;> simp

@[simp] theorem sema_try_down_threads (s : SemaRef) (K : Kernel) :
    (sema_try_down s K).threads = K.threads := by
  unfold sema_try_down; split <;> simp

@[simp] theorem sema_try_down_cur (s : SemaRef) (K : Kernel) :
    (sema_try_down s K).cur = K.cur := by
  unfold sema_try_down; split <;> simp

@[simp] theorem sema_try_down_ready_list (s : SemaRef) (K : Kernel) :
    (sema_try_down s K).ready_list = K.ready_list := by
  unfold sema_try_down; split <;> simp

@[simp] theorem sema_try_down_cont (s : SemaRef) (K : Kernel) :
    (sema_try_down s K).cont = K.cont := by
  unfold sema_try_down; split <;> simp

@[simp] theorem sema_try_down_intr (s : SemaRef) (K : Kernel) :
    (sema_try_down s K).intr = K.intr := by
  unfold sema_try_down; split <;> simp

@[simp] theorem sema_up_thread_mlfqs (s : SemaRef) (K : Kernel) :
    (sema_up s K).thread_mlfqs = K.thread_mlfqs := by
  unfold sema_up
  simp only [test_max_priority_thread_mlfqs, setSema_thread_mlfqs]
  split <;> simp

@[simp] theorem sema_up_nthreads (s : SemaRef) (K : Kernel) :
    (sema_up s K).nthreads = K.nthreads := by
  unfold sema_up
  simp only [test_max_priority_nthreads, setSema_nthreads]
  split <;> simp

@[simp] theorem sema_up_idle_thread (s : SemaRef) (K : Kernel) :
    (sema_up s K).idle_thread = K.idle_thread := by
  unfold sema_up
  simp only [test_max_priority_idle_thread, setSema_idle_thread]
  split <;> simp

@[simp] theorem sema_up_conds (s : SemaRef) (K : Kernel) :
    (sema_up s K).conds = K.conds := by
  unfold sema_up
  simp only [test_max_priority_conds, setSema_conds]
  split <;> simp

@[simp] theorem sema_up_in_intr (s : SemaRef) (K : Kernel) :
    (sema_up s K).in_intr = K.in_intr := by
  unfold sema_up
  simp only [test_max_priority_in_intr, setSema_in_intr]
  split <;> simp

@[simp] theorem sema_up_junk (s : SemaRef) (K : Kernel) :
    (sema_up s K).junk = K.junk := by
  unfold sema_up
  simp only [test_max_priority_junk, setSema_junk]
  split <;> simp

@[simp] theorem sema_up_panicked (s : SemaRef) (K : Kernel) :
    (sema_up s K).panicked = K.panicked := by
  unfold sema_up
  simp only [test_max_priority_panicked, setSema_panicked]
  split <;> simp

@[simp] theorem sema_up_retval (s : SemaRef) (K : Kernel) :
    (sema_up s K).retval = K.retval := by
  unfold sema_up
  simp only [test_max_priority_retval, setSema_retval]
  split <;> simp

@[simp] theorem sema_init_holder (s : SemaRef) (v : Nat) (K : Kernel) (l : Nat) :
    ((sema_init s v K).locks l).holder = (K.locks l).holder := by
  unfold sema_init; simp

@[simp] theorem sema_down_loop_holder (s : SemaRef) (lv : intr_level) (K : Kernel) (l : Nat) :
    ((sema_down_loop s lv K).locks l).holder = (K.locks l).holder := by
  unfold sema_down_loop; split <;> simp

@[simp] theorem sema_down_holder (s : SemaRef) (K : Kernel) (l : Nat) :
    ((sema_down s K).locks l).holder = (K.locks l).holder := by
  unfold sema_down; split <;> simp

@[simp] theorem sema_try_down_holder (s : SemaRef) (K : Kernel) (l : Nat) :
    ((sema_try_down s K).locks l).holder = (K.locks l).holder := by
  unfold sema_try_down; split <;> simp

@[simp] theorem sema_up_holder (s : SemaRef) (K : Kernel) (l : Nat) :
    ((sema_up s K).locks l).holder = (K.locks l).holder := by
  unfold sema_up
  simp only [test_max_priority_locks, holder_setSema]
  split <;> simp

theorem getSema_sema_down_loop_ne (s r : SemaRef) (lv : intr_level) (K : Kernel)
    (h : s ≠ r) : (sema_down_loop s lv K).getSema r = K.getSema r := by
  unfold sema_down_loop
  split
  · simp [getSema_setSema_ne _ _ _ _ h]
  · rw [getSema_set_intr]
    exact getSema_setSema_ne _ _ _ _ h

theorem getSema_sema_down_ne (s r : SemaRef) (K : Kernel) (h : s ≠ r) :
    (sema_down s K).getSema r = K.getSema r := by
  unfold sema_down
  split <;> simp [getSema_sema_down_loop_ne _ _ _ _ h]

theorem getSema_sema_try_down_ne (s r : SemaRef) (K : Kernel) (h : s ≠ r) :
    (sema_try_down s K).getSema r = K.getSema r := by
  unfold sema_try_down
  split <;> simp [getSema_setSema_ne _ _ _ _ h]

theorem getSema_sema_up_ne (s r : SemaRef) (K : Kernel) (h : s ≠ r) :
    (sema_up s K).getSema r = K.getSema r := by
  unfold sema_up
  simp only [getSema_test_max_priority, getSema_setSema_ne _ _ _ _ h]
  split <;> simp [getSema_setSema_ne _ _ _ _ h]

theorem getSema_sema_init_ne (s r : SemaRef) (v : Nat) (K : Kernel) (h : s ≠ r) :
    (sema_init s v K).getSema r = K.getSema r := by
  unfold sema_init
  exact getSema_setSema_ne _ _ _ _ h

@[simp] theorem lock_acquire_donate_thread_mlfqs (l : Nat) (K : Kernel) :
    (lock_acquire_donate l K).thread_mlfqs = K.thread_mlfqs := by
  unfold lock_acquire_donate
  split
  · rfl
  · simp only []
    split <;> simp

@[simp] theorem lock_acquire_donate_nthreads (l : Nat) (K : Kernel) :
    (lock_acquire_donate l K).nthreads = K.nthreads := by
  unfold lock_acquire_donate
  split
  · rfl
  · simp only []
    split <;> simp

@[simp] theorem lock_acquire_donate_cur (l : Nat) (K : Kernel) :
    (lock_acquire_donate l K).cur = K.cur := by
  unfold lock_acquire_donate
  split
  · rfl
  · simp only []
    split <;> simp

@[simp] theorem lock_acquire_donate_idle_thread (l : Nat) (K : Kernel) :
    (lock_acquire_donate l K).idle_thread = K.idle_thread := by
  unfold lock_acquire_donate
  split
  · rfl
  · simp only []
    split <;> simp

@[simp] theorem lock_acquire_donate_ready_list (l : Nat) (K : Kernel) :
    (lock_acquire_donate l K).ready_list = K.ready_list := by
  unfold lock_acquire_donate
  split
  · rfl
  · simp only []
    split <;> simp

@[simp] theorem lock_acquire_donate_semas (l : Nat) (K : Kernel) :
    (lock_acquire_donate l K).semas = K.semas := by
  unfold lock_acquire_donate
  split
  · rfl
  · simp only []
    split <;> simp

@[simp] theorem lock_acquire_donate_locks (l : Nat) (K : Kernel) :
    (lock_acquire_donate l K).locks = K.locks := by
  unfold lock_acquire_donate
  split
  · rfl
  · simp only []
    split <;> simp

@[simp] theorem lock_acquire_donate_elems (l : Nat) (K : Kernel) :
    (lock_acquire_donate l K).elems = K.elems := by
  unfold lock_acquire_donate
  split
  · rfl
  · simp only []
    split <;> simp

@[simp] theorem lock_acquire_donate_conds (l : Nat) (K : Kernel) :
    (lock_acquire_donate l K).conds = K.conds := by
  unfold lock_acquire_donate
  split
  · rfl
  · simp only []
    split <;> simp

@[simp] theorem lock_acquire_donate_cont (l : Nat) (K : Kernel) :
    (lock_acquire_donate l K).cont = K.cont := by
  unfold lock_acquire_donate
  split
  · rfl
  · simp only []
    split <;> simp

@[simp] theorem lock_acquire_donate_retval (l : Nat) (K : Kernel) :
    (lock_acquire_donate l K).retval = K.retval := by
  unfold lock_acquire_donate
  split
  · rfl
  · simp only []
    split <;> simp

@[simp] theorem lock_acquire_donate_intr (l : Nat) (K : Kernel) :
    (lock_acquire_donate l K).intr = K.intr := by
  unfold lock_acquire_donate
  split
  · rfl
  · simp only []
    split <;> simp

@[simp] theorem lock_acquire_donate_in_intr (l : Nat) (K : Kernel) :
    (lock_acquire_donate l K).in_intr = K.in_intr := by
  unfold lock_acquire_donate
  split
  · rfl
  · simp only []
    split <;> simp

@[simp] theorem lock_acquire_donate_junk (l : Nat) (K : Kernel) :
    (lock_acquire_donate l K).junk = K.junk := by
  unfold lock_acquire_donate
  split
  · rfl
  · simp only []
    split <;> simp

@[simp] theorem lock_acquire_donate_panicked (l : Nat) (K : Kernel) :
    (lock_acquire_donate l K).panicked = K.panicked := by
  unfold lock_acquire_donate
  split
  · rfl
  · simp only []
    split <;> simp

@[simp] theorem getSema_lock_acquire_donate (l : Nat) (K : Kernel) (s : SemaRef) :
    (lock_acquire_donate l K).getSema s = K.getSema s :=
  getSema_congr _ _ s (lock_acquire_donate_semas l K) (lock_acquire_donate_locks l K)
    (lock_acquire_donate_elems l K)

/-! ## Frame facts: the scheduler changes only the status of a thread -/

@[simp] theorem schedule_thread_priority (K : Kernel) (u : Tid) :
    ((schedule K).threads u).priority = (K.threads u).priority := by
  simp only [schedule, upd]
  split <;> simp_all

@[simp] theorem schedule_thread_init_priority (K : Kernel) (u : Tid) :
    ((schedule K).threads u).init_priority = (K.threads u).init_priority := by
  simp only [schedule, upd]
  split <;> simp_all

@[simp] theorem schedule_thread_wait_on_lock (K : Kernel) (u : Tid) :
    ((schedule K).threads u).wait_on_lock = (K.threads u).wait_on_lock := by
  simp only [schedule, upd]
  split <;> simp_all

@[simp] theorem schedule_thread_donations (K : Kernel) (u : Tid) :
    ((schedule K).threads u).donations = (K.threads u).donations := by
  simp only [schedule, upd]
  split <;> simp_all

@[simp] theorem thread_block_thread_priority (K : Kernel) (u : Tid) :
    ((thread_block K).threads u).priority = (K.threads u).priority := by
  simp only [thread_block, schedule_thread_priority, Kernel.setThread, upd]
  split <;> simp_all

@[simp] theorem thread_block_thread_init_priority (K : Kernel) (u : Tid) :
    ((thread_block K).threads u).init_priority = (K.threads u).init_priority := by
  simp only [thread_block, schedule_thread_init_priority, Kernel.setThread, upd]
  split <;> simp_all

@[simp] theorem thread_block_thread_wait_on_lock (K : Kernel) (u : Tid) :
    ((thread_block K).threads u).wait_on_lock = (K.threads u).wait_on_lock := by
  simp only [thread_block, schedule_thread_wait_on_lock, Kernel.setThread, upd]
  split <;> simp_all

@[simp] theorem thread_block_thread_donations (K : Kernel) (u : Tid) :
    ((thread_block K).threads u).donations = (K.threads u).donations := by
  simp only [thread_block, schedule_thread_donations, Kernel.setThread, upd]
  split <;> simp_all

@[simp] theorem thread_unblock_thread_priority (t : Tid) (K : Kernel) (u : Tid) :
    ((thread_unblock t K).threads u).priority = (K.threads u).priority := by
  simp only [thread_unblock, upd]
  split <;> simp_all

@[simp] theorem thread_unblock_thread_init_priority (t : Tid) (K : Kernel) (u : Tid) :
    ((thread_unblock t K).threads u).init_priority = (K.threads u).init_priority := by
  simp only [thread_unblock, upd]
  split <;> simp_all

@[simp] theorem thread_unblock_thread_wait_on_lock (t : Tid) (K : Kernel) (u : Tid) :
    ((thread_unblock t K).threads u).wait_on_lock = (K.threads u).wait_on_lock := by
  simp only [thread_unblock, upd]
  split <;> simp_all

@[simp] theorem thread_unblock_thread_donations (t : Tid) (K : Kernel) (u : Tid) :
    ((thread_unblock t K).threads u).donations = (K.threads u).donations := by
  simp only [thread_unblock, upd]
  split <;> simp_all

@[simp] theorem thread_yield_thread_priority (K : Kernel) (u : Tid) :
    ((thread_yield K).threads u).priority = (K.threads u).priority := by
  unfold thread_yield
  split
  · simp
  · simp only [schedule_thread_priority, upd]
    split <;> simp_all

@[simp] theorem thread_yield_thread_init_priority (K : Kernel) (u : Tid) :
    ((thread_yield K).threads u).init_priority = (K.threads u).init_priority := by
  unfold thread_yield
  split
  · simp
  · simp only [schedule_thread_init_priority, upd]
    split <;> simp_all

@[simp] theorem thread_yield_thread_wait_on_lock (K : Kernel) (u : Tid) :
    ((thread_yield K).threads u).wait_on_lock = (K.threads u).wait_on_lock := by
  unfold thread_yield
  split
  · simp
  · simp only [schedule_thread_wait_on_lock, upd]
    split <;> simp_all

@[simp] theorem thread_yield_thread_donations (K : Kernel) (u : Tid) :
    ((thread_yield K).threads u).donations = (K.threads u).donations := by
  unfold thread_yield
  split
  · simp
  · simp only [schedule_thread_donations, upd]
    split <;> simp_all

@[simp] theorem test_max_priority_thread_priority (lv : intr_level) (K : Kernel) (u : Tid) :
    ((test_max_priority lv K).threads u).priority = (K.threads u).priority := by
  unfold test_max_priority
  split <;> simp

@[simp] theorem test_max_priority_thread_init_priority (lv : intr_level) (K : Kernel) (u : Tid) :
    ((test_max_priority lv K).threads u).init_priority = (K.threads u).init_priority := by
  unfold test_max_priority
  split <;> simp

@[simp] theorem test_max_priority_thread_wait_on_lock (lv : intr_level) (K : Kernel) (u : Tid) :
    ((test_max_priority lv K).threads u).wait_on_lock = (K.threads u).wait_on_lock := by
  unfold test_max_priority
  split <;> simp

@[simp] theorem test_max_priority_thread_donations (lv : intr_level) (K : Kernel) (u : Tid) :
    ((test_max_priority lv K).threads u).donations = (K.threads u).donations := by
  unfold test_max_priority
  split <;> simp

@[simp] theorem sema_down_loop_thread_priority (s : SemaRef) (lv : intr_level) (K : Kernel) (u : Tid) :
    ((sema_down_loop s lv K).threads u).priority = (K.threads u).priority := by
  unfold sema_down_loop
  split <;> simp

@[simp] theorem sema_down_loop_thread_init_priority (s : SemaRef) (lv : intr_level) (K : Kernel) (u : Tid) :
    ((sema_down_loop s lv K).threads u).init_priority = (K.threads u).init_priority := by
  unfold sema_down_loop
  split <;> simp

@[simp] theorem sema_down_loop_thread_wait_on_lock (s : SemaRef) (lv : intr_level) (K : Kernel) (u : Tid) :
    ((sema_down_loop s lv K).threads u).wait_on_lock = (K.threads u).wait_on_lock := by
  unfold sema_down_loop
  split <;> simp

@[simp] theorem sema_down_loop_thread_donations (s : SemaRef) (lv : intr_level) (K : Kernel) (u : Tid) :
    ((sema_down_loop s lv K).threads u).donations = (K.threads u).donations := by
  unfold sema_down_loop
  split <;> simp

@[simp] theorem sema_down_thread_priority (s : SemaRef) (K : Kernel) (u : Tid) :
    ((sema_down s K).threads u).priority = (K.threads u).priority := by
  unfold sema_down
  split <;> simp

@[simp] theorem sema_down_thread_init_priority (s : SemaRef) (K : Kernel) (u : Tid) :
    ((sema_down s K).threads u).init_priority = (K.threads u).init_priority := by
  unfold sema_down
  split <;> simp

@[simp] theorem sema_down_thread_wait_on_lock (s : SemaRef) (K : Kernel) (u : Tid) :
    ((sema_down s K).threads u).wait_on_lock = (K.threads u).wait_on_lock := by
  unfold sema_down
  split <;> simp

@[simp] theorem sema_down_thread_donations (s : SemaRef) (K : Kernel) (u : Tid) :
    ((sema_down s K).threads u).donations = (K.threads u).donations := by
  unfold sema_down
  split <;> simp

@[simp] theorem sema_up_thread_priority (s : SemaRef) (K : Kernel) (u : Tid) :
    ((sema_up s K).threads u).priority = (K.threads u).priority := by
  unfold sema_up
  simp only [test_max_priority_thread_priority, setSema_threads]
  split <;> simp

@[simp] theorem sema_up_thread_init_priority (s : SemaRef) (K : Kernel) (u : Tid) :
    ((sema_up s K).threads u).init_priority = (K.threads u).init_priority := by
  unfold sema_up
  simp only [test_max_priority_thread_init_priority, setSema_threads]
  split <;> simp

@[simp] theorem sema_up_thread_wait_on_lock (s : SemaRef) (K : Kernel) (u : Tid) :
    ((sema_up s K).threads u).wait_on_lock = (K.threads u).wait_on_lock := by
  unfold sema_up
  simp only [test_max_priority_thread_wait_on_lock, setSema_threads]
  split <;> simp

@[simp] theorem sema_up_thread_donations (s : SemaRef) (K : Kernel) (u : Tid) :
    ((sema_up s K).threads u).donations = (K.threads u).donations := by
  unfold sema_up
  simp only [test_max_priority_thread_donations, setSema_threads]
  split <;> simp

/-! ## The list library: sorting -/

theorem sort_insert_perm {α : Type} (less : α → α → Bool) (x : α) (l : List α) :
    List.Perm (sort_insert less x l) (x :: l) := by
  induction l with
  | nil => simp [sort_insert]
  | cons e l ih =>
    unfold sort_insert
    split
    · exact (List.Perm.cons e ih).trans (List.Perm.swap x e l)
    · exact List.Perm.refl _

theorem list_insert_ordered_perm {α : Type} (less : α → α → Bool) (x : α) (l : List α) :
    List.Perm (list_insert_ordered less x l) (x :: l) := by
  induction l with
  | nil => simp [list_insert_ordered]
  | cons e l ih =>
    unfold list_insert_ordered
    split
    · exact List.Perm.refl _
    · exact (List.Perm.cons e ih).trans (List.Perm.swap x e l)

theorem list_sort_perm {α : Type} (less : α → α → Bool) (l : List α) :
    List.Perm (list_sort less l) l := by
  induction l with
  | nil => simp [list_sort]
  | cons x l ih =>
    unfold list_sort
    exact (sort_insert_perm less x _).trans (List.Perm.cons x ih)

theorem sort_insert_sorted {α : Type} (less : α → α → Bool) (key : α → Int)
    (hless : ∀ a b, less a b = true ↔ key b < key a) (x : α) (l : List α)
    (hl : l.Pairwise fun a b => key b ≤ key a) :
    (sort_insert less x l).Pairwise fun a b => key b ≤ key a := by
  induction l with
  | nil => simp [sort_insert]
  | cons e l ih =>
    rw [List.pairwise_cons] at hl
    unfold sort_insert
    split
    · next h =>
      have hlt : key x < key e := (hless e x).1 h
      rw [List.pairwise_cons]
      refine ⟨?_, ih hl.2⟩
      intro b hb
      have hb1 := (sort_insert_perm less x l).subset hb
      rcases List.mem_cons.1 hb1 with rfl | hb2
      · exact le_of_lt hlt
      · exact hl.1 b hb2
    · next h =>
      have hge : key e ≤ key x := by
        by_contra hc
        exact h ((hless e x).2 (lt_of_not_le hc))
      rw [List.pairwise_cons]
      refine ⟨?_, List.pairwise_cons.2 hl⟩
      intro b hb
      rcases List.mem_cons.1 hb with rfl | hb2
      · exact hge
      · exact le_trans (hl.1 b hb2) hge

theorem list_sort_sorted {α : Type} (less : α → α → Bool) (key : α → Int)
    (hless : ∀ a b, less a b = true ↔ key b < key a) (l : List α) :
    (list_sort less l).Pairwise fun a b => key b ≤ key a := by
  induction l with
  | nil => simp [list_sort]
  | cons x l ih =>
    unfold list_sort
    exact sort_insert_sorted less key hless x _ ih

/-- The first element of the sorted list has the greatest key, and it and the
rest are the elements of the list, each as often as before. -/
theorem list_sort_head {α : Type} (less : α → α → Bool) (key : α → Int)
    (hless : ∀ a b, less a b = true ↔ key b < key a) (l : List α) (w : α) (rest : List α)
    (h : list_sort less l = w :: rest) :
    (∀ e ∈ l, key e ≤ key w) ∧ List.Perm (w :: rest) l := by
  have hp := list_sort_perm less l
  have hs := list_sort_sorted less key hless l
  rw [h] at hp hs
  refine ⟨?_, hp⟩
  intro e he
  have he1 := hp.symm.subset he
  rcases List.mem_cons.1 he1 with rfl | he2
  · exact le_refl _
  · exact (List.pairwise_cons.1 hs).1 e he2

theorem list_sort_eq_nil {α : Type} (less : α → α → Bool) (l : List α)
    (h : list_sort less l = []) : l = [] := by
  have hp := list_sort_perm less l
  rw [h] at hp
  exact (List.Perm.nil_eq hp).symm

theorem cmp_priority_iff (K : Kernel) (a b : Tid) :
    cmp_priority K a b = true ↔ (K.threads b).priority < (K.threads a).priority := by
  simp [cmp_priority]

theorem cmp_sem_priority_iff (K : Kernel) (a b : Tid) :
    cmp_sem_priority K a b = true ↔ front_priority K b < front_priority K a := by
  unfold cmp_sem_priority
  split <;> simp_all

/-! ## The scheduler -/

theorem next_thread_to_run_mem (K : Kernel) :
    next_thread_to_run K ∈ K.ready_list ∨ next_thread_to_run K = K.idle_thread := by
  unfold next_thread_to_run
  split
  · exact Or.inr rfl
  · next t rest h =>
    exact Or.inl ((list_sort_perm _ _).subset (by rw [h]; simp))

theorem schedule_threads_other (K : Kernel) (u : Tid) (h1 : u ∉ K.ready_list)
    (h2 : u ≠ K.idle_thread) : (schedule K).threads u = K.threads u := by
  have hn : u ≠ next_thread_to_run K := by
    rcases next_thread_to_run_mem K with h | h
    · intro e; exact h1 (e ▸ h)
    · intro e; exact h2 (e.trans h)
  simp [schedule, upd, hn]

theorem schedule_status (K : Kernel) (t : Tid)
    (h : (K.threads t).status ≠ thread_status.THREAD_BLOCKED) :
    ((schedule K).threads t).status ≠ thread_status.THREAD_BLOCKED := by
  simp only [schedule, upd]
  split <;> simp_all

theorem schedule_mem (K : Kernel) (t : Tid) (h : t ∈ K.ready_list) :
    t ∈ (schedule K).ready_list ∨ (schedule K).cur = t := by
  by_cases e : t = next_thread_to_run K
  · exact Or.inr e.symm
  · exact Or.inl ((List.mem_erase_of_ne e).2 h)

theorem thread_yield_threads_other (K : Kernel) (u : Tid) (h0 : u ≠ K.cur)
    (h1 : u ∉ K.ready_list) (h2 : u ≠ K.idle_thread) :
    (thread_yield K).threads u = K.threads u := by
  unfold thread_yield
  split
  · exact schedule_threads_other K u h1 h2
  · have key : ∀ K2 : Kernel, K2.ready_list = K.ready_list ++ [K.cur] →
        K2.idle_thread = K.idle_thread → (schedule K2).threads u = K2.threads u := by
      intro K2 e1 e2
      exact schedule_threads_other K2 u (by rw [e1]; simp [h0, h1]) (by rw [e2]; exact h2)
    rw [key]
    · simp [upd, h0]
    · rfl
    · rfl

theorem thread_yield_status (K : Kernel) (t : Tid)
    (h : (K.threads t).status ≠ thread_status.THREAD_BLOCKED) :
    ((thread_yield K).threads t).status ≠ thread_status.THREAD_BLOCKED := by
  unfold thread_yield
  split
  · exact schedule_status K t h
  · apply schedule_status
    simp only [upd]
    split <;> simp_all

theorem thread_yield_mem (K : Kernel) (t : Tid) (h : t ∈ K.ready_list) :
    t ∈ (thread_yield K).ready_list ∨ (thread_yield K).cur = t := by
  unfold thread_yield
  split
  · exact schedule_mem K t h
  · exact schedule_mem _ t (by simp [h])

theorem test_max_priority_threads_other (K : Kernel) (lv : intr_level) (u : Tid)
    (h0 : u ≠ K.cur) (h1 : u ∉ K.ready_list) (h2 : u ≠ K.idle_thread) :
    (test_max_priority lv K).threads u = K.threads u := by
  unfold test_max_priority
  split
  · exact thread_yield_threads_other (K.push _) u h0 h1 h2
  · rfl

theorem test_max_priority_status (K : Kernel) (lv : intr_level) (t : Tid)
    (h : (K.threads t).status ≠ thread_status.THREAD_BLOCKED) :
    ((test_max_priority lv K).threads t).status ≠ thread_status.THREAD_BLOCKED := by
  unfold test_max_priority
  split
  · exact thread_yield_status (K.push _) t h
  · exact h

theorem test_max_priority_mem (K : Kernel) (lv : intr_level) (t : Tid)
    (h : t ∈ K.ready_list) :
    t ∈ (test_max_priority lv K).ready_list ∨ (test_max_priority lv K).cur = t := by
  unfold test_max_priority
  split
  · exact thread_yield_mem (K.push _) t h
  · exact Or.inl h

/-- The parts of `sema_up`: with no waiter, the increment and the preemption
check. -/
theorem sema_up_nil (K : Kernel) (s : SemaRef) (h : (K.getSema s).waiters = []) :
    sema_up s K =
      test_max_priority K.intr
        (Kernel.setSema { K with intr := intr_level.INTR_OFF } s
          { value := uint_inc (K.getSema s).value, waiters := [] }) := by
  unfold sema_up
  have e : Kernel.getSema { K with intr := intr_level.INTR_OFF } s = K.getSema s :=
    getSema_set_intr K _ s
  simp only [e, h, list_sort]

/-- The parts of `sema_up`: with a waiter, the wake-up of the first thread of
the sorted waiter list, the increment and the preemption check. -/
theorem sema_up_cons (K : Kernel) (s : SemaRef) (t : Tid) (rest : List Tid)
    (h : list_sort (cmp_priority K) (K.getSema s).waiters = t :: rest) :
    sema_up s K =
      test_max_priority K.intr
        (Kernel.setSema
          (thread_unblock t
            (Kernel.setSema { K with intr := intr_level.INTR_OFF } s
              { value := (K.getSema s).value, waiters := rest }))
          s { value := uint_inc (K.getSema s).value, waiters := rest }) := by
  unfold sema_up
  have e : Kernel.getSema { K with intr := intr_level.INTR_OFF } s = K.getSema s :=
    getSema_set_intr K _ s
  have e2 : cmp_priority { K with intr := intr_level.INTR_OFF } = cmp_priority K := rfl
  simp only [e, e2, h, getSema_thread_unblock, getSema_setSema_same]

/-! ## Continuations of threads that are not running -/

theorem push_cont_other (K : Kernel) (is : List Instr) (t : Tid) (h : t ≠ K.cur) :
    (K.push is).cont t = K.cont t := by
  simp [Kernel.push, upd, h]

theorem push_cont_cur (K : Kernel) (is : List Instr) :
    (K.push is).cont K.cur = is ++ K.cont K.cur := by
  simp [Kernel.push, upd]

theorem test_max_priority_cont_other (K : Kernel) (lv : intr_level) (t : Tid) (h : t ≠ K.cur) :
    (test_max_priority lv K).cont t = K.cont t := by
  unfold test_max_priority
  split
  · simp [push_cont_other _ _ _ h]
  · rfl

theorem sema_down_loop_cont_other (s : SemaRef) (lv : intr_level) (K : Kernel) (t : Tid)
    (h : t ≠ K.cur) : (sema_down_loop s lv K).cont t = K.cont t := by
  unfold sema_down_loop
  split
  · rw [thread_block_cont, push_cont_other _ _ _ (by simpa using h)]
    simp
  · simp

theorem sema_down_cont_other (s : SemaRef) (K : Kernel) (t : Tid)
    (h : t ≠ K.cur) : (sema_down s K).cont t = K.cont t := by
  unfold sema_down
  split
  · rfl
  · rw [sema_down_loop_cont_other _ _ _ _ (by simpa using h)]

theorem sema_up_cont_other (s : SemaRef) (K : Kernel) (t : Tid)
    (h : t ≠ K.cur) : (sema_up s K).cont t = K.cont t := by
  unfold sema_up
  rw [test_max_priority_cont_other]
  · simp only [setSema_cont]
    split <;> simp
  · simp only [setSema_cur]
    split <;> simpa using h

theorem lock_acquire_cont_other (l : Nat) (K : Kernel) (t : Tid)
    (h : t ≠ K.cur) : (lock_acquire l K).cont t = K.cont t := by
  unfold lock_acquire
  split
  · simp only []
    split
    · simp
    · split
      · simp
      · rw [sema_down_cont_other _ _ _ (by simpa using h),
          push_cont_other _ _ _ (by simpa using h)]
        simp
  · rw [sema_down_cont_other _ _ _ (by simpa using h), push_cont_other _ _ _ (by simpa using h)]

theorem lock_try_acquire_cont (l : Nat) (K : Kernel) :
    (lock_try_acquire l K).cont = K.cont := by
  unfold lock_try_acquire
  split
  · rfl
  · simp only []
    split <;> simp

theorem lock_release_cont_other (l : Nat) (K : Kernel) (t : Tid)
    (h : t ≠ K.cur) : (lock_release l K).cont t = K.cont t := by
  unfold lock_release
  split
  · split
    · rfl
    · rw [sema_up_cont_other _ _ _ (by simpa using h)]
      simp
  · rw [sema_up_cont_other _ _ _ (by simpa using h), push_cont_other _ _ _ (by simpa using h)]

theorem cond_wait_cont_other (c l : Nat) (K : Kernel) (t : Tid)
    (h : t ≠ K.cur) : (cond_wait c l K).cont t = K.cont t := by
  unfold cond_wait
  split
  · rfl
  · split
    · rfl
    · simp only []
      rw [lock_release_cont_other _ _ _ (by simpa using h),
        push_cont_other _ _ _ (by simpa using h)]
      simp

theorem cond_signal_cont_other (c l : Nat) (K : Kernel) (t : Tid)
    (h : t ≠ K.cur) : (cond_signal c l K).cont t = K.cont t := by
  unfold cond_signal
  split
  · rfl
  · split
    · rfl
    · split
      · rfl
      · rw [sema_up_cont_other _ _ _ (by simpa using h)]

theorem cond_broadcast_cont_other (c l : Nat) (K : Kernel) (t : Tid)
    (h : t ≠ K.cur) : (cond_broadcast c l K).cont t = K.cont t := by
  unfold cond_broadcast
  split
  · rfl
  · rw [cond_signal_cont_other _ _ _ _ (by simpa using h),
      push_cont_other _ _ _ (by simpa using h)]

/-- An instruction changes the pending instructions of no thread but the one
that executes it. -/
theorem exec_cont_other (i : Instr) (K : Kernel) (t : Tid) (h : t ≠ K.cur) :
    (exec i K).cont t = K.cont t := by
  cases i
  case sema_init s v => simp [exec]
  case sema_down s => exact sema_down_cont_other s K t h
  case sema_try_down s => simp [exec]
  case sema_up s => exact sema_up_cont_other s K t h
  case lock_init l => simp [exec, lock_init]
  case lock_acquire l => exact lock_acquire_cont_other l K t h
  case lock_try_acquire l => simp only [exec]; rw [lock_try_acquire_cont]
  case lock_release l => exact lock_release_cont_other l K t h
  case lock_held_by_current_thread l => simp [exec]
  case cond_init c => rfl
  case cond_wait c l => exact cond_wait_cont_other c l K t h
  case cond_signal c l => exact cond_signal_cont_other c l K t h
  case cond_broadcast c l => exact cond_broadcast_cont_other c l K t h
  case sema_down_loop s lv => exact sema_down_loop_cont_other s lv K t h
  case intr_set_level lv => rfl
  case lock_acquire_ret l => simp [exec, lock_acquire_ret]
  case lock_acquire_mlfqs_ret l lv => simp [exec, lock_acquire_mlfqs_ret]
  case lock_release_mlfqs_ret l lv => simp [exec, lock_release_mlfqs_ret]

/-! ## Who can become the holder of a lock -/

theorem holder_setHolder (K : Kernel) (l m : Nat) (h : Option Tid) :
    ((K.setHolder m h).locks l).holder = if l = m then h else (K.locks l).holder := by
  simp only [Kernel.setHolder, upd]
  split <;> rfl

theorem lock_acquire_holder (m : Nat) (K : Kernel) (l : Nat) :
    ((lock_acquire m K).locks l).holder = (K.locks l).holder := by
  unfold lock_acquire
  split
  · simp only []
    split
    · simp
    · split <;> simp
  · simp

/-- After an instruction the holder of a lock is who it was, or nobody, or the
thread that executed the instruction. -/
theorem exec_holder (i : Instr) (K : Kernel) (l : Nat) :
    ((exec i K).locks l).holder = (K.locks l).holder ∨
      ((exec i K).locks l).holder = none ∨ ((exec i K).locks l).holder = some K.cur := by
  have hrel : ∀ (m : Nat) (K1 : Kernel), K1.cur = K.cur → K1.locks = K.locks →
      ((lock_release m K1).locks l).holder = (K.locks l).holder ∨
        ((lock_release m K1).locks l).holder = none ∨
          ((lock_release m K1).locks l).holder = some K.cur := by
    intro m K1 _ e2
    unfold lock_release
    split
    · split
      · simp [e2]
      · simp only [sema_up_holder, holder_setHolder]
        split
        · exact Or.inr (Or.inl rfl)
        · simp [e2]
    · simp [e2]
  have hsig : ∀ (c m : Nat) (K1 : Kernel), K1.locks = K.locks →
      ((cond_signal c m K1).locks l).holder = (K.locks l).holder := by
    intro c m K1 e2
    unfold cond_signal
    split
    · simp [e2]
    · split
      · simp [e2]
      · split
        · simp [e2]
        · simp [e2]
  cases i
  case sema_init s v => simp [exec]
  case sema_down s => simp [exec]
  case sema_try_down s => simp [exec]
  case sema_up s => simp [exec]
  case lock_init m =>
    simp only [exec, lock_init, sema_init_holder, holder_setHolder]
    by_cases e : l = m <;> simp [e]
  case lock_acquire m => exact Or.inl (lock_acquire_holder m K l)
  case lock_try_acquire m =>
    simp only [exec]
    unfold lock_try_acquire
    split
    · simp
    · simp only []
      split
      · simp only [holder_setHolder, sema_try_down_cur, sema_try_down_holder]
        by_cases e : l = m <;> simp [e]
      · simp
  case lock_release m =>
    exact hrel m K rfl rfl
  case lock_held_by_current_thread m => simp [exec]
  case cond_init c => exact Or.inl rfl
  case cond_wait c m =>
    simp only [exec]
    unfold cond_wait
    split
    · simp
    · split
      · simp
      · simp only []
        exact hrel m _ (by simp) (by simp [sema_init, Kernel.push, Kernel.setSema])
  case cond_signal c m => exact Or.inl (hsig c m K rfl)
  case cond_broadcast c m =>
    simp only [exec]
    unfold cond_broadcast
    split
    · exact Or.inl rfl
    · exact Or.inl (hsig c m _ (by simp))
  case sema_down_loop s lv => simp [exec]
  case intr_set_level lv => exact Or.inl rfl
  case lock_acquire_ret m =>
    simp only [exec, lock_acquire_ret, setThread_locks, holder_setHolder]
    by_cases e : l = m <;> simp [e]
  case lock_acquire_mlfqs_ret m lv =>
    simp only [exec, lock_acquire_mlfqs_ret, holder_setHolder]
    by_cases e : l = m <;> simp [e]
  case lock_release_mlfqs_ret m lv =>
    simp only [exec, lock_release_mlfqs_ret, holder_setHolder]
    by_cases e : l = m <;> simp [e]

/-! ## A thread that has released a lock -/

theorem sema_up_cont_cur (s : SemaRef) (K : Kernel) :
    (sema_up s K).cont K.cur = K.cont K.cur ∨
      (sema_up s K).cont K.cur = Instr.intr_set_level K.intr :: K.cont K.cur := by
  have key : ∀ K2 : Kernel, K2.cur = K.cur → K2.cont = K.cont →
      (test_max_priority K.intr K2).cont K.cur = K.cont K.cur ∨
        (test_max_priority K.intr K2).cont K.cur = Instr.intr_set_level K.intr :: K.cont K.cur := by
    intro K2 e1 e2
    unfold test_max_priority
    split
    · right
      rw [thread_yield_cont, ← e1, push_cont_cur, e2]
      rfl
    · left
      rw [e2]
  unfold sema_up
  apply key
  · simp only [setSema_cur]
    split <;> simp
  · simp only [setSema_cont]
    split <;> simp

/-- The state of a thread `T` between its call of `lock_release` on lock `l`
and its next call: restores of the interrupt level are pending, followed
either by nothing, and then `T` is not the holder, or by the last statements
of the second path of `lock_release`. -/
theorem released_act (T : Tid) (l : Nat) (K : Kernel) (a : Action)
    (hJ : ∃ pre tail, K.cont T = pre ++ tail ∧ (∀ i ∈ pre, ∃ lv, i = Instr.intr_set_level lv) ∧
      ((tail = [] ∧ (K.locks l).holder ≠ some T) ∨
        ∃ lv, tail = [Instr.lock_release_mlfqs_ret l lv]))
    (hc : (a.is_call && decide (K.cur = T)) = false) :
    ∃ pre tail, (K.act a).cont T = pre ++ tail ∧
      (∀ i ∈ pre, ∃ lv, i = Instr.intr_set_level lv) ∧
      ((tail = [] ∧ ((K.act a).locks l).holder ≠ some T) ∨
        ∃ lv, tail = [Instr.lock_release_mlfqs_ret l lv]) := by
  obtain ⟨pre, tail, hcont, hpre, htail⟩ := hJ
  -- an instruction executed by another thread
  have other : ∀ (i : Instr) (K0 : Kernel), K0.cur ≠ T → K0.cont T = K.cont T →
      K0.locks = K.locks →
      ∃ pre tail, (exec i K0).cont T = pre ++ tail ∧
        (∀ i ∈ pre, ∃ lv, i = Instr.intr_set_level lv) ∧
        ((tail = [] ∧ ((exec i K0).locks l).holder ≠ some T) ∨
          ∃ lv, tail = [Instr.lock_release_mlfqs_ret l lv]) := by
    intro i K0 hcur e1 e2
    refine ⟨pre, tail, ?_, hpre, ?_⟩
    · rw [exec_cont_other i K0 T (Ne.symm hcur), e1, hcont]
    · rcases htail with ⟨h1, h2⟩ | h
      · left
        refine ⟨h1, ?_⟩
        rcases exec_holder i K0 l with h | h | h
        · rw [h, e2]; exact h2
        · rw [h]; simp
        · rw [h]; intro e; exact hcur (Option.some.inj e)
      · exact Or.inr h
  cases a
  case call i =>
    simp only [Kernel.act]
    split
    · exact ⟨pre, tail, hcont, hpre, htail⟩
    · have hcur : K.cur ≠ T := by simpa [Action.is_call] using hc
      exact other i K hcur rfl rfl
  case step =>
    simp only [Kernel.act, step]
    split
    · exact ⟨pre, tail, hcont, hpre, htail⟩
    · split
      · exact ⟨pre, tail, hcont, hpre, htail⟩
      · next i rest hi =>
        by_cases hcur : K.cur = T
        · rw [hcur, hcont] at hi
          cases pre with
          | nil =>
            simp only [List.nil_append] at hi
            rcases htail with ⟨h1, _⟩ | ⟨lv, h⟩
            · rw [h1] at hi; exact absurd hi (by simp)
            · rw [h] at hi
              obtain ⟨rfl, rfl⟩ := List.cons.inj hi
              refine ⟨[], [], ?_, by simp, Or.inl ⟨rfl, ?_⟩⟩
              · simp [exec, lock_release_mlfqs_ret, upd, hcur]
              · simp [exec, lock_release_mlfqs_ret, holder_setHolder]
          | cons j pre1 =>
            simp only [List.cons_append] at hi
            obtain ⟨rfl, rfl⟩ := List.cons.inj hi
            obtain ⟨lv, rfl⟩ := hpre j (by simp)
            refine ⟨pre1, tail, ?_, fun i hi => hpre i (by simp [hi]), ?_⟩
            · simp [exec, upd, hcur]
            · simpa [exec] using htail
        · exact other i _ hcur (by simp [upd, Ne.symm hcur]) rfl
  case timer =>
    simp only [Kernel.act]
    split
    · exact ⟨pre, tail, hcont, hpre, htail⟩
    · by_cases hcur : K.cur = T
      · refine ⟨Instr.intr_set_level intr_level.INTR_ON :: pre, tail, ?_, ?_, ?_⟩
        · rw [thread_yield_cont, ← hcur, push_cont_cur, hcur, hcont]
          rfl
        · intro i hi
          rcases List.mem_cons.1 hi with rfl | hi
          · exact ⟨_, rfl⟩
          · exact hpre i hi
        · simpa using htail
      · refine ⟨pre, tail, ?_, hpre, ?_⟩
        · rw [thread_yield_cont, push_cont_other _ _ _ (Ne.symm hcur), hcont]
        · simpa using htail

theorem released_run (T : Tid) (l : Nat) (as : List Action) :
    ∀ K : Kernel,
      (∃ pre tail, K.cont T = pre ++ tail ∧ (∀ i ∈ pre, ∃ lv, i = Instr.intr_set_level lv) ∧
        ((tail = [] ∧ (K.locks l).holder ≠ some T) ∨
          ∃ lv, tail = [Instr.lock_release_mlfqs_ret l lv])) →
      no_call_by T K as = true →
      (K.run as).cont T = [] → ((K.run as).locks l).holder ≠ some T := by
  induction as with
  | nil =>
    intro K hJ _ hc
    obtain ⟨pre, tail, hcont, _, htail⟩ := hJ
    simp only [Kernel.run, List.foldl_nil] at hc ⊢
    rw [hc] at hcont
    have ht : tail = [] := (List.append_eq_nil.1 hcont.symm).2
    rcases htail with ⟨_, h2⟩ | ⟨lv, h⟩
    · exact h2
    · rw [h] at ht; exact absurd ht (by simp)
  | cons a as ih =>
    intro K hJ hn hc
    simp only [no_call_by, Bool.and_eq_true, Bool.not_eq_true'] at hn
    exact ih (K.act a) (released_act T l K a hJ hn.1) hn.2 (by simpa [Kernel.run] using hc)

/-- What `lock_release` leaves pending for its caller. -/
theorem lock_release_released (l : Nat) (K : Kernel) (hc : K.cont K.cur = []) :
    ∃ pre tail, (lock_release l K).cont K.cur = pre ++ tail ∧
      (∀ i ∈ pre, ∃ lv, i = Instr.intr_set_level lv) ∧
      ((tail = [] ∧ ((lock_release l K).locks l).holder ≠ some K.cur) ∨
        ∃ lv, tail = [Instr.lock_release_mlfqs_ret l lv]) := by
  unfold lock_release
  split
  · split
    · next h1 h2 =>
      refine ⟨[], [], by simp [hc], by simp, Or.inl ⟨rfl, ?_⟩⟩
      simpa [lock_held_by_current_thread] using h2
    · have hup := sema_up_cont_cur (.lock l)
        ((refresh_priority (remove_with_lock l K)).setHolder l none)
      simp only [setHolder_cur, refresh_priority_cur, remove_with_lock_cur, setHolder_cont,
        refresh_priority_cont, remove_with_lock_cont, hc] at hup
      have hh : ((sema_up (.lock l)
          ((refresh_priority (remove_with_lock l K)).setHolder l none)).locks l).holder ≠
          some K.cur := by
        simp [holder_setHolder]
      rcases hup with h | h
      · exact ⟨[], [], h, by simp, Or.inl ⟨rfl, hh⟩⟩
      · exact ⟨[_], [], h, fun i hi => ⟨_, List.mem_singleton.1 hi⟩, Or.inl ⟨rfl, hh⟩⟩
  · have hup := sema_up_cont_cur (.lock l)
      ({ K with intr := intr_level.INTR_OFF }.push [Instr.lock_release_mlfqs_ret l K.intr])
    have e : ({ K with intr := intr_level.INTR_OFF }.push
        [Instr.lock_release_mlfqs_ret l K.intr]).cont K.cur =
        [Instr.lock_release_mlfqs_ret l K.intr] := by
      simp [Kernel.push, upd, hc]
    simp only [push_cur] at hup
    rw [e] at hup
    rcases hup with h | h
    · exact ⟨[], [_], h, by simp, Or.inr ⟨_, rfl⟩⟩
    · exact ⟨[_], [_], h, fun i hi => ⟨_, List.mem_singleton.1 hi⟩, Or.inr ⟨_, rfl⟩⟩

/-! ## The two paths of the lock functions -/

theorem lock_acquire_mlfqs (l : Nat) (K : Kernel) (hm : K.thread_mlfqs = true) :
    lock_acquire l K =
      sema_down (.lock l)
        ({ K with intr := intr_level.INTR_OFF }.push
          [Instr.lock_acquire_mlfqs_ret l K.intr]) := by
  unfold lock_acquire
  rw [if_neg (by simp [hm])]

theorem lock_acquire_donation (l : Nat) (K : Kernel) (hm : K.thread_mlfqs = false) :
    lock_acquire l K =
      if (lock_acquire_donate l K).in_intr then (lock_acquire_donate l K).PANIC
      else if lock_held_by_current_thread l (lock_acquire_donate l K) then
        (lock_acquire_donate l K).PANIC
      else sema_down (.lock l) ((lock_acquire_donate l K).push [Instr.lock_acquire_ret l]) := by
  unfold lock_acquire
  rw [if_pos (by simp [hm])]

theorem lock_release_mlfqs (l : Nat) (K : Kernel) (hm : K.thread_mlfqs = true) :
    lock_release l K =
      sema_up (.lock l)
        ({ K with intr := intr_level.INTR_OFF }.push
          [Instr.lock_release_mlfqs_ret l K.intr]) := by
  unfold lock_release
  rw [if_neg (by simp [hm])]

theorem lock_release_donation (l : Nat) (K : Kernel) (hm : K.thread_mlfqs = false) :
    lock_release l K =
      if !lock_held_by_current_thread l K then K.PANIC
      else sema_up (.lock l) ((refresh_priority (remove_with_lock l K)).setHolder l none) := by
  unfold lock_release
  rw [if_pos (by simp [hm])]

/-! ## Priority donation -/

theorem foldl_max_ge (l : List Int) :
    ∀ b : Int, b ≤ l.foldl max b ∧ ∀ x ∈ l, x ≤ l.foldl max b := by
  induction l with
  | nil => intro b; simp
  | cons a l ih =>
    intro b
    obtain ⟨h1, h2⟩ := ih (max b a)
    simp only [List.foldl_cons]
    refine ⟨le_trans (le_max_left b a) h1, ?_⟩
    intro x hx
    rcases List.mem_cons.1 hx with rfl | hx
    · exact le_trans (le_max_right b x) h1
    · exact h2 x hx

theorem refresh_priority_of_other (t u : Tid) (K : Kernel) (h : u ≠ t) :
    (refresh_priority_of t K).threads u = K.threads u := by
  simp [refresh_priority_of, Kernel.setThread, upd, h]

@[simp] theorem refresh_priority_of_wait_on_lock (t u : Tid) (K : Kernel) :
    ((refresh_priority_of t K).threads u).wait_on_lock = (K.threads u).wait_on_lock := by
  simp only [refresh_priority_of, Kernel.setThread, upd]
  split <;> simp_all

@[simp] theorem refresh_priority_of_donations (t u : Tid) (K : Kernel) :
    ((refresh_priority_of t K).threads u).donations = (K.threads u).donations := by
  simp only [refresh_priority_of, Kernel.setThread, upd]
  split <;> simp_all

@[simp] theorem refresh_priority_of_init_priority (t u : Tid) (K : Kernel) :
    ((refresh_priority_of t K).threads u).init_priority = (K.threads u).init_priority := by
  simp only [refresh_priority_of, Kernel.setThread, upd]
  split <;> simp_all

@[simp] theorem refresh_priority_of_status (t u : Tid) (K : Kernel) :
    ((refresh_priority_of t K).threads u).status = (K.threads u).status := by
  simp only [refresh_priority_of, Kernel.setThread, upd]
  split <;> simp_all

theorem refresh_priority_of_priority (t : Tid) (K : Kernel) :
    ((refresh_priority_of t K).threads t).priority =
      ((K.threads t).donations.map fun d => (K.threads d).priority).foldl max
        (K.threads t).init_priority := by
  simp [refresh_priority_of, Kernel.setThread, upd]

/-- A refreshed priority is at least the priority of every donor. -/
theorem refresh_priority_of_ge (t d : Tid) (K : Kernel) (hd : d ∈ (K.threads t).donations)
    (hne : d ≠ t) :
    ((refresh_priority_of t K).threads d).priority ≤
      ((refresh_priority_of t K).threads t).priority := by
  rw [refresh_priority_of_other t d K hne, refresh_priority_of_priority]
  exact (foldl_max_ge _ _).2 _ (List.mem_map.2 ⟨d, hd, rfl⟩)

@[simp] theorem donate_walk_wait_on_lock (n : Nat) :
    ∀ (t : Tid) (K : Kernel) (u : Tid),
      ((donate_walk n t K).threads u).wait_on_lock = (K.threads u).wait_on_lock := by
  induction n with
  | zero => intro t K u; rfl
  | succ n ih =>
    intro t K u
    unfold donate_walk
    split
    · rfl
    · split
      · rfl
      · rw [ih]; simp

@[simp] theorem donate_walk_donations (n : Nat) :
    ∀ (t : Tid) (K : Kernel) (u : Tid),
      ((donate_walk n t K).threads u).donations = (K.threads u).donations := by
  induction n with
  | zero => intro t K u; rfl
  | succ n ih =>
    intro t K u
    unfold donate_walk
    split
    · rfl
    · split
      · rfl
      · rw [ih]; simp

@[simp] theorem donate_walk_init_priority (n : Nat) :
    ∀ (t : Tid) (K : Kernel) (u : Tid),
      ((donate_walk n t K).threads u).init_priority = (K.threads u).init_priority := by
  induction n with
  | zero => intro t K u; rfl
  | succ n ih =>
    intro t K u
    unfold donate_walk
    split
    · rfl
    · split
      · rfl
      · rw [ih]; simp

@[simp] theorem donate_walk_status (n : Nat) :
    ∀ (t : Tid) (K : Kernel) (u : Tid),
      ((donate_walk n t K).threads u).status = (K.threads u).status := by
  induction n with
  | zero => intro t K u; rfl
  | succ n ih =>
    intro t K u
    unfold donate_walk
    split
    · rfl
    · split
      · rfl
      · rw [ih]; simp

/-- The walk of `donate_priority` restores the order between a donor `C` that
waits on lock `l` and the holder `H` of that lock: if the holder is at least
at the priority of the donor before the walk, or the walk starts at the donor,
and the walk comes to its end, then the holder is at least at the priority of
the donor after it. -/
theorem donate_walk_keeps_donation (C H : Tid) (l : Nat) (hCH : C ≠ H) (n : Nat) :
    ∀ (t : Tid) (K : Kernel),
      (K.locks l).holder = some H → C ∈ (K.threads H).donations →
      (K.threads C).wait_on_lock = some l →
      ((K.threads C).priority ≤ (K.threads H).priority ∨ t = C) →
      walk_ends n t K = true →
      ((donate_walk n t K).threads C).priority ≤ ((donate_walk n t K).threads H).priority := by
  induction n with
  | zero =>
    intro t K hh hd hw hor hend
    simp only [donate_walk]
    rcases hor with h | rfl
    · exact h
    · unfold walk_ends at hend
      simp [hw, hh] at hend
  | succ n ih =>
    intro t K hh hd hw hor hend
    unfold donate_walk
    unfold walk_ends at hend
    split
    · next hwt =>
      rcases hor with h | rfl
      · exact h
      · rw [hw] at hwt; exact absurd hwt (by simp)
    · next m hwt =>
      split
      · next hhm =>
        rcases hor with h | rfl
        · exact h
        · rw [hw] at hwt
          obtain rfl := Option.some.inj hwt
          rw [hh] at hhm; exact absurd hhm (by simp)
      · next h hhm =>
        simp only [hwt, hhm] at hend
        apply ih h (refresh_priority_of h K)
        · simpa using hh
        · simpa using hd
        · simpa using hw
        · rcases hor with hle | rfl
          · by_cases e1 : h = C
            · exact Or.inr e1
            · left
              by_cases e2 : h = H
              · subst e2
                exact refresh_priority_of_ge h C K hd hCH
              · rw [refresh_priority_of_other h C K (Ne.symm e1),
                  refresh_priority_of_other h H K (Ne.symm e2)]
                exact hle
          · left
            rw [hw] at hwt
            obtain rfl := Option.some.inj hwt
            rw [hh] at hhm
            obtain rfl := Option.some.inj hhm
            exact refresh_priority_of_ge _ t K hd hCH
        · have e : ∀ (k : Nat) (t : Tid), walk_ends k t (refresh_priority_of h K) =
              walk_ends k t K := by
            intro k
            induction k with
            | zero => intro t; unfold walk_ends; simp
            | succ k ihk =>
              intro t
              unfold walk_ends
              simp only [refresh_priority_of_wait_on_lock, refresh_priority_of_locks, ihk]
          rw [e]; exact hend

/-! ## Dispatch of a woken thread -/

theorem next_thread_to_run_eq (K : Kernel) (W : Tid) (hmem : W ∈ K.ready_list)
    (hmax : ∀ r ∈ K.ready_list, r ≠ W → (K.threads r).priority < (K.threads W).priority) :
    next_thread_to_run K = W := by
  unfold next_thread_to_run
  cases hsort : list_sort (cmp_priority K) K.ready_list with
  | nil =>
    have := list_sort_eq_nil _ _ hsort
    rw [this] at hmem
    exact absurd hmem (by simp)
  | cons t rest =>
    obtain ⟨h1, h2⟩ :=
      list_sort_head (cmp_priority K) (fun u => (K.threads u).priority) (cmp_priority_iff K) _ t
        rest hsort
    show t = W
    by_contra hne
    have ht : t ∈ K.ready_list := h2.subset (by simp)
    have := hmax t ht hne
    have := h1 W hmem
    omega

/-- If the waiter that `sema_up` wakes outranks the running thread and every
ready thread, the preemption check dispatches it. -/
theorem sema_up_dispatch (K : Kernel) (s : SemaRef) (W : Tid) (rest : List Tid)
    (hsort : list_sort (cmp_priority K) (K.getSema s).waiters = W :: rest)
    (hout : ∀ r, r ∈ K.ready_list ∨ r = K.cur → r ≠ W →
      (K.threads r).priority < (K.threads W).priority)
    (hW : K.cur ≠ W) : (sema_up s K).cur = W := by
  rw [sema_up_cons K s W rest hsort]
  have key : ∀ K2 : Kernel, K2.cur = K.cur → K2.idle_thread = K.idle_thread →
      K2.ready_list = K.ready_list ++ [W] →
      (∀ u, (K2.threads u).priority = (K.threads u).priority) →
      (test_max_priority K.intr K2).cur = W := by
    intro K2 e1 e2 e3 e4
    have hout2 : outranked K2 = true := by
      unfold outranked
      rw [List.any_eq_true]
      refine ⟨W, by simp [e3], ?_⟩
      simp only [decide_eq_true_eq, e4, e1]
      exact hout K.cur (Or.inr rfl) hW
    unfold test_max_priority
    rw [if_pos hout2]
    unfold thread_yield
    split
    · show next_thread_to_run _ = W
      apply next_thread_to_run_eq
      · simp [e3]
      · intro r hr hne
        simp only [push_threads, e4]
        simp only [push_ready_list, e3, List.mem_append, List.mem_singleton] at hr
        rcases hr with hr | hr
        · exact hout r (Or.inl hr) hne
        · exact absurd hr hne
    · show next_thread_to_run _ = W
      apply next_thread_to_run_eq
      · simp [e3]
      · intro r hr hne
        have hp : ∀ u, ((upd (K2.push [Instr.intr_set_level K.intr]).threads
            (K2.push [Instr.intr_set_level K.intr]).cur
            { (K2.push [Instr.intr_set_level K.intr]).threads
                (K2.push [Instr.intr_set_level K.intr]).cur with
              status := thread_status.THREAD_READY }) u).priority = (K.threads u).priority := by
          intro u
          simp only [upd]
          split
          · next h => simp [e4, h]
          · simp [e4]
        simp only [hp]
        simp only [push_ready_list, push_cur, e3, e1, List.mem_append, List.mem_singleton] at hr
        rcases hr with (hr | hr) | hr
        · exact hout r (Or.inl hr) hne
        · exact absurd hr hne
        · exact hout r (Or.inr hr) hne
  apply key
  · simp
  · simp
  · cases s <;> simp [Kernel.setSema, thread_unblock]
  · intro u
    simp

/-- A thread suspended in `lock_acquire` that is resumed with the counter of
the lock positive completes the call in two steps and is the holder. -/
theorem lock_acquire_resume (K : Kernel) (l : Nat) (lv : intr_level) (r : Instr)
    (rest : List Instr) (hp : K.panicked = false) (hv : (K.locks l).semaphore.value ≠ 0)
    (hc : K.cont K.cur = Instr.sema_down_loop (.lock l) lv :: r :: rest)
    (hr : r = Instr.lock_acquire_ret l ∨ ∃ lv2, r = Instr.lock_acquire_mlfqs_ret l lv2) :
    (step (step K)).cont K.cur = rest ∧ (step (step K)).cur = K.cur ∧
      ((step (step K)).locks l).holder = some K.cur := by
  rcases hr with rfl | ⟨lv2, rfl⟩ <;>
    simp [step, hp, hc, exec, sema_down_loop, Kernel.getSema, hv, Kernel.setSema, upd,
      lock_acquire_ret, lock_acquire_mlfqs_ret, Kernel.setHolder, Kernel.setThread]

/-! ## A donation lasts until the holder releases the lock -/

theorem walk_ends_congr (n : Nat) :
    ∀ (t : Tid) (K K1 : Kernel),
      (∀ u, (K1.threads u).wait_on_lock = (K.threads u).wait_on_lock) →
      (∀ m, (K1.locks m).holder = (K.locks m).holder) →
      walk_ends n t K1 = walk_ends n t K := by
  induction n with
  | zero =>
    intro t K K1 h1 h2
    unfold walk_ends
    simp only [h1, h2]
  | succ n ih =>
    intro t K K1 h1 h2
    unfold walk_ends
    simp only [h1, h2, ih _ K K1 h1 h2]

/-- The donation carries over to a state that agrees on what it depends on. -/
theorem donating_of_frame (C H : Tid) (l : Nat) (K K1 : Kernel) (hD : Donating C H l K)
    (h1 : K1.thread_mlfqs = K.thread_mlfqs)
    (h2 : (K1.locks l).holder = (K.locks l).holder)
    (h3 : (K1.getSema (.lock l)).value = 0)
    (h4 : C ∈ (K1.threads H).donations)
    (h5 : (K1.threads C).wait_on_lock = (K.threads C).wait_on_lock)
    (h6 : (K1.threads C).priority ≤ (K1.threads H).priority)
    (h7 : ∃ pre lv rest,
      K1.cont C = pre ++ Instr.sema_down_loop (.lock l) lv :: Instr.lock_acquire_ret l :: rest ∧
        ∀ i ∈ pre, ∃ lv1, i = Instr.intr_set_level lv1) : Donating C H l K1 where
  policy := h1.trans hD.policy
  holder := h2.trans hD.holder
  donor := h4
  waits := h5.trans hD.waits
  order := h6
  distinct := hD.distinct
  taken := h3
  suspended := h7

/-- The donation is not affected by an instruction of another thread that
leaves the thread records and the lock alone. -/
theorem donating_of_same (C H : Tid) (l : Nat) (K K1 : Kernel) (hD : Donating C H l K)
    (h1 : K1.thread_mlfqs = K.thread_mlfqs)
    (h2 : (K1.locks l).holder = (K.locks l).holder)
    (h3 : (K1.getSema (.lock l)).value = 0)
    (hd : ∀ u, (K1.threads u).donations = (K.threads u).donations)
    (hw : ∀ u, (K1.threads u).wait_on_lock = (K.threads u).wait_on_lock)
    (hp : ∀ u, (K1.threads u).priority = (K.threads u).priority)
    (h7 : K1.cont C = K.cont C) : Donating C H l K1 :=
  donating_of_frame C H l K K1 hD h1 h2 h3 (by rw [hd]; exact hD.donor) (hw C)
    (by rw [hp, hp]; exact hD.order) (by rw [h7]; exact hD.suspended)

theorem donating_taken (C H : Tid) (l : Nat) (K : Kernel) (hD : Donating C H l K) :
    (K.getSema (.lock l)).value = 0 := hD.taken

theorem setThread_priority_same (K : Kernel) (t : Tid) (th : thread)
    (h : th.priority = (K.threads t).priority) (u : Tid) :
    ((K.setThread t th).threads u).priority = (K.threads u).priority := by
  simp only [Kernel.setThread, upd]
  split <;> simp_all

theorem setThread_wait_on_lock_same (K : Kernel) (t : Tid) (th : thread)
    (h : th.wait_on_lock = (K.threads t).wait_on_lock) (u : Tid) :
    ((K.setThread t th).threads u).wait_on_lock = (K.threads u).wait_on_lock := by
  simp only [Kernel.setThread, upd]
  split <;> simp_all

theorem setThread_donations_same (K : Kernel) (t : Tid) (th : thread)
    (h : th.donations = (K.threads t).donations) (u : Tid) :
    ((K.setThread t th).threads u).donations = (K.threads u).donations := by
  simp only [Kernel.setThread, upd]
  split <;> simp_all

theorem setThread_donations_sub (K : Kernel) (t : Tid) (th : thread)
    (h : (K.threads t).donations ⊆ th.donations) (u : Tid) :
    (K.threads u).donations ⊆ ((K.setThread t th).threads u).donations := by
  simp only [Kernel.setThread, upd]
  split
  · next e => subst e; exact h
  · exact fun _ h => h

theorem setThread_threads_other (K : Kernel) (t : Tid) (th : thread) (u : Tid) (h : u ≠ t) :
    (K.setThread t th).threads u = K.threads u := by
  simp [Kernel.setThread, upd, h]

/-- The walk of `donate_priority`, started by another thread in a state that
agrees with one in which the donation holds, keeps the donation. -/
theorem donate_walk_keeps (C H : Tid) (l : Nat) (K Kd : Kernel) (hD : Donating C H l K)
    (n : Nat) (t : Tid) (hlocks : Kd.locks = K.locks)
    (hpr : ∀ u, (Kd.threads u).priority = (K.threads u).priority)
    (hw : (Kd.threads C).wait_on_lock = (K.threads C).wait_on_lock)
    (hdn : (K.threads H).donations ⊆ (Kd.threads H).donations)
    (hend : walk_ends n t Kd = true) :
    (K.threads H).donations ⊆ ((donate_walk n t Kd).threads H).donations ∧
      ((donate_walk n t Kd).threads C).wait_on_lock = (K.threads C).wait_on_lock ∧
      ((donate_walk n t Kd).threads C).priority ≤ ((donate_walk n t Kd).threads H).priority := by
  refine ⟨by simpa using hdn, by simpa using hw, ?_⟩
  apply donate_walk_keeps_donation C H l hD.distinct
  · rw [hlocks]; exact hD.holder
  · exact hdn hD.donor
  · rw [hw]; exact hD.waits
  · left; rw [hpr, hpr]; exact hD.order
  · exact hend

/-- The donation block of `lock_acquire`, executed by another thread, keeps
the donation. -/
theorem lock_acquire_donate_keeps (C H : Tid) (l m : Nat) (K : Kernel)
    (hD : Donating C H l K) (hcur : K.cur ≠ C)
    (hend : walk_ends K.nthreads K.cur
      (K.setThread K.cur { K.threads K.cur with wait_on_lock := some m }) = true) :
    (K.threads H).donations ⊆ ((lock_acquire_donate m K).threads H).donations ∧
      ((lock_acquire_donate m K).threads C).wait_on_lock = (K.threads C).wait_on_lock ∧
      ((lock_acquire_donate m K).threads C).priority ≤
        ((lock_acquire_donate m K).threads H).priority := by
  have hwC : ((K.setThread K.cur { K.threads K.cur with wait_on_lock := some m }).threads
      C).wait_on_lock = (K.threads C).wait_on_lock := by
    rw [setThread_threads_other _ _ _ _ (Ne.symm hcur)]
  have hpr : ∀ u, ((K.setThread K.cur { K.threads K.cur with wait_on_lock := some m }).threads
      u).priority = (K.threads u).priority :=
    setThread_priority_same _ _ _ (by rfl)
  have hdn : ∀ u, ((K.setThread K.cur { K.threads K.cur with wait_on_lock := some m }).threads
      u).donations = (K.threads u).donations :=
    setThread_donations_same _ _ _ (by rfl)
  unfold lock_acquire_donate
  split
  · exact ⟨fun _ h => h, rfl, hD.order⟩
  · next h hh =>
    simp only []
    split
    · unfold donate_priority
      simp only [setThread_nthreads, setThread_cur]
      apply donate_walk_keeps C H l K _ hD
      · rfl
      · intro u
        exact (setThread_priority_same _ _ _ (by rfl) u).trans (hpr u)
      · exact (setThread_wait_on_lock_same _ _ _ (by rfl) C).trans hwC
      · intro d hd
        apply setThread_donations_sub _ _ _ (by simp) H
        rw [hdn]
        exact hd
      · rw [← hend]
        apply walk_ends_congr
        · intro u
          exact setThread_wait_on_lock_same _ _ _ (by rfl) u
        · intro k; rfl
    · exact ⟨by rw [hdn]; exact fun _ h => h, hwC, by rw [hpr, hpr]; exact hD.order⟩

theorem sema_down_loop_keeps (C H : Tid) (l : Nat) (s : SemaRef) (lv : intr_level) (K : Kernel)
    (hD : Donating C H l K) (hcur : K.cur ≠ C) : Donating C H l (sema_down_loop s lv K) := by
  apply donating_of_same C H l K _ hD
  · simp
  · simp
  · by_cases e : s = SemaRef.lock l
    · subst e
      rw [sema_down_loop_value, donating_taken C H l K hD]
      rfl
    · rw [getSema_sema_down_loop_ne _ _ _ _ e]
      exact hD.taken
  · intro u; simp
  · intro u; simp
  · intro u; simp
  · exact sema_down_loop_cont_other s lv K C (Ne.symm hcur)

theorem sema_down_keeps (C H : Tid) (l : Nat) (s : SemaRef) (K : Kernel)
    (hD : Donating C H l K) (hcur : K.cur ≠ C) : Donating C H l (sema_down s K) := by
  apply donating_of_same C H l K _ hD
  · simp
  · simp
  · by_cases e : s = SemaRef.lock l
    · subst e
      rw [sema_down_value, donating_taken C H l K hD]
      simp
    · rw [getSema_sema_down_ne _ _ _ e]
      exact hD.taken
  · intro u; simp
  · intro u; simp
  · intro u; simp
  · exact sema_down_cont_other s K C (Ne.symm hcur)

theorem sema_try_down_keeps (C H : Tid) (l : Nat) (s : SemaRef) (K : Kernel)
    (hD : Donating C H l K) : Donating C H l (sema_try_down s K) := by
  apply donating_of_same C H l K _ hD
  · simp
  · simp
  · by_cases e : s = SemaRef.lock l
    · subst e
      rw [sema_try_down_value, donating_taken C H l K hD]
      rfl
    · rw [getSema_sema_try_down_ne _ _ _ e]
      exact hD.taken
  · intro u; simp
  · intro u; simp
  · intro u; simp
  · simp

theorem sema_up_keeps (C H : Tid) (l : Nat) (s : SemaRef) (K : Kernel)
    (hD : Donating C H l K) (hcur : K.cur ≠ C) (hs : s ≠ SemaRef.lock l) :
    Donating C H l (sema_up s K) := by
  apply donating_of_same C H l K _ hD
  · simp
  · simp
  · rw [getSema_sema_up_ne _ _ _ hs]
    exact hD.taken
  · intro u; simp
  · intro u; simp
  · intro u; simp
  · exact sema_up_cont_other s K C (Ne.symm hcur)

theorem push_keeps (C H : Tid) (l : Nat) (is : List Instr) (K : Kernel)
    (hD : Donating C H l K) (hcur : K.cur ≠ C) : Donating C H l (K.push is) := by
  apply donating_of_same C H l K _ hD
  · simp
  · simp
  · simpa using hD.taken
  · intro u; simp
  · intro u; simp
  · intro u; simp
  · exact push_cont_other K is C (Ne.symm hcur)

theorem PANIC_keeps (C H : Tid) (l : Nat) (K : Kernel) (hD : Donating C H l K) :
    Donating C H l K.PANIC := by
  apply donating_of_same C H l K _ hD
  · simp
  · simp
  · simpa using hD.taken
  · intro u; simp
  · intro u; simp
  · intro u; simp
  · simp

theorem lock_release_keeps (C H : Tid) (l m : Nat) (K : Kernel)
    (hD : Donating C H l K) (hcur : K.cur ≠ C)
    (hk : (Instr.lock_release m).keeps l H K.cur = true) :
    Donating C H l (lock_release m K) := by
  rw [lock_release_donation m K hD.policy]
  split
  · exact PANIC_keeps C H l K hD
  · next hheld =>
    have hhm : (K.locks m).holder = some K.cur := by
      simpa [lock_held_by_current_thread] using hheld
    have hml : m ≠ l := by
      intro e
      subst e
      have : K.cur = H := by
        have := hD.holder
        rw [hhm] at this
        exact Option.some.inj this
      simp [Instr.keeps, this] at hk
    have hremC : C ∈ ((remove_with_lock m K).threads H).donations := by
      simp only [remove_with_lock, Kernel.setThread, upd]
      split
      · next e =>
        subst e
        refine List.mem_filter.2 ⟨hD.donor, ?_⟩
        rw [hD.waits]
        simpa using Ne.symm hml
      · exact hD.donor
    have hrempr : ∀ u, ((remove_with_lock m K).threads u).priority = (K.threads u).priority :=
      setThread_priority_same _ _ _ (by rfl)
    have hremw : ∀ u, ((remove_with_lock m K).threads u).wait_on_lock =
        (K.threads u).wait_on_lock :=
      setThread_wait_on_lock_same _ _ _ (by rfl)
    apply donating_of_frame C H l K _ hD
    · simp
    · simp [holder_setHolder, Ne.symm hml]
    · rw [getSema_sema_up_ne _ _ _ (by simpa using hml)]
      simpa using hD.taken
    · simpa [refresh_priority] using hremC
    · simp only [sema_up_thread_wait_on_lock, setHolder_threads, refresh_priority,
        refresh_priority_of_wait_on_lock]
      exact hremw C
    · simp only [sema_up_thread_priority, setHolder_threads, refresh_priority,
        remove_with_lock_cur]
      by_cases e : K.cur = H
      · rw [e]
        exact refresh_priority_of_ge H C _ hremC hD.distinct
      · rw [refresh_priority_of_other _ _ _ (Ne.symm hcur),
          refresh_priority_of_other _ _ _ (Ne.symm e), hrempr, hrempr]
        exact hD.order
    · rw [sema_up_cont_other _ _ _ (by simpa using Ne.symm hcur)]
      simpa using hD.suspended

theorem cond_signal_keeps (C H : Tid) (l c m : Nat) (K : Kernel)
    (hD : Donating C H l K) (hcur : K.cur ≠ C) : Donating C H l (cond_signal c m K) := by
  unfold cond_signal
  split
  · exact PANIC_keeps C H l K hD
  · split
    · exact PANIC_keeps C H l K hD
    · split
      · exact hD
      · next w rest hs =>
        exact sema_up_keeps C H l (.waiter w) _
          (donating_of_same C H l K _ hD rfl rfl hD.taken (fun _ => rfl) (fun _ => rfl)
            (fun _ => rfl) rfl) hcur (by simp)

theorem setHolder_keeps (C H : Tid) (l m : Nat) (x : Option Tid) (K : Kernel)
    (hD : Donating C H l K) (hml : m ≠ l) : Donating C H l (K.setHolder m x) := by
  apply donating_of_same C H l K _ hD
  · simp
  · simp [holder_setHolder, Ne.symm hml]
  · simpa using hD.taken
  · intro u; simp
  · intro u; simp
  · intro u; simp
  · simp

theorem sema_init_keeps (C H : Tid) (l : Nat) (s : SemaRef) (v : Nat) (K : Kernel)
    (hD : Donating C H l K) (hs : s ≠ SemaRef.lock l) : Donating C H l (sema_init s v K) := by
  apply donating_of_same C H l K _ hD
  · simp
  · simp
  · rw [getSema_sema_init_ne _ _ _ _ hs]
    exact hD.taken
  · intro u; simp
  · intro u; simp
  · intro u; simp
  · simp

/-- An instruction executed by a thread other than the donor keeps the
donation, unless it is the release of the lock by its holder or reaches into
the lock. -/
theorem donating_exec (C H : Tid) (l : Nat) (i : Instr) (K : Kernel)
    (hD : Donating C H l K) (hcur : K.cur ≠ C) (hk : i.keeps l H K.cur = true)
    (hw : walk_completes K i = true) : Donating C H l (exec i K) := by
  cases i
  case sema_init s v =>
    exact sema_init_keeps C H l s v K hD (by simpa [Instr.keeps] using hk)
  case sema_down s => exact sema_down_keeps C H l s K hD hcur
  case sema_try_down s => exact sema_try_down_keeps C H l s K hD
  case sema_up s => exact sema_up_keeps C H l s K hD hcur (by simpa [Instr.keeps] using hk)
  case lock_init m =>
    have hml : m ≠ l := by simpa [Instr.keeps] using hk
    exact sema_init_keeps C H l (.lock m) 1 _ (setHolder_keeps C H l m none K hD hml)
      (by simpa using hml)
  case lock_acquire m =>
    have hend : walk_ends K.nthreads K.cur
        (K.setThread K.cur { K.threads K.cur with wait_on_lock := some m }) = true := by
      simpa [walk_completes] using hw
    obtain ⟨h1, h2, h3⟩ := lock_acquire_donate_keeps C H l m K hD hcur hend
    have hDd : Donating C H l (lock_acquire_donate m K) :=
      donating_of_frame C H l K _ hD (by simp) (by simp) (by simpa using hD.taken)
        (h1 hD.donor) h2 h3 (by rw [lock_acquire_donate_cont]; exact hD.suspended)
    show Donating C H l (lock_acquire m K)
    rw [lock_acquire_donation m K hD.policy]
    split
    · exact PANIC_keeps _ _ _ _ hDd
    · split
      · exact PANIC_keeps _ _ _ _ hDd
      · exact sema_down_keeps C H l _ _ (push_keeps C H l _ _ hDd (by simpa using hcur))
          (by simpa using hcur)
  case lock_try_acquire m =>
    show Donating C H l (lock_try_acquire m K)
    unfold lock_try_acquire
    split
    · exact PANIC_keeps _ _ _ _ hD
    · simp only []
      split
      · next hr =>
        have hml : m ≠ l := by
          intro e
          subst e
          have hv : ¬ (K.getSema (.lock m)).value > 0 := by
            rw [donating_taken C H m K hD]; simp
          unfold sema_try_down at hr
          rw [if_neg hv] at hr
          simp [Kernel.ret, upd] at hr
        exact setHolder_keeps C H l m _ _ (sema_try_down_keeps C H l _ K hD) hml
      · exact sema_try_down_keeps C H l _ K hD
  case lock_release m => exact lock_release_keeps C H l m K hD hcur hk
  case lock_held_by_current_thread m =>
    apply donating_of_same C H l K _ hD <;> simp [exec]
    exact hD.taken
  case cond_init c =>
    exact donating_of_same C H l K _ hD rfl rfl hD.taken (fun _ => rfl) (fun _ => rfl)
      (fun _ => rfl) rfl
  case cond_wait c m =>
    show Donating C H l (cond_wait c m K)
    unfold cond_wait
    split
    · exact PANIC_keeps _ _ _ _ hD
    · split
      · exact PANIC_keeps _ _ _ _ hD
      · simp only []
        apply lock_release_keeps C H l m _ _ (by simpa using hcur)
          (by simpa [Instr.keeps] using hk)
        apply push_keeps C H l _ _ _ (by simpa using hcur)
        have h0 := sema_init_keeps C H l (.waiter K.cur) 0 K hD (by simp)
        exact donating_of_same C H l _ _ h0 rfl rfl h0.taken (fun _ => rfl) (fun _ => rfl)
          (fun _ => rfl) rfl
  case cond_signal c m => exact cond_signal_keeps C H l c m K hD hcur
  case cond_broadcast c m =>
    show Donating C H l (cond_broadcast c m K)
    unfold cond_broadcast
    split
    · exact hD
    · exact cond_signal_keeps C H l c m _ (push_keeps C H l _ _ hD hcur) (by simpa using hcur)
  case sema_down_loop s lv => exact sema_down_loop_keeps C H l s lv K hD hcur
  case intr_set_level lv =>
    exact donating_of_same C H l K _ hD rfl rfl hD.taken (fun _ => rfl) (fun _ => rfl)
      (fun _ => rfl) rfl
  case lock_acquire_ret m =>
    have hml : m ≠ l := by simpa [Instr.keeps] using hk
    have h0 := setHolder_keeps C H l m (some K.cur) K hD hml
    show Donating C H l (lock_acquire_ret m K)
    unfold lock_acquire_ret
    simp only []
    apply donating_of_frame C H l _ _ h0
    · simp
    · simp
    · rw [getSema_setThread]
      exact h0.taken
    · rw [setThread_donations_same _ _ _ (by rfl)]
      exact h0.donor
    · rw [setThread_threads_other _ _ _ _ (Ne.symm hcur)]
    · rw [setThread_priority_same _ _ _ (by rfl), setThread_priority_same _ _ _ (by rfl)]
      exact h0.order
    · simpa using h0.suspended
  case lock_acquire_mlfqs_ret m lv =>
    have hml : m ≠ l := by simpa [Instr.keeps] using hk
    have h0 := setHolder_keeps C H l m (some K.cur) K hD hml
    exact donating_of_same C H l _ _ h0 rfl rfl h0.taken (fun _ => rfl) (fun _ => rfl)
      (fun _ => rfl) rfl
  case lock_release_mlfqs_ret m lv =>
    have hml : m ≠ l := by simpa [Instr.keeps] using hk
    have h0 := setHolder_keeps C H l m none K hD hml
    exact donating_of_same C H l _ _ h0 rfl rfl h0.taken (fun _ => rfl) (fun _ => rfl)
      (fun _ => rfl) rfl

theorem sema_down_loop_cont_blocked (s : SemaRef) (lv : intr_level) (K : Kernel)
    (hv : (K.getSema s).value = 0) :
    (sema_down_loop s lv K).cont K.cur = Instr.sema_down_loop s lv :: K.cont K.cur := by
  unfold sema_down_loop
  rw [if_pos hv, thread_block_cont]
  have := push_cont_cur (K.setSema s
    { K.getSema s with
      waiters := list_insert_ordered (cmp_priority K) K.cur (K.getSema s).waiters })
    [Instr.sema_down_loop s lv]
  simpa using this

/-- Any transition keeps the donation, unless it is the release of the lock by
its holder or reaches into the lock. -/
theorem donating_act (C H : Tid) (l : Nat) (K : Kernel) (a : Action)
    (hD : Donating C H l K)
    (hq : match K.next_instr a with
      | none => True
      | some i => i.keeps l H K.cur = true ∧ walk_completes K i = true) :
    Donating C H l (K.act a) := by
  obtain ⟨pre, lv0, rest0, hcont, hpre⟩ := hD.suspended
  cases a
  case call i =>
    simp only [Kernel.act]
    split
    · exact hD
    · next hg =>
      have hcur : K.cur ≠ C := by
        intro e
        apply hg
        rw [e, hcont]
        cases pre <;> simp
      simp only [Kernel.next_instr] at hq
      exact donating_exec C H l i K hD hcur hq.1 hq.2
  case step =>
    simp only [Kernel.act, step]
    split
    · exact hD
    · split
      · exact hD
      · next i rest hi =>
        simp only [Kernel.next_instr, hi, List.head?_cons] at hq
        by_cases hcur : K.cur = C
        · subst hcur
          rw [hcont] at hi
          cases pre with
          | nil =>
            simp only [List.nil_append] at hi
            obtain ⟨rfl, rfl⟩ := List.cons.inj hi
            have hv : (Kernel.getSema
                { K with cont := (upd K.cont K.cur (Instr.lock_acquire_ret l :: rest0)) }
                (.lock l)).value = 0 := hD.taken
            apply donating_of_frame K.cur H l K _ hD
            · simp [exec]
            · simp [exec]
            · simp only [exec]
              rw [sema_down_loop_value, hv]
              rfl
            · simpa [exec] using hD.donor
            · simp [exec]
            · simpa [exec] using hD.order
            · refine ⟨[], lv0, rest0, ?_, by simp⟩
              simp only [exec]
              have := sema_down_loop_cont_blocked (.lock l) lv0 _ hv
              rw [this]
              simp [upd]
          | cons j pre1 =>
            simp only [List.cons_append] at hi
            obtain ⟨rfl, rfl⟩ := List.cons.inj hi
            obtain ⟨lv, rfl⟩ := hpre j (by simp)
            exact ⟨hD.policy, hD.holder, hD.donor, hD.waits, hD.order, hD.distinct, hD.taken,
              ⟨pre1, lv0, rest0, by simp [exec, upd],
                fun i hi => hpre i (by simp [hi])⟩⟩
        · have hD0 : Donating C H l { K with cont := upd K.cont K.cur rest } :=
            ⟨hD.policy, hD.holder, hD.donor, hD.waits, hD.order, hD.distinct, hD.taken,
              ⟨pre, lv0, rest0, by simp [upd, Ne.symm hcur, hcont], hpre⟩⟩
          apply donating_exec C H l i _ hD0 hcur hq.1
          cases i <;>
            first
              | rfl
              | (rw [← hq.2]; exact walk_ends_congr _ _ _ _ (fun _ => rfl) (fun _ => rfl))
  case timer =>
    simp only [Kernel.act]
    split
    · exact hD
    · apply donating_of_frame C H l K _ hD
      · simp
      · simp
      · simpa using hD.taken
      · simpa using hD.donor
      · simp
      · simpa using hD.order
      · by_cases hcur : K.cur = C
        · refine ⟨Instr.intr_set_level intr_level.INTR_ON :: pre, lv0, rest0, ?_, ?_⟩
          · rw [thread_yield_cont, ← hcur, push_cont_cur, hcur, hcont]
            rfl
          · intro i hi
            rcases List.mem_cons.1 hi with rfl | hi
            · exact ⟨_, rfl⟩
            · exact hpre i hi
        · refine ⟨pre, lv0, rest0, ?_, hpre⟩
          rw [thread_yield_cont, push_cont_other _ _ _ (Ne.symm hcur), hcont]

/-- The donation lasts along every run in which the holder does not release
the lock and nothing reaches into the lock. -/
theorem donating_run (C H : Tid) (l : Nat) (as : List Action) :
    ∀ K : Kernel, Donating C H l K → quiet_run H l K as = true →
      Donating C H l (K.run as) := by
  induction as with
  | nil => intro K hD _; exact hD
  | cons a as ih =>
    intro K hD hq
    simp only [quiet_run, Bool.and_eq_true] at hq
    have hD1 : Donating C H l (K.act a) := by
      apply donating_act C H l K a hD
      cases hn : K.next_instr a with
      | none => trivial
      | some i =>
        have := hq.1
        rw [hn] at this
        simpa using this
    have := ih (K.act a) hD1 hq.2
    simpa [Kernel.run] using this

theorem sema_down_cont_blocked (s : SemaRef) (K : Kernel) (hi : K.in_intr = false)
    (hv : (K.getSema s).value = 0) :
    (sema_down s K).cont K.cur = Instr.sema_down_loop s K.intr :: K.cont K.cur := by
  unfold sema_down
  rw [if_neg (by simp [hi])]
  exact sema_down_loop_cont_blocked s K.intr { K with intr := intr_level.INTR_OFF } hv

/-- The donation that `lock_acquire` sets up: the caller outranks the holder
of the lock. -/
theorem lock_acquire_donate_sets_up (K : Kernel) (l : Nat) (H : Tid)
    (hh : (K.locks l).holder = some H) (hne : K.cur ≠ H)
    (hp : (K.threads H).priority < (K.threads K.cur).priority)
    (hw : walk_completes K (.lock_acquire l) = true) :
    K.cur ∈ ((lock_acquire_donate l K).threads H).donations ∧
      ((lock_acquire_donate l K).threads K.cur).wait_on_lock = some l ∧
      ((lock_acquire_donate l K).threads K.cur).priority ≤
        ((lock_acquire_donate l K).threads H).priority := by
  have hpr : ∀ u, ((K.setThread K.cur { K.threads K.cur with wait_on_lock := some l }).threads
      u).priority = (K.threads u).priority :=
    setThread_priority_same _ _ _ (by rfl)
  have hlt : ((K.setThread K.cur { K.threads K.cur with wait_on_lock := some l }).threads
      H).priority <
      ((K.setThread K.cur { K.threads K.cur with wait_on_lock := some l }).threads
        K.cur).priority := by
    rw [hpr, hpr]; exact hp
  have hwC : ((K.setThread K.cur { K.threads K.cur with wait_on_lock := some l }).threads
      K.cur).wait_on_lock = some l := by
    simp [Kernel.setThread, upd]
  have hmem : K.cur ∈
      (((K.setThread K.cur { K.threads K.cur with wait_on_lock := some l }).setThread H
        { (K.setThread K.cur { K.threads K.cur with wait_on_lock := some l }).threads H with
          donations :=
            ((K.setThread K.cur { K.threads K.cur with wait_on_lock := some l }).threads
              H).donations ++ [K.cur] }).threads H).donations := by
    simp [Kernel.setThread, upd]
  have hwC2 :
      (((K.setThread K.cur { K.threads K.cur with wait_on_lock := some l }).setThread H
        { (K.setThread K.cur { K.threads K.cur with wait_on_lock := some l }).threads H with
          donations :=
            ((K.setThread K.cur { K.threads K.cur with wait_on_lock := some l }).threads
              H).donations ++ [K.cur] }).threads K.cur).wait_on_lock = some l :=
    (setThread_wait_on_lock_same _ _ _ (by rfl) K.cur).trans hwC
  unfold lock_acquire_donate
  simp only [hh]
  rw [if_pos hlt]
  unfold donate_priority
  simp only [setThread_nthreads, setThread_cur]
  refine ⟨by simpa using hmem, by simpa using hwC2, ?_⟩
  apply donate_walk_keeps_donation K.cur H l hne
  · simpa using hh
  · exact hmem
  · exact hwC2
  · exact Or.inr rfl
  · have : walk_ends K.nthreads K.cur
        (K.setThread K.cur { K.threads K.cur with wait_on_lock := some l }) = true := by
      simpa [walk_completes] using hw
    rw [← this]
    apply walk_ends_congr
    · intro u
      exact setThread_wait_on_lock_same _ _ _ (by rfl) u
    · intro k; rfl

/-- The donation that `lock_acquire` sets up, as a state of the kernel: the
caller outranks the holder of a lock that is taken. -/
theorem lock_acquire_donating (K : Kernel) (l : Nat) (H : Tid)
    (hm : K.thread_mlfqs = false) (hi : K.in_intr = false)
    (hh : (K.locks l).holder = some H) (hne : K.cur ≠ H)
    (hv : (K.locks l).semaphore.value = 0)
    (hp : (K.threads H).priority < (K.threads K.cur).priority)
    (hw : walk_completes K (.lock_acquire l) = true) :
    Donating K.cur H l (exec (.lock_acquire l) K) := by
  have hnheld : lock_held_by_current_thread l (lock_acquire_donate l K) = false := by
    simp only [lock_held_by_current_thread, lock_acquire_donate_locks, lock_acquire_donate_cur,
      hh, decide_eq_false_iff_not]
    intro e
    exact hne (Option.some.inj e).symm
  have hexec : exec (.lock_acquire l) K =
      sema_down (.lock l) ((lock_acquire_donate l K).push [Instr.lock_acquire_ret l]) := by
    show lock_acquire l K = _
    rw [lock_acquire_donation l K hm, if_neg (by simp [hi]), if_neg (by simp [hnheld])]
  obtain ⟨h1, h2, h3⟩ := lock_acquire_donate_sets_up K l H hh hne hp hw
  rw [hexec]
  refine ⟨by simpa using hm, by simpa using hh, by simpa using h1, by simpa using h2,
    by simpa using h3, hne, ?_, ?_⟩
  · have := sema_down_value ((lock_acquire_donate l K).push [Instr.lock_acquire_ret l])
      (.lock l)
    have e : (Kernel.getSema ((lock_acquire_donate l K).push [Instr.lock_acquire_ret l])
        (.lock l)).value = 0 := by simpa [Kernel.getSema] using hv
    rw [e] at this
    simpa using this
  · refine ⟨[], K.intr, K.cont K.cur, ?_, by simp⟩
    have := sema_down_cont_blocked (.lock l)
      ((lock_acquire_donate l K).push [Instr.lock_acquire_ret l]) (by simpa using hi)
      (by simpa [Kernel.getSema] using hv)
    have e := push_cont_cur (lock_acquire_donate l K) [Instr.lock_acquire_ret l]
    rw [lock_acquire_donate_cur, lock_acquire_donate_cont] at e
    rw [push_cur, lock_acquire_donate_cur, e, push_intr, lock_acquire_donate_intr] at this
    simpa using this

/-! ## The two outcomes of `sema_try_down` -/

theorem sema_try_down_pos (K : Kernel) (s : SemaRef) (hv : 0 < (K.getSema s).value) :
    sema_try_down s K =
      (K.setSema s { value := uint_dec (K.getSema s).value,
                     waiters := (K.getSema s).waiters }).ret true := by
  unfold sema_try_down
  rw [if_pos hv]

theorem sema_try_down_zero (K : Kernel) (s : SemaRef) (hv : (K.getSema s).value = 0) :
    sema_try_down s K = K.ret false := by
  unfold sema_try_down
  rw [if_neg (by omega)]

theorem sema_try_down_sema (K : Kernel) (s : SemaRef) :
    (sema_try_down s K).getSema s =
      { value := if (K.getSema s).value = 0 then 0 else uint_dec (K.getSema s).value,
        waiters := (K.getSema s).waiters } := by
  by_cases hv : (K.getSema s).value = 0
  · rw [sema_try_down_zero K s hv, getSema_ret, if_pos hv, ← hv]
  · rw [sema_try_down_pos K s (by omega), getSema_ret, getSema_setSema_same, if_neg hv]

theorem sema_try_down_retval (K : Kernel) (s : SemaRef) :
    (sema_try_down s K).retval K.cur = decide (0 < (K.getSema s).value) := by
  by_cases hv : (K.getSema s).value = 0
  · rw [sema_try_down_zero K s hv]
    simp [Kernel.ret, upd, hv]
  · rw [sema_try_down_pos K s (by omega)]
    have : 0 < (K.getSema s).value := by omega
    cases s <;> simp [Kernel.ret, Kernel.setSema, upd, this]

/-! ## The outcomes of `lock_try_acquire` -/

theorem lock_try_acquire_held (K : Kernel) (l : Nat) (hh : (K.locks l).holder = some K.cur) :
    lock_try_acquire l K = K.PANIC := by
  unfold lock_try_acquire
  rw [if_pos (by simp [lock_held_by_current_thread, hh])]

theorem lock_try_acquire_pos (K : Kernel) (l : Nat) (hh : (K.locks l).holder ≠ some K.cur)
    (hv : 0 < (K.locks l).semaphore.value) :
    lock_try_acquire l K = (sema_try_down (.lock l) K).setHolder l (some K.cur) := by
  have hv1 : 0 < (K.getSema (.lock l)).value := hv
  unfold lock_try_acquire
  rw [if_neg (by simp [lock_held_by_current_thread, hh])]
  simp only []
  rw [sema_try_down_cur, sema_try_down_retval, if_pos (by simpa using hv1)]

theorem lock_try_acquire_zero (K : Kernel) (l : Nat) (hh : (K.locks l).holder ≠ some K.cur)
    (hv : (K.locks l).semaphore.value = 0) :
    lock_try_acquire l K = K.ret false := by
  have hv1 : (K.getSema (.lock l)).value = 0 := hv
  unfold lock_try_acquire
  rw [if_neg (by simp [lock_held_by_current_thread, hh])]
  simp only []
  rw [sema_try_down_cur, sema_try_down_retval, if_neg (by simp [hv1]),
    sema_try_down_zero K _ hv1]

/-! ## Fields no instruction changes -/

theorem lock_release_idle_thread (l : Nat) (K : Kernel) :
    (lock_release l K).idle_thread = K.idle_thread := by
  unfold lock_release
  split
  · split <;> simp
  · simp

theorem cond_signal_idle_thread (c l : Nat) (K : Kernel) :
    (cond_signal c l K).idle_thread = K.idle_thread := by
  unfold cond_signal
  split
  · simp
  · split
    · simp
    · split <;> simp

theorem exec_idle_thread (i : Instr) (K : Kernel) :
    (exec i K).idle_thread = K.idle_thread := by
  cases i
  case sema_init s v => simp [exec]
  case sema_down s => simp [exec]
  case sema_try_down s => simp [exec]
  case sema_up s => simp [exec]
  case lock_init l => simp [exec, lock_init]
  case lock_acquire l =>
    simp only [exec]
    unfold lock_acquire
    split
    · simp only []
      split
      · simp
      · split <;> simp
    · simp
  case lock_try_acquire l =>
    simp only [exec]
    unfold lock_try_acquire
    split
    · simp
    · simp only []
      split <;> simp
  case lock_release l => exact lock_release_idle_thread l K
  case lock_held_by_current_thread l => simp [exec]
  case cond_init c => rfl
  case cond_wait c l =>
    simp only [exec]
    unfold cond_wait
    split
    · simp
    · split
      · simp
      · simp only []
        rw [lock_release_idle_thread]
        simp [sema_init]
  case cond_signal c l => exact cond_signal_idle_thread c l K
  case cond_broadcast c l =>
    simp only [exec]
    unfold cond_broadcast
    split
    · rfl
    · rw [cond_signal_idle_thread]
      simp
  case sema_down_loop s lv => simp [exec]
  case intr_set_level lv => rfl
  case lock_acquire_ret l => simp [exec, lock_acquire_ret]
  case lock_acquire_mlfqs_ret l lv => simp [exec, lock_acquire_mlfqs_ret]
  case lock_release_mlfqs_ret l lv => simp [exec, lock_release_mlfqs_ret]

theorem exec_seq_idle_thread (ops : List Instr) :
    ∀ K : Kernel, (exec_seq ops K).idle_thread = K.idle_thread := by
  induction ops with
  | nil => intro K; rfl
  | cons i ops ih =>
    intro K
    show (exec_seq ops (exec i K)).idle_thread = _
    rw [ih, exec_idle_thread]

/-! ## Down operations that do not block -/

/-- `sema_down` on a positive counter: the decrement and nothing else. -/
theorem sema_down_pos (K : Kernel) (s : SemaRef) (hi : K.in_intr = false)
    (hv : (K.getSema s).value ≠ 0) :
    sema_down s K =
      K.setSema s { value := uint_dec (K.getSema s).value, waiters := (K.getSema s).waiters } := by
  unfold sema_down
  rw [if_neg (by simp [hi])]
  unfold sema_down_loop
  rw [if_neg (by rw [getSema_set_intr]; exact hv), getSema_set_intr]
  cases s <;> rfl

/-- `sema_down` on a counter at zero: the caller is queued and blocked, with
the test of the loop pending. -/
theorem sema_down_zero (K : Kernel) (s : SemaRef) (hi : K.in_intr = false)
    (hv : (K.getSema s).value = 0) :
    sema_down s K =
      thread_block
        ((Kernel.setSema { K with intr := intr_level.INTR_OFF } s
          { value := (K.getSema s).value,
            waiters := list_insert_ordered (cmp_priority K) K.cur (K.getSema s).waiters }).push
          [Instr.sema_down_loop s K.intr]) := by
  unfold sema_down
  rw [if_neg (by simp [hi])]
  unfold sema_down_loop
  rw [if_pos (by rw [getSema_set_intr]; exact hv), getSema_set_intr]
  rfl

/-- A thread that blocks and is neither ready nor the idle thread is not
dispatched again: its status is blocked and another thread runs. -/
theorem thread_block_blocked (K : Kernel) (h1 : K.cur ∉ K.ready_list)
    (h2 : K.cur ≠ K.idle_thread) :
    ((thread_block K).threads K.cur).status = thread_status.THREAD_BLOCKED ∧
      (thread_block K).cur ≠ K.cur := by
  unfold thread_block
  constructor
  · rw [schedule_threads_other _ _ (by simpa using h1) (by simpa using h2)]
    simp [Kernel.setThread, upd]
  · show next_thread_to_run _ ≠ K.cur
    rcases next_thread_to_run_mem
      (K.setThread K.cur { K.threads K.cur with status := .THREAD_BLOCKED }) with h | h
    · intro e
      rw [e] at h
      exact h1 (by simpa using h)
    · intro e
      rw [e] at h
      exact h2 (by simpa using h)

/-- What a down operation that finds the counter positive does. -/
theorem exec_down_pos (K : Kernel) (s : SemaRef) (i : Instr) (hi : i.is_down_on s = true)
    (hintr : K.in_intr = false) (hv : (K.getSema s).value ≠ 0) :
    (exec i K).getSema s =
        { value := uint_dec (K.getSema s).value, waiters := (K.getSema s).waiters } ∧
      (exec i K).cur = K.cur ∧ (exec i K).cont = K.cont ∧ (exec i K).threads = K.threads ∧
      (exec i K).ready_list = K.ready_list ∧ (exec i K).intr = K.intr ∧
      (exec i K).panicked = K.panicked ∧ (exec i K).in_intr = K.in_intr := by
  cases i <;> simp [Instr.is_down_on] at hi
  case sema_down r =>
    subst hi
    simp only [exec]
    rw [sema_down_pos K r hintr hv, getSema_setSema_same]
    simp
  case sema_try_down r =>
    subst hi
    simp only [exec]
    rw [sema_try_down_sema, if_neg hv]
    simp

/-- As many down operations in a row as the counter admits. -/
theorem exec_seq_downs (s : SemaRef) (ops : List Instr) :
    ∀ K : Kernel, (∀ i ∈ ops, i.is_down_on s = true) → K.in_intr = false →
      ops.length ≤ (K.getSema s).value → (K.getSema s).value < 4294967296 →
      (exec_seq ops K).getSema s =
          { value := (K.getSema s).value - ops.length, waiters := (K.getSema s).waiters } ∧
        (exec_seq ops K).cur = K.cur ∧ (exec_seq ops K).cont = K.cont ∧
        (exec_seq ops K).threads = K.threads ∧ (exec_seq ops K).ready_list = K.ready_list ∧
        (exec_seq ops K).intr = K.intr ∧ (exec_seq ops K).panicked = K.panicked ∧
        (exec_seq ops K).in_intr = K.in_intr := by
  induction ops with
  | nil =>
    intro K _ _ _ _
    simp [exec_seq]
  | cons i ops ih =>
    intro K hops hintr hlen hK
    simp only [List.length_cons] at hlen
    have hv : (K.getSema s).value ≠ 0 := by omega
    obtain ⟨h1, h2, h3, h4, h5, h6, h7, h8⟩ := exec_down_pos K s i (hops i (by simp)) hintr hv
    have hval : ((exec i K).getSema s).value = (K.getSema s).value - 1 := by
      rw [h1]
      exact uint_dec_pos _ (Nat.pos_of_ne_zero hv) hK
    have := ih (exec i K) (fun j hj => hops j (by simp [hj])) (by rw [h8]; exact hintr)
      (by rw [hval]; omega) (by rw [hval]; omega)
    have e : exec_seq (i :: ops) K = exec_seq ops (exec i K) := rfl
    rw [e]
    obtain ⟨g1, g2, g3, g4, g5, g6, g7, g8⟩ := this
    refine ⟨?_, g2.trans h2, g3.trans h3, g4.trans h4, g5.trans h5, g6.trans h6, g7.trans h7,
      g8.trans h8⟩
    rw [g1, hval, h1]
    simp only [List.length_cons, semaphore.mk.injEq, and_true]
    omega

/-! ## Ordered insertion into a sorted list -/

/-- Where `list_insert_ordered` puts a new element in a list sorted by
descending key: after the elements whose key is at least its own, in front of
those whose key is smaller; the list is still sorted. -/
theorem list_insert_ordered_split {α : Type} (less : α → α → Bool) (key : α → Int) (x : α)
    (hless : ∀ e, less x e = true ↔ key e < key x) (l : List α)
    (hl : l.Pairwise fun a b => key b ≤ key a) :
    ∃ l1 l2, l = l1 ++ l2 ∧ list_insert_ordered less x l = l1 ++ x :: l2 ∧
      (∀ e ∈ l1, key x ≤ key e) ∧ (∀ e ∈ l2, key e < key x) ∧
      (list_insert_ordered less x l).Pairwise fun a b => key b ≤ key a := by
  induction l with
  | nil =>
    exact ⟨[], [], rfl, rfl, by simp, by simp, by simp [list_insert_ordered]⟩
  | cons e l ih =>
    rw [List.pairwise_cons] at hl
    unfold list_insert_ordered
    by_cases h : less x e = true
    · rw [if_pos h]
      have hlt : key e < key x := (hless e).1 h
      refine ⟨[], e :: l, rfl, rfl, by simp, ?_, ?_⟩
      · intro b hb
        rcases List.mem_cons.1 hb with rfl | hb
        · exact hlt
        · exact lt_of_le_of_lt (hl.1 b hb) hlt
      · rw [List.pairwise_cons]
        refine ⟨?_, List.pairwise_cons.2 hl⟩
        intro b hb
        rcases List.mem_cons.1 hb with rfl | hb
        · exact le_of_lt hlt
        · exact le_trans (hl.1 b hb) (le_of_lt hlt)
    · rw [if_neg h]
      have hge : key x ≤ key e := by
        by_contra hc
        exact h ((hless e).2 (lt_of_not_le hc))
      obtain ⟨l1, l2, h1, h2, h3, h4, h5⟩ := ih hl.2
      refine ⟨e :: l1, l2, by rw [h1]; rfl, by rw [h2]; rfl, ?_, h4, ?_⟩
      · intro b hb
        rcases List.mem_cons.1 hb with rfl | hb
        · exact hge
        · exact h3 b hb
      · rw [List.pairwise_cons]
        refine ⟨?_, h5⟩
        intro b hb
        have hb1 := (list_insert_ordered_perm less x l).subset hb
        rcases List.mem_cons.1 hb1 with rfl | hb2
        · exact hge
        · exact hl.1 b hb2

/-! ## One step of a suspended `sema_down` -/

theorem uint_inc_zero : uint_inc 0 = 1 := by decide

theorem uint_dec_one : uint_dec 1 = 0 := by decide

theorem step_cons (K : Kernel) (i : Instr) (rest : List Instr) (hp : K.panicked = false)
    (hc : K.cont K.cur = i :: rest) :
    step K = exec i { K with cont := upd K.cont K.cur rest } := by
  unfold step
  rw [if_neg (by simp [hp]), hc]

/-- The re-check of the loop of `sema_down` that finds the counter positive:
the decrement and the restore of the interrupt level. -/
theorem step_sema_down_loop_pos (K : Kernel) (s : SemaRef) (lv : intr_level)
    (tail : List Instr) (hp : K.panicked = false)
    (hc : K.cont K.cur = Instr.sema_down_loop s lv :: tail) (hv : (K.getSema s).value ≠ 0) :
    (step K).getSema s =
        { value := uint_dec (K.getSema s).value, waiters := (K.getSema s).waiters } ∧
      (step K).cont K.cur = tail ∧ (step K).cur = K.cur ∧ (step K).intr = lv ∧
      (step K).threads = K.threads ∧ (step K).ready_list = K.ready_list ∧
      (step K).panicked = false := by
  rw [step_cons K _ _ hp hc]
  have hg : Kernel.getSema { K with cont := upd K.cont K.cur tail } s = K.getSema s := by
    cases s <;> rfl
  simp only [exec]
  unfold sema_down_loop
  rw [if_neg (by rw [hg]; exact hv), hg]
  refine ⟨?_, ?_, ?_, ?_, ?_, ?_, ?_⟩
  · rw [getSema_set_intr, getSema_setSema_same]
  · simp [upd]
  · simp
  · rfl
  · simp
  · simp
  · simp [hp]

/-- The re-check of the loop of `sema_down` that finds the counter at zero:
the thread is queued again and blocked, with the test of the loop pending. -/
theorem step_sema_down_loop_zero (K : Kernel) (s : SemaRef) (lv : intr_level)
    (tail : List Instr) (hp : K.panicked = false)
    (hc : K.cont K.cur = Instr.sema_down_loop s lv :: tail) (hv : (K.getSema s).value = 0) :
    step K =
        thread_block
          ((Kernel.setSema { K with cont := upd K.cont K.cur tail } s
            { value := (K.getSema s).value,
              waiters := list_insert_ordered (cmp_priority K) K.cur (K.getSema s).waiters }).push
            [Instr.sema_down_loop s lv]) ∧
      (step K).getSema s =
        { value := 0,
          waiters := list_insert_ordered (cmp_priority K) K.cur (K.getSema s).waiters } ∧
      (step K).cont K.cur = Instr.sema_down_loop s lv :: tail ∧
      (step K).panicked = false ∧
      (K.cur ∉ K.ready_list → K.cur ≠ K.idle_thread →
        ((step K).threads K.cur).status = thread_status.THREAD_BLOCKED ∧ (step K).cur ≠ K.cur) := by
  have hg : Kernel.getSema { K with cont := upd K.cont K.cur tail } s = K.getSema s := by
    cases s <;> rfl
  have e : step K =
      thread_block
        ((Kernel.setSema { K with cont := upd K.cont K.cur tail } s
          { value := (K.getSema s).value,
            waiters := list_insert_ordered (cmp_priority K) K.cur (K.getSema s).waiters }).push
          [Instr.sema_down_loop s lv]) := by
    rw [step_cons K _ _ hp hc]
    simp only [exec]
    unfold sema_down_loop
    rw [if_pos (by rw [hg]; exact hv), hg]
    rfl
  refine ⟨e, ?_, ?_, ?_, ?_⟩
  · rw [e, getSema_thread_block, getSema_push, getSema_setSema_same, hv]
  · rw [e, thread_block_cont]
    simp [Kernel.push, upd]
  · rw [e]
    simp [hp]
  · intro h1 h2
    have := thread_block_blocked
      ((Kernel.setSema { K with cont := upd K.cont K.cur tail } s
        { value := (K.getSema s).value,
          waiters := list_insert_ordered (cmp_priority K) K.cur (K.getSema s).waiters }).push
        [Instr.sema_down_loop s lv]) (by simpa using h1) (by simpa using h2)
    rw [e]
    simpa using this

/-! ## The queue of a condition variable after `cond_wait` -/

theorem lock_release_conds (l : Nat) (K : Kernel) :
    (lock_release l K).conds = K.conds := by
  unfold lock_release
  split
  · split <;> simp
  · simp

theorem list_insert_ordered_congr {α : Type} (less1 less2 : α → α → Bool) (x : α)
    (l : List α) (h : ∀ e ∈ l, less1 x e = less2 x e) :
    list_insert_ordered less1 x l = list_insert_ordered less2 x l := by
  induction l with
  | nil => rfl
  | cons e l ih =>
    unfold list_insert_ordered
    rw [h e (by simp), ih (fun b hb => h b (by simp [hb]))]

/-- The place of the new entry in the queue of the condition variable is
decided by the word read through the tail sentinel of its own, empty, waiter
list. -/
theorem cond_wait_waiters (K : Kernel) (c l : Nat) (hi : K.in_intr = false)
    (hh : (K.locks l).holder = some K.cur) (hn : K.cur ∉ (K.conds c).waiters) :
    ((cond_wait c l K).conds c).waiters =
      list_insert_ordered (fun _ e => decide (front_priority K e < K.junk K.cur)) K.cur
        (K.conds c).waiters := by
  unfold cond_wait
  rw [if_neg (by simp [hi]), if_neg (by simp [lock_held_by_current_thread, hh])]
  simp only []
  rw [lock_release_conds]
  simp only [push_conds, upd, if_pos]
  apply list_insert_ordered_congr
  intro e he
  have hne : e ≠ K.cur := fun h => hn (h ▸ he)
  have h1 : front_priority (sema_init (.waiter K.cur) 0 K) K.cur = K.junk K.cur := by
    simp [front_priority, sema_init, Kernel.setSema, upd]
  have h2 : front_priority (sema_init (.waiter K.cur) 0 K) e = front_priority K e := by
    simp [front_priority, sema_init, Kernel.setSema, upd, hne]
  unfold cmp_sem_priority
  rw [h1, h2]
  by_cases hlt : front_priority K e < K.junk K.cur
  · simp [hlt]
  · simp [hlt]

/-! ## Fields no instruction changes: the interrupt context -/

theorem lock_release_in_intr (l : Nat) (K : Kernel) :
    (lock_release l K).in_intr = K.in_intr := by
  unfold lock_release
  split
  · split <;> simp
  · simp

theorem cond_signal_in_intr (c l : Nat) (K : Kernel) :
    (cond_signal c l K).in_intr = K.in_intr := by
  unfold cond_signal
  split
  · simp
  · split
    · simp
    · split <;> simp

theorem exec_in_intr (i : Instr) (K : Kernel) :
    (exec i K).in_intr = K.in_intr := by
  cases i
  case sema_init s v => simp [exec]
  case sema_down s => simp [exec]
  case sema_try_down s => simp [exec]
  case sema_up s => simp [exec]
  case lock_init l => simp [exec, lock_init]
  case lock_acquire l =>
    simp only [exec]
    unfold lock_acquire
    split
    · simp only []
      split
      · simp
      · split <;> simp
    · simp
  case lock_try_acquire l =>
    simp only [exec]
    unfold lock_try_acquire
    split
    · simp
    · simp only []
      split <;> simp
  case lock_release l => exact lock_release_in_intr l K
  case lock_held_by_current_thread l => simp [exec]
  case cond_init c => rfl
  case cond_wait c l =>
    simp only [exec]
    unfold cond_wait
    split
    · simp
    · split
      · simp
      · simp only []
        rw [lock_release_in_intr]
        simp [sema_init]
  case cond_signal c l => exact cond_signal_in_intr c l K
  case cond_broadcast c l =>
    simp only [exec]
    unfold cond_broadcast
    split
    · rfl
    · rw [cond_signal_in_intr]
      simp
  case sema_down_loop s lv => simp [exec]
  case intr_set_level lv => rfl
  case lock_acquire_ret l => simp [exec, lock_acquire_ret]
  case lock_acquire_mlfqs_ret l lv => simp [exec, lock_acquire_mlfqs_ret]
  case lock_release_mlfqs_ret l lv => simp [exec, lock_release_mlfqs_ret]

theorem exec_seq_in_intr (ops : List Instr) :
    ∀ K : Kernel, (exec_seq ops K).in_intr = K.in_intr := by
  induction ops with
  | nil => intro K; rfl
  | cons i ops ih =>
    intro K
    show (exec_seq ops (exec i K)).in_intr = _
    rw [ih, exec_in_intr]

theorem act_in_intr (K : Kernel) (a : Action) : (K.act a).in_intr = K.in_intr := by
  cases a
  case call i =>
    simp only [Kernel.act]
    split
    · rfl
    · exact exec_in_intr i K
  case step =>
    simp only [Kernel.act, step]
    split
    · rfl
    · split
      · rfl
      · rw [exec_in_intr]
  case timer =>
    simp only [Kernel.act]
    split
    · rfl
    · simp

/-! ## What a blocking function leaves pending for its caller -/

theorem sema_down_loop_cont_cur (s : SemaRef) (lv : intr_level) (K : Kernel) :
    (sema_down_loop s lv K).cont K.cur = K.cont K.cur ∨
      (sema_down_loop s lv K).cont K.cur = Instr.sema_down_loop s lv :: K.cont K.cur := by
  by_cases hv : (K.getSema s).value = 0
  · exact Or.inr (sema_down_loop_cont_blocked s lv K hv)
  · left
    unfold sema_down_loop
    rw [if_neg hv]
    simp

theorem sema_down_cont_cur (s : SemaRef) (K : Kernel) (hi : K.in_intr = false) :
    (sema_down s K).cont K.cur = K.cont K.cur ∨
      (sema_down s K).cont K.cur = Instr.sema_down_loop s K.intr :: K.cont K.cur := by
  by_cases hv : (K.getSema s).value = 0
  · exact Or.inr (sema_down_cont_blocked s K hi hv)
  · left
    rw [sema_down_pos K s hi hv]
    simp

/-- `lock_acquire` by a thread that does not hold the lock, outside interrupt
context: the statements with which it returns are pending, behind the loop of
`sema_down` if the caller was suspended. -/
theorem lock_acquire_cont_cur (l : Nat) (K : Kernel) (hi : K.in_intr = false)
    (hh : (K.locks l).holder ≠ some K.cur) :
    ∃ r, r.is_acquire_ret l = true ∧
      ((lock_acquire l K).cont K.cur = r :: K.cont K.cur ∨
        ∃ lv, (lock_acquire l K).cont K.cur =
          Instr.sema_down_loop (.lock l) lv :: r :: K.cont K.cur) := by
  have key : ∀ (K2 : Kernel) (r : Instr), K2.cur = K.cur → K2.in_intr = false →
      K2.cont K.cur = r :: K.cont K.cur →
      ((sema_down (.lock l) K2).cont K.cur = r :: K.cont K.cur ∨
        ∃ lv, (sema_down (.lock l) K2).cont K.cur =
          Instr.sema_down_loop (.lock l) lv :: r :: K.cont K.cur) := by
    intro K2 r e1 e2 e3
    rcases sema_down_cont_cur (.lock l) K2 e2 with h | h
    · left
      rw [← e1, h, e1, e3]
    · right
      exact ⟨K2.intr, by rw [← e1, h, e1, e3]⟩
  rcases Bool.eq_false_or_eq_true K.thread_mlfqs with hm | hm
  · refine ⟨Instr.lock_acquire_mlfqs_ret l K.intr, by simp [Instr.is_acquire_ret], ?_⟩
    rw [lock_acquire_mlfqs l K hm]
    apply key
    · rfl
    · exact hi
    · simp [Kernel.push, upd]
  · refine ⟨Instr.lock_acquire_ret l, by simp [Instr.is_acquire_ret], ?_⟩
    rw [lock_acquire_donation l K hm,
      if_neg (by rw [lock_acquire_donate_in_intr, hi]; simp),
      if_neg (by simp [lock_held_by_current_thread, hh])]
    apply key
    · simp
    · simp [hi]
    · simp [Kernel.push, upd]

/-! ## The phases of `cond_wait` -/

theorem CondWaitPhase.mono {C : Tid} {l : Nat} {h h1 : Option Tid} {body : List Instr}
    (hp : CondWaitPhase C l h body) (hh : h ≠ some C → h1 ≠ some C) :
    CondWaitPhase C l h1 body := by
  cases hp with
  | releasing lv => exact .releasing lv
  | released h0 => exact .released (hh h0)
  | waiting lv h0 => exact .waiting lv (hh h0)
  | woken h0 => exact .woken (hh h0)
  | acquiring lv r h0 hr => exact .acquiring lv r (hh h0) hr
  | acquired r h0 hr => exact .acquired r (hh h0) hr
  | returned => exact .returned

/-- The first pending instruction of a phase is no restore of the interrupt
level. -/
theorem CondWaitPhase.head_not_restore {C : Tid} {l : Nat} {h : Option Tid} {i : Instr}
    {rest : List Instr} (hp : CondWaitPhase C l h (i :: rest)) : i.is_restore = false := by
  cases hp with
  | releasing lv => rfl
  | released h0 => rfl
  | waiting lv h0 => rfl
  | woken h0 => rfl
  | acquiring lv r h0 hr => rfl
  | acquired r h0 hr =>
    cases i <;> simp [Instr.is_acquire_ret] at hr <;> rfl

/-- A thread inside `cond_wait` has returned exactly when nothing of the call
is pending. -/
theorem InCondWait.returned_iff {C : Tid} {l : Nat} {K : Kernel} {body : List Instr}
    (hJ : InCondWait C l K body) : K.returned C = true ↔ body = [] := by
  obtain ⟨pre, hcont, hpre⟩ := hJ.pending
  unfold Kernel.returned
  rw [hcont, List.all_append]
  constructor
  · intro h
    rw [Bool.and_eq_true] at h
    cases body with
    | nil => rfl
    | cons i rest =>
      have := hJ.phase.head_not_restore
      simp [this] at h
  · intro h
    rw [h]
    simp only [List.all_nil, Bool.and_true, List.all_eq_true]
    intro i hi
    obtain ⟨lv, rfl⟩ := hpre i hi
    rfl

/-- While a thread inside `cond_wait` is about to block on its private
semaphore, or is suspended on it, it is not the holder of the lock. -/
theorem InCondWait.not_holder {C : Tid} {l : Nat} {K : Kernel} {body : List Instr}
    (hJ : InCondWait C l K body) (i : Instr) (rest : List Instr)
    (hc : K.cont C = i :: rest)
    (hi : i = Instr.sema_down (.waiter C) ∨ ∃ lv, i = Instr.sema_down_loop (.waiter C) lv) :
    (K.locks l).holder ≠ some C := by
  obtain ⟨pre, hcont, hpre⟩ := hJ.pending
  rw [hcont] at hc
  cases pre with
  | cons j pre1 =>
    obtain ⟨lv1, rfl⟩ := hpre j (by simp)
    simp only [List.cons_append, List.cons.injEq] at hc
    rcases hi with rfl | ⟨lv, rfl⟩ <;> simp at hc
  | nil =>
    simp only [List.nil_append] at hc
    have hp := hJ.phase
    rw [hc] at hp
    cases hp with
    | releasing lv => rcases hi with h | ⟨lv1, h⟩ <;> simp at h
    | released h0 => exact h0
    | waiting lv h0 => exact h0
    | woken h0 => exact h0
    | acquiring lv r h0 hr => exact h0
    | acquired r h0 hr => exact h0

/-- Any transition keeps a thread inside `cond_wait` in one of the phases, as
long as that thread makes no new call; the call is over only after the
thread has executed the statements with which `lock_acquire` returns, and
then it is the holder. -/
theorem in_cond_wait_act (C : Tid) (l : Nat) (K : Kernel) (a : Action) (body : List Instr)
    (hJ : InCondWait C l K body)
    (hc : (a.is_call && decide (K.cur = C)) = false) :
    ∃ body1, InCondWait C l (K.act a) body1 ∧
      (body ≠ [] → body1 = [] → ((K.act a).locks l).holder = some C) := by
  obtain ⟨pre, hcont, hpre⟩ := hJ.pending
  have hi := hJ.context
  have same : ∃ body1, InCondWait C l K body1 ∧
      (body ≠ [] → body1 = [] → (K.locks l).holder = some C) :=
    ⟨body, hJ, fun h1 h2 => absurd h2 h1⟩
  -- an instruction executed by another thread
  have other : ∀ (i : Instr) (K0 : Kernel), K0.cur ≠ C → K0.cont C = K.cont C →
      K0.locks = K.locks → K0.in_intr = K.in_intr →
      ∃ body1, InCondWait C l (exec i K0) body1 ∧
        (body ≠ [] → body1 = [] → ((exec i K0).locks l).holder = some C) := by
    intro i K0 hcur e1 e2 e3
    refine ⟨body, ⟨by rw [exec_in_intr, e3]; exact hi,
      ⟨pre, by rw [exec_cont_other i K0 C (Ne.symm hcur), e1, hcont], hpre⟩, ?_⟩,
      fun h1 h2 => absurd h2 h1⟩
    apply hJ.phase.mono
    intro h0
    rcases exec_holder i K0 l with h | h | h
    · rw [h, e2]; exact h0
    · rw [h]; simp
    · rw [h]; intro e; exact hcur (Option.some.inj e)
  cases a
  case call i =>
    simp only [Kernel.act]
    split
    · exact same
    · have hcur : K.cur ≠ C := by simpa [Action.is_call] using hc
      exact other i K hcur rfl rfl rfl
  case step =>
    simp only [Kernel.act, step]
    split
    · exact same
    · split
      · exact same
      · next i rest hi2 =>
        by_cases hcur : K.cur = C
        · subst hcur
          rw [hcont] at hi2
          have hcont0 : ({ K with cont := upd K.cont K.cur rest } : Kernel).cont K.cur = rest := by
            simp [upd]
          cases pre with
          | cons j pre1 =>
            simp only [List.cons_append] at hi2
            obtain ⟨rfl, rfl⟩ := List.cons.inj hi2
            obtain ⟨lv, rfl⟩ := hpre j (by simp)
            exact ⟨body, ⟨hi, ⟨pre1, by simp [exec, upd], fun i hi => hpre i (by simp [hi])⟩,
              hJ.phase⟩, fun h1 h2 => absurd h2 h1⟩
          | nil =>
            simp only [List.nil_append] at hi2
            have hp := hJ.phase
            rw [hi2] at hp
            obtain ⟨K0, e0, c1, c2, c3, c4⟩ : ∃ K0 : Kernel,
                exec i { K with cont := upd K.cont K.cur rest } = exec i K0 ∧ K0.cur = K.cur ∧
                  K0.cont K.cur = rest ∧ K0.locks = K.locks ∧ K0.in_intr = false :=
              ⟨_, rfl, rfl, hcont0, rfl, hi⟩
            rw [e0]
            clear e0 hcont0
            have hin : ∀ j, (exec j K0).in_intr = false := by
              intro j
              rw [exec_in_intr]
              exact c4
            cases hp with
            | releasing lv =>
              refine ⟨_, ⟨hin _, ⟨[], ?_, by simp⟩, .released ?_⟩, fun _ h2 => absurd h2 (by simp)⟩
              · simp [exec, lock_release_mlfqs_ret, c2]
              · simp [exec, lock_release_mlfqs_ret, holder_setHolder]
            | released h0 =>
              have hho : ((exec (.sema_down (.waiter K.cur)) K0).locks l).holder ≠ some K.cur := by
                simp only [exec, sema_down_holder, c3]
                exact h0
              have h := sema_down_cont_cur (.waiter K.cur) K0 c4
              rw [c1, c2] at h
              rcases h with h | h
              · exact ⟨_, ⟨hin _, ⟨[], by simpa [exec] using h, by simp⟩, .woken hho⟩,
                  fun _ h2 => absurd h2 (by simp)⟩
              · exact ⟨_, ⟨hin _, ⟨[], by simpa [exec] using h, by simp⟩, .waiting K0.intr hho⟩,
                  fun _ h2 => absurd h2 (by simp)⟩
            | waiting lv h0 =>
              have hho : ((exec (.sema_down_loop (.waiter K.cur) lv) K0).locks l).holder ≠
                  some K.cur := by
                simp only [exec, sema_down_loop_holder, c3]
                exact h0
              have h := sema_down_loop_cont_cur (.waiter K.cur) lv K0
              rw [c1, c2] at h
              rcases h with h | h
              · exact ⟨_, ⟨hin _, ⟨[], by simpa [exec] using h, by simp⟩, .woken hho⟩,
                  fun _ h2 => absurd h2 (by simp)⟩
              · exact ⟨_, ⟨hin _, ⟨[], by simpa [exec] using h, by simp⟩, .waiting lv hho⟩,
                  fun _ h2 => absurd h2 (by simp)⟩
            | woken h0 =>
              obtain ⟨r, hr, h⟩ := lock_acquire_cont_cur l K0 c4 (by rw [c3, c1]; exact h0)
              have hho : ((exec (.lock_acquire l) K0).locks l).holder ≠ some K.cur := by
                simp only [exec, lock_acquire_holder, c3]
                exact h0
              rw [c1, c2] at h
              rcases h with h | ⟨lv, h⟩
              · exact ⟨_, ⟨hin _, ⟨[], by simpa [exec] using h, by simp⟩, .acquired r hho hr⟩,
                  fun _ h2 => absurd h2 (by simp)⟩
              · exact ⟨_, ⟨hin _, ⟨[], by simpa [exec] using h, by simp⟩, .acquiring lv r hho hr⟩,
                  fun _ h2 => absurd h2 (by simp)⟩
            | acquiring lv r h0 hr =>
              have hho : ((exec (.sema_down_loop (.lock l) lv) K0).locks l).holder ≠
                  some K.cur := by
                simp only [exec, sema_down_loop_holder, c3]
                exact h0
              have h := sema_down_loop_cont_cur (.lock l) lv K0
              rw [c1, c2] at h
              rcases h with h | h
              · exact ⟨_, ⟨hin _, ⟨[], by simpa [exec] using h, by simp⟩, .acquired r hho hr⟩,
                  fun _ h2 => absurd h2 (by simp)⟩
              · exact ⟨_, ⟨hin _, ⟨[], by simpa [exec] using h, by simp⟩, .acquiring lv r hho hr⟩,
                  fun _ h2 => absurd h2 (by simp)⟩
            | acquired r h0 hr =>
              cases i <;> simp [Instr.is_acquire_ret] at hr
              · subst hr
                refine ⟨[], ⟨hin _, ⟨[], ?_, by simp⟩, .returned⟩, fun _ _ => ?_⟩
                · simp [exec, lock_acquire_ret, c2]
                · simp [exec, lock_acquire_ret, holder_setHolder, c1]
              · subst hr
                refine ⟨[], ⟨hin _, ⟨[], ?_, by simp⟩, .returned⟩, fun _ _ => ?_⟩
                · simp [exec, lock_acquire_mlfqs_ret, c2]
                · simp [exec, lock_acquire_mlfqs_ret, holder_setHolder, c1]
        · exact other i _ hcur (by simp [upd, Ne.symm hcur]) rfl rfl
  case timer =>
    simp only [Kernel.act]
    split
    · exact same
    · by_cases hcur : K.cur = C
      · refine ⟨body, ⟨by simp [hi], ⟨Instr.intr_set_level intr_level.INTR_ON :: pre, ?_, ?_⟩,
          ?_⟩, fun h1 h2 => absurd h2 h1⟩
        · rw [thread_yield_cont, ← hcur, push_cont_cur, hcur, hcont]
          rfl
        · intro i hi
          rcases List.mem_cons.1 hi with rfl | hi
          · exact ⟨_, rfl⟩
          · exact hpre i hi
        · simpa using hJ.phase
      · refine ⟨body, ⟨by simp [hi], ⟨pre, ?_, hpre⟩, ?_⟩, fun h1 h2 => absurd h2 h1⟩
        · rw [thread_yield_cont, push_cont_other _ _ _ (Ne.symm hcur), hcont]
        · simpa using hJ.phase

/-- Along a run in which thread `C`, inside `cond_wait`, makes no new call:
it stays in one of the phases, and if the last transition ends the call `C`
is the holder. -/
theorem in_cond_wait_run (C : Tid) (l : Nat) (as : List Action) :
    ∀ (K : Kernel) (body : List Instr), InCondWait C l K body → no_call_by C K as = true →
      (∃ body1, InCondWait C l (K.run as) body1) ∧
        ∀ (as1 : List Action) (a : Action), as = as1 ++ [a] →
          (K.run as1).returned C = false → (K.run as).returned C = true →
          ((K.run as).locks l).holder = some C := by
  induction as with
  | nil =>
    intro K body hJ _
    refine ⟨⟨body, hJ⟩, ?_⟩
    intro as1 a h
    exact absurd h (by simp)
  | cons b as ih =>
    intro K body hJ hn
    simp only [no_call_by, Bool.and_eq_true, Bool.not_eq_true'] at hn
    obtain ⟨body1, hJ1, h41⟩ := in_cond_wait_act C l K b body hJ hn.1
    obtain ⟨g1, g2⟩ := ih (K.act b) body1 hJ1 hn.2
    refine ⟨g1, ?_⟩
    intro as1 a h hr1 hr2
    cases as1 with
    | nil =>
      simp only [List.nil_append] at h
      obtain ⟨rfl, rfl⟩ := List.cons.inj h
      simp only [Kernel.run, List.foldl_cons, List.foldl_nil] at hr1 hr2 ⊢
      apply h41
      · intro hb
        rw [(hJ.returned_iff).2 hb] at hr1
        exact absurd hr1 (by simp)
      · exact (hJ1.returned_iff).1 hr2
    | cons b1 as2 =>
      simp only [List.cons_append] at h
      obtain ⟨rfl, rfl⟩ := List.cons.inj h
      exact g2 as2 a rfl hr1 hr2

/-- What `lock_release` by the holder leaves pending for it: restores of the
interrupt level and, on the second path, the statement that clears the
holder; on the first path the holder is cleared already. -/
theorem lock_release_cont_cur (l : Nat) (K : Kernel) (hh : (K.locks l).holder = some K.cur) :
    ∃ pre, (∀ i ∈ pre, ∃ lv, i = Instr.intr_set_level lv) ∧
      ((K.thread_mlfqs = false ∧ (lock_release l K).cont K.cur = pre ++ K.cont K.cur ∧
          ((lock_release l K).locks l).holder = none) ∨
        (K.thread_mlfqs = true ∧
          (lock_release l K).cont K.cur =
            pre ++ Instr.lock_release_mlfqs_ret l K.intr :: K.cont K.cur)) := by
  rcases Bool.eq_false_or_eq_true K.thread_mlfqs with hm | hm
  · rw [lock_release_mlfqs l K hm]
    have hup := sema_up_cont_cur (.lock l)
      ({ K with intr := intr_level.INTR_OFF }.push [Instr.lock_release_mlfqs_ret l K.intr])
    have e : ({ K with intr := intr_level.INTR_OFF }.push
        [Instr.lock_release_mlfqs_ret l K.intr]).cont K.cur =
        Instr.lock_release_mlfqs_ret l K.intr :: K.cont K.cur := by
      simp [Kernel.push, upd]
    simp only [push_cur] at hup
    rw [e] at hup
    rcases hup with h | h
    · exact ⟨[], by simp, Or.inr ⟨hm, h⟩⟩
    · exact ⟨[_], fun i hi => ⟨_, List.mem_singleton.1 hi⟩, Or.inr ⟨hm, h⟩⟩
  · rw [lock_release_donation l K hm,
      if_neg (by simp [lock_held_by_current_thread, hh])]
    have hup := sema_up_cont_cur (.lock l)
      ((refresh_priority (remove_with_lock l K)).setHolder l none)
    simp only [setHolder_cur, refresh_priority_cur, remove_with_lock_cur, setHolder_cont,
      refresh_priority_cont, remove_with_lock_cont] at hup
    have hho : ((sema_up (.lock l)
        ((refresh_priority (remove_with_lock l K)).setHolder l none)).locks l).holder = none := by
      simp [holder_setHolder]
    rcases hup with h | h
    · exact ⟨[], by simp, Or.inl ⟨hm, h, hho⟩⟩
    · exact ⟨[_], fun i hi => ⟨_, List.mem_singleton.1 hi⟩, Or.inl ⟨hm, h, hho⟩⟩

theorem lock_release_elems (l : Nat) (K : Kernel) :
    (lock_release l K).elems = K.elems := by
  have key : ∀ K1 : Kernel, (sema_up (.lock l) K1).elems = K1.elems := by
    intro K1
    funext t
    exact getSema_sema_up_ne (.lock l) (.waiter t) K1 (by simp)
  unfold lock_release
  split
  · split
    · rfl
    · rw [key]
      simp
  · rw [key]
    simp

theorem lock_release_value (l : Nat) (K : Kernel) (hh : (K.locks l).holder = some K.cur) :
    ((lock_release l K).locks l).semaphore.value = uint_inc (K.locks l).semaphore.value := by
  show ((lock_release l K).getSema (.lock l)).value = uint_inc (K.getSema (.lock l)).value
  unfold lock_release
  split
  · rw [if_neg (by simp [lock_held_by_current_thread, hh]), sema_up_value]
    simp
  · rw [sema_up_value]
    simp

/-- The state in which `cond_wait` calls `lock_release`: the private
semaphore initialised, the element queued, the rest of the function pending. -/
theorem cond_wait_held (c l : Nat) (K : Kernel) (hi : K.in_intr = false)
    (hh : (K.locks l).holder = some K.cur) :
    cond_wait c l K =
      lock_release l
        ((cond_wait_enqueue c K).push
          [Instr.sema_down (.waiter K.cur), Instr.lock_acquire l]) := by
  unfold cond_wait
  rw [if_neg (by simp [hi]), if_neg (by simp [lock_held_by_current_thread, hh])]
  rfl

/-- After the call of `cond_wait` by the holder the caller is in the first
phases of the call. -/
theorem cond_wait_enters (c l : Nat) (K : Kernel) (hi : K.in_intr = false)
    (hh : (K.locks l).holder = some K.cur) (hc : K.cont K.cur = []) :
    ∃ body, InCondWait K.cur l (cond_wait c l K) body ∧ body ≠ [] ∧
      ∃ pre, (∀ i ∈ pre, ∃ lv, i = Instr.intr_set_level lv) ∧
        (cond_wait c l K).cont K.cur = pre ++ body ∧
        ((K.thread_mlfqs = false ∧ ((cond_wait c l K).locks l).holder = none ∧
            body = [Instr.sema_down (.waiter K.cur), Instr.lock_acquire l]) ∨
          (K.thread_mlfqs = true ∧
            body = [Instr.lock_release_mlfqs_ret l K.intr, Instr.sema_down (.waiter K.cur),
              Instr.lock_acquire l])) := by
  have hin : (cond_wait c l K).in_intr = false := by
    have := exec_in_intr (.cond_wait c l) K
    rw [← hi]
    exact this
  rw [cond_wait_held c l K hi hh] at hin ⊢
  have f1 : (cond_wait_enqueue c K).cur = K.cur := rfl
  have f2 : (cond_wait_enqueue c K).cont = K.cont := by
    simp [cond_wait_enqueue, sema_init]
  have f3 : (cond_wait_enqueue c K).locks = K.locks := by
    simp [cond_wait_enqueue, sema_init, Kernel.setSema]
  have f4 : (cond_wait_enqueue c K).thread_mlfqs = K.thread_mlfqs := by
    simp [cond_wait_enqueue, sema_init]
  have f5 : (cond_wait_enqueue c K).intr = K.intr := by
    simp [cond_wait_enqueue, sema_init]
  generalize cond_wait_enqueue c K = Kq at *
  obtain ⟨pre, hpre, h⟩ := lock_release_cont_cur l
    (Kq.push [Instr.sema_down (.waiter K.cur), Instr.lock_acquire l])
    (by rw [push_locks, push_cur, f3, f1]; exact hh)
  have e1 : (Kq.push [Instr.sema_down (.waiter K.cur), Instr.lock_acquire l]).cont K.cur =
      [Instr.sema_down (.waiter K.cur), Instr.lock_acquire l] := by
    rw [← f1, push_cont_cur, f2, f1, hc]
    rfl
  simp only [push_cur, push_intr, push_thread_mlfqs, f1, f4, f5] at h
  rw [e1] at h
  rcases h with ⟨hm, h1, h2⟩ | ⟨hm, h1⟩
  · exact ⟨_, ⟨hin, ⟨pre, h1, hpre⟩, .released (by rw [h2]; simp)⟩, by simp, pre, hpre, h1,
      Or.inl ⟨hm, h2, rfl⟩⟩
  · exact ⟨_, ⟨hin, ⟨pre, h1, hpre⟩, .releasing _⟩, by simp, pre, hpre, h1, Or.inr ⟨hm, rfl⟩⟩

/-- `lock_acquire` on a free lock, outside interrupt context: the caller is
the holder after one further step, with nothing of the call pending. -/
theorem lock_acquire_free (K : Kernel) (l : Nat) (hp : K.panicked = false)
    (hi : K.in_intr = false) (hh : (K.locks l).holder = none)
    (hv : (K.locks l).semaphore.value ≠ 0) :
    (step (exec (.lock_acquire l) K)).cont K.cur = K.cont K.cur ∧
      (step (exec (.lock_acquire l) K)).cur = K.cur ∧
      ((step (exec (.lock_acquire l) K)).locks l).holder = some K.cur ∧
      (step (exec (.lock_acquire l) K)).panicked = false := by
  cases hm : K.thread_mlfqs <;>
    simp [exec, lock_acquire, lock_acquire_donate, hm, hh, hi, hp, lock_held_by_current_thread,
      sema_down, sema_down_loop, hv, step, Kernel.push, Kernel.setSema, Kernel.getSema, upd,
      lock_acquire_ret, lock_acquire_mlfqs_ret, Kernel.setHolder, Kernel.setThread,
      Kernel.PANIC]

/-- A thread suspended in `cond_wait` on its private semaphore that is
resumed with that semaphore upped and the lock free returns from `cond_wait`
in three steps, as the holder of the lock. -/
theorem cond_wait_resumes (K : Kernel) (l : Nat) (lv : intr_level) (rest : List Instr)
    (hp : K.panicked = false) (hi : K.in_intr = false)
    (hc : K.cont K.cur = Instr.sema_down_loop (.waiter K.cur) lv :: Instr.lock_acquire l :: rest)
    (hv : (K.elems K.cur).value ≠ 0) (hh : (K.locks l).holder = none)
    (hvl : (K.locks l).semaphore.value ≠ 0) :
    (step (step (step K))).cont K.cur = rest ∧ (step (step (step K))).cur = K.cur ∧
      ((step (step (step K))).locks l).holder = some K.cur ∧
      (step (step (step K))).panicked = false := by
  have h1 : step K =
      { Kernel.setSema { K with cont := upd K.cont K.cur (Instr.lock_acquire l :: rest) }
          (.waiter K.cur)
          { value := uint_dec (K.elems K.cur).value, waiters := (K.elems K.cur).waiters } with
        intr := lv } := by
    rw [step_cons K _ _ hp hc]
    simp only [exec]
    unfold sema_down_loop
    rw [if_neg (by simpa [Kernel.getSema] using hv)]
    rfl
  have hu : upd (upd K.cont K.cur (Instr.lock_acquire l :: rest)) K.cur rest =
      upd K.cont K.cur rest := by
    funext t
    simp only [upd]
    split <;> rfl
  obtain ⟨K3, e3, c1, c2, c3, c4, c5, c6⟩ : ∃ K3 : Kernel,
      step (step K) = exec (.lock_acquire l) K3 ∧ K3.cur = K.cur ∧ K3.cont K.cur = rest ∧
        K3.panicked = false ∧ K3.in_intr = false ∧ (K3.locks l).holder = none ∧
        (K3.locks l).semaphore.value ≠ 0 := by
    refine ⟨{ Kernel.setSema { K with cont := upd K.cont K.cur rest } (.waiter K.cur)
        { value := uint_dec (K.elems K.cur).value, waiters := (K.elems K.cur).waiters } with
      intr := lv }, ?_, rfl, by simp [Kernel.setSema, upd], by simpa [Kernel.setSema] using hp,
      by simpa [Kernel.setSema] using hi, by simpa [Kernel.setSema] using hh,
      by simpa [Kernel.setSema] using hvl⟩
    rw [h1, step_cons _ (.lock_acquire l) rest (by simpa [Kernel.setSema] using hp)
      (by simp [Kernel.setSema, upd])]
    congr 1
    simp [Kernel.setSema, hu]
  rw [e3]
  have := lock_acquire_free K3 l c3 c4 c5 c6
  rw [c1, c2] at this
  exact this

/-! ## Fields no instruction changes: the policy -/

theorem lock_release_thread_mlfqs (l : Nat) (K : Kernel) :
    (lock_release l K).thread_mlfqs = K.thread_mlfqs := by
  unfold lock_release
  split
  · split <;> simp
  · simp

theorem cond_signal_thread_mlfqs (c l : Nat) (K : Kernel) :
    (cond_signal c l K).thread_mlfqs = K.thread_mlfqs := by
  unfold cond_signal
  split
  · simp
  · split
    · simp
    · split <;> simp

theorem exec_thread_mlfqs (i : Instr) (K : Kernel) :
    (exec i K).thread_mlfqs = K.thread_mlfqs := by
  cases i
  case sema_init s v => simp [exec]
  case sema_down s => simp [exec]
  case sema_try_down s => simp [exec]
  case sema_up s => simp [exec]
  case lock_init l => simp [exec, lock_init]
  case lock_acquire l =>
    simp only [exec]
    unfold lock_acquire
    split
    · simp only []
      split
      · simp
      · split <;> simp
    · simp
  case lock_try_acquire l =>
    simp only [exec]
    unfold lock_try_acquire
    split
    · simp
    · simp only []
      split <;> simp
  case lock_release l => exact lock_release_thread_mlfqs l K
  case lock_held_by_current_thread l => simp [exec]
  case cond_init c => rfl
  case cond_wait c l =>
    simp only [exec]
    unfold cond_wait
    split
    · simp
    · split
      · simp
      · simp only []
        rw [lock_release_thread_mlfqs]
        simp [sema_init]
  case cond_signal c l => exact cond_signal_thread_mlfqs c l K
  case cond_broadcast c l =>
    simp only [exec]
    unfold cond_broadcast
    split
    · rfl
    · rw [cond_signal_thread_mlfqs]
      simp
  case sema_down_loop s lv => simp [exec]
  case intr_set_level lv => rfl
  case lock_acquire_ret l => simp [exec, lock_acquire_ret]
  case lock_acquire_mlfqs_ret l lv => simp [exec, lock_acquire_mlfqs_ret]
  case lock_release_mlfqs_ret l lv => simp [exec, lock_release_mlfqs_ret]

theorem exec_seq_thread_mlfqs (ops : List Instr) :
    ∀ K : Kernel, (exec_seq ops K).thread_mlfqs = K.thread_mlfqs := by
  induction ops with
  | nil => intro K; rfl
  | cons i ops ih =>
    intro K
    show (exec_seq ops (exec i K)).thread_mlfqs = _
    rw [ih, exec_thread_mlfqs]

/-! ## Fields no instruction changes: the number of thread records -/

theorem lock_release_nthreads (l : Nat) (K : Kernel) :
    (lock_release l K).nthreads = K.nthreads := by
  unfold lock_release
  split
  · split <;> simp
  · simp

theorem cond_signal_nthreads (c l : Nat) (K : Kernel) :
    (cond_signal c l K).nthreads = K.nthreads := by
  unfold cond_signal
  split
  · simp
  · split
    · simp
    · split <;> simp

theorem exec_nthreads (i : Instr) (K : Kernel) :
    (exec i K).nthreads = K.nthreads := by
  cases i
  case sema_init s v => simp [exec]
  case sema_down s => simp [exec]
  case sema_try_down s => simp [exec]
  case sema_up s => simp [exec]
  case lock_init l => simp [exec, lock_init]
  case lock_acquire l =>
    simp only [exec]
    unfold lock_acquire
    split
    · simp only []
      split
      · simp
      · split <;> simp
    · simp
  case lock_try_acquire l =>
    simp only [exec]
    unfold lock_try_acquire
    split
    · simp
    · simp only []
      split <;> simp
  case lock_release l => exact lock_release_nthreads l K
  case lock_held_by_current_thread l => simp [exec]
  case cond_init c => rfl
  case cond_wait c l =>
    simp only [exec]
    unfold cond_wait
    split
    · simp
    · split
      · simp
      · simp only []
        rw [lock_release_nthreads]
        simp [sema_init]
  case cond_signal c l => exact cond_signal_nthreads c l K
  case cond_broadcast c l =>
    simp only [exec]
    unfold cond_broadcast
    split
    · rfl
    · rw [cond_signal_nthreads]
      simp
  case sema_down_loop s lv => simp [exec]
  case intr_set_level lv => rfl
  case lock_acquire_ret l => simp [exec, lock_acquire_ret]
  case lock_acquire_mlfqs_ret l lv => simp [exec, lock_acquire_mlfqs_ret]
  case lock_release_mlfqs_ret l lv => simp [exec, lock_release_mlfqs_ret]

theorem exec_seq_nthreads (ops : List Instr) :
    ∀ K : Kernel, (exec_seq ops K).nthreads = K.nthreads := by
  induction ops with
  | nil => intro K; rfl
  | cons i ops ih =>
    intro K
    show (exec_seq ops (exec i K)).nthreads = _
    rw [ih, exec_nthreads]

/-! ## What the scheduler does in a known situation -/

theorem schedule_eq (K : Kernel) (W : Tid) (h : next_thread_to_run K = W) :
    (schedule K).cur = W ∧ (schedule K).ready_list = K.ready_list.erase W ∧
      (schedule K).intr = intr_level.INTR_OFF ∧
      (schedule K).threads = upd K.threads W { K.threads W with status := .THREAD_RUNNING } := by
  subst h
  exact ⟨rfl, rfl, rfl, rfl⟩

/-- A thread blocks while the ready thread `W` outranks every other ready
thread: `W` is dispatched. -/
theorem thread_block_dispatch (K : Kernel) (W : Tid) (hW : W ∈ K.ready_list)
    (hWc : W ≠ K.cur)
    (hmax : ∀ r ∈ K.ready_list, r ≠ W → (K.threads r).priority < (K.threads W).priority) :
    (thread_block K).cur = W ∧ (thread_block K).ready_list = K.ready_list.erase W ∧
      (thread_block K).intr = intr_level.INTR_OFF ∧
      (thread_block K).threads =
        upd (upd K.threads K.cur { K.threads K.cur with status := .THREAD_BLOCKED }) W
          { K.threads W with status := .THREAD_RUNNING } := by
  unfold thread_block
  have hn : next_thread_to_run
      (K.setThread K.cur { K.threads K.cur with status := .THREAD_BLOCKED }) = W := by
    apply next_thread_to_run_eq
    · simpa using hW
    · intro r hr hne
      have hp : ∀ u, ((K.setThread K.cur
          { K.threads K.cur with status := .THREAD_BLOCKED }).threads u).priority =
          (K.threads u).priority :=
        setThread_priority_same _ _ _ (by rfl)
      rw [hp, hp]
      exact hmax r (by simpa using hr) hne
  obtain ⟨h1, h2, h3, h4⟩ := schedule_eq _ W hn
  refine ⟨h1, h2, h3, ?_⟩
  rw [h4]
  simp [Kernel.setThread, upd, hWc]

/-! ## A donation to a holder that waits on no lock -/

/-- The donation block of `lock_acquire` when the holder of the lock waits on
no lock itself: the caller records the lock, joins the donors of the holder,
and the priority of the holder is recomputed; the walk ends there. -/
theorem lock_acquire_donate_one (K : Kernel) (l : Nat) (H : Tid)
    (hh : (K.locks l).holder = some H) (hne : K.cur ≠ H)
    (hp : (K.threads H).priority < (K.threads K.cur).priority)
    (hwH : (K.threads H).wait_on_lock = none) (hn : 0 < K.nthreads) :
    lock_acquire_donate l K =
      refresh_priority_of H
        ((K.setThread K.cur { K.threads K.cur with wait_on_lock := some l }).setThread H
          { K.threads H with donations := (K.threads H).donations ++ [K.cur] }) := by
  obtain ⟨n, hn1⟩ : ∃ n, K.nthreads = n + 1 := ⟨K.nthreads - 1, by omega⟩
  have hthH : (K.setThread K.cur { K.threads K.cur with wait_on_lock := some l }).threads H =
      K.threads H := setThread_threads_other _ _ _ _ (Ne.symm hne)
  have hthC : (K.setThread K.cur { K.threads K.cur with wait_on_lock := some l }).threads K.cur =
      { K.threads K.cur with wait_on_lock := some l } := by
    simp [Kernel.setThread, upd]
  unfold lock_acquire_donate
  simp only [hh]
  rw [hthH, hthC, if_pos hp]
  unfold donate_priority
  simp only [setThread_nthreads, setThread_cur, hn1]
  unfold donate_walk
  have hw1 : (((K.setThread K.cur { K.threads K.cur with wait_on_lock := some l }).setThread H
      { K.threads H with donations := (K.threads H).donations ++ [K.cur] }).threads
        K.cur).wait_on_lock = some l := by
    rw [setThread_threads_other _ _ _ _ hne, hthC]
  simp only [hw1, setThread_locks, hh]
  cases n with
  | zero => rfl
  | succ m =>
    unfold donate_walk
    have hw2 : ((refresh_priority_of H
        ((K.setThread K.cur { K.threads K.cur with wait_on_lock := some l }).setThread H
          { K.threads H with donations := (K.threads H).donations ++ [K.cur] })).threads
            H).wait_on_lock = none := by
      rw [refresh_priority_of_wait_on_lock]
      simp [Kernel.setThread, upd, hwH]
    simp only [hw2]

/-! ## One turn of the loop of `cond_broadcast` -/

theorem cond_broadcast_done (c l : Nat) (K : Kernel) (h : (K.conds c).waiters = []) :
    cond_broadcast c l K = K := by
  unfold cond_broadcast
  rw [if_pos (by simp [h])]

theorem cond_broadcast_turn_eq (c l : Nat) (K : Kernel) (w : Tid) (ws1 : List Tid)
    (hi : K.in_intr = false) (hh : (K.locks l).holder = some K.cur)
    (hsort : list_sort (cmp_sem_priority K) (K.conds c).waiters = w :: ws1) :
    cond_broadcast c l K =
      sema_up (.waiter w)
        { K.push [Instr.cond_broadcast c l] with conds := upd K.conds c { waiters := ws1 } } := by
  have hne : (K.conds c).waiters ≠ [] := by
    intro h
    rw [h] at hsort
    simp [list_sort] at hsort
  unfold cond_broadcast
  rw [if_neg (by simpa using hne)]
  unfold cond_signal
  rw [if_neg (by simp [hi]), if_neg (by simp [lock_held_by_current_thread, hh])]
  have e : list_sort (cmp_sem_priority (K.push [Instr.cond_broadcast c l]))
      ((K.push [Instr.cond_broadcast c l]).conds c).waiters = w :: ws1 := hsort
  simp only [e]
  rfl

/-! ## Steps and the fields they leave alone -/

theorem step_cont_other (K : Kernel) (t : Tid) (h : t ≠ K.cur) : (step K).cont t = K.cont t := by
  unfold step
  split
  · rfl
  · split
    · rfl
    · rw [exec_cont_other _ _ t (by simpa using h)]
      simp [upd, h]

theorem step_intr_set_level (K : Kernel) (lv : intr_level) (tail : List Instr)
    (hp : K.panicked = false) (hc : K.cont K.cur = Instr.intr_set_level lv :: tail) :
    step K = { K with cont := upd K.cont K.cur tail, intr := lv } := by
  rw [step_cons K _ _ hp hc]
  rfl

/-- A list of two elements with different keys has one arrangement in
descending order of the keys. -/
theorem perm_pair_sorted (key : Tid → Int) (l : List Tid) (a b : Tid)
    (hp : l.Perm [a, b]) (hs : l.Pairwise fun x y => key y ≤ key x) (hk : key b < key a) :
    l = [a, b] := by
  obtain ⟨x, y, rfl⟩ := List.length_eq_two.1 (hp.length_eq.trans rfl)
  have hx : x = a ∨ x = b := by simpa using hp.subset (List.mem_cons_self x [y])
  have hy : y = a ∨ y = b := by simpa using hp.subset (show y ∈ [x, y] by simp)
  have ha : a = x ∨ a = y := by simpa using hp.symm.subset (List.mem_cons_self a [b])
  have hb : b = x ∨ b = y := by simpa using hp.symm.subset (show b ∈ [a, b] by simp)
  have hxy : key y ≤ key x := by
    rw [List.pairwise_cons] at hs
    exact hs.1 y (by simp)
  rcases hx with rfl | rfl
  · rcases hy with rfl | rfl
    · rcases hb with rfl | rfl <;> exact absurd hk (lt_irrefl _)
    · rfl
  · rcases hy with rfl | rfl
    · exact absurd hk (not_lt.2 hxy)
    · rcases ha with rfl | rfl <;> exact absurd hk (lt_irrefl _)

/-! ## The self-test: bookkeeping -/

theorem partner_ne (c : Tid) (h : c = 1 ∨ c = 2) : partner c ≠ c := by
  rcases h with rfl | rfl <;> decide

theorem partner_partner (c : Tid) (h : c = 1 ∨ c = 2) : partner (partner c) = c := by
  rcases h with rfl | rfl <;> rfl

theorem partner_mem (c : Tid) : partner c = 1 ∨ partner c = 2 := by
  unfold partner
  split
  · exact Or.inr rfl
  · exact Or.inl rfl

theorem partner_ne_zero (c : Tid) : partner c ≠ 0 := by
  rcases partner_mem c with h | h <;> rw [h] <;> decide

theorem restores_succ (j : Nat) :
    restores (j + 1) = Instr.intr_set_level intr_level.INTR_ON :: restores j := by
  simp [restores, List.replicate_succ]

theorem restores_zero : restores 0 = [] := rfl

theorem work_append (l1 l2 : List Instr) : work (l1 ++ l2) = work l1 + work l2 := by
  induction l1 with
  | nil => simp [work]
  | cons i l ih => simp [work, ih, Nat.add_assoc]

theorem work_restores (j : Nat) : work (restores j) = 0 := by
  induction j with
  | zero => rfl
  | succ j ih => rw [restores_succ]; simp [work, Instr.work, ih]

theorem work_sema_self_test_loop (k : Nat) : work (sema_self_test_loop k) = 4 * k := by
  induction k with
  | zero => rfl
  | succ k ih => simp [sema_self_test_loop, work, Instr.work, ih]; omega

theorem work_sema_test_helper (k : Nat) : work (sema_test_helper k) = 4 * k := by
  induction k with
  | zero => rfl
  | succ k ih => simp [sema_test_helper, work, Instr.work, ih]; omega

theorem next_thread_to_run_one (K : Kernel) (o : Tid) (h : K.ready_list = [o]) :
    next_thread_to_run K = o := by
  simp [next_thread_to_run, h, list_sort, sort_insert]

theorem next_thread_to_run_ready (K : Kernel) (h : K.ready_list ≠ []) :
    next_thread_to_run K ∈ K.ready_list := by
  unfold next_thread_to_run
  cases hs : list_sort (cmp_priority K) K.ready_list with
  | nil => exact absurd (list_sort_eq_nil _ _ hs) h
  | cons t rest => exact (list_sort_perm _ _).subset (by rw [hs]; simp)

/-- The scheduling state does not depend on the semaphores, on the interrupt
level, or on what the running thread has pending. -/
theorem Sched0.congr (K K1 : Kernel) (h : Sched0 K) (e1 : K1.panicked = K.panicked)
    (e2 : K1.in_intr = K.in_intr) (e3 : K1.idle_thread = K.idle_thread) (e4 : K1.cur = K.cur)
    (e5 : K1.threads = K.threads) (e6 : K1.ready_list = K.ready_list)
    (e7 : K1.cont (partner K.cur) = K.cont (partner K.cur)) : Sched0 K1 := by
  refine ⟨e1.trans h.alive, e2.trans h.context, e3.trans h.idle, ?_, ?_, ?_⟩
  · rw [e4]; exact h.running
  · rw [e5, e4]; exact h.status_cur
  · rw [e5, e4, e6, e7]; exact h.rest

theorem Sched0.cur_ne_idle (K : Kernel) (h : Sched0 K) : K.cur ≠ K.idle_thread := by
  rw [h.idle]
  rcases h.running with e | e <;> rw [e] <;> decide

/-- The running thread blocks while the other thread is ready: the other
thread is dispatched. -/
theorem sched_block (K : Kernel) (h : Sched0 K)
    (hr : (K.threads (partner K.cur)).status ≠ thread_status.THREAD_BLOCKED) :
    Sched (thread_block K) ∧ (thread_block K).cur = partner K.cur ∧
      ((thread_block K).threads K.cur).status = thread_status.THREAD_BLOCKED ∧
      ((thread_block K).threads (partner K.cur)).status = thread_status.THREAD_RUNNING := by
  have hne := partner_ne K.cur h.running
  rcases h.rest with ⟨hb, _⟩ | ⟨_, hrl, hres⟩
  · exact absurd hb hr
  · obtain ⟨hcur, hrl1, _, hth⟩ := thread_block_dispatch K (partner K.cur) (by rw [hrl]; simp) hne
      (by
        intro r hr2 hne2
        rw [hrl, List.mem_singleton] at hr2
        exact absurd hr2 hne2)
    have hrl2 : (thread_block K).ready_list = [] := by
      rw [hrl1, hrl]
      simp
    have hs1 : ((thread_block K).threads K.cur).status = thread_status.THREAD_BLOCKED := by
      rw [hth]
      simp [upd, Ne.symm hne]
    have hs2 : ((thread_block K).threads (partner K.cur)).status =
        thread_status.THREAD_RUNNING := by
      rw [hth]
      simp [upd]
    refine ⟨⟨⟨?_, ?_, ?_, ?_, ?_, ?_⟩, ?_⟩, hcur, hs1, hs2⟩
    · simp [h.alive]
    · simp [h.context]
    · simp [h.idle]
    · rw [hcur]; exact partner_mem _
    · rw [hcur]; exact hs2
    · left
      rw [hcur, partner_partner _ h.running]
      exact ⟨hs1, hrl2⟩
    · intro _
      rw [hcur, thread_block_cont]
      exact hres

/-- The blocked thread is made ready. -/
theorem sched_unblock (K : Kernel) (h : Sched0 K)
    (hb : (K.threads (partner K.cur)).status = thread_status.THREAD_BLOCKED)
    (hres : resumes (K.cont (partner K.cur)) = true) :
    Sched0 (thread_unblock (partner K.cur) K) ∧
      ((thread_unblock (partner K.cur) K).threads (partner K.cur)).status =
        thread_status.THREAD_READY ∧
      ((thread_unblock (partner K.cur) K).threads K.cur).status =
        thread_status.THREAD_RUNNING := by
  have hne := partner_ne K.cur h.running
  have hrl : K.ready_list = [] := by
    rcases h.rest with ⟨_, hrl⟩ | ⟨hb2, _, _⟩
    · exact hrl
    · rw [hb] at hb2
      exact absurd hb2 (by decide)
  have hs1 : ((thread_unblock (partner K.cur) K).threads (partner K.cur)).status =
      thread_status.THREAD_READY := by
    simp [thread_unblock, upd]
  have hs2 : ((thread_unblock (partner K.cur) K).threads K.cur).status =
      thread_status.THREAD_RUNNING := by
    simp [thread_unblock, upd, Ne.symm hne, h.status_cur]
  refine ⟨⟨?_, ?_, ?_, ?_, ?_, ?_⟩, hs1, hs2⟩
  · simp [h.alive]
  · simp [h.context]
  · simp [h.idle]
  · simp only [thread_unblock_cur]; exact h.running
  · simp only [thread_unblock_cur]; exact hs2
  · right
    simp only [thread_unblock_cur]
    refine ⟨hs1, ?_, ?_⟩
    · simp [thread_unblock, hrl]
    · simp only [thread_unblock_cont]; exact hres

/-- The running thread yields, with a restore of the interrupt level pending:
it is dispatched again, or the other thread is if it was ready.  No thread
becomes blocked or stops being blocked. -/
theorem sched_yield (K : Kernel) (h : Sched0 K) (hres : resumes (K.cont K.cur) = true) :
    Sched (thread_yield K) ∧
      ∀ t, ((thread_yield K).threads t).status = thread_status.THREAD_BLOCKED ↔
        (K.threads t).status = thread_status.THREAD_BLOCKED := by
  have hne := partner_ne K.cur h.running
  obtain ⟨K1, e1, k1, k2, k3, k4, k5, k6, k7⟩ : ∃ K1 : Kernel, thread_yield K = schedule K1 ∧
      K1.cur = K.cur ∧ K1.ready_list = K.ready_list ++ [K.cur] ∧
      K1.threads = upd K.threads K.cur { K.threads K.cur with status := .THREAD_READY } ∧
      K1.cont = K.cont ∧ K1.panicked = K.panicked ∧ K1.in_intr = K.in_intr ∧
      K1.idle_thread = K.idle_thread := by
    refine ⟨{ K with
        threads := upd K.threads K.cur { K.threads K.cur with status := .THREAD_READY }
        ready_list := K.ready_list ++ [K.cur] }, ?_, rfl, rfl, rfl, rfl, rfl, rfl, rfl⟩
    unfold thread_yield
    rw [if_neg (Sched0.cur_ne_idle K h)]
  have hmem : next_thread_to_run K1 ∈ K1.ready_list :=
    next_thread_to_run_ready K1 (by rw [k2]; simp)
  obtain ⟨s1, s2, s3, s4⟩ := schedule_eq K1 (next_thread_to_run K1) rfl
  have hst : ∀ t, ((thread_yield K).threads t).status =
      if t = next_thread_to_run K1 then thread_status.THREAD_RUNNING
      else if t = K.cur then thread_status.THREAD_READY else (K.threads t).status := by
    intro t
    rw [e1, s4, k3]
    simp only [upd]
    split
    · rfl
    · split <;> rfl
  have hcases : (next_thread_to_run K1 = K.cur ∧ (thread_yield K).ready_list = K.ready_list) ∨
      (next_thread_to_run K1 = partner K.cur ∧ K.ready_list = [partner K.cur] ∧
        (thread_yield K).ready_list = [K.cur]) := by
    rcases h.rest with ⟨_, hrl⟩ | ⟨_, hrl, _⟩
    · left
      rw [k2, hrl] at hmem
      have hn : next_thread_to_run K1 = K.cur := by simpa using hmem
      refine ⟨hn, ?_⟩
      rw [e1, s2, k2, hrl, hn]
      simp
    · rw [k2, hrl] at hmem
      have hn : next_thread_to_run K1 = partner K.cur ∨ next_thread_to_run K1 = K.cur := by
        simpa using hmem
      rcases hn with hn | hn
      · right
        refine ⟨hn, hrl, ?_⟩
        rw [e1, s2, k2, hrl, hn]
        simp
      · left
        refine ⟨hn, ?_⟩
        rw [e1, s2, k2, hrl, hn]
        simp [List.erase_cons, hne]
  have hcont : (thread_yield K).cont = K.cont := by rw [e1, schedule_cont, k4]
  have hcur : (thread_yield K).cur = next_thread_to_run K1 := by rw [e1, s1]
  refine ⟨⟨⟨?_, ?_, ?_, ?_, ?_, ?_⟩, ?_⟩, ?_⟩
  · rw [e1, schedule_panicked, k5]; exact h.alive
  · rw [e1, schedule_in_intr, k6]; exact h.context
  · rw [e1, schedule_idle_thread, k7]; exact h.idle
  · rw [hcur]
    rcases hcases with ⟨hn, _⟩ | ⟨hn, _, _⟩
    · rw [hn]; exact h.running
    · rw [hn]; exact partner_mem _
  · rw [hst, hcur]
    simp
  · rcases hcases with ⟨hn, hrl⟩ | ⟨hn, _, hrl⟩
    · rw [hcur, hn, hst, hrl, hcont, hn]
      simp only [if_neg hne]
      exact h.rest
    · right
      rw [hcur, hn, partner_partner _ h.running, hst, hrl, hcont, hn]
      simp only [if_neg (Ne.symm hne)]
      exact ⟨by simp, trivial, hres⟩
  · intro _
    rw [hcur, hcont]
    rcases hcases with ⟨hn, _⟩ | ⟨hn, hrl, _⟩
    · rw [hn]; exact hres
    · rw [hn]
      rcases h.rest with ⟨_, hrl2⟩ | ⟨_, _, hr⟩
      · rw [hrl2] at hrl
        exact absurd hrl (by simp)
      · exact hr
  · intro t
    rw [hst]
    by_cases ht : t = next_thread_to_run K1
    · rw [if_pos ht]
      have hnb : (K.threads t).status ≠ thread_status.THREAD_BLOCKED := by
        rcases hcases with ⟨hn, _⟩ | ⟨hn, hrl, _⟩
        · rw [ht, hn, h.status_cur]; decide
        · rcases h.rest with ⟨_, hrl2⟩ | ⟨hs, _, _⟩
          · rw [hrl2] at hrl
            exact absurd hrl (by simp)
          · rw [ht, hn, hs]; decide
      constructor
      · intro e; exact absurd e (by decide)
      · intro e; exact absurd e hnb
    · rw [if_neg ht]
      by_cases htc : t = K.cur
      · rw [if_pos htc]
        constructor
        · intro e; exact absurd e (by decide)
        · intro e
          rw [htc, h.status_cur] at e
          exact absurd e (by decide)
      · rw [if_neg htc]

theorem cont_restores_zero (K : Kernel) :
    upd K.cont K.cur (restores 0 ++ K.cont K.cur) = K.cont := by
  funext t
  simp only [upd, restores_zero, List.nil_append]
  split
  · next h => rw [h]
  · rfl

/-- The preemption check at the end of `sema_up`: the running thread carries
on with interrupts on, or it yields with the restore pending. -/
theorem sched_test (K : Kernel) (h : Sched0 K) :
    Sched (test_max_priority intr_level.INTR_ON K) ∧
      (∀ t, ((test_max_priority intr_level.INTR_ON K).threads t).status =
          thread_status.THREAD_BLOCKED ↔
        (K.threads t).status = thread_status.THREAD_BLOCKED) ∧
      ∃ j, (test_max_priority intr_level.INTR_ON K).cont =
        upd K.cont K.cur (restores j ++ K.cont K.cur) := by
  unfold test_max_priority
  split
  · have hp : Sched0 (K.push [Instr.intr_set_level intr_level.INTR_ON]) :=
      Sched0.congr K _ h rfl rfl rfl rfl rfl rfl
        (push_cont_other K _ _ (partner_ne K.cur h.running))
    obtain ⟨y1, y2⟩ := sched_yield _ hp (by rw [push_cur, push_cont_cur]; rfl)
    refine ⟨y1, y2, 1, ?_⟩
    rw [thread_yield_cont]
    rfl
  · refine ⟨⟨Sched0.congr K _ h rfl rfl rfl rfl rfl rfl rfl, ?_⟩, fun t => Iff.rfl, 0, ?_⟩
    · intro e
      exact absurd (show intr_level.INTR_ON = intr_level.INTR_OFF from e) (by decide)
    · exact (cont_restores_zero K).symm

/-- The timer preempts the running thread. -/
theorem sched_timer (K : Kernel) (h : Sched K) :
    Sched (K.act Action.timer) ∧
      (∀ t, ((K.act Action.timer).threads t).status = thread_status.THREAD_BLOCKED ↔
        (K.threads t).status = thread_status.THREAD_BLOCKED) ∧
      (K.act Action.timer).semas = K.semas ∧
      ∃ j, (K.act Action.timer).cont = upd K.cont K.cur (restores j ++ K.cont K.cur) := by
  have h0 : K.cont = upd K.cont K.cur (restores 0 ++ K.cont K.cur) :=
    (cont_restores_zero K).symm
  show Sched (if _ then _ else _) ∧ _
  simp only [Kernel.act]
  split
  · exact ⟨h, fun t => Iff.rfl, rfl, 0, h0⟩
  · have hp : Sched0 (K.push [Instr.intr_set_level intr_level.INTR_ON]) :=
      Sched0.congr K _ h.base rfl rfl rfl rfl rfl rfl
        (push_cont_other K _ _ (partner_ne K.cur h.base.running))
    obtain ⟨y1, y2⟩ := sched_yield _ hp (by rw [push_cur, push_cont_cur]; rfl)
    refine ⟨y1, y2, by simp, 1, ?_⟩
    rw [thread_yield_cont]
    rfl

/-- The timer preempts the running thread and the ready thread `t` is
dispatched. -/
theorem sched_switch (K : Kernel) (h : Sched K) (t : Tid) :
    Sched (K.turn (Turn.switch t)) ∧
      (∀ u, ((K.turn (Turn.switch t)).threads u).status = thread_status.THREAD_BLOCKED ↔
        (K.threads u).status = thread_status.THREAD_BLOCKED) ∧
      (K.turn (Turn.switch t)).semas = K.semas ∧
      ∃ j, (K.turn (Turn.switch t)).cont = upd K.cont K.cur (restores j ++ K.cont K.cur) := by
  have h0 : K.cont = upd K.cont K.cur (restores 0 ++ K.cont K.cur) :=
    (cont_restores_zero K).symm
  have hne := partner_ne K.cur h.base.running
  simp only [Kernel.turn]
  split
  · exact ⟨h, fun t => Iff.rfl, rfl, 0, h0⟩
  · next hg =>
    simp only [Bool.or_eq_true, Bool.not_eq_true', decide_eq_true_eq, decide_eq_false_iff_not,
      not_or, not_not] at hg
    obtain ⟨⟨_, _⟩, hmem⟩ := hg
    rcases h.base.rest with ⟨_, hrl⟩ | ⟨hs, hrl, hres⟩
    · rw [hrl] at hmem
      exact absurd hmem (by simp)
    · rw [hrl, List.mem_singleton] at hmem
      subst hmem
      have hpp := partner_partner _ h.base.running
      refine ⟨⟨⟨h.base.alive, h.base.context, h.base.idle, partner_mem _, ?_, ?_⟩, ?_⟩, ?_, rfl,
        1, rfl⟩
      · simp [thread_switch, upd]
      · right
        refine ⟨?_, ?_, ?_⟩
        · show ((thread_switch _ _).threads (partner (partner K.cur))).status = _
          rw [hpp]
          simp [thread_switch, upd, Ne.symm hne]
        · show (thread_switch _ _).ready_list = [partner (partner K.cur)]
          rw [hpp]
          simp [thread_switch, hrl]
        · show resumes ((K.push _).cont (partner (partner K.cur))) = true
          rw [hpp, push_cont_cur]
          rfl
      · intro _
        show resumes ((K.push _).cont (partner K.cur)) = true
        rw [push_cont_other K _ _ hne]
        exact hres
      · intro u
        simp only [thread_switch, push_threads, push_cur, upd]
        split
        · next hu =>
          subst hu
          simp [hs]
        · split
          · next hu =>
            subst hu
            simp [h.base.status_cur]
          · rfl

/-! ## The self-test: what one step does -/

/-- With a call pending for the running thread, interrupts are on. -/
theorem Sched.intr_on (K : Kernel) (h : Sched K) (hr : resumes (K.cont K.cur) = false) :
    K.intr = intr_level.INTR_ON := by
  cases e : K.intr with
  | INTR_ON => rfl
  | INTR_OFF =>
    have := h.masked e
    rw [hr] at this
    exact absurd this (by decide)

/-- The running thread restores the interrupt level. -/
theorem pp_restore (K : Kernel) (h : Sched K) (rest : List Instr)
    (hc : K.cont K.cur = Instr.intr_set_level intr_level.INTR_ON :: rest) :
    Sched (step K) ∧ (step K).cur = K.cur ∧ (step K).threads = K.threads ∧
      (step K).semas = K.semas ∧ (step K).cont = upd K.cont K.cur rest := by
  rw [step_intr_set_level K _ rest h.base.alive hc]
  refine ⟨⟨Sched0.congr K _ h.base rfl rfl rfl rfl rfl rfl ?_, ?_⟩, rfl, rfl, rfl, rfl⟩
  · show upd K.cont K.cur rest (partner K.cur) = _
    simp [upd, partner_ne K.cur h.base.running]
  · intro e
    exact absurd (show intr_level.INTR_ON = intr_level.INTR_OFF from e) (by decide)

/-- The running thread calls `sema_down` on a semaphore at 1: it takes the
unit and carries on. -/
theorem pp_down_pos (K : Kernel) (h : Sched K) (s : Nat) (rest : List Instr)
    (hc : K.cont K.cur = Instr.sema_down (.sema s) :: rest) (hv : (K.semas s).value = 1) :
    Sched (step K) ∧ (step K).cur = K.cur ∧ (step K).threads = K.threads ∧
      (step K).semas = upd K.semas s { value := 0, waiters := (K.semas s).waiters } ∧
      (step K).cont = upd K.cont K.cur rest := by
  have hon := Sched.intr_on K h (by rw [hc]; rfl)
  have hs : step K =
      Kernel.setSema { K with cont := upd K.cont K.cur rest } (.sema s)
        { value := uint_dec (K.semas s).value, waiters := (K.semas s).waiters } := by
    rw [step_cons K _ rest h.base.alive hc]
    exact sema_down_pos _ (.sema s) h.base.context
      (by show (K.semas s).value ≠ 0; rw [hv]; decide)
  rw [hs, hv, uint_dec_one]
  refine ⟨⟨Sched0.congr K _ h.base rfl rfl rfl rfl rfl rfl ?_, ?_⟩, rfl, rfl, rfl, rfl⟩
  · show upd K.cont K.cur rest (partner K.cur) = _
    simp [upd, partner_ne K.cur h.base.running]
  · intro e
    have e2 : K.intr = intr_level.INTR_OFF := e
    rw [hon] at e2
    exact absurd e2 (by decide)

/-- The running thread, woken, is at the test of the loop of `sema_down` and
finds the semaphore at 1: it takes the unit and carries on. -/
theorem pp_loop_pos (K : Kernel) (h : Sched K) (s : Nat) (rest : List Instr)
    (hc : K.cont K.cur = Instr.sema_down_loop (.sema s) intr_level.INTR_ON :: rest)
    (hv : (K.semas s).value = 1) :
    Sched (step K) ∧ (step K).cur = K.cur ∧ (step K).threads = K.threads ∧
      (step K).semas = upd K.semas s { value := 0, waiters := (K.semas s).waiters } ∧
      (step K).cont = upd K.cont K.cur rest := by
  have hs : step K =
      { Kernel.setSema { K with cont := upd K.cont K.cur rest } (.sema s)
          { value := uint_dec (K.semas s).value, waiters := (K.semas s).waiters } with
        intr := intr_level.INTR_ON } := by
    rw [step_cons K _ rest h.base.alive hc]
    show sema_down_loop _ _ _ = _
    unfold sema_down_loop
    rw [if_neg (by show ¬ (K.semas s).value = 0; rw [hv]; decide)]
    rfl
  rw [hs, hv, uint_dec_one]
  refine ⟨⟨Sched0.congr K _ h.base rfl rfl rfl rfl rfl rfl ?_, ?_⟩, rfl, rfl, rfl, rfl⟩
  · show upd K.cont K.cur rest (partner K.cur) = _
    simp [upd, partner_ne K.cur h.base.running]
  · intro e
    exact absurd (show intr_level.INTR_ON = intr_level.INTR_OFF from e) (by decide)

/-- The running thread calls `sema_down` on a semaphore at 0 without waiter
while the other thread is ready: it becomes the waiter and blocks, with the
test of the loop pending, and the other thread is dispatched. -/
theorem pp_down_zero (K : Kernel) (h : Sched K) (s : Nat) (rest : List Instr)
    (hc : K.cont K.cur = Instr.sema_down (.sema s) :: rest)
    (hv : K.semas s = { value := 0, waiters := [] })
    (hr : (K.threads (partner K.cur)).status ≠ thread_status.THREAD_BLOCKED) :
    Sched (step K) ∧ (step K).cur = partner K.cur ∧
      ((step K).threads K.cur).status = thread_status.THREAD_BLOCKED ∧
      ((step K).threads (partner K.cur)).status = thread_status.THREAD_RUNNING ∧
      (step K).semas = upd K.semas s { value := 0, waiters := [K.cur] } ∧
      (step K).cont =
        upd K.cont K.cur (Instr.sema_down_loop (.sema s) intr_level.INTR_ON :: rest) := by
  have hon := Sched.intr_on K h (by rw [hc]; rfl)
  have hne := partner_ne K.cur h.base.running
  obtain ⟨K0, e0, a1, a2, a3, a4, a5, a6, a7⟩ : ∃ K0 : Kernel,
      step K = exec (.sema_down (.sema s)) K0 ∧ Sched0 K0 ∧ K0.cur = K.cur ∧
      K0.threads = K.threads ∧ K0.semas = K.semas ∧ K0.cont = upd K.cont K.cur rest ∧
      K0.intr = K.intr ∧ K0.in_intr = false := by
    refine ⟨{ K with cont := upd K.cont K.cur rest }, step_cons K _ rest h.base.alive hc, ?_,
      rfl, rfl, rfl, rfl, rfl, h.base.context⟩
    refine Sched0.congr K _ h.base rfl rfl rfl rfl rfl rfl ?_
    show upd K.cont K.cur rest (partner K.cur) = _
    simp [upd, hne]
  have hv0 : K0.getSema (.sema s) = { value := 0, waiters := [] } := by
    show K0.semas s = _
    rw [a4, hv]
  obtain ⟨Kb, eb, b1, b2, b3, b4⟩ : ∃ Kb : Kernel, step K = thread_block Kb ∧
      Sched0 Kb ∧ Kb.cur = K.cur ∧ Kb.threads = K.threads ∧
      (Kb.semas = upd K.semas s { value := 0, waiters := [K.cur] } ∧
        Kb.cont =
          upd K.cont K.cur (Instr.sema_down_loop (.sema s) intr_level.INTR_ON :: rest)) := by
    refine ⟨(Kernel.setSema { K0 with intr := intr_level.INTR_OFF } (.sema s)
        { value := (K0.getSema (.sema s)).value,
          waiters := list_insert_ordered (cmp_priority K0) K0.cur
            (K0.getSema (.sema s)).waiters }).push
        [Instr.sema_down_loop (.sema s) K0.intr], ?_, ?_, a2, a3, ?_, ?_⟩
    · rw [e0]
      exact sema_down_zero K0 (.sema s) a7 (by rw [hv0])
    · refine Sched0.congr K0 _ a1 rfl rfl rfl rfl rfl rfl ?_
      show upd K0.cont K0.cur _ (partner K0.cur) = _
      simp [upd, partner_ne K0.cur a1.running]
    · show upd K0.semas s _ = _
      rw [hv0, a4, a2]
      rfl
    · show upd K0.cont K0.cur ([Instr.sema_down_loop (.sema s) K0.intr] ++ K0.cont K0.cur) = _
      rw [a6, hon, a5, a2]
      funext t
      by_cases ht : t = K.cur <;> simp [upd, ht]
  obtain ⟨b4, b5⟩ := b4
  obtain ⟨d1, d2, d3, d4⟩ := sched_block Kb b1 (by rw [b2, b3]; exact hr)
  rw [b2] at d2 d3 d4
  rw [eb]
  refine ⟨d1, d2, d3, d4, ?_, ?_⟩
  · rw [thread_block_semas, b4]
  · rw [thread_block_cont, b5]

/-- The running thread calls `sema_up` on a semaphore at 0 without waiter: the
semaphore goes to 1; the thread carries on or yields. -/
theorem pp_up_nil (K : Kernel) (h : Sched K) (s : Nat) (rest : List Instr)
    (hc : K.cont K.cur = Instr.sema_up (.sema s) :: rest)
    (hv : K.semas s = { value := 0, waiters := [] }) :
    Sched (step K) ∧
      (∀ t, ((step K).threads t).status = thread_status.THREAD_BLOCKED ↔
        (K.threads t).status = thread_status.THREAD_BLOCKED) ∧
      (step K).semas = upd K.semas s { value := 1, waiters := [] } ∧
      ∃ j, (step K).cont = upd K.cont K.cur (restores j ++ rest) := by
  have hon := Sched.intr_on K h (by rw [hc]; rfl)
  have hne := partner_ne K.cur h.base.running
  obtain ⟨K0, e0, a1, a2, a3, a4, a5, a6⟩ : ∃ K0 : Kernel,
      step K = exec (.sema_up (.sema s)) K0 ∧ Sched0 K0 ∧ K0.cur = K.cur ∧
      K0.threads = K.threads ∧ K0.semas = K.semas ∧ K0.cont = upd K.cont K.cur rest ∧
      K0.intr = K.intr := by
    refine ⟨{ K with cont := upd K.cont K.cur rest }, step_cons K _ rest h.base.alive hc, ?_,
      rfl, rfl, rfl, rfl, rfl⟩
    refine Sched0.congr K _ h.base rfl rfl rfl rfl rfl rfl ?_
    show upd K.cont K.cur rest (partner K.cur) = _
    simp [upd, hne]
  have hv0 : K0.getSema (.sema s) = { value := 0, waiters := [] } := by
    show K0.semas s = _
    rw [a4, hv]
  obtain ⟨Ku, eu, u1, u2, u3, u4, u5⟩ : ∃ Ku : Kernel,
      step K = test_max_priority intr_level.INTR_ON Ku ∧
      Sched0 Ku ∧ Ku.cur = K.cur ∧ Ku.threads = K.threads ∧
      Ku.semas = upd K.semas s { value := 1, waiters := [] } ∧
      Ku.cont = upd K.cont K.cur rest := by
    refine ⟨Kernel.setSema { K0 with intr := intr_level.INTR_OFF } (.sema s)
        { value := uint_inc (K0.getSema (.sema s)).value, waiters := [] }, ?_, ?_, a2, a3, ?_,
      a5⟩
    · rw [e0]
      show sema_up _ _ = _
      rw [sema_up_nil K0 (.sema s) (by rw [hv0]), a6, hon]
    · exact Sched0.congr K0 _ a1 rfl rfl rfl rfl rfl rfl rfl
    · show upd K0.semas s _ = _
      rw [hv0, uint_inc_zero, a4]
  obtain ⟨t1, t2, j, t3⟩ := sched_test Ku u1
  rw [eu]
  refine ⟨t1, ?_, ?_, j, ?_⟩
  · intro t
    rw [t2 t, u3]
  · rw [test_max_priority_semas, u4]
  · rw [t3, u2, u5]
    funext t
    by_cases ht : t = K.cur <;> simp [upd, ht]

/-- The running thread calls `sema_up` on a semaphore at 0 on which the other
thread is blocked: the other thread is woken and the semaphore goes to 1; the
running thread carries on or yields. -/
theorem pp_up_wake (K : Kernel) (h : Sched K) (s : Nat) (rest : List Instr)
    (hc : K.cont K.cur = Instr.sema_up (.sema s) :: rest)
    (hv : K.semas s = { value := 0, waiters := [partner K.cur] })
    (hb : (K.threads (partner K.cur)).status = thread_status.THREAD_BLOCKED)
    (hres : resumes (K.cont (partner K.cur)) = true) :
    Sched (step K) ∧
      ((step K).threads K.cur).status ≠ thread_status.THREAD_BLOCKED ∧
      ((step K).threads (partner K.cur)).status ≠ thread_status.THREAD_BLOCKED ∧
      (step K).semas = upd K.semas s { value := 1, waiters := [] } ∧
      ∃ j, (step K).cont = upd K.cont K.cur (restores j ++ rest) := by
  have hon := Sched.intr_on K h (by rw [hc]; rfl)
  have hne := partner_ne K.cur h.base.running
  obtain ⟨K0, e0, a1, a2, a3, a4, a5, a6⟩ : ∃ K0 : Kernel,
      step K = exec (.sema_up (.sema s)) K0 ∧ Sched0 K0 ∧ K0.cur = K.cur ∧
      K0.threads = K.threads ∧ K0.semas = K.semas ∧ K0.cont = upd K.cont K.cur rest ∧
      K0.intr = K.intr := by
    refine ⟨{ K with cont := upd K.cont K.cur rest }, step_cons K _ rest h.base.alive hc, ?_,
      rfl, rfl, rfl, rfl, rfl⟩
    refine Sched0.congr K _ h.base rfl rfl rfl rfl rfl rfl ?_
    show upd K.cont K.cur rest (partner K.cur) = _
    simp [upd, hne]
  have hv0 : K0.getSema (.sema s) = { value := 0, waiters := [partner K.cur] } := by
    show K0.semas s = _
    rw [a4, hv]
  have hsort : list_sort (cmp_priority K0) (K0.getSema (.sema s)).waiters =
      partner K.cur :: [] := by
    rw [hv0]
    rfl
  obtain ⟨Ku, eu, u1, u2, u3, u4, u5⟩ : ∃ Ku : Kernel,
      step K = test_max_priority intr_level.INTR_ON Ku ∧
      Sched0 Ku ∧ Ku.cur = K.cur ∧
      (Ku.threads K.cur).status = thread_status.THREAD_RUNNING ∧
      (Ku.threads (partner K.cur)).status = thread_status.THREAD_READY ∧
      (Ku.semas = upd K.semas s { value := 1, waiters := [] } ∧
        Ku.cont = upd K.cont K.cur rest) := by
    have hw : Sched0 (Kernel.setSema { K0 with intr := intr_level.INTR_OFF } (.sema s)
        { value := (K0.getSema (.sema s)).value, waiters := [] }) :=
      Sched0.congr K0 _ a1 rfl rfl rfl rfl rfl rfl rfl
    obtain ⟨w1, w2, w3⟩ := sched_unblock _ hw
      (by
        show (K0.threads (partner K0.cur)).status = _
        rw [a3, a2]; exact hb)
      (by
        show resumes (K0.cont (partner K0.cur)) = true
        rw [a2, a5]
        simp only [upd, if_neg hne]
        exact hres)
    refine ⟨Kernel.setSema
        (thread_unblock (partner K.cur)
          (Kernel.setSema { K0 with intr := intr_level.INTR_OFF } (.sema s)
            { value := (K0.getSema (.sema s)).value, waiters := [] }))
        (.sema s) { value := uint_inc (K0.getSema (.sema s)).value, waiters := [] },
      ?_, ?_, ?_, ?_, ?_, ?_, ?_⟩
    · rw [e0]
      show sema_up _ _ = _
      rw [sema_up_cons K0 (.sema s) (partner K.cur) [] hsort, a6, hon]
    · have e : partner K.cur = partner (Kernel.setSema { K0 with intr := intr_level.INTR_OFF }
          (.sema s) { value := (K0.getSema (.sema s)).value, waiters := [] }).cur := by
        show partner K.cur = partner K0.cur
        rw [a2]
      rw [e]
      exact Sched0.congr _ _ w1 rfl rfl rfl rfl rfl rfl rfl
    · exact a2
    · have := w3
      rw [show (Kernel.setSema { K0 with intr := intr_level.INTR_OFF } (.sema s)
          { value := (K0.getSema (.sema s)).value, waiters := [] }).cur = K.cur from a2] at this
      exact this
    · have := w2
      rw [show (Kernel.setSema { K0 with intr := intr_level.INTR_OFF } (.sema s)
          { value := (K0.getSema (.sema s)).value, waiters := [] }).cur = K.cur from a2] at this
      exact this
    · show upd (upd K0.semas s _) s _ = _
      rw [hv0, uint_inc_zero, a4]
      funext t
      by_cases ht : t = s <;> simp [upd, ht]
    · show K0.cont = _
      exact a5
  obtain ⟨u5, u6⟩ := u5
  obtain ⟨t1, t2, j, t3⟩ := sched_test Ku u1
  rw [eu]
  refine ⟨t1, ?_, ?_, ?_, j, ?_⟩
  · intro e
    have := (t2 K.cur).1 e
    rw [u3] at this
    exact absurd this (by decide)
  · intro e
    have := (t2 (partner K.cur)).1 e
    rw [u4] at this
    exact absurd this (by decide)
  · rw [test_max_priority_semas, u5]
  · rw [t3, u2, u6]
    funext t
    by_cases ht : t = K.cur <;> simp [upd, ht]

/-! ## The self-test: the invariant is kept -/

theorem step_nil (K : Kernel) (h : K.cont K.cur = []) : step K = K := by
  unfold step
  split
  · rfl
  · rw [h]

theorem left_eq (K : Kernel) (jm jh : Nat) (cm ch : List Instr)
    (c1 : K.cont 1 = restores jm ++ cm) (c2 : K.cont 2 = restores jh ++ ch) :
    K.left = work cm + work ch := by
  simp [Kernel.left, c1, c2, work_append, work_restores]

theorem resumes_restores_loop (j : Nat) (s : SemaRef) (l : List Instr) :
    resumes (restores j ++ Instr.sema_down_loop s intr_level.INTR_ON :: l) = true := by
  cases j with
  | zero => rfl
  | succ j => rw [restores_succ]; rfl

/-- The invariant after a transition, and what is left to do, from what the
transition did to the scheduling state, to the semaphores and to what the
threads have pending. -/
theorem ping_pong_after (K K1 : Kernel) (jm jh jm1 jh1 : Nat) (cm ch cm1 ch1 : List Instr)
    (s0 s1 : semaphore)
    (c1 : K.cont 1 = restores jm ++ cm) (c2 : K.cont 2 = restores jh ++ ch)
    (hS : Sched K1) (d1 : K1.cont 1 = restores jm1 ++ cm1)
    (d2 : K1.cont 2 = restores jh1 ++ ch1) (e0 : K1.semas 0 = s0) (e1 : K1.semas 1 = s1)
    (ph : Phase s0 s1 cm1 ch1)
    (b1 : (K1.threads 1).status = thread_status.THREAD_BLOCKED ↔ s1.waiters = [1])
    (b2 : (K1.threads 2).status = thread_status.THREAD_BLOCKED ↔ s0.waiters = [2])
    (hw : work cm1 + work ch1 < work cm + work ch) :
    PingPong K1 ∧ K1.left ≤ K.left ∧
      ∀ i rest, K.cont K.cur = i :: rest → i.is_restore = false → K1.left < K.left := by
  have hl : K1.left < K.left := by
    rw [left_eq K jm jh cm ch c1 c2, left_eq K1 jm1 jh1 cm1 ch1 d1 d2]
    exact hw
  refine ⟨⟨hS, ⟨jm1, jh1, cm1, ch1, d1, d2, ?_⟩, ?_, ?_⟩, le_of_lt hl, fun _ _ _ _ => hl⟩
  · rw [e0, e1]; exact ph
  · rw [e1]; exact b1
  · rw [e0]; exact b2

/-- The same for a transition that executes no call: a restore of the
interrupt level, or nothing at all. -/
theorem ping_pong_idle (K K1 : Kernel) (jm jh jm1 jh1 : Nat) (cm ch : List Instr)
    (c1 : K.cont 1 = restores jm ++ cm) (c2 : K.cont 2 = restores jh ++ ch)
    (ph : Phase (K.semas 0) (K.semas 1) cm ch)
    (hS : Sched K1) (d1 : K1.cont 1 = restores jm1 ++ cm)
    (d2 : K1.cont 2 = restores jh1 ++ ch) (e : K1.semas = K.semas)
    (b : ∀ t, (K1.threads t).status = thread_status.THREAD_BLOCKED ↔
      (K.threads t).status = thread_status.THREAD_BLOCKED)
    (h : PingPong K) :
    PingPong K1 ∧ K1.left = K.left := by
  refine ⟨⟨hS, ⟨jm1, jh1, cm, ch, d1, d2, ?_⟩, ?_, ?_⟩, ?_⟩
  · rw [e]; exact ph
  · rw [e, b 1]; exact h.blocked_main
  · rw [e, b 2]; exact h.blocked_helper
  · rw [left_eq K jm jh cm ch c1 c2, left_eq K1 jm1 jh1 cm ch d1 d2]

theorem upd_eq {β : Type} (f : Nat → β) (a : Nat) (b : β) : upd f a b a = b := by
  simp [upd]

theorem upd_ne {β : Type} (f : Nat → β) (a : Nat) (b : β) (x : Nat) (h : x ≠ a) :
    upd f a b x = f x := by
  simp [upd, h]

/-- A step of the main thread of the self-test keeps the invariant; if it
executes a call, less is left to do. -/
theorem ping_pong_step_main (K : Kernel) (h : PingPong K) (hcur : K.cur = 1) :
    PingPong (step K) ∧ (step K).left ≤ K.left ∧
      ∀ i rest, K.cont K.cur = i :: rest → i.is_restore = false → (step K).left < K.left := by
  obtain ⟨jm, jh, cm, ch, c1, c2, ph⟩ := h.forms
  cases jm with
  | succ j =>
    have hc : K.cont K.cur = Instr.intr_set_level intr_level.INTR_ON :: (restores j ++ cm) := by
      rw [hcur, c1, restores_succ]; rfl
    obtain ⟨r1, r2, r3, r4, r5⟩ := pp_restore K h.sched _ hc
    obtain ⟨p1, p2⟩ := ping_pong_idle K (step K) (j + 1) jh j jh cm ch c1 c2 ph r1
      (by rw [r5, hcur, upd_eq])
      (by rw [r5, hcur, upd_ne _ _ _ _ (by decide)]; exact c2) r4 (fun t => by rw [r3]) h
    refine ⟨p1, le_of_eq p2, ?_⟩
    intro i rest hi hr
    rw [hc] at hi
    have hi2 := (List.cons.inj hi).1
    rw [← hi2] at hr
    exact absurd hr (by decide)
  | zero =>
    have c1z : K.cont 1 = cm := by rw [c1, restores_zero]; rfl
    generalize hs0 : K.semas 0 = s0 at ph
    generalize hs1 : K.semas 1 = s1 at ph
    cases ph with
    | a_idle k =>
      cases k with
      | zero =>
        have hn : K.cont K.cur = [] := by rw [hcur, c1z]; rfl
        rw [step_nil K hn]
        refine ⟨h, le_refl _, ?_⟩
        intro i rest hi _
        rw [hn] at hi
        exact absurd hi (by simp)
      | succ k =>
        have hc : K.cont K.cur =
            Instr.sema_up (.sema 0) :: Instr.sema_down (.sema 1) :: sema_self_test_loop k := by
          rw [hcur, c1z]; rfl
        obtain ⟨r1, r3, r4, jr, r5⟩ := pp_up_nil K h.sched 0 _ hc hs0
        exact ping_pong_after K (step K) 0 jh jr jh _ _ _ _ _ _ c1 c2 r1
          (by rw [r5, hcur, upd_eq])
          (by rw [r5, hcur, upd_ne _ _ _ _ (by decide)]; exact c2)
          (by rw [r4, upd_eq])
          (by rw [r4, upd_ne _ _ _ _ (by decide)]; exact hs1)
          (Phase.b_dd k)
          (by rw [r3 1, h.blocked_main, hs1])
          (by rw [r3 2, h.blocked_helper, hs0])
          (by simp only [work, Instr.work, work_sema_self_test_loop, work_sema_test_helper]; omega)
    | a_wait k =>
      have hc : K.cont K.cur =
          Instr.sema_up (.sema 0) :: Instr.sema_down (.sema 1) :: sema_self_test_loop k := by
        rw [hcur, c1z]; rfl
      have hb : (K.threads (partner K.cur)).status = thread_status.THREAD_BLOCKED := by
        rw [hcur]
        exact h.blocked_helper.2 (by rw [hs0])
      have hres : resumes (K.cont (partner K.cur)) = true := by
        rw [hcur]
        show resumes (K.cont 2) = true
        rw [c2]
        exact resumes_restores_loop _ _ _
      obtain ⟨r1, r3, r3b, r4, jr, r5⟩ :=
        pp_up_wake K h.sched 0 _ hc (by rw [hs0, hcur]; rfl) hb hres
      rw [hcur] at r3 r3b
      exact ping_pong_after K (step K) 0 jh jr jh _ _ _ _ _ _ c1 c2 r1
        (by rw [r5, hcur, upd_eq])
        (by rw [r5, hcur, upd_ne _ _ _ _ (by decide)]; exact c2)
        (by rw [r4, upd_eq])
        (by rw [r4, upd_ne _ _ _ _ (by decide)]; exact hs1)
        (Phase.b_dl k)
        ⟨fun e => absurd e r3, fun e => absurd e (by simp)⟩
        ⟨fun e => absurd (show _ = thread_status.THREAD_BLOCKED from e) r3b,
          fun e => absurd e (by simp)⟩
        (by simp only [work, Instr.work, work_sema_self_test_loop, work_sema_test_helper]; omega)
    | b_dd j =>
      have hc : K.cont K.cur =
          Instr.sema_down (.sema 1) :: sema_self_test_loop j := by
        rw [hcur, c1z]
      have hr : (K.threads (partner K.cur)).status ≠ thread_status.THREAD_BLOCKED := by
        rw [hcur]
        intro e
        have := h.blocked_helper.1 e
        rw [hs0] at this
        exact absurd this (by simp)
      obtain ⟨r1, r2, r3, r3b, r4, r5⟩ := pp_down_zero K h.sched 1 _ hc hs1 hr
      rw [hcur] at r3 r3b
      exact ping_pong_after K (step K) 0 jh 0 jh _ _ _ _ _ _ c1 c2 r1
        (by rw [r5, hcur, upd_eq]; rfl)
        (by rw [r5, hcur, upd_ne _ _ _ _ (by decide)]; exact c2)
        (by rw [r4, upd_ne _ _ _ _ (by decide)]; exact hs0)
        (by rw [r4, upd_eq, hcur])
        (Phase.b_ld j)
        ⟨fun _ => rfl, fun _ => r3⟩
        ⟨fun e => absurd (r3b.symm.trans e) (by decide), fun e => absurd e (by simp)⟩
        (by simp only [work, Instr.work, work_sema_self_test_loop, work_sema_test_helper]; omega)
    | b_dl j =>
      have hc : K.cont K.cur =
          Instr.sema_down (.sema 1) :: sema_self_test_loop j := by
        rw [hcur, c1z]
      have hr : (K.threads (partner K.cur)).status ≠ thread_status.THREAD_BLOCKED := by
        rw [hcur]
        intro e
        have := h.blocked_helper.1 e
        rw [hs0] at this
        exact absurd this (by simp)
      obtain ⟨r1, r2, r3, r3b, r4, r5⟩ := pp_down_zero K h.sched 1 _ hc hs1 hr
      rw [hcur] at r3 r3b
      exact ping_pong_after K (step K) 0 jh 0 jh _ _ _ _ _ _ c1 c2 r1
        (by rw [r5, hcur, upd_eq]; rfl)
        (by rw [r5, hcur, upd_ne _ _ _ _ (by decide)]; exact c2)
        (by rw [r4, upd_ne _ _ _ _ (by decide)]; exact hs0)
        (by rw [r4, upd_eq, hcur])
        (Phase.b_ll j)
        ⟨fun _ => rfl, fun _ => r3⟩
        ⟨fun e => absurd (r3b.symm.trans e) (by decide), fun e => absurd e (by simp)⟩
        (by simp only [work, Instr.work, work_sema_self_test_loop, work_sema_test_helper]; omega)
    | b_ld j =>
      have hb := h.blocked_main.2 (by rw [hs1])
      rw [← hcur, h.sched.base.status_cur] at hb
      exact absurd hb (by decide)
    | b_ll j =>
      have hb := h.blocked_main.2 (by rw [hs1])
      rw [← hcur, h.sched.base.status_cur] at hb
      exact absurd hb (by decide)
    | c_d j =>
      have hc : K.cont K.cur =
          Instr.sema_down (.sema 1) :: sema_self_test_loop j := by
        rw [hcur, c1z]
      have hr : (K.threads (partner K.cur)).status ≠ thread_status.THREAD_BLOCKED := by
        rw [hcur]
        intro e
        have := h.blocked_helper.1 e
        rw [hs0] at this
        exact absurd this (by simp)
      obtain ⟨r1, r2, r3, r3b, r4, r5⟩ := pp_down_zero K h.sched 1 _ hc hs1 hr
      rw [hcur] at r3 r3b
      exact ping_pong_after K (step K) 0 jh 0 jh _ _ _ _ _ _ c1 c2 r1
        (by rw [r5, hcur, upd_eq]; rfl)
        (by rw [r5, hcur, upd_ne _ _ _ _ (by decide)]; exact c2)
        (by rw [r4, upd_ne _ _ _ _ (by decide)]; exact hs0)
        (by rw [r4, upd_eq, hcur])
        (Phase.c_l j)
        ⟨fun _ => rfl, fun _ => r3⟩
        ⟨fun e => absurd (r3b.symm.trans e) (by decide), fun e => absurd e (by simp)⟩
        (by simp only [work, Instr.work, work_sema_self_test_loop, work_sema_test_helper]; omega)
    | c_l j =>
      have hb := h.blocked_main.2 (by rw [hs1])
      rw [← hcur, h.sched.base.status_cur] at hb
      exact absurd hb (by decide)
    | d_d_idle j =>
      have hc : K.cont K.cur =
          Instr.sema_down (.sema 1) :: sema_self_test_loop j := by
        rw [hcur, c1z]
      obtain ⟨r1, r2, r3, r4, r5⟩ := pp_down_pos K h.sched 1 _ hc (by rw [hs1])
      exact ping_pong_after K (step K) 0 jh 0 jh _ _ _ _ _ _ c1 c2 r1
        (by rw [r5, hcur, upd_eq]; rfl)
        (by rw [r5, hcur, upd_ne _ _ _ _ (by decide)]; exact c2)
        (by rw [r4, upd_ne _ _ _ _ (by decide)]; exact hs0)
        (by rw [r4, upd_eq, hs1])
        (Phase.a_idle j)
        (by rw [r3, h.blocked_main, hs1])
        (by rw [r3, h.blocked_helper, hs0])
        (by simp only [work, Instr.work, work_sema_self_test_loop, work_sema_test_helper]; omega)
    | d_l_idle j =>
      have hc : K.cont K.cur =
          Instr.sema_down_loop (.sema 1) intr_level.INTR_ON :: sema_self_test_loop j := by
        rw [hcur, c1z]
      obtain ⟨r1, r2, r3, r4, r5⟩ := pp_loop_pos K h.sched 1 _ hc (by rw [hs1])
      exact ping_pong_after K (step K) 0 jh 0 jh _ _ _ _ _ _ c1 c2 r1
        (by rw [r5, hcur, upd_eq]; rfl)
        (by rw [r5, hcur, upd_ne _ _ _ _ (by decide)]; exact c2)
        (by rw [r4, upd_ne _ _ _ _ (by decide)]; exact hs0)
        (by rw [r4, upd_eq, hs1])
        (Phase.a_idle j)
        (by rw [r3, h.blocked_main, hs1])
        (by rw [r3, h.blocked_helper, hs0])
        (by simp only [work, Instr.work, work_sema_self_test_loop, work_sema_test_helper]; omega)
    | d_d_wait j =>
      have hc : K.cont K.cur =
          Instr.sema_down (.sema 1) :: sema_self_test_loop (j + 1) := by
        rw [hcur, c1z]
      obtain ⟨r1, r2, r3, r4, r5⟩ := pp_down_pos K h.sched 1 _ hc (by rw [hs1])
      exact ping_pong_after K (step K) 0 jh 0 jh _ _ _ _ _ _ c1 c2 r1
        (by rw [r5, hcur, upd_eq]; rfl)
        (by rw [r5, hcur, upd_ne _ _ _ _ (by decide)]; exact c2)
        (by rw [r4, upd_ne _ _ _ _ (by decide)]; exact hs0)
        (by rw [r4, upd_eq, hs1])
        (Phase.a_wait j)
        (by rw [r3, h.blocked_main, hs1])
        (by rw [r3, h.blocked_helper, hs0])
        (by simp only [work, Instr.work, work_sema_self_test_loop, work_sema_test_helper]; omega)
    | d_l_wait j =>
      have hc : K.cont K.cur =
          Instr.sema_down_loop (.sema 1) intr_level.INTR_ON :: sema_self_test_loop (j + 1) := by
        rw [hcur, c1z]
      obtain ⟨r1, r2, r3, r4, r5⟩ := pp_loop_pos K h.sched 1 _ hc (by rw [hs1])
      exact ping_pong_after K (step K) 0 jh 0 jh _ _ _ _ _ _ c1 c2 r1
        (by rw [r5, hcur, upd_eq]; rfl)
        (by rw [r5, hcur, upd_ne _ _ _ _ (by decide)]; exact c2)
        (by rw [r4, upd_ne _ _ _ _ (by decide)]; exact hs0)
        (by rw [r4, upd_eq, hs1])
        (Phase.a_wait j)
        (by rw [r3, h.blocked_main, hs1])
        (by rw [r3, h.blocked_helper, hs0])
        (by simp only [work, Instr.work, work_sema_self_test_loop, work_sema_test_helper]; omega)

/-- A step of the helper thread of the self-test keeps the invariant; if it
executes a call, less is left to do. -/
theorem ping_pong_step_helper (K : Kernel) (h : PingPong K) (hcur : K.cur = 2) :
    PingPong (step K) ∧ (step K).left ≤ K.left ∧
      ∀ i rest, K.cont K.cur = i :: rest → i.is_restore = false → (step K).left < K.left := by
  obtain ⟨jm, jh, cm, ch, c1, c2, ph⟩ := h.forms
  cases jh with
  | succ j =>
    have hc : K.cont K.cur = Instr.intr_set_level intr_level.INTR_ON :: (restores j ++ ch) := by
      rw [hcur, c2, restores_succ]; rfl
    obtain ⟨r1, r2, r3, r4, r5⟩ := pp_restore K h.sched _ hc
    obtain ⟨p1, p2⟩ := ping_pong_idle K (step K) jm (j + 1) jm j cm ch c1 c2 ph r1
      (by rw [r5, hcur, upd_ne _ _ _ _ (by decide)]; exact c1)
      (by rw [r5, hcur, upd_eq]) r4 (fun t => by rw [r3]) h
    refine ⟨p1, le_of_eq p2, ?_⟩
    intro i rest hi hr
    rw [hc] at hi
    have hi2 := (List.cons.inj hi).1
    rw [← hi2] at hr
    exact absurd hr (by decide)
  | zero =>
    have c2z : K.cont 2 = ch := by rw [c2, restores_zero]; rfl
    generalize hs0 : K.semas 0 = s0 at ph
    generalize hs1 : K.semas 1 = s1 at ph
    cases ph with
    | a_idle k =>
      cases k with
      | zero =>
        have hn : K.cont K.cur = [] := by rw [hcur, c2z]; rfl
        rw [step_nil K hn]
        refine ⟨h, le_refl _, ?_⟩
        intro i rest hi _
        rw [hn] at hi
        exact absurd hi (by simp)
      | succ k =>
        have hc : K.cont K.cur =
            Instr.sema_down (.sema 0) :: Instr.sema_up (.sema 1) :: sema_test_helper k := by
          rw [hcur, c2z]; rfl
        have hr : (K.threads (partner K.cur)).status ≠ thread_status.THREAD_BLOCKED := by
          rw [hcur]
          intro e
          have := h.blocked_main.1 e
          rw [hs1] at this
          exact absurd this (by simp)
        obtain ⟨r1, r2, r3, r3b, r4, r5⟩ := pp_down_zero K h.sched 0 _ hc hs0 hr
        rw [hcur] at r3 r3b
        exact ping_pong_after K (step K) jm 0 jm 0 _ _ _ _ _ _ c1 c2 r1
          (by rw [r5, hcur, upd_ne _ _ _ _ (by decide)]; exact c1)
          (by rw [r5, hcur, upd_eq]; rfl)
          (by rw [r4, upd_eq, hcur])
          (by rw [r4, upd_ne _ _ _ _ (by decide)]; exact hs1)
          (Phase.a_wait k)
          ⟨fun e => absurd (r3b.symm.trans e) (by decide), fun e => absurd e (by simp)⟩
          ⟨fun _ => rfl, fun _ => r3⟩
          (by simp only [work, Instr.work, work_sema_self_test_loop, work_sema_test_helper]; omega)
    | a_wait k =>
      have hb := h.blocked_helper.2 (by rw [hs0])
      rw [← hcur, h.sched.base.status_cur] at hb
      exact absurd hb (by decide)
    | b_dd j =>
      have hc : K.cont K.cur =
          Instr.sema_down (.sema 0) :: Instr.sema_up (.sema 1) :: sema_test_helper j := by
        rw [hcur, c2z]
      obtain ⟨r1, r2, r3, r4, r5⟩ := pp_down_pos K h.sched 0 _ hc (by rw [hs0])
      exact ping_pong_after K (step K) jm 0 jm 0 _ _ _ _ _ _ c1 c2 r1
        (by rw [r5, hcur, upd_ne _ _ _ _ (by decide)]; exact c1)
        (by rw [r5, hcur, upd_eq]; rfl)
        (by rw [r4, upd_eq, hs0])
        (by rw [r4, upd_ne _ _ _ _ (by decide)]; exact hs1)
        (Phase.c_d j)
        (by rw [r3, h.blocked_main, hs1])
        (by rw [r3, h.blocked_helper, hs0])
        (by simp only [work, Instr.work, work_sema_self_test_loop, work_sema_test_helper]; omega)
    | b_dl j =>
      have hc : K.cont K.cur =
          Instr.sema_down_loop (.sema 0) intr_level.INTR_ON ::
            Instr.sema_up (.sema 1) :: sema_test_helper j := by
        rw [hcur, c2z]
      obtain ⟨r1, r2, r3, r4, r5⟩ := pp_loop_pos K h.sched 0 _ hc (by rw [hs0])
      exact ping_pong_after K (step K) jm 0 jm 0 _ _ _ _ _ _ c1 c2 r1
        (by rw [r5, hcur, upd_ne _ _ _ _ (by decide)]; exact c1)
        (by rw [r5, hcur, upd_eq]; rfl)
        (by rw [r4, upd_eq, hs0])
        (by rw [r4, upd_ne _ _ _ _ (by decide)]; exact hs1)
        (Phase.c_d j)
        (by rw [r3, h.blocked_main, hs1])
        (by rw [r3, h.blocked_helper, hs0])
        (by simp only [work, Instr.work, work_sema_self_test_loop, work_sema_test_helper]; omega)
    | b_ld j =>
      have hc : K.cont K.cur =
          Instr.sema_down (.sema 0) :: Instr.sema_up (.sema 1) :: sema_test_helper j := by
        rw [hcur, c2z]
      obtain ⟨r1, r2, r3, r4, r5⟩ := pp_down_pos K h.sched 0 _ hc (by rw [hs0])
      exact ping_pong_after K (step K) jm 0 jm 0 _ _ _ _ _ _ c1 c2 r1
        (by rw [r5, hcur, upd_ne _ _ _ _ (by decide)]; exact c1)
        (by rw [r5, hcur, upd_eq]; rfl)
        (by rw [r4, upd_eq, hs0])
        (by rw [r4, upd_ne _ _ _ _ (by decide)]; exact hs1)
        (Phase.c_l j)
        (by rw [r3, h.blocked_main, hs1])
        (by rw [r3, h.blocked_helper, hs0])
        (by simp only [work, Instr.work, work_sema_self_test_loop, work_sema_test_helper]; omega)
    | b_ll j =>
      have hc : K.cont K.cur =
          Instr.sema_down_loop (.sema 0) intr_level.INTR_ON ::
            Instr.sema_up (.sema 1) :: sema_test_helper j := by
        rw [hcur, c2z]
      obtain ⟨r1, r2, r3, r4, r5⟩ := pp_loop_pos K h.sched 0 _ hc (by rw [hs0])
      exact ping_pong_after K (step K) jm 0 jm 0 _ _ _ _ _ _ c1 c2 r1
        (by rw [r5, hcur, upd_ne _ _ _ _ (by decide)]; exact c1)
        (by rw [r5, hcur, upd_eq]; rfl)
        (by rw [r4, upd_eq, hs0])
        (by rw [r4, upd_ne _ _ _ _ (by decide)]; exact hs1)
        (Phase.c_l j)
        (by rw [r3, h.blocked_main, hs1])
        (by rw [r3, h.blocked_helper, hs0])
        (by simp only [work, Instr.work, work_sema_self_test_loop, work_sema_test_helper]; omega)
    | c_d j =>
      have hc : K.cont K.cur = Instr.sema_up (.sema 1) :: sema_test_helper j := by rw [hcur, c2z]
      obtain ⟨r1, r3, r4, jr, r5⟩ := pp_up_nil K h.sched 1 _ hc hs1
      exact ping_pong_after K (step K) jm 0 jm jr _ _ _ _ _ _ c1 c2 r1
        (by rw [r5, hcur, upd_ne _ _ _ _ (by decide)]; exact c1)
        (by rw [r5, hcur, upd_eq])
        (by rw [r4, upd_ne _ _ _ _ (by decide)]; exact hs0)
        (by rw [r4, upd_eq])
        (Phase.d_d_idle j)
        (by rw [r3 1, h.blocked_main, hs1])
        (by rw [r3 2, h.blocked_helper, hs0])
        (by simp only [work, Instr.work, work_sema_self_test_loop, work_sema_test_helper]; omega)
    | c_l j =>
      have hc : K.cont K.cur = Instr.sema_up (.sema 1) :: sema_test_helper j := by rw [hcur, c2z]
      have hb : (K.threads (partner K.cur)).status = thread_status.THREAD_BLOCKED := by
        rw [hcur]
        exact h.blocked_main.2 (by rw [hs1])
      have hres : resumes (K.cont (partner K.cur)) = true := by
        rw [hcur]
        show resumes (K.cont 1) = true
        rw [c1]
        exact resumes_restores_loop _ _ _
      obtain ⟨r1, r3, r3b, r4, jr, r5⟩ :=
        pp_up_wake K h.sched 1 _ hc (by rw [hs1, hcur]; rfl) hb hres
      rw [hcur] at r3 r3b
      exact ping_pong_after K (step K) jm 0 jm jr _ _ _ _ _ _ c1 c2 r1
        (by rw [r5, hcur, upd_ne _ _ _ _ (by decide)]; exact c1)
        (by rw [r5, hcur, upd_eq])
        (by rw [r4, upd_ne _ _ _ _ (by decide)]; exact hs0)
        (by rw [r4, upd_eq])
        (Phase.d_l_idle j)
        ⟨fun e => absurd (show _ = thread_status.THREAD_BLOCKED from e) r3b,
          fun e => absurd e (by simp)⟩
        ⟨fun e => absurd e r3, fun e => absurd e (by simp)⟩
        (by simp only [work, Instr.work, work_sema_self_test_loop, work_sema_test_helper]; omega)
    | d_d_idle j =>
      cases j with
      | zero =>
        have hn : K.cont K.cur = [] := by rw [hcur, c2z]; rfl
        rw [step_nil K hn]
        refine ⟨h, le_refl _, ?_⟩
        intro i rest hi _
        rw [hn] at hi
        exact absurd hi (by simp)
      | succ j =>
        have hc : K.cont K.cur =
            Instr.sema_down (.sema 0) :: Instr.sema_up (.sema 1) :: sema_test_helper j := by
          rw [hcur, c2z]; rfl
        have hr : (K.threads (partner K.cur)).status ≠ thread_status.THREAD_BLOCKED := by
          rw [hcur]
          intro e
          have := h.blocked_main.1 e
          rw [hs1] at this
          exact absurd this (by simp)
        obtain ⟨r1, r2, r3, r3b, r4, r5⟩ := pp_down_zero K h.sched 0 _ hc hs0 hr
        rw [hcur] at r3 r3b
        exact ping_pong_after K (step K) jm 0 jm 0 _ _ _ _ _ _ c1 c2 r1
          (by rw [r5, hcur, upd_ne _ _ _ _ (by decide)]; exact c1)
          (by rw [r5, hcur, upd_eq]; rfl)
          (by rw [r4, upd_eq, hcur])
          (by rw [r4, upd_ne _ _ _ _ (by decide)]; exact hs1)
          (Phase.d_d_wait j)
          ⟨fun e => absurd (r3b.symm.trans e) (by decide), fun e => absurd e (by simp)⟩
          ⟨fun _ => rfl, fun _ => r3⟩
          (by simp only [work, Instr.work, work_sema_self_test_loop, work_sema_test_helper]; omega)
    | d_l_idle j =>
      cases j with
      | zero =>
        have hn : K.cont K.cur = [] := by rw [hcur, c2z]; rfl
        rw [step_nil K hn]
        refine ⟨h, le_refl _, ?_⟩
        intro i rest hi _
        rw [hn] at hi
        exact absurd hi (by simp)
      | succ j =>
        have hc : K.cont K.cur =
            Instr.sema_down (.sema 0) :: Instr.sema_up (.sema 1) :: sema_test_helper j := by
          rw [hcur, c2z]; rfl
        have hr : (K.threads (partner K.cur)).status ≠ thread_status.THREAD_BLOCKED := by
          rw [hcur]
          intro e
          have := h.blocked_main.1 e
          rw [hs1] at this
          exact absurd this (by simp)
        obtain ⟨r1, r2, r3, r3b, r4, r5⟩ := pp_down_zero K h.sched 0 _ hc hs0 hr
        rw [hcur] at r3 r3b
        exact ping_pong_after K (step K) jm 0 jm 0 _ _ _ _ _ _ c1 c2 r1
          (by rw [r5, hcur, upd_ne _ _ _ _ (by decide)]; exact c1)
          (by rw [r5, hcur, upd_eq]; rfl)
          (by rw [r4, upd_eq, hcur])
          (by rw [r4, upd_ne _ _ _ _ (by decide)]; exact hs1)
          (Phase.d_l_wait j)
          ⟨fun e => absurd (r3b.symm.trans e) (by decide), fun e => absurd e (by simp)⟩
          ⟨fun _ => rfl, fun _ => r3⟩
          (by simp only [work, Instr.work, work_sema_self_test_loop, work_sema_test_helper]; omega)
    | d_d_wait j =>
      have hb := h.blocked_helper.2 (by rw [hs0])
      rw [← hcur, h.sched.base.status_cur] at hb
      exact absurd hb (by decide)
    | d_l_wait j =>
      have hb := h.blocked_helper.2 (by rw [hs0])
      rw [← hcur, h.sched.base.status_cur] at hb
      exact absurd hb (by decide)

theorem restores_add (j k : Nat) : restores j ++ restores k = restores (j + k) := by
  induction j with
  | zero => simp [restores_zero]
  | succ j ih => rw [Nat.succ_add, restores_succ, restores_succ, List.cons_append, ih]

/-- A step keeps the invariant of the self-test and leaves no more to do; if
it executes a call, it leaves less to do. -/
theorem ping_pong_step (K : Kernel) (h : PingPong K) :
    PingPong (step K) ∧ (step K).left ≤ K.left ∧
      ∀ i rest, K.cont K.cur = i :: rest → i.is_restore = false → (step K).left < K.left := by
  rcases h.sched.base.running with hcur | hcur
  · exact ping_pong_step_main K h hcur
  · exact ping_pong_step_helper K h hcur

/-- A transition that switches threads, pushing restores of the interrupt
level on the thread that was running, keeps the invariant. -/
theorem ping_pong_pushed (K K1 : Kernel) (h : PingPong K) (hS : Sched K1)
    (hb : ∀ t, (K1.threads t).status = thread_status.THREAD_BLOCKED ↔
      (K.threads t).status = thread_status.THREAD_BLOCKED)
    (hs : K1.semas = K.semas)
    (hc : ∃ j, K1.cont = upd K.cont K.cur (restores j ++ K.cont K.cur)) :
    PingPong K1 ∧ K1.left = K.left := by
  obtain ⟨jm, jh, cm, ch, c1, c2, ph⟩ := h.forms
  obtain ⟨j, hc⟩ := hc
  rcases h.sched.base.running with hcur | hcur
  · exact ping_pong_idle K K1 jm jh (j + jm) jh cm ch c1 c2 ph hS
      (by rw [hc, hcur, upd_eq, c1, ← List.append_assoc, restores_add])
      (by rw [hc, hcur, upd_ne _ _ _ _ (by decide)]; exact c2) hs hb h
  · exact ping_pong_idle K K1 jm jh jm (j + jh) cm ch c1 c2 ph hS
      (by rw [hc, hcur, upd_ne _ _ _ _ (by decide)]; exact c1)
      (by rw [hc, hcur, upd_eq, c2, ← List.append_assoc, restores_add]) hs hb h

/-- Every transition keeps the invariant of the self-test and leaves no more
to do. -/
theorem ping_pong_turn (K : Kernel) (h : PingPong K) (t : Turn) :
    PingPong (K.turn t) ∧ (K.turn t).left ≤ K.left := by
  cases t with
  | step =>
    obtain ⟨p1, p2, _⟩ := ping_pong_step K h
    exact ⟨p1, p2⟩
  | timer =>
    obtain ⟨s1, s2, s3, s4⟩ := sched_timer K h.sched
    obtain ⟨p1, p2⟩ := ping_pong_pushed K _ h s1 s2 s3 s4
    exact ⟨p1, le_of_eq p2⟩
  | switch u =>
    obtain ⟨s1, s2, s3, s4⟩ := sched_switch K h.sched u
    obtain ⟨p1, p2⟩ := ping_pong_pushed K _ h s1 s2 s3 s4
    exact ⟨p1, le_of_eq p2⟩

theorem turns_append (K : Kernel) (ts us : List Turn) :
    K.turns (ts ++ us) = (K.turns ts).turns us := by
  simp [Kernel.turns, List.foldl_append]

theorem turns_cons (K : Kernel) (t : Turn) (ts : List Turn) :
    K.turns (t :: ts) = (K.turn t).turns ts := rfl

/-- Every run keeps the invariant of the self-test and leaves no more to
do. -/
theorem ping_pong_turns (ts : List Turn) :
    ∀ K, PingPong K → PingPong (K.turns ts) ∧ (K.turns ts).left ≤ K.left := by
  induction ts with
  | nil => exact fun K h => ⟨h, le_refl _⟩
  | cons t ts ih =>
    intro K h
    obtain ⟨p1, p2⟩ := ping_pong_turn K h t
    obtain ⟨q1, q2⟩ := ih _ p1
    exact ⟨q1, le_trans q2 p2⟩

/-- The invariant holds at the entry of the loop of `sema_self_test`. -/
theorem ping_pong_init (mlfqs : Bool) (pri : Tid → Int) (n : Nat) :
    PingPong (sema_self_test mlfqs pri n) := by
  refine ⟨⟨⟨rfl, rfl, rfl, Or.inl rfl, rfl, Or.inr ⟨rfl, rfl, rfl⟩⟩, ?_⟩,
    ⟨0, 1, sema_self_test_loop n, sema_test_helper n, rfl, rfl, Phase.a_idle n⟩, ?_, ?_⟩
  · intro e
    exact absurd (show intr_level.INTR_ON = intr_level.INTR_OFF from e) (by decide)
  · constructor
    · intro e
      exact absurd (show thread_status.THREAD_RUNNING = thread_status.THREAD_BLOCKED from e)
        (by decide)
    · intro e
      exact absurd (show ([] : List Tid) = [1] from e) (by simp)
  · constructor
    · intro e
      exact absurd (show thread_status.THREAD_READY = thread_status.THREAD_BLOCKED from e)
        (by decide)
    · intro e
      exact absurd (show ([] : List Tid) = [2] from e) (by simp)

/-! ## The self-test: completion -/

/-- Where the main thread has nothing left, neither has the helper, and the
semaphores are at 0 without waiter. -/
theorem phase_main_done (s0 s1 : semaphore) (cm ch : List Instr) (ph : Phase s0 s1 cm ch)
    (h : cm = []) : s0 = ⟨0, []⟩ ∧ s1 = ⟨0, []⟩ ∧ ch = [] := by
  cases ph with
  | a_idle k =>
    cases k with
    | zero => exact ⟨rfl, rfl, rfl⟩
    | succ k => exact absurd h (by simp [sema_self_test_loop])
  | a_wait k => exact absurd h (by simp [sema_self_test_loop])
  | b_dd j => exact absurd h (by simp)
  | b_dl j => exact absurd h (by simp)
  | b_ld j => exact absurd h (by simp)
  | b_ll j => exact absurd h (by simp)
  | c_d j => exact absurd h (by simp)
  | c_l j => exact absurd h (by simp)
  | d_d_idle j => exact absurd h (by simp)
  | d_l_idle j => exact absurd h (by simp)
  | d_d_wait j => exact absurd h (by simp)
  | d_l_wait j => exact absurd h (by simp)

/-- Where the helper has nothing left, the main thread has nothing left
either or is about to take the unit of semaphore 1. -/
theorem phase_helper_done (s0 s1 : semaphore) (cm ch : List Instr) (ph : Phase s0 s1 cm ch)
    (h : ch = []) : cm = [] ∨ s1 = ⟨1, []⟩ := by
  cases ph with
  | a_idle k =>
    cases k with
    | zero => exact Or.inl rfl
    | succ k => exact absurd h (by simp [sema_test_helper])
  | a_wait k => exact absurd h (by simp)
  | b_dd j => exact absurd h (by simp)
  | b_dl j => exact absurd h (by simp)
  | b_ld j => exact absurd h (by simp)
  | b_ll j => exact absurd h (by simp)
  | c_d j => exact absurd h (by simp)
  | c_l j => exact absurd h (by simp)
  | d_d_idle j => exact Or.inr rfl
  | d_l_idle j => exact Or.inr rfl
  | d_d_wait j => exact absurd h (by simp)
  | d_l_wait j => exact absurd h (by simp)

/-- What a thread has pending behind the restores of the interrupt level
begins with a call. -/
theorem phase_head (s0 s1 : semaphore) (cm ch : List Instr) (ph : Phase s0 s1 cm ch) :
    (∀ i rest, cm = i :: rest → i.is_restore = false) ∧
      ∀ i rest, ch = i :: rest → i.is_restore = false := by
  have key : ∀ (i0 : Instr) (l : List Instr), i0.is_restore = false →
      ∀ i rest, i0 :: l = i :: rest → i.is_restore = false := by
    intro i0 l h0 i rest e
    rw [← (List.cons.inj e).1]
    exact h0
  have kl : ∀ k i rest, sema_self_test_loop k = i :: rest → i.is_restore = false := by
    intro k i rest e
    cases k with
    | zero => exact absurd e (by simp [sema_self_test_loop])
    | succ k => exact key (Instr.sema_up (.sema 0)) _ rfl i rest e
  have kh : ∀ k i rest, sema_test_helper k = i :: rest → i.is_restore = false := by
    intro k i rest e
    cases k with
    | zero => exact absurd e (by simp [sema_test_helper])
    | succ k => exact key (Instr.sema_down (.sema 0)) _ rfl i rest e
  cases ph with
  | a_idle k => exact ⟨kl k, kh k⟩
  | a_wait k => exact ⟨kl _, key _ _ rfl⟩
  | b_dd j => exact ⟨key _ _ rfl, key _ _ rfl⟩
  | b_dl j => exact ⟨key _ _ rfl, key _ _ rfl⟩
  | b_ld j => exact ⟨key _ _ rfl, key _ _ rfl⟩
  | b_ll j => exact ⟨key _ _ rfl, key _ _ rfl⟩
  | c_d j => exact ⟨key _ _ rfl, key _ _ rfl⟩
  | c_l j => exact ⟨key _ _ rfl, key _ _ rfl⟩
  | d_d_idle j => exact ⟨key _ _ rfl, kh j⟩
  | d_l_idle j => exact ⟨key _ _ rfl, kh j⟩
  | d_d_wait j => exact ⟨key _ _ rfl, key _ _ rfl⟩
  | d_l_wait j => exact ⟨key _ _ rfl, key _ _ rfl⟩

theorem turns_steps_succ (K : Kernel) (j : Nat) :
    K.turns (List.replicate (j + 1) Turn.step) = (step K).turns (List.replicate j Turn.step) :=
  rfl

/-- The running thread executes its pending restores of the interrupt
level. -/
theorem run_restores (j : Nat) :
    ∀ (K : Kernel) (tail : List Instr), PingPong K → K.cont K.cur = restores j ++ tail →
      PingPong (K.turns (List.replicate j Turn.step)) ∧
        (K.turns (List.replicate j Turn.step)).left ≤ K.left ∧
        (K.turns (List.replicate j Turn.step)).cur = K.cur ∧
        (K.turns (List.replicate j Turn.step)).cont K.cur = tail := by
  induction j with
  | zero =>
    intro K tail h hc
    refine ⟨h, le_refl _, rfl, ?_⟩
    show K.cont K.cur = tail
    rw [hc, restores_zero]
    rfl
  | succ j ih =>
    intro K tail h hc
    rw [restores_succ] at hc
    obtain ⟨_, r2, _, _, r5⟩ := pp_restore K h.sched _ hc
    obtain ⟨p1, p2, _⟩ := ping_pong_step K h
    obtain ⟨q1, q2, q3, q4⟩ := ih (step K) tail p1 (by rw [r2, r5, upd_eq]; rfl)
    rw [turns_steps_succ]
    rw [r2] at q3 q4
    exact ⟨q1, le_trans q2 p2, q3, q4⟩

/-- From a state of the self-test, some steps of the running thread leave
less to do, or leave the running thread with nothing pending. -/
theorem ping_pong_advance (K : Kernel) (h : PingPong K) :
    ∃ ts, PingPong (K.turns ts) ∧
      ((K.turns ts).left < K.left ∨
        ((K.turns ts).left ≤ K.left ∧ (K.turns ts).cur = K.cur ∧
          (K.turns ts).cont K.cur = [])) := by
  obtain ⟨jm, jh, cm, ch, c1, c2, ph⟩ := h.forms
  obtain ⟨hm, hh⟩ := phase_head _ _ cm ch ph
  have key : ∀ j core, K.cont K.cur = restores j ++ core →
      (∀ i rest, core = i :: rest → i.is_restore = false) →
      ∃ ts, PingPong (K.turns ts) ∧
        ((K.turns ts).left < K.left ∨
          ((K.turns ts).left ≤ K.left ∧ (K.turns ts).cur = K.cur ∧
            (K.turns ts).cont K.cur = [])) := by
    intro j core hc hcore
    obtain ⟨q1, q2, q3, q4⟩ := run_restores j K core h hc
    cases core with
    | nil => exact ⟨_, q1, Or.inr ⟨q2, q3, q4⟩⟩
    | cons i rest =>
      obtain ⟨p1, _, p3⟩ := ping_pong_step _ q1
      refine ⟨List.replicate j Turn.step ++ [Turn.step], ?_, Or.inl ?_⟩
      · rw [turns_append]
        exact p1
      · rw [turns_append]
        exact lt_of_lt_of_le (p3 i rest (by rw [q3]; exact q4) (hcore i rest rfl)) q2
  rcases h.sched.base.running with hcur | hcur
  · exact key jm cm (by rw [hcur]; exact c1) hm
  · exact key jh ch (by rw [hcur]; exact c2) hh

/-- With nothing pending for the main thread while it runs, nothing is left
to do. -/
theorem ping_pong_main_done (K : Kernel) (h : PingPong K) (hc : K.cont 1 = []) :
    K.left = 0 ∧ K.semas 0 = ⟨0, []⟩ ∧ K.semas 1 = ⟨0, []⟩ := by
  obtain ⟨jm, jh, cm, ch, c1, c2, ph⟩ := h.forms
  have hcm : cm = [] := by
    rw [hc] at c1
    exact (List.append_eq_nil.1 c1.symm).2
  obtain ⟨e0, e1, e2⟩ := phase_main_done _ _ cm ch ph hcm
  refine ⟨?_, e0, e1⟩
  rw [left_eq K jm jh cm ch c1 c2, hcm, e2]
  rfl

/-- The helper runs with nothing pending while something is left to do: the
main thread is ready, and it can be dispatched. -/
theorem ping_pong_handover (K : Kernel) (h : PingPong K) (hc : K.cont K.cur = [])
    (hl : 0 < K.left) :
    PingPong (K.turn (Turn.switch 1)) ∧ (K.turn (Turn.switch 1)).left ≤ K.left ∧
      (K.turn (Turn.switch 1)).cur = 1 := by
  obtain ⟨p1, p2⟩ := ping_pong_turn K h (Turn.switch 1)
  refine ⟨p1, p2, ?_⟩
  have hcur : K.cur = 2 := by
    rcases h.sched.base.running with e | e
    · rw [e] at hc
      have := (ping_pong_main_done K h hc).1
      omega
    · exact e
  obtain ⟨jm, jh, cm, ch, c1, c2, ph⟩ := h.forms
  have hch : ch = [] := by
    rw [hcur, c2] at hc
    exact (List.append_eq_nil.1 hc).2
  have hs1 : K.semas 1 = ⟨1, []⟩ := by
    rcases phase_helper_done _ _ cm ch ph hch with e | e
    · have : K.left = 0 := by
        rw [left_eq K jm jh cm ch c1 c2, e, hch]
        rfl
      omega
    · exact e
  have hnb : (K.threads 1).status ≠ thread_status.THREAD_BLOCKED := by
    intro e
    have := h.blocked_main.1 e
    rw [hs1] at this
    exact absurd this (by simp)
  have hrl : K.ready_list = [1] := by
    rcases h.sched.base.rest with ⟨hb, _⟩ | ⟨_, hrl, _⟩
    · rw [hcur] at hb
      exact absurd hb hnb
    · rw [hcur] at hrl
      exact hrl
  have hon : K.intr = intr_level.INTR_ON := Sched.intr_on K h.sched (by rw [hc]; rfl)
  simp only [Kernel.turn]
  rw [if_neg (by simp [h.sched.base.alive, hon, hrl])]
  rfl

/-- From a state of the self-test in which something is left to do, a run
leaves less to do. -/
theorem ping_pong_progress (K : Kernel) (h : PingPong K) (hl : 0 < K.left) :
    ∃ ts, PingPong (K.turns ts) ∧ (K.turns ts).left < K.left := by
  obtain ⟨ts1, a1, a2⟩ := ping_pong_advance K h
  rcases a2 with a2 | ⟨a2, a3, a4⟩
  · exact ⟨ts1, a1, a2⟩
  · by_cases hz : (K.turns ts1).left < K.left
    · exact ⟨ts1, a1, hz⟩
    · have hl1 : 0 < (K.turns ts1).left := by omega
      obtain ⟨b1, b2, b3⟩ := ping_pong_handover (K.turns ts1) a1 (by rw [a3]; exact a4) hl1
      obtain ⟨ts2, c1, c2⟩ := ping_pong_advance _ b1
      refine ⟨ts1 ++ Turn.switch 1 :: ts2, ?_, ?_⟩
      · rw [turns_append, turns_cons]
        exact c1
      · rw [turns_append, turns_cons]
        rcases c2 with c2 | ⟨_, c3, c4⟩
        · omega
        · rw [b3] at c4
          have := (ping_pong_main_done _ c1 c4).1
          omega

/-- From every state of the self-test a run leads to a state in which nothing
is left to do. -/
theorem ping_pong_finish (m : Nat) :
    ∀ K, PingPong K → K.left ≤ m → ∃ ts, PingPong (K.turns ts) ∧ (K.turns ts).left = 0 := by
  induction m with
  | zero =>
    intro K h hm
    exact ⟨[], h, by show K.left = 0; omega⟩
  | succ m ih =>
    intro K h hm
    by_cases hz : K.left = 0
    · exact ⟨[], h, hz⟩
    · obtain ⟨ts1, a1, a2⟩ := ping_pong_progress K h (by omega)
      obtain ⟨ts2, b1, b2⟩ := ih _ a1 (by omega)
      exact ⟨ts1 ++ ts2, by rw [turns_append]; exact b1, by rw [turns_append]; exact b2⟩

/-- Where nothing is left to do, the main thread has nothing pending but
restores of the interrupt level. -/
theorem phase_no_work (s0 s1 : semaphore) (cm ch : List Instr) (ph : Phase s0 s1 cm ch)
    (hl : work cm + work ch = 0) : cm = [] := by
  cases ph with
  | a_idle k =>
    cases k with
    | zero => rfl
    | succ k =>
      simp only [work_sema_self_test_loop, work_sema_test_helper] at hl
      omega
  | a_wait k =>
    simp only [work, Instr.work, work_sema_self_test_loop, work_sema_test_helper] at hl
    omega
  | b_dd j => simp only [work, Instr.work] at hl; omega
  | b_dl j => simp only [work, Instr.work] at hl; omega
  | b_ld j => simp only [work, Instr.work] at hl; omega
  | b_ll j => simp only [work, Instr.work] at hl; omega
  | c_d j => simp only [work, Instr.work] at hl; omega
  | c_l j => simp only [work, Instr.work] at hl; omega
  | d_d_idle j => simp only [work, Instr.work] at hl; omega
  | d_l_idle j => simp only [work, Instr.work] at hl; omega
  | d_d_wait j => simp only [work, Instr.work] at hl; omega
  | d_l_wait j => simp only [work, Instr.work] at hl; omega

/-- With nothing left to do, both threads have returned from all their calls
and the semaphores are at 0 without waiter. -/
theorem ping_pong_done (K : Kernel) (h : PingPong K) (hl : K.left = 0) :
    K.returned 1 = true ∧ K.returned 2 = true ∧ K.semas 0 = ⟨0, []⟩ ∧ K.semas 1 = ⟨0, []⟩ := by
  obtain ⟨jm, jh, cm, ch, c1, c2, ph⟩ := h.forms
  rw [left_eq K jm jh cm ch c1 c2] at hl
  have hall : ∀ j, (restores j).all Instr.is_restore = true := by
    intro j
    simp [restores, Instr.is_restore]
  have hcm : cm = [] := phase_no_work _ _ cm ch ph hl
  obtain ⟨e0, e1, e2⟩ := phase_main_done _ _ cm ch ph hcm
  refine ⟨?_, ?_, e0, e1⟩
  · unfold Kernel.returned
    rw [c1, hcm, List.append_nil]
    exact hall jm
  · unfold Kernel.returned
    rw [c2, e2, List.append_nil]
    exact hall jh

/-- Once the main thread has returned from all its calls, so has the helper,
and the semaphores are at 0 without waiter. -/
theorem ping_pong_returned (K : Kernel) (h : PingPong K) (hr : K.returned 1 = true) :
    K.returned 2 = true ∧ K.semas 0 = ⟨0, []⟩ ∧ K.semas 1 = ⟨0, []⟩ := by
  obtain ⟨jm, jh, cm, ch, c1, c2, ph⟩ := h.forms
  have hcm : cm = [] := by
    cases cm with
    | nil => rfl
    | cons i rest =>
      unfold Kernel.returned at hr
      rw [c1, List.all_append, Bool.and_eq_true] at hr
      have h1 := hr.2
      rw [List.all_cons, Bool.and_eq_true] at h1
      have h2 := (phase_head _ _ _ ch ph).1 i rest rfl
      rw [h1.1] at h2
      exact absurd h2 (by decide)
  obtain ⟨e0, e1, e2⟩ := phase_main_done _ _ cm ch ph hcm
  refine ⟨?_, e0, e1⟩
  unfold Kernel.returned
  rw [c2, e2, List.append_nil]
  simp [restores, Instr.is_restore]

/-- In no phase of the self-test do both semaphores have a waiter; the only
waiter of semaphore 0 is the helper, the only waiter of semaphore 1 the main
thread. -/
theorem phase_waiters (s0 s1 : semaphore) (cm ch : List Instr) (ph : Phase s0 s1 cm ch) :
    (s0.waiters = [] ∨ s1.waiters = []) ∧ (∀ t ∈ s0.waiters, t = 2) ∧
      ∀ t ∈ s1.waiters, t = 1 := by
  cases ph <;> simp

/-! ## The donation path of `lock_release`, statement by statement -/

/-- With no transition between its statements, the donation path of
`lock_release` is what `lock_release` does. -/
theorem lock_release_preempted_nil (l : Nat) (K : Kernel) (hm : K.thread_mlfqs = false) :
    lock_release_preempted l [] K = lock_release l K := by
  unfold lock_release_preempted lock_release
  simp [hm, Kernel.run]

/-- A defect of the donation path of `lock_release`, which runs with
interrupts on, unlike the second path.  In `release_state` thread 1 (priority
3, no donor) holds lock `0` and calls `lock_release`.  Run without
preemption, the call leaves thread 1 without donor, at priority 3.  Preempted
after `refresh_priority ()` and before `lock->holder = NULL` (`release_race`:
thread 3 runs and wakes thread 2, which calls `lock_acquire` on lock `0`,
finds thread 1 still its holder, donates and blocks), the call returns with
thread 2 on the donor list of thread 1, waiting on the lock that has just been
released, and with thread 1 at priority 9.  Thread 2 then acquires the lock
and is still a donor of thread 1, which stays at priority 9. -/
theorem lock_release_preempted_keeps_donor :
    (release_state.thread_mlfqs = false ∧ release_state.in_intr = false ∧
        release_state.cur = 1 ∧ release_state.cont 1 = [] ∧
        (release_state.locks 0).holder = some 1 ∧
        (release_state.threads 1).priority = 3 ∧ (release_state.threads 1).donations = []) ∧
      (((lock_release 0 release_state).threads 1).donations = [] ∧
        ((lock_release 0 release_state).threads 1).priority = 3) ∧
      ((lock_release_preempted 0 release_race release_state).panicked = false ∧
        (lock_release_preempted 0 release_race release_state).cur = 1 ∧
        (lock_release_preempted 0 release_race release_state).cont 1 = [] ∧
        ((lock_release_preempted 0 release_race release_state).locks 0).holder = none ∧
        ((lock_release_preempted 0 release_race release_state).threads 1).donations = [2] ∧
        ((lock_release_preempted 0 release_race release_state).threads 2).wait_on_lock =
          some 0 ∧
        ((lock_release_preempted 0 release_race release_state).threads 1).priority = 9 ∧
        ((lock_release_preempted 0 release_race release_state).threads 1).init_priority = 3) ∧
      ((((lock_release_preempted 0 release_race release_state).run
            [Action.timer, Action.step, Action.step]).locks 0).holder = some 2 ∧
        ((((lock_release_preempted 0 release_race release_state).run
            [Action.timer, Action.step, Action.step]).threads 2).wait_on_lock = none) ∧
        ((((lock_release_preempted 0 release_race release_state).run
            [Action.timer, Action.step, Action.step]).threads 1).donations = [2]) ∧
        ((((lock_release_preempted 0 release_race release_state).run
            [Action.timer, Action.step, Action.step]).threads 1).priority = 9)) := by
  decide

/-! ## A broadcast among threads that take turns: bookkeeping -/

theorem mem_dispatch (n : Tid) (L : List Tid) (h : n ∈ L) (t : Tid) :
    t ∈ n :: L.erase n ↔ t ∈ L :=
  (List.perm_cons_erase h).symm.mem_iff

theorem nodup_dispatch (n : Tid) (L : List Tid) (hL : L.Nodup) (h : n ∈ L) :
    (n :: L.erase n).Nodup :=
  (List.perm_cons_erase h).nodup_iff.1 hL

theorem resumes_restores_succ (j : Nat) (l : List Instr) :
    resumes (restores (j + 1) ++ l) = true := by
  rw [restores_succ]; rfl

theorem runner_congr (l : Nat) (K K1 : Kernel) (t : Tid) (hc : K1.cont t = K.cont t)
    (he : K1.elems t = K.elems t) (h : Runner l K t) : Runner l K1 t := by
  unfold Runner at *
  rw [hc, he]
  exact h

theorem runner_push (l : Nat) (K K1 : Kernel) (t : Tid)
    (hc : K1.cont t = Instr.intr_set_level intr_level.INTR_ON :: K.cont t)
    (he : K1.elems t = K.elems t) (h : Runner l K t) : Runner l K1 t := by
  obtain ⟨j, h⟩ := h
  refine ⟨j + 1, ?_⟩
  rw [hc, he, restores_succ]
  rcases h with h | ⟨tail, h, h2⟩ | ⟨tail, h⟩
  · exact Or.inl (by rw [h])
  · exact Or.inr (Or.inl ⟨tail, by rw [h]; rfl, h2⟩)
  · exact Or.inr (Or.inr ⟨tail, by rw [h]; rfl⟩)

/-- The state of the call does not depend on which of the threads that can
run is running. -/
theorem pool_perm (B : Tid) (c l : Nat) (L L1 : List Tid) (K : Kernel) (hp : L.Perm L1)
    (h : Pool B c l L K) : Pool B c l L1 K :=
  { alive := h.alive
    context := h.context
    records := h.records
    holder := h.holder
    taken := h.taken
    unblocked := h.unblocked
    regular := ⟨fun e => h.regular.1 (hp.symm.subset e), h.regular.2⟩
    distinct := hp.nodup_iff.1 h.distinct
    present := hp.subset h.present
    caller := h.caller
    others := fun t ht => h.others t (hp.symm.subset ht)
    queue := h.queue
    waiting := fun w hw =>
      ⟨fun e => (h.waiting w hw).1 (hp.symm.subset e), (h.waiting w hw).2⟩ }

/-- The state of the call after a transition that leaves the queue of the
condition variable and the lock alone and makes no thread able to run that was
not. -/
theorem pool_transfer (B : Tid) (c l : Nat) (L L1 : List Tid) (K K1 : Kernel)
    (h : Pool B c l L K)
    (hp : K1.panicked = false) (hi : K1.in_intr = false) (hn : 0 < K1.nthreads)
    (hh : (K1.locks l).holder = some B) (hv : (K1.locks l).semaphore.value = 0)
    (hw : (K1.threads B).wait_on_lock = none) (hid : K1.idle_thread = K.idle_thread)
    (hq : K1.conds c = K.conds c)
    (hL : L1.Nodup) (hsub : ∀ t ∈ L1, t ∈ L) (hB : B ∈ L1)
    (hcB : ∃ j, K1.cont B = restores j ++ [Instr.cond_broadcast c l] ∨
      (K1.cont B = restores j ∧ (K.conds c).waiters = []))
    (ho : ∀ t ∈ L1, t ≠ B → Runner l K1 t)
    (hwq : ∀ w ∈ (K.conds c).waiters, K1.elems w = K.elems w ∧ K1.cont w = K.cont w) :
    Pool B c l L1 K1 :=
  { alive := hp
    context := hi
    records := hn
    holder := hh
    taken := hv
    unblocked := hw
    regular := by
      rw [hid, hq]
      exact ⟨fun e => h.regular.1 (hsub _ e), h.regular.2⟩
    distinct := hL
    present := hB
    caller := by rw [hq]; exact hcB
    others := ho
    queue := by rw [hq]; exact h.queue
    waiting := by
      rw [hq]
      intro w hw
      obtain ⟨a, b, d⟩ := h.waiting w hw
      obtain ⟨e1, e2⟩ := hwq w hw
      exact ⟨fun e => a (hsub _ e), by rw [e1]; exact b, by rw [e2]; exact d⟩ }

/-- The invariant after a context switch: thread `n`, one of the threads that
could run, all of which resume with a restore of the interrupt level, is
running with interrupts off, and the others are ready. -/
theorem broadcast_dispatch (B : Tid) (c l : Nat) (L : List Tid) (K1 K2 : Kernel) (n : Tid)
    (h : Pool B c l L K1) (hres : ∀ t ∈ L, resumes (K1.cont t) = true) (hn : n ∈ L)
    (e1 : K2.cur = n) (e2 : K2.ready_list = L.erase n) (e3 : K2.cont = K1.cont)
    (hs : Same K1 K2) : Broadcast B c l K2 := by
  have hmem := mem_dispatch n L hn
  refine ⟨?_, ?_, ?_⟩
  · rw [e1, e2]
    apply pool_transfer B c l L _ K1 K2 h (by rw [hs.alive]; exact h.alive)
      (by rw [hs.context]; exact h.context) (by rw [hs.records]; exact h.records)
      (by rw [hs.locks]; exact h.holder) (by rw [hs.locks]; exact h.taken)
      (by rw [hs.wait]; exact h.unblocked) hs.idle (by rw [hs.conds])
      (nodup_dispatch n L h.distinct hn) (fun t ht => (hmem t).1 ht)
      ((hmem B).2 h.present) (by rw [e3]; exact h.caller)
    · intro t ht htB
      exact runner_congr l K1 K2 t (by rw [e3]) (by rw [hs.elems])
        (h.others t ((hmem t).1 ht) htB)
    · intro w _
      exact ⟨by rw [hs.elems], by rw [e3]⟩
  · intro t ht
    rw [e2] at ht
    rw [e3]
    exact hres t ((hmem t).1 (List.mem_cons_of_mem _ ht))
  · intro _
    rw [e1, e3]
    exact hres n hn

theorem same_refl (K : Kernel) : Same K K :=
  ⟨rfl, rfl, rfl, fun _ => rfl, fun _ => rfl, rfl, rfl, rfl, rfl⟩

theorem same_trans (K K1 K2 : Kernel) (h1 : Same K K1) (h2 : Same K1 K2) : Same K K2 :=
  ⟨h2.elems.trans h1.elems, h2.conds.trans h1.conds, h2.locks.trans h1.locks,
    fun t => (h2.prio t).trans (h1.prio t), fun t => (h2.wait t).trans (h1.wait t),
    h2.alive.trans h1.alive, h2.context.trans h1.context, h2.records.trans h1.records,
    h2.idle.trans h1.idle⟩

/-- The state of the call after a transition that changes nothing but what
the threads that can run have pending, each of them keeping its place. -/
theorem pool_same (B : Tid) (c l : Nat) (L : List Tid) (K K1 : Kernel) (h : Pool B c l L K)
    (hs : Same K K1)
    (hcB : ∃ j, K1.cont B = restores j ++ [Instr.cond_broadcast c l] ∨
      (K1.cont B = restores j ∧ (K.conds c).waiters = []))
    (ho : ∀ t ∈ L, t ≠ B → Runner l K1 t)
    (hq : ∀ w ∈ (K.conds c).waiters, K1.cont w = K.cont w) : Pool B c l L K1 :=
  pool_transfer B c l L L K K1 h (by rw [hs.alive]; exact h.alive)
    (by rw [hs.context]; exact h.context) (by rw [hs.records]; exact h.records)
    (by rw [hs.locks]; exact h.holder) (by rw [hs.locks]; exact h.taken)
    (by rw [hs.wait]; exact h.unblocked) hs.idle (by rw [hs.conds]) h.distinct
    (fun _ ht => ht) h.present hcB ho (fun w hw => ⟨by rw [hs.elems], hq w hw⟩)

/-- A restore of the interrupt level is put in front of what thread `t0`, one
of the threads that can run, has pending. -/
theorem pool_push (B : Tid) (c l : Nat) (L : List Tid) (K K1 : Kernel) (h : Pool B c l L K)
    (hs : Same K K1) (t0 : Tid) (ht0 : t0 ∈ L)
    (hc : K1.cont = upd K.cont t0 (Instr.intr_set_level intr_level.INTR_ON :: K.cont t0)) :
    Pool B c l L K1 := by
  apply pool_same B c l L K K1 h hs
  · obtain ⟨j, hj⟩ := h.caller
    by_cases hB : B = t0
    · refine ⟨j + 1, ?_⟩
      rw [hc, ← hB, upd_eq, restores_succ]
      rcases hj with hj | ⟨hj, hq⟩
      · exact Or.inl (by rw [hj]; rfl)
      · exact Or.inr ⟨by rw [hj], hq⟩
    · refine ⟨j, ?_⟩
      rw [hc, upd_ne _ _ _ _ hB]
      exact hj
  · intro t ht htB
    by_cases e : t = t0
    · apply runner_push l K K1 t _ (by rw [hs.elems]) (h.others t ht htB)
      rw [hc, e, upd_eq]
    · apply runner_congr l K K1 t _ (by rw [hs.elems]) (h.others t ht htB)
      rw [hc, upd_ne _ _ _ _ e]
  · intro w hw
    have : w ≠ t0 := fun e => (h.waiting w hw).1 (e ▸ ht0)
    rw [hc, upd_ne _ _ _ _ this]

/-- Thread `t0`, one of the threads that can run, executes a restore of the
interrupt level. -/
theorem pool_pop (B : Tid) (c l : Nat) (L : List Tid) (K K1 : Kernel) (h : Pool B c l L K)
    (hs : Same K K1) (t0 : Tid) (ht0 : t0 ∈ L) (lv : intr_level) (tl : List Instr)
    (h0 : K.cont t0 = Instr.intr_set_level lv :: tl)
    (hc : K1.cont = upd K.cont t0 tl) :
    lv = intr_level.INTR_ON ∧ Pool B c l L K1 := by
  have key : ∀ (j : Nat) (core : List Instr), K.cont t0 = restores j ++ core →
      (∀ x rest, core = Instr.intr_set_level x :: rest → False) →
      lv = intr_level.INTR_ON ∧ ∃ j1, j = j1 + 1 ∧ tl = restores j1 ++ core := by
    intro j core e hcore
    cases j with
    | zero =>
      rw [restores_zero, List.nil_append, h0] at e
      exact (hcore lv tl e.symm).elim
    | succ j1 =>
      rw [restores_succ, h0] at e
      simp only [List.cons_append, List.cons.injEq, Instr.intr_set_level.injEq] at e
      exact ⟨e.1, j1, rfl, e.2⟩
  have hlv : lv = intr_level.INTR_ON := by
    by_cases hB : t0 = B
    · obtain ⟨j, hj⟩ := h.caller
      rw [← hB] at hj
      rcases hj with hj | ⟨hj, _⟩
      · exact (key j _ hj (by intro x rest e; simp at e)).1
      · exact (key j [] (by rw [hj]; simp) (by intro x rest e; simp at e)).1
    · obtain ⟨j, hj⟩ := h.others t0 ht0 hB
      rcases hj with hj | ⟨tail, hj, _⟩ | ⟨tail, hj⟩
      · exact (key j [] (by rw [hj]; simp) (by intro x rest e; simp at e)).1
      · exact (key j _ hj (by intro x rest e; simp at e)).1
      · exact (key j _ hj (by intro x rest e; simp at e)).1
  refine ⟨hlv, ?_⟩
  apply pool_same B c l L K K1 h hs
  · obtain ⟨j, hj⟩ := h.caller
    by_cases hB : B = t0
    · rw [hc, ← hB, upd_eq]
      rw [← hB] at h0
      have key2 := key
      rw [← hB] at key2
      rcases hj with hj | ⟨hj, hq⟩
      · obtain ⟨_, j1, _, e⟩ := key2 j _ hj (by intro x rest e; simp at e)
        exact ⟨j1, Or.inl e⟩
      · obtain ⟨_, j1, _, e⟩ := key2 j [] (by rw [hj]; simp) (by intro x rest e; simp at e)
        exact ⟨j1, Or.inr ⟨by simpa using e, hq⟩⟩
    · refine ⟨j, ?_⟩
      rw [hc, upd_ne _ _ _ _ hB]
      exact hj
  · intro t ht htB
    by_cases e : t = t0
    · subst e
      obtain ⟨j, hj⟩ := h.others t ht htB
      unfold Runner
      rw [hc, upd_eq, hs.elems]
      rcases hj with hj | ⟨tail, hj, h2⟩ | ⟨tail, hj⟩
      · obtain ⟨_, j1, _, e⟩ := key j [] (by rw [hj]; simp) (by intro x rest e; simp at e)
        exact ⟨j1, Or.inl (by simpa using e)⟩
      · obtain ⟨_, j1, _, e⟩ := key j _ hj (by intro x rest e; simp at e)
        exact ⟨j1, Or.inr (Or.inl ⟨tail, e, h2⟩)⟩
      · obtain ⟨_, j1, _, e⟩ := key j _ hj (by intro x rest e; simp at e)
        exact ⟨j1, Or.inr (Or.inr ⟨tail, e⟩)⟩
    · apply runner_congr l K K1 t _ (by rw [hs.elems]) (h.others t ht htB)
      rw [hc, upd_ne _ _ _ _ e]
  · intro w hw
    have : w ≠ t0 := fun e => (h.waiting w hw).1 (e ▸ ht0)
    rw [hc, upd_ne _ _ _ _ this]

/-- What a yield does: one of the ready threads or the yielding thread itself
is dispatched. -/
theorem thread_yield_push (K : Kernel) (i : Instr) (hid : K.cur ≠ K.idle_thread) :
    ∃ n, n ∈ K.ready_list ++ [K.cur] ∧ (thread_yield (K.push [i])).cur = n ∧
      (thread_yield (K.push [i])).ready_list = (K.ready_list ++ [K.cur]).erase n ∧
      (thread_yield (K.push [i])).intr = intr_level.INTR_OFF ∧
      (thread_yield (K.push [i])).cont = upd K.cont K.cur (i :: K.cont K.cur) ∧
      Same K (thread_yield (K.push [i])) := by
  obtain ⟨Ky, ey, y1, y2, y3, y4⟩ : ∃ Ky : Kernel, thread_yield (K.push [i]) = schedule Ky ∧
      Ky.ready_list = K.ready_list ++ [K.cur] ∧
      Ky.cont = upd K.cont K.cur (i :: K.cont K.cur) ∧ Same K Ky ∧ True := by
    have ey : thread_yield (K.push [i]) =
        schedule
          { K.push [i] with
            threads := upd (K.push [i]).threads (K.push [i]).cur
              { (K.push [i]).threads (K.push [i]).cur with status := .THREAD_READY }
            ready_list := (K.push [i]).ready_list ++ [(K.push [i]).cur] } := by
      unfold thread_yield
      rw [if_neg (by simpa using hid)]
    refine ⟨_, ey, ?_, ?_, ?_, trivial⟩
    · rfl
    · rfl
    · refine ⟨rfl, rfl, rfl, ?_, ?_, rfl, rfl, rfl, rfl⟩
      · intro t
        show ((upd K.threads K.cur _) t).priority = _
        by_cases e : t = K.cur
        · rw [e, upd_eq]; rfl
        · rw [upd_ne _ _ _ _ e]
      · intro t
        show ((upd K.threads K.cur _) t).wait_on_lock = _
        by_cases e : t = K.cur
        · rw [e, upd_eq]; rfl
        · rw [upd_ne _ _ _ _ e]
  have hne : Ky.ready_list ≠ [] := by rw [y1]; simp
  refine ⟨next_thread_to_run Ky, ?_, ?_, ?_, ?_, ?_, ?_⟩
  · rw [← y1]; exact next_thread_to_run_ready Ky hne
  · rw [ey]; rfl
  · rw [ey, ← y1]; rfl
  · rw [ey]; rfl
  · rw [ey, schedule_cont, y2]
  · rw [ey]
    exact same_trans K Ky _ y3
      ⟨by simp, by simp, by simp, fun t => by simp, fun t => by simp, by simp, by simp, by simp,
        by simp⟩

/-- What blocking does when a thread is ready: one of the ready threads is
dispatched. -/
theorem thread_block_ready (K : Kernel) (h : K.ready_list ≠ []) :
    ∃ n, n ∈ K.ready_list ∧ (thread_block K).cur = n ∧
      (thread_block K).ready_list = K.ready_list.erase n ∧
      (thread_block K).intr = intr_level.INTR_OFF ∧
      (thread_block K).cont = K.cont ∧ Same K (thread_block K) := by
  have hne : (K.setThread K.cur
      { K.threads K.cur with status := .THREAD_BLOCKED }).ready_list ≠ [] := h
  refine ⟨next_thread_to_run (K.setThread K.cur
      { K.threads K.cur with status := .THREAD_BLOCKED }), next_thread_to_run_ready _ hne, rfl,
    rfl, rfl, by simp,
    ⟨by simp, by simp, by simp, fun t => by simp, fun t => by simp, by simp, by simp, by simp,
      by simp⟩⟩

/-- What the switch to a ready thread does. -/
theorem thread_switch_push (K : Kernel) (i : Instr) (t : Tid) :
    (thread_switch t (K.push [i])).cur = t ∧
      (thread_switch t (K.push [i])).ready_list = (K.ready_list ++ [K.cur]).erase t ∧
      (thread_switch t (K.push [i])).intr = intr_level.INTR_OFF ∧
      (thread_switch t (K.push [i])).cont = upd K.cont K.cur (i :: K.cont K.cur) ∧
      Same K (thread_switch t (K.push [i])) := by
  refine ⟨rfl, rfl, rfl, rfl, rfl, rfl, rfl, ?_, ?_, rfl, rfl, rfl, rfl⟩
  · intro u
    show ((upd (upd K.threads K.cur _) t _) u).priority = _
    by_cases e : u = t
    · rw [e, upd_eq]; rfl
    · rw [upd_ne _ _ _ _ e]
      by_cases e2 : u = K.cur
      · rw [e2, upd_eq]; rfl
      · rw [upd_ne _ _ _ _ e2]
  · intro u
    show ((upd (upd K.threads K.cur _) t _) u).wait_on_lock = _
    by_cases e : u = t
    · rw [e, upd_eq]; rfl
    · rw [upd_ne _ _ _ _ e]
      by_cases e2 : u = K.cur
      · rw [e2, upd_eq]; rfl
      · rw [upd_ne _ _ _ _ e2]

/-! ## A broadcast among threads that take turns: a woken thread blocks on the lock -/

/-- The donation block of `lock_acquire` on a lock whose holder `H` waits on
no lock: `H` still waits on no lock, and no priority but that of `H`
changes. -/
theorem lock_acquire_donate_holder (K : Kernel) (l : Nat) (H : Tid)
    (hh : (K.locks l).holder = some H) (hne : K.cur ≠ H)
    (hwH : (K.threads H).wait_on_lock = none) (hn : 0 < K.nthreads) :
    ((lock_acquire_donate l K).threads H).wait_on_lock = none ∧
      ∀ u, u ≠ H → ((lock_acquire_donate l K).threads u).priority = (K.threads u).priority := by
  have hthH : (K.setThread K.cur { K.threads K.cur with wait_on_lock := some l }).threads H =
      K.threads H := setThread_threads_other _ _ _ _ (Ne.symm hne)
  have hthC : (K.setThread K.cur { K.threads K.cur with wait_on_lock := some l }).threads K.cur =
      { K.threads K.cur with wait_on_lock := some l } := by
    simp [Kernel.setThread, upd]
  by_cases hp : (K.threads H).priority < (K.threads K.cur).priority
  · rw [lock_acquire_donate_one K l H hh hne hp hwH hn]
    constructor
    · rw [refresh_priority_of_wait_on_lock]
      simp [Kernel.setThread, upd, hwH]
    · intro u hu
      rw [refresh_priority_of_other H u _ hu, setThread_threads_other _ _ _ _ hu]
      exact setThread_priority_same _ _ _ (by rfl) u
  · have e : lock_acquire_donate l K =
        K.setThread K.cur { K.threads K.cur with wait_on_lock := some l } := by
      unfold lock_acquire_donate
      simp only [hh]
      rw [hthH, hthC, if_neg hp]
    rw [e]
    constructor
    · rw [hthH]; exact hwH
    · intro u _
      exact setThread_priority_same _ _ _ (by rfl) u

/-- `lock_acquire`, outside interrupt context, on a lock that is taken and
held by another thread `H`, which waits on no lock, while some thread is
ready: under either policy the caller blocks and a ready thread is
dispatched.  No priority but that of `H` changes. -/
theorem lock_acquire_blocks (K : Kernel) (l : Nat) (H : Tid)
    (hi : K.in_intr = false) (hpn : K.panicked = false)
    (hh : (K.locks l).holder = some H) (hne : K.cur ≠ H)
    (hv : (K.locks l).semaphore.value = 0)
    (hwH : (K.threads H).wait_on_lock = none) (hn : 0 < K.nthreads)
    (hr : K.ready_list ≠ []) :
    ∃ n, n ∈ K.ready_list ∧ (exec (.lock_acquire l) K).cur = n ∧
      (exec (.lock_acquire l) K).ready_list = K.ready_list.erase n ∧
      (exec (.lock_acquire l) K).intr = intr_level.INTR_OFF ∧
      (∀ u, u ≠ K.cur → (exec (.lock_acquire l) K).cont u = K.cont u) ∧
      (exec (.lock_acquire l) K).elems = K.elems ∧
      (exec (.lock_acquire l) K).conds = K.conds ∧
      ((exec (.lock_acquire l) K).locks l).holder = some H ∧
      ((exec (.lock_acquire l) K).locks l).semaphore.value = 0 ∧
      ((exec (.lock_acquire l) K).threads H).wait_on_lock = none ∧
      (∀ u, u ≠ H → ((exec (.lock_acquire l) K).threads u).priority = (K.threads u).priority) ∧
      (exec (.lock_acquire l) K).panicked = false ∧
      (exec (.lock_acquire l) K).in_intr = false ∧
      (exec (.lock_acquire l) K).nthreads = K.nthreads ∧
      (exec (.lock_acquire l) K).idle_thread = K.idle_thread := by
  obtain ⟨Kb, eb, b1, b2, b3, b4, b5, b6, b7, b8, b9, b10, b11, b12, b13⟩ : ∃ Kb : Kernel,
      exec (.lock_acquire l) K = thread_block Kb ∧ Kb.cur = K.cur ∧
        Kb.ready_list = K.ready_list ∧
        (Kb.threads H).wait_on_lock = none ∧
        (∀ u, u ≠ H → (Kb.threads u).priority = (K.threads u).priority) ∧
        Kb.panicked = false ∧ (Kb.locks l).holder = some H ∧
        (Kb.locks l).semaphore.value = 0 ∧ Kb.elems = K.elems ∧ Kb.conds = K.conds ∧
        (∀ u, u ≠ K.cur → Kb.cont u = K.cont u) ∧ Kb.in_intr = false ∧
        Kb.nthreads = K.nthreads ∧ Kb.idle_thread = K.idle_thread := by
    cases hm : K.thread_mlfqs with
    | false =>
      obtain ⟨hw2, hp2⟩ := lock_acquire_donate_holder K l H hh hne hwH hn
      have hnheld : lock_held_by_current_thread l (lock_acquire_donate l K) = false := by
        simp only [lock_held_by_current_thread, lock_acquire_donate_locks,
          lock_acquire_donate_cur, hh, decide_eq_false_iff_not]
        intro e
        exact hne (Option.some.inj e).symm
      have hexec : exec (.lock_acquire l) K =
          thread_block
            ((Kernel.setSema
              { (lock_acquire_donate l K).push [Instr.lock_acquire_ret l] with
                intr := intr_level.INTR_OFF } (.lock l)
              { value := (K.locks l).semaphore.value,
                waiters := list_insert_ordered
                  (cmp_priority ((lock_acquire_donate l K).push [Instr.lock_acquire_ret l])) K.cur
                  (K.locks l).semaphore.waiters }).push
              [Instr.sema_down_loop (.lock l) K.intr]) := by
        show lock_acquire l K = _
        rw [lock_acquire_donation l K hm, if_neg (by simp [hi]), if_neg (by simp [hnheld]),
          sema_down_zero _ (.lock l) (by simpa using hi)
            (by simpa [Kernel.getSema] using hv)]
        simp [Kernel.getSema]
      refine ⟨_, hexec, by simp, by simp, ?_, ?_, by simp [hpn], ?_, ?_, ?_, by simp, ?_,
        by simp [hi], by simp, by simp⟩
      · simpa using hw2
      · intro u hu
        simpa using hp2 u hu
      · simp [hh]
      · simp [Kernel.push, Kernel.setSema, upd, hv]
      · simp [Kernel.push, Kernel.setSema]
      · intro u hu
        simp [Kernel.push, Kernel.setSema, upd, hu]
    | true =>
      have hexec : exec (.lock_acquire l) K =
          thread_block
            ((Kernel.setSema
              { Kernel.push { K with intr := intr_level.INTR_OFF }
                  [Instr.lock_acquire_mlfqs_ret l K.intr] with
                intr := intr_level.INTR_OFF } (.lock l)
              { value := (K.locks l).semaphore.value,
                waiters := list_insert_ordered
                  (cmp_priority (Kernel.push { K with intr := intr_level.INTR_OFF }
                    [Instr.lock_acquire_mlfqs_ret l K.intr])) K.cur
                  (K.locks l).semaphore.waiters }).push
              [Instr.sema_down_loop (.lock l) intr_level.INTR_OFF]) := by
        show lock_acquire l K = _
        rw [lock_acquire_mlfqs l K hm,
          sema_down_zero _ (.lock l) (by simpa using hi) (by simpa [Kernel.getSema] using hv)]
        simp [Kernel.getSema]
      refine ⟨_, hexec, by simp, by simp, ?_, ?_, by simp [hpn], ?_, ?_, ?_, by simp, ?_,
        by simp [hi], by simp, by simp⟩
      · simpa using hwH
      · intro u _
        simp
      · simp [hh]
      · simp [Kernel.push, Kernel.setSema, upd, hv, Kernel.getSema]
      · simp [Kernel.push, Kernel.setSema]
      · intro u hu
        simp [Kernel.push, Kernel.setSema, upd, hu]
  rw [eb]
  obtain ⟨n, d1, d2, d3, d4, d5, d6⟩ := thread_block_ready Kb (by rw [b2]; exact hr)
  refine ⟨n, by rw [← b2]; exact d1, d2, by rw [d3, b2], d4, ?_, by rw [d6.elems, b8],
    by rw [d6.conds, b9], by rw [d6.locks]; exact b6, by rw [d6.locks]; exact b7,
    by rw [d6.wait]; exact b3, ?_, by rw [d6.alive]; exact b5, by rw [d6.context]; exact b11,
    by rw [d6.records]; exact b12, by rw [d6.idle]; exact b13⟩
  · intro u hu
    rw [d5]
    exact b10 u hu
  · intro u hu
    rw [d6.prio]
    exact b4 u hu

/-! ## A broadcast among threads that take turns: the invariant is kept -/

/-- The invariant after a yield of the running thread, which leaves a restore
of the interrupt level pending. -/
theorem broadcast_yielded (B : Tid) (c l : Nat) (K K2 : Kernel) (n : Tid)
    (h : Pool B c l (K.cur :: K.ready_list) K)
    (hres : ∀ t ∈ K.ready_list, resumes (K.cont t) = true)
    (hn : n ∈ K.ready_list ++ [K.cur])
    (e1 : K2.cur = n) (e2 : K2.ready_list = (K.ready_list ++ [K.cur]).erase n)
    (e3 : K2.cont = upd K.cont K.cur (Instr.intr_set_level intr_level.INTR_ON :: K.cont K.cur))
    (hs : Same K K2) : Broadcast B c l K2 := by
  obtain ⟨K1, k1, k2⟩ : ∃ K1 : Kernel, K1.cont = K2.cont ∧ Same K K1 :=
    ⟨{ K with cont := K2.cont }, rfl,
      ⟨rfl, rfl, rfl, fun _ => rfl, fun _ => rfl, rfl, rfl, rfl, rfl⟩⟩
  have hperm : (K.cur :: K.ready_list).Perm (K.ready_list ++ [K.cur]) := by
    rw [← List.singleton_append]
    exact List.perm_append_comm
  have hP1 : Pool B c l (K.ready_list ++ [K.cur]) K1 :=
    pool_perm B c l _ _ K1 hperm
      (pool_push B c l _ K K1 h k2 K.cur (List.mem_cons_self _ _) (by rw [k1, e3]))
  have hcur : K.cur ∉ K.ready_list := (List.nodup_cons.1 h.distinct).1
  apply broadcast_dispatch B c l _ K1 K2 n hP1 _ hn e1 e2 k1.symm
    ⟨hs.elems.trans k2.elems.symm, hs.conds.trans k2.conds.symm, hs.locks.trans k2.locks.symm,
      fun t => (hs.prio t).trans (k2.prio t).symm, fun t => (hs.wait t).trans (k2.wait t).symm,
      hs.alive.trans k2.alive.symm, hs.context.trans k2.context.symm,
      hs.records.trans k2.records.symm, hs.idle.trans k2.idle.symm⟩
  intro t ht
  rw [k1, e3]
  rcases List.mem_append.1 ht with ht | ht
  · have : t ≠ K.cur := fun e => hcur (e ▸ ht)
    rw [upd_ne _ _ _ _ this]
    exact hres t ht
  · rw [List.mem_singleton.1 ht, upd_eq]
    rfl

theorem signal_at_zero (c l : Nat) (K : Kernel) (x : Turn)
    (h : x = Turn.step → (K.cont K.cur).head? = some (Instr.cond_broadcast c l) →
      (K.conds c).waiters = []) : signal_at c l K x = 0 := by
  unfold signal_at
  rw [if_neg]
  intro ⟨a, _, b, d⟩
  exact d (h a b)

/-- A transition that changes none of the fields a context switch leaves
alone, and is no call of `cond_signal`, advances the call. -/
theorem advance_same (B : Tid) (c l : Nat) (K K1 : Kernel) (x : Turn)
    (h1 : Broadcast B c l K1) (hs : Same K K1)
    (h : x = Turn.step → (K.cont K.cur).head? = some (Instr.cond_broadcast c l) →
      (K.conds c).waiters = []) : Advance B c l K K1 x := by
  refine ⟨h1, fun u _ => hs.prio u, Or.inr ⟨signal_at_zero c l K x h, by rw [hs.conds], ?_⟩⟩
  intro e
  rw [hs.elems]
  omega

/-- The timer preempts the running thread. -/
theorem broadcast_timer (B : Tid) (c l : Nat) (K : Kernel) (h : Broadcast B c l K) :
    Advance B c l K (K.turn Turn.timer) Turn.timer := by
  have hx : Turn.timer = Turn.step → (K.cont K.cur).head? = some (Instr.cond_broadcast c l) →
      (K.conds c).waiters = [] := fun e => by cases e
  have e : K.turn Turn.timer =
      if (K.panicked || decide (K.intr = intr_level.INTR_OFF)) = true then K
      else thread_yield (K.push [Instr.intr_set_level intr_level.INTR_ON]) := rfl
  rw [e]
  split
  · exact advance_same B c l K K _ h (same_refl K) hx
  · have hid : K.cur ≠ K.idle_thread := fun e =>
      h.pool.regular.1 (by rw [← e]; exact List.mem_cons_self _ _)
    obtain ⟨n, y1, y2, y3, _, y5, y6⟩ :=
      thread_yield_push K (Instr.intr_set_level intr_level.INTR_ON) hid
    exact advance_same B c l K _ _
      (broadcast_yielded B c l K _ n h.pool h.resume y1 y2 y3 y5 y6) y6 hx

/-- The timer preempts the running thread and a ready thread is dispatched. -/
theorem broadcast_switch (B : Tid) (c l : Nat) (K : Kernel) (h : Broadcast B c l K) (t : Tid) :
    Advance B c l K (K.turn (Turn.switch t)) (Turn.switch t) := by
  have hx : Turn.switch t = Turn.step →
      (K.cont K.cur).head? = some (Instr.cond_broadcast c l) →
      (K.conds c).waiters = [] := fun e => by cases e
  have e : K.turn (Turn.switch t) =
      if (K.panicked || decide (K.intr = intr_level.INTR_OFF) ||
          !decide (t ∈ K.ready_list)) = true then K
      else thread_switch t (K.push [Instr.intr_set_level intr_level.INTR_ON]) := rfl
  rw [e]
  split
  · exact advance_same B c l K K _ h (same_refl K) hx
  · next hc =>
    have ht : t ∈ K.ready_list := by
      simp only [Bool.or_eq_true, Bool.not_eq_true', decide_eq_false_iff_not, not_or,
        Decidable.not_not] at hc
      exact hc.2
    obtain ⟨y2, y3, _, y5, y6⟩ :=
      thread_switch_push K (Instr.intr_set_level intr_level.INTR_ON) t
    exact advance_same B c l K _ _
      (broadcast_yielded B c l K _ t h.pool h.resume (List.mem_append_left _ ht) y2 y3 y5 y6)
      y6 hx

theorem broadcast_cur_not_ready (B : Tid) (c l : Nat) (K : Kernel) (h : Broadcast B c l K) :
    ∀ t ∈ K.ready_list, t ≠ K.cur := by
  intro t ht e
  rw [e] at ht
  exact (List.nodup_cons.1 h.pool.distinct).1 ht

/-- The running thread executes a restore of the interrupt level. -/
theorem broadcast_restore (B : Tid) (c l : Nat) (K : Kernel) (h : Broadcast B c l K)
    (lv : intr_level) (tl : List Instr) (h0 : K.cont K.cur = Instr.intr_set_level lv :: tl) :
    Advance B c l K (step K) Turn.step := by
  obtain ⟨K1, k1, k2, k3, k4, k5, k6⟩ : ∃ K1 : Kernel, step K = K1 ∧ K1.cur = K.cur ∧
      K1.ready_list = K.ready_list ∧ K1.cont = upd K.cont K.cur tl ∧ K1.intr = lv ∧
      Same K K1 :=
    ⟨_, step_intr_set_level K lv tl h.pool.alive h0, rfl, rfl, rfl, rfl,
      ⟨rfl, rfl, rfl, fun _ => rfl, fun _ => rfl, rfl, rfl, rfl, rfl⟩⟩
  rw [k1]
  obtain ⟨hlv, hP⟩ := pool_pop B c l _ K K1 h.pool k6 K.cur (List.mem_cons_self _ _) lv tl h0 k4
  apply advance_same B c l K K1 _ _ k6
  · intro _ hh
    rw [h0] at hh
    simp at hh
  · refine ⟨by rw [k2, k3]; exact hP, ?_, ?_⟩
    · intro t ht
      rw [k3] at ht
      rw [k4, upd_ne _ _ _ _ (broadcast_cur_not_ready B c l K h t ht)]
      exact h.resume t ht
    · intro e
      rw [k5, hlv] at e
      exact absurd e (by decide)

/-- The running thread has nothing pending. -/
theorem broadcast_idle (B : Tid) (c l : Nat) (K : Kernel) (h : Broadcast B c l K)
    (h0 : K.cont K.cur = []) : Advance B c l K (step K) Turn.step := by
  rw [step_nil K h0]
  apply advance_same B c l K K _ h (same_refl K)
  intro _ hh
  rw [h0] at hh
  simp at hh

/-- The turn of the loop of `cond_broadcast` that finds the queue empty: the
call returns. -/
theorem broadcast_return (B : Tid) (c l : Nat) (K : Kernel) (h : Broadcast B c l K)
    (hcur : K.cur = B) (h0 : K.cont B = [Instr.cond_broadcast c l])
    (hq : (K.conds c).waiters = []) : Advance B c l K (step K) Turn.step := by
  obtain ⟨K1, k1, k2, k3, k4, k5, k6⟩ : ∃ K1 : Kernel, step K = K1 ∧ K1.cur = K.cur ∧
      K1.ready_list = K.ready_list ∧ K1.cont = upd K.cont K.cur [] ∧ K1.intr = K.intr ∧
      Same K K1 := by
    refine ⟨{ K with cont := upd K.cont K.cur [] }, ?_, rfl, rfl, rfl, rfl,
      ⟨rfl, rfl, rfl, fun _ => rfl, fun _ => rfl, rfl, rfl, rfl, rfl⟩⟩
    rw [step_cons K _ [] h.pool.alive (by rw [hcur]; exact h0)]
    exact cond_broadcast_done c l _ hq
  rw [k1]
  have hon : K.intr ≠ intr_level.INTR_OFF := by
    intro e
    have := h.masked e
    rw [hcur, h0] at this
    exact absurd this (by simp [resumes, Instr.resumes])
  apply advance_same B c l K K1 _ _ k6 (fun _ _ => hq)
  refine ⟨?_, ?_, ?_⟩
  · rw [k2, k3]
    apply pool_same B c l _ K K1 h.pool k6
    · exact ⟨0, Or.inr ⟨by rw [k4, ← hcur, upd_eq]; rfl, hq⟩⟩
    · intro t ht htB
      apply runner_congr l K K1 t _ (by rw [k6.elems]) (h.pool.others t ht htB)
      rw [k4, upd_ne _ _ _ _ (by rw [hcur]; exact htB)]
    · intro w hw
      rw [hq] at hw
      exact absurd hw (List.not_mem_nil _)
  · intro t ht
    rw [k3] at ht
    rw [k4, upd_ne _ _ _ _ (broadcast_cur_not_ready B c l K h t ht)]
    exact h.resume t ht
  · intro e
    rw [k5] at e
    exact absurd e hon

/-- A thread woken by a signal takes the unit of its private semaphore. -/
theorem broadcast_take (B : Tid) (c l : Nat) (K : Kernel) (h : Broadcast B c l K)
    (hcur : K.cur ≠ B) (tail : List Instr)
    (h0 : K.cont K.cur =
      Instr.sema_down_loop (.waiter K.cur) intr_level.INTR_ON :: Instr.lock_acquire l :: tail)
    (hel : K.elems K.cur = { value := 1, waiters := [] }) :
    Advance B c l K (step K) Turn.step := by
  obtain ⟨K1, k1, k2, k3, k4, k5, k6, k7, k8, k9, k10, k11, k12, k13, k14⟩ : ∃ K1 : Kernel,
      step K = K1 ∧ K1.cur = K.cur ∧
      K1.ready_list = K.ready_list ∧
      K1.cont = upd K.cont K.cur (Instr.lock_acquire l :: tail) ∧
      K1.intr = intr_level.INTR_ON ∧
      K1.elems = upd K.elems K.cur
        { value := uint_dec (K.elems K.cur).value, waiters := (K.elems K.cur).waiters } ∧
      K1.conds = K.conds ∧ K1.locks = K.locks ∧ K1.threads = K.threads ∧
      K1.panicked = K.panicked ∧ K1.in_intr = K.in_intr ∧ K1.nthreads = K.nthreads ∧
      K1.idle_thread = K.idle_thread ∧ True := by
    refine ⟨{ K with
        cont := upd K.cont K.cur (Instr.lock_acquire l :: tail)
        elems := upd K.elems K.cur
          { value := uint_dec (K.elems K.cur).value, waiters := (K.elems K.cur).waiters }
        intr := intr_level.INTR_ON }, ?_, rfl, rfl, rfl, rfl, rfl, rfl, rfl, rfl, rfl, rfl, rfl,
      rfl, trivial⟩
    rw [step_cons K _ _ h.pool.alive h0]
    show sema_down_loop (.waiter K.cur) intr_level.INTR_ON _ = _
    unfold sema_down_loop
    rw [if_neg (by show (K.elems K.cur).value ≠ 0; rw [hel]; decide)]
    rfl
  rw [k1]
  have hP := h.pool
  have hne : ∀ w ∈ (K.conds c).waiters, w ≠ K.cur := fun w hw e =>
    (hP.waiting w hw).1 (by rw [e]; exact List.mem_cons_self _ _)
  refine ⟨⟨?_, ?_, ?_⟩, fun u _ => by rw [k9], Or.inr ⟨?_, by rw [k7], ?_⟩⟩
  · rw [k2, k3]
    apply pool_transfer B c l _ _ K K1 hP (by rw [k10]; exact hP.alive)
      (by rw [k11]; exact hP.context) (by rw [k12]; exact hP.records)
      (by rw [k8]; exact hP.holder) (by rw [k8]; exact hP.taken)
      (by rw [k9]; exact hP.unblocked) k13 (by rw [k7]) hP.distinct (fun _ ht => ht) hP.present
    · rw [k4, upd_ne _ _ _ _ (Ne.symm hcur)]
      exact hP.caller
    · intro t ht htB
      by_cases e : t = K.cur
      · refine ⟨0, Or.inr (Or.inr ⟨tail, ?_⟩)⟩
        rw [k4, e, upd_eq]
        rfl
      · apply runner_congr l K K1 t _ _ (hP.others t ht htB)
        · rw [k4, upd_ne _ _ _ _ e]
        · rw [k6, upd_ne _ _ _ _ e]
    · intro w hw
      exact ⟨by rw [k6, upd_ne _ _ _ _ (hne w hw)], by rw [k4, upd_ne _ _ _ _ (hne w hw)]⟩
  · intro t ht
    rw [k3] at ht
    rw [k4, upd_ne _ _ _ _ (broadcast_cur_not_ready B c l K h t ht)]
    exact h.resume t ht
  · intro e
    rw [k5] at e
    exact absurd e (by decide)
  · apply signal_at_zero
    intro _ hh
    rw [h0] at hh
    simp at hh
  · intro e
    rw [k6]
    by_cases e1 : e = K.cur
    · rw [e1, upd_eq, hel]
      decide
    · rw [upd_ne _ _ _ _ e1]
      omega

/-- A thread woken by a signal calls `lock_acquire` on the lock, which the
broadcasting thread holds: it blocks. -/
theorem broadcast_block (B : Tid) (c l : Nat) (K : Kernel) (h : Broadcast B c l K)
    (hcur : K.cur ≠ B) (tail : List Instr)
    (h0 : K.cont K.cur = Instr.lock_acquire l :: tail) :
    Advance B c l K (step K) Turn.step := by
  have hP := h.pool
  have hBr : B ∈ K.ready_list := by
    rcases List.mem_cons.1 hP.present with e | e
    · exact absurd e.symm hcur
    · exact e
  obtain ⟨K0, k0, k1, k2, k3, k4⟩ : ∃ K0 : Kernel, step K = exec (.lock_acquire l) K0 ∧
      K0.cur = K.cur ∧ K0.ready_list = K.ready_list ∧ K0.cont = upd K.cont K.cur tail ∧
      Same K K0 :=
    ⟨_, step_cons K _ _ hP.alive h0, rfl, rfl, rfl,
      ⟨rfl, rfl, rfl, fun _ => rfl, fun _ => rfl, rfl, rfl, rfl, rfl⟩⟩
  obtain ⟨n, a1, a2, a3, a4, a5, a6, a7, a8, a9, a10, a11, a12, a13, a14, a15⟩ :=
    lock_acquire_blocks K0 l B (by rw [k4.context]; exact hP.context)
      (by rw [k4.alive]; exact hP.alive) (by rw [k4.locks]; exact hP.holder)
      (by rw [k1]; exact hcur) (by rw [k4.locks]; exact hP.taken)
      (by rw [k4.wait]; exact hP.unblocked) (by rw [k4.records]; exact hP.records)
      (by rw [k2]; exact List.ne_nil_of_mem hBr)
  rw [← k0] at a2 a3 a4 a5 a6 a7 a8 a9 a10 a11 a12 a13 a14 a15
  rw [k2] at a1 a3
  have hRn : K.ready_list.Nodup := (List.nodup_cons.1 hP.distinct).2
  have hmem := mem_dispatch n K.ready_list a1
  have hcont : ∀ t ∈ K.ready_list, (step K).cont t = K.cont t := by
    intro t ht
    have hne := broadcast_cur_not_ready B c l K h t ht
    rw [a5 t (by rw [k1]; exact hne), k3, upd_ne _ _ _ _ hne]
  have hne : ∀ w ∈ (K.conds c).waiters, w ≠ K.cur := fun w hw e =>
    (hP.waiting w hw).1 (by rw [e]; exact List.mem_cons_self _ _)
  refine ⟨⟨?_, ?_, ?_⟩, ?_, Or.inr ⟨?_, by rw [a7, k4.conds], ?_⟩⟩
  · rw [a2, a3]
    apply pool_transfer B c l _ _ K (step K) hP a12 a13 (by rw [a14, k4.records]; exact hP.records)
      a8 a9 a10 (by rw [a15, k4.idle]) (by rw [a7, k4.conds]) (nodup_dispatch n _ hRn a1)
      (fun t ht => List.mem_cons_of_mem _ ((hmem t).1 ht)) ((hmem B).2 hBr)
    · rw [hcont B hBr]
      exact hP.caller
    · intro t ht htB
      have htR := (hmem t).1 ht
      exact runner_congr l K (step K) t (hcont t htR) (by rw [a6, k4.elems])
        (hP.others t (List.mem_cons_of_mem _ htR) htB)
    · intro w hw
      refine ⟨by rw [a6, k4.elems], ?_⟩
      rw [a5 w (by rw [k1]; exact hne w hw), k3, upd_ne _ _ _ _ (hne w hw)]
  · intro t ht
    rw [a3] at ht
    have htR := (hmem t).1 (List.mem_cons_of_mem _ ht)
    rw [hcont t htR]
    exact h.resume t htR
  · intro _
    rw [a2, hcont n a1]
    exact h.resume n a1
  · intro u hu
    rw [a11 u hu, k4.prio]
  · apply signal_at_zero
    intro _ hh
    rw [h0] at hh
    simp at hh
  · intro e
    rw [a6, k4.elems]
    omega

/-- The turn of the loop of `cond_broadcast` with the queue not empty, up to
the preemption check: the element `w` at the head of the sorted queue is taken
off, its private semaphore goes from 0 to 1 and its thread is made ready. -/
theorem cond_broadcast_signal (B : Tid) (c l : Nat) (K : Kernel) (w : Tid) (ws1 : List Tid)
    (rest : List Instr) (hp : K.panicked = false) (hi : K.in_intr = false) (hcur : K.cur = B)
    (hh : (K.locks l).holder = some B) (hc : K.cont B = Instr.cond_broadcast c l :: rest)
    (hsort : list_sort (cmp_sem_priority K) (K.conds c).waiters = w :: ws1)
    (hel : K.elems w = { value := 0, waiters := [w] }) :
    ∃ Ku : Kernel, step K = test_max_priority K.intr Ku ∧
      Ku.cur = B ∧ Ku.ready_list = K.ready_list ++ [w] ∧ Ku.cont = K.cont ∧
      Ku.elems w = { value := 1, waiters := [] } ∧
      (∀ e, e ≠ w → Ku.elems e = K.elems e) ∧
      (Ku.conds c).waiters = ws1 ∧ Ku.locks = K.locks ∧
      (∀ t, (Ku.threads t).priority = (K.threads t).priority) ∧
      (∀ t, (Ku.threads t).wait_on_lock = (K.threads t).wait_on_lock) ∧
      Ku.panicked = K.panicked ∧ Ku.in_intr = K.in_intr ∧ Ku.nthreads = K.nthreads ∧
      Ku.idle_thread = K.idle_thread := by
  have hu : upd (upd K.cont K.cur rest) K.cur (Instr.cond_broadcast c l :: rest) = K.cont := by
    funext t
    simp only [upd]
    split
    · next h => rw [h, hcur, hc]
    · rfl
  -- the state in which `sema_up` is called
  obtain ⟨Ks, es, s1, s2, s3, s4, s5, s6, s7, s10, s11, s12, s13, s14⟩ : ∃ Ks : Kernel,
      step K = sema_up (.waiter w) Ks ∧ Ks.cur = B ∧ Ks.ready_list = K.ready_list ∧
        Ks.threads = K.threads ∧ Ks.elems = K.elems ∧ Ks.cont = K.cont ∧ Ks.locks = K.locks ∧
        (Ks.conds c).waiters = ws1 ∧
        Ks.idle_thread = K.idle_thread ∧ Ks.nthreads = K.nthreads ∧ Ks.in_intr = K.in_intr ∧
        Ks.panicked = K.panicked ∧ Ks.intr = K.intr := by
    refine ⟨{ Kernel.push { K with cont := upd K.cont K.cur rest } [Instr.cond_broadcast c l] with
        conds := upd K.conds c { waiters := ws1 } }, ?_, ?_, ?_, ?_, ?_, ?_, ?_, ?_, ?_, ?_, ?_,
      ?_, ?_⟩
    · rw [step_cons K _ rest hp (by rw [hcur]; exact hc)]
      exact cond_broadcast_turn_eq c l { K with cont := upd K.cont K.cur rest } w ws1
        hi (by show (K.locks l).holder = some K.cur; rw [hcur]; exact hh) hsort
    · exact hcur
    · rfl
    · rfl
    · rfl
    · show upd (upd K.cont K.cur rest) K.cur
        ([Instr.cond_broadcast c l] ++ upd K.cont K.cur rest K.cur) = K.cont
      rw [show upd K.cont K.cur rest K.cur = rest by simp [upd]]
      exact hu
    · rfl
    · simp [upd]
    · rfl
    · rfl
    · rfl
    · rfl
    · rfl
  have hsort2 : list_sort (cmp_priority Ks) (Ks.getSema (.waiter w)).waiters = w :: [] := by
    show list_sort _ (Ks.elems w).waiters = [w]
    rw [s4, hel]
    rfl
  have hval : (Ks.getSema (.waiter w)).value = 0 := by
    show (Ks.elems w).value = 0
    rw [s4, hel]
  refine ⟨Kernel.setSema
      (thread_unblock w
        (Kernel.setSema { Ks with intr := intr_level.INTR_OFF } (.waiter w)
          { value := (Ks.getSema (.waiter w)).value, waiters := [] }))
      (.waiter w) { value := uint_inc (Ks.getSema (.waiter w)).value, waiters := [] },
    ?_, ?_, ?_, ?_, ?_, ?_, ?_, ?_, ?_, ?_, ?_, ?_, ?_, ?_⟩
  · rw [es, sema_up_cons Ks (.waiter w) w [] hsort2, s14]
  · simp [s1]
  · simp [thread_unblock, Kernel.setSema, s2]
  · simp [Kernel.setSema, thread_unblock, s5]
  · simp [Kernel.setSema, upd, hval, uint_inc_zero]
  · intro e he
    simp [Kernel.setSema, thread_unblock, upd, he, s4]
  · simp [Kernel.setSema, thread_unblock, s7]
  · simp [Kernel.setSema, thread_unblock, s6]
  · intro t
    simp only [Kernel.setSema, thread_unblock, upd, s3]
    split <;> simp_all
  · intro t
    simp only [Kernel.setSema, thread_unblock, upd, s3]
    split <;> simp_all
  · simp [Kernel.setSema, thread_unblock, s13]
  · simp [Kernel.setSema, thread_unblock, s12]
  · simp [Kernel.setSema, thread_unblock, s11]
  · simp [Kernel.setSema, thread_unblock, s10]

/-- The turn of the loop of `cond_broadcast` with the queue not empty: a call
of `cond_signal`. -/
theorem broadcast_signal_turn (B : Tid) (c l : Nat) (K : Kernel) (h : Broadcast B c l K)
    (hcur : K.cur = B) (h0 : K.cont B = [Instr.cond_broadcast c l])
    (hq : (K.conds c).waiters ≠ []) : Advance B c l K (step K) Turn.step := by
  have hP := h.pool
  have hon : K.intr = intr_level.INTR_ON := by
    cases e : K.intr with
    | INTR_ON => rfl
    | INTR_OFF =>
      have := h.masked e
      rw [hcur, h0] at this
      exact absurd this (by simp [resumes, Instr.resumes])
  cases hsort : list_sort (cmp_sem_priority K) (K.conds c).waiters with
  | nil => exact absurd (list_sort_eq_nil _ _ hsort) hq
  | cons w ws1 =>
    have hperm : List.Perm (w :: ws1) (K.conds c).waiters := by
      rw [← hsort]; exact list_sort_perm _ _
    have hw : w ∈ (K.conds c).waiters := hperm.subset (List.mem_cons_self _ _)
    have hnd : (w :: ws1).Nodup := hperm.nodup_iff.2 hP.queue
    have hsub : ∀ x ∈ ws1, x ∈ (K.conds c).waiters := fun x hx =>
      hperm.subset (List.mem_cons_of_mem _ hx)
    obtain ⟨hwL, hel, tail, hcw⟩ := hP.waiting w hw
    obtain ⟨Ku, e, u1, u2, u3, u4, u5, u6, u7, u8, u9, u10, u11, u12, u13⟩ :=
      cond_broadcast_signal B c l K w ws1 [] hP.alive hP.context hcur hP.holder h0 hsort hel
    rw [hon] at e
    -- the state before the preemption check
    have hPu : Pool B c l (Ku.cur :: Ku.ready_list) Ku := by
      rw [u1, u2]
      have hL : (K.cur :: K.ready_list) = B :: K.ready_list := by rw [hcur]
      rw [hL] at hP hwL
      exact
        { alive := by rw [u10]; exact hP.alive
          context := by rw [u11]; exact hP.context
          records := by rw [u12]; exact hP.records
          holder := by rw [u7]; exact hP.holder
          taken := by rw [u7]; exact hP.taken
          unblocked := by rw [u9]; exact hP.unblocked
          regular := by
            rw [u13, u6]
            refine ⟨?_, fun x => hP.regular.2 (hsub _ x)⟩
            intro x
            rw [← List.cons_append, List.mem_append, List.mem_singleton] at x
            rcases x with x | x
            · exact hP.regular.1 x
            · exact hP.regular.2 (x ▸ hw)
          distinct := by
            rw [← List.cons_append]
            apply List.Nodup.append hP.distinct (List.nodup_singleton w)
            intro x hx hx2
            rw [List.mem_singleton] at hx2
            exact hwL (hx2 ▸ hx)
          present := List.mem_cons_self _ _
          caller := ⟨0, Or.inl (by rw [u3, h0]; rfl)⟩
          others := by
            intro t ht htB
            rw [← List.cons_append, List.mem_append, List.mem_singleton] at ht
            rcases ht with ht | ht
            · have htw : t ≠ w := fun x => hwL (x ▸ ht)
              exact runner_congr l K Ku t (by rw [u3]) (u5 t htw) (hP.others t ht htB)
            · rw [ht]
              exact ⟨0, Or.inr (Or.inl ⟨tail, by rw [u3, hcw]; rfl, u4⟩)⟩
          queue := by rw [u6]; exact (List.nodup_cons.1 hnd).2
          waiting := by
            rw [u6]
            intro x hx
            obtain ⟨a, b, d⟩ := hP.waiting x (hsub x hx)
            have hxw : x ≠ w := fun e2 => (List.nodup_cons.1 hnd).1 (e2 ▸ hx)
            refine ⟨?_, by rw [u5 x hxw]; exact b, by rw [u3]; exact d⟩
            intro y
            rw [← List.cons_append, List.mem_append, List.mem_singleton] at y
            rcases y with y | y
            · exact a y
            · exact hxw y }
    have hresu : ∀ t ∈ Ku.ready_list, resumes (Ku.cont t) = true := by
      intro t ht
      rw [u2, List.mem_append, List.mem_singleton] at ht
      rw [u3]
      rcases ht with ht | ht
      · exact h.resume t ht
      · rw [ht, hcw]; rfl
    have hsig : signal_at c l K Turn.step = 1 := by
      unfold signal_at
      rw [if_pos ⟨rfl, hP.alive, by rw [hcur, h0]; rfl, hq⟩]
    -- the preemption check
    obtain ⟨hB1, hs⟩ : Broadcast B c l (step K) ∧
        ((step K).elems = Ku.elems ∧ (step K).conds = Ku.conds ∧
          ∀ t, ((step K).threads t).priority = (Ku.threads t).priority) := by
      rw [e]
      unfold test_max_priority
      split
      · have hid : Ku.cur ≠ Ku.idle_thread := fun x =>
          hPu.regular.1 (by rw [← x]; exact List.mem_cons_self _ _)
        obtain ⟨n, y1, y2, y3, _, y5, y6⟩ :=
          thread_yield_push Ku (Instr.intr_set_level intr_level.INTR_ON) hid
        exact ⟨broadcast_yielded B c l Ku _ n hPu hresu y1 y2 y3 y5 y6, y6.elems, y6.conds,
          y6.prio⟩
      · refine ⟨⟨?_, hresu, fun x =>
          absurd (show intr_level.INTR_ON = intr_level.INTR_OFF from x) (by decide)⟩, rfl, rfl,
          fun _ => rfl⟩
        exact pool_same B c l _ Ku _ hPu
          ⟨rfl, rfl, rfl, fun _ => rfl, fun _ => rfl, rfl, rfl, rfl, rfl⟩ hPu.caller hPu.others
          (fun _ _ => rfl)
    refine ⟨hB1, fun u _ => by rw [hs.2.2, u8], Or.inl ⟨hsig, w, ws1, hsort, ?_, ?_, ?_⟩⟩
    · rw [hs.2.1]; exact u6
    · rw [hs.1, u4, hel]
    · intro x hx
      rw [hs.1]
      exact u5 x hx

/-- A step of the running thread advances the call. -/
theorem broadcast_step (B : Tid) (c l : Nat) (K : Kernel) (h : Broadcast B c l K) :
    Advance B c l K (step K) Turn.step := by
  have hP := h.pool
  by_cases hcur : K.cur = B
  · obtain ⟨j, hj⟩ := hP.caller
    cases j with
    | succ j =>
      rw [restores_succ] at hj
      rcases hj with hj | ⟨hj, _⟩
      · exact broadcast_restore B c l K h _ _ (by rw [hcur, hj]; rfl)
      · exact broadcast_restore B c l K h _ _ (by rw [hcur, hj])
    | zero =>
      rcases hj with hj | ⟨hj, _⟩
      · by_cases hq : (K.conds c).waiters = []
        · exact broadcast_return B c l K h hcur hj hq
        · exact broadcast_signal_turn B c l K h hcur hj hq
      · exact broadcast_idle B c l K h (by rw [hcur, hj]; rfl)
  · obtain ⟨j, hj⟩ := hP.others K.cur (List.mem_cons_self _ _) hcur
    cases j with
    | succ j =>
      rw [restores_succ] at hj
      rcases hj with hj | ⟨tail, hj, _⟩ | ⟨tail, hj⟩
      · exact broadcast_restore B c l K h _ _ hj
      · exact broadcast_restore B c l K h _ _ (by rw [hj]; rfl)
      · exact broadcast_restore B c l K h _ _ (by rw [hj]; rfl)
    | zero =>
      rcases hj with hj | ⟨tail, hj, hel⟩ | ⟨tail, hj⟩
      · exact broadcast_idle B c l K h (by rw [hj]; rfl)
      · exact broadcast_take B c l K h hcur tail hj hel
      · exact broadcast_block B c l K h hcur tail hj

/-- Every transition advances the call. -/
theorem broadcast_advance (B : Tid) (c l : Nat) (K : Kernel) (h : Broadcast B c l K) (x : Turn) :
    Advance B c l K (K.turn x) x := by
  cases x with
  | step => exact broadcast_step B c l K h
  | timer => exact broadcast_timer B c l K h
  | switch t => exact broadcast_switch B c l K h t

theorem filter_eq_singleton (p : Tid → Bool) (w : Tid) (hw : p w = true)
    (hp : ∀ e, e ≠ w → p e = false) :
    ∀ obs : List Tid, obs.Nodup → w ∈ obs → obs.filter p = [w] := by
  intro obs
  induction obs with
  | nil => intro _ h; exact absurd h (List.not_mem_nil _)
  | cons a obs ih =>
    intro hnd hmem
    obtain ⟨ha, hnd1⟩ := List.nodup_cons.1 hnd
    by_cases e : a = w
    · subst e
      rw [List.filter_cons_of_pos hw]
      congr 1
      rw [List.filter_eq_nil_iff]
      intro x hx
      have : x ≠ a := fun e2 => ha (e2 ▸ hx)
      rw [hp x this]
      simp
    · rw [List.filter_cons_of_neg (by rw [hp a e]; simp)]
      rcases List.mem_cons.1 hmem with e2 | e2
      · exact absurd e2.symm e
      · exact ih hnd1 e2

/-- The thread of a queued element is not the broadcasting thread, and the
priority `cmp_sem_priority` reads for the element is that of its thread. -/
theorem broadcast_queued (B : Tid) (c l : Nat) (K : Kernel) (h : Broadcast B c l K) (w : Tid)
    (hw : w ∈ (K.conds c).waiters) : w ≠ B ∧ front_priority K w = (K.threads w).priority := by
  obtain ⟨a, b, _⟩ := h.pool.waiting w hw
  constructor
  · intro e
    exact a (e ▸ h.pool.present)
  · unfold front_priority
    rw [b]

/-- Every run from a state inside the call: the invariant holds at the end and
no thread but `B` has changed priority; each call of `cond_signal` has taken
one element off the queue; the elements whose private semaphore has been
upped, in the order of the ups, followed by the queue at the end, are the
elements of the queue at the start, each once; the ups are in descending order
of priority, and no element left has a higher priority than one that was
upped. -/
theorem broadcast_along (B : Tid) (c l : Nat) (obs : List Tid) (hobs : obs.Nodup)
    (ts : List Turn) :
    ∀ K, Broadcast B c l K → (∀ w ∈ (K.conds c).waiters, w ∈ obs) →
      Broadcast B c l (K.turns ts) ∧
      (∀ u, u ≠ B → ((K.turns ts).threads u).priority = (K.threads u).priority) ∧
      signals_along c l K ts + ((K.turns ts).conds c).waiters.length =
        (K.conds c).waiters.length ∧
      (ups_along obs K ts ++ ((K.turns ts).conds c).waiters).Perm (K.conds c).waiters ∧
      (ups_along obs K ts).Pairwise
        (fun a b => (K.threads b).priority ≤ (K.threads a).priority) ∧
      ∀ a ∈ ups_along obs K ts, ∀ q ∈ ((K.turns ts).conds c).waiters,
        (K.threads q).priority ≤ (K.threads a).priority := by
  induction ts with
  | nil =>
    intro K h _
    exact ⟨h, fun _ _ => rfl, by simp [signals_along, Kernel.turns],
      by simp [ups_along, Kernel.turns], by simp [ups_along],
      by simp [ups_along]⟩
  | cons x ts ih =>
    intro K h hsub
    obtain ⟨h1, hprio, heff⟩ := broadcast_advance B c l K h x
    rw [turns_cons]
    rcases heff with ⟨hsig, w, ws1, hsort, hq1, hv, hoth⟩ | ⟨hsig, hq1, hv⟩
    · have hperm : List.Perm (w :: ws1) (K.conds c).waiters := by
        rw [← hsort]; exact list_sort_perm _ _
      have hw : w ∈ (K.conds c).waiters := hperm.subset (List.mem_cons_self _ _)
      have hsub1 : ∀ e ∈ ((K.turn x).conds c).waiters, e ∈ (K.conds c).waiters := by
        intro e he
        rw [hq1] at he
        exact hperm.subset (List.mem_cons_of_mem _ he)
      obtain ⟨i1, i2, i3, i4, i5, i6⟩ := ih (K.turn x) h1 (fun e he => hsub e (hsub1 e he))
      have hup : upped_by_turn obs K x = [w] := by
        unfold upped_by_turn
        apply filter_eq_singleton _ w (by simpa using hv) _ obs hobs (hsub w hw)
        intro e he
        rw [hoth e he]
        simp
      have hmax : ∀ e ∈ (K.conds c).waiters, (K.threads e).priority ≤ (K.threads w).priority := by
        intro e he
        have := (list_sort_head (cmp_sem_priority K) (front_priority K)
          (cmp_sem_priority_iff K) _ w ws1 hsort).1 e he
        rw [(broadcast_queued B c l K h e he).2, (broadcast_queued B c l K h w hw).2] at this
        exact this
      have hlog : ∀ a ∈ ups_along obs (K.turn x) ts, a ∈ ((K.turn x).conds c).waiters :=
        fun a ha => i4.subset (List.mem_append_left _ ha)
      have hfin : ∀ q ∈ (((K.turn x).turns ts).conds c).waiters,
          q ∈ ((K.turn x).conds c).waiters :=
        fun q hq => i4.subset (List.mem_append_right _ hq)
      have hpr : ∀ e ∈ ((K.turn x).conds c).waiters,
          ((K.turn x).threads e).priority = (K.threads e).priority :=
        fun e he => hprio e (broadcast_queued B c l K h e (hsub1 e he)).1
      refine ⟨i1, fun u hu => (i2 u hu).trans (hprio u hu), ?_, ?_, ?_, ?_⟩
      · show signal_at c l K x + signals_along c l (K.turn x) ts + _ = _
        rw [hsig, ← hperm.length_eq, List.length_cons, ← hq1]
        omega
      · show (upped_by_turn obs K x ++ ups_along obs (K.turn x) ts ++ _).Perm _
        rw [hup, List.append_assoc, List.singleton_append]
        exact (List.Perm.cons w (by rw [← hq1]; exact i4)).trans hperm
      · show (upped_by_turn obs K x ++ ups_along obs (K.turn x) ts).Pairwise _
        rw [hup, List.singleton_append, List.pairwise_cons]
        refine ⟨fun a ha => hmax a (hsub1 a (hlog a ha)), ?_⟩
        apply i5.imp_of_mem
        intro a b ha hb hab
        rw [← hpr a (hlog a ha), ← hpr b (hlog b hb)]
        exact hab
      · intro a ha q hq
        have ha1 : a ∈ upped_by_turn obs K x ++ ups_along obs (K.turn x) ts := ha
        rw [hup, List.singleton_append] at ha1
        rcases List.mem_cons.1 ha1 with e | e
        · rw [e]
          exact hmax q (hsub1 q (hfin q hq))
        · rw [← hpr a (hlog a e), ← hpr q (hfin q hq)]
          exact i6 a e q hq
    · have hsub1 : ∀ e ∈ ((K.turn x).conds c).waiters, e ∈ (K.conds c).waiters := by
        intro e he
        rw [hq1] at he
        exact he
      obtain ⟨i1, i2, i3, i4, i5, i6⟩ := ih (K.turn x) h1 (fun e he => hsub e (hsub1 e he))
      have hup : upped_by_turn obs K x = [] := by
        unfold upped_by_turn
        rw [List.filter_eq_nil_iff]
        intro e _
        simpa using hv e
      have hlog : ∀ a ∈ ups_along obs (K.turn x) ts, a ∈ ((K.turn x).conds c).waiters :=
        fun a ha => i4.subset (List.mem_append_left _ ha)
      have hfin : ∀ q ∈ (((K.turn x).turns ts).conds c).waiters,
          q ∈ ((K.turn x).conds c).waiters :=
        fun q hq => i4.subset (List.mem_append_right _ hq)
      have hpr : ∀ e ∈ ((K.turn x).conds c).waiters,
          ((K.turn x).threads e).priority = (K.threads e).priority :=
        fun e he => hprio e (broadcast_queued B c l K h e (hsub1 e he)).1
      refine ⟨i1, fun u hu => (i2 u hu).trans (hprio u hu), ?_, ?_, ?_, ?_⟩
      · show signal_at c l K x + signals_along c l (K.turn x) ts + _ = _
        rw [hsig, ← hq1]
        omega
      · show (upped_by_turn obs K x ++ ups_along obs (K.turn x) ts ++ _).Perm _
        rw [hup, List.nil_append, ← hq1]
        exact i4
      · show (upped_by_turn obs K x ++ ups_along obs (K.turn x) ts).Pairwise _
        rw [hup, List.nil_append]
        apply i5.imp_of_mem
        intro a b ha hb hab
        rw [← hpr a (hlog a ha), ← hpr b (hlog b hb)]
        exact hab
      · intro a ha q hq
        have ha1 : a ∈ upped_by_turn obs K x ++ ups_along obs (K.turn x) ts := ha
        rw [hup, List.nil_append] at ha1
        rw [← hpr a (hlog a ha1), ← hpr q (hfin q hq)]
        exact i6 a ha1 q hq

/-! ## A broadcast among threads that take turns: the call returns -/

theorem all_restores (j : Nat) : (restores j).all Instr.is_restore = true := by
  induction j with
  | zero => rfl
  | succ j ih => rw [restores_succ, List.all_cons, ih]; rfl

theorem returned_of_restores (K : Kernel) (B : Tid) (j : Nat) (h : K.cont B = restores j) :
    K.returned B = true := by
  unfold Kernel.returned
  rw [h]
  exact all_restores j

theorem not_returned_of_pending (K : Kernel) (B : Tid) (j : Nat) (i : Instr)
    (hi : i.is_restore = false) (h : K.cont B = restores j ++ [i]) : K.returned B = false := by
  unfold Kernel.returned
  rw [h, List.all_append, all_restores]
  simp [hi]

/-- Until the call has returned, a turn of the loop is pending. -/
theorem broadcast_pending (B : Tid) (c l : Nat) (K : Kernel) (h : Broadcast B c l K)
    (hr : K.returned B = false) : ∃ j, K.cont B = restores j ++ [Instr.cond_broadcast c l] := by
  obtain ⟨j, hj⟩ := h.pool.caller
  rcases hj with hj | ⟨hj, _⟩
  · exact ⟨j, hj⟩
  · rw [returned_of_restores K B j hj] at hr
    exact absurd hr (by decide)

/-- When the call has returned the queue is empty. -/
theorem broadcast_returned (B : Tid) (c l : Nat) (K : Kernel) (h : Broadcast B c l K)
    (hr : K.returned B = true) : (K.conds c).waiters = [] := by
  obtain ⟨j, hj⟩ := h.pool.caller
  rcases hj with hj | ⟨_, hq⟩
  · rw [not_returned_of_pending K B j (Instr.cond_broadcast c l) rfl hj] at hr
    exact absurd hr (by decide)
  · exact hq

theorem advance_quiet (B : Tid) (c l : Nat) (K K1 : Kernel) (x : Turn)
    (h : Advance B c l K K1 x) (h0 : signal_at c l K x = 0) :
    (K1.conds c).waiters = (K.conds c).waiters := by
  rcases h.2.2 with ⟨h1, _⟩ | ⟨_, h2, _⟩
  · rw [h0] at h1
    exact absurd h1 (by decide)
  · exact h2

/-- The broadcasting thread, running, executes the restores of the interrupt
level it has pending and is at the test of the loop. -/
theorem broadcast_pop (B : Tid) (c l : Nat) :
    ∀ (j : Nat) (K : Kernel), Broadcast B c l K → K.cur = B →
      K.cont B = restores j ++ [Instr.cond_broadcast c l] →
      ∃ us, Broadcast B c l (K.turns us) ∧ (K.turns us).cur = B ∧
        (K.turns us).cont B = [Instr.cond_broadcast c l] ∧
        ((K.turns us).conds c).waiters = (K.conds c).waiters := by
  intro j
  induction j with
  | zero =>
    intro K h hcur hc
    exact ⟨[], h, hcur, hc, rfl⟩
  | succ j ih =>
    intro K h hcur hc
    rw [restores_succ] at hc
    have h0 : K.cont K.cur = Instr.intr_set_level intr_level.INTR_ON ::
        (restores j ++ [Instr.cond_broadcast c l]) := by rw [hcur, hc]; rfl
    have e := step_intr_set_level K _ _ h.pool.alive h0
    have hadv := broadcast_restore B c l K h _ _ h0
    obtain ⟨us, u1, u2, u3, u4⟩ := ih (step K) hadv.1 (by rw [e]; exact hcur)
      (by rw [e]; show upd K.cont K.cur _ B = _; rw [← hcur, upd_eq])
    refine ⟨Turn.step :: us, u1, u2, u3, ?_⟩
    rw [turns_cons]
    show (((step K).turns us).conds c).waiters = _
    rw [u4, e]

/-- With another thread running, a run leads to a state in which interrupts
are on; the broadcasting thread and the queue are as before. -/
theorem broadcast_unmask (B : Tid) (c l : Nat) (K : Kernel) (h : Broadcast B c l K)
    (hcur : K.cur ≠ B) :
    ∃ us, Broadcast B c l (K.turns us) ∧ (K.turns us).intr = intr_level.INTR_ON ∧
      (K.turns us).cur ≠ B ∧ (K.turns us).cont B = K.cont B ∧
      ((K.turns us).conds c).waiters = (K.conds c).waiters := by
  cases hi : K.intr with
  | INTR_ON => exact ⟨[], h, hi, hcur, rfl, rfl⟩
  | INTR_OFF =>
    have hres := h.masked hi
    have hadv := broadcast_step B c l K h
    refine ⟨[Turn.step], hadv.1, ?_, ?_, step_cont_other K B (Ne.symm hcur), ?_⟩
    · show (step K).intr = _
      obtain ⟨j, hj⟩ := h.pool.others K.cur (List.mem_cons_self _ _) hcur
      cases j with
      | succ j =>
        rw [restores_succ] at hj
        have h0 : ∃ tl, K.cont K.cur = Instr.intr_set_level intr_level.INTR_ON :: tl := by
          rcases hj with hj | ⟨tail, hj, _⟩ | ⟨tail, hj⟩
          · exact ⟨_, hj⟩
          · exact ⟨_, by rw [hj]; rfl⟩
          · exact ⟨_, by rw [hj]; rfl⟩
        obtain ⟨tl, h0⟩ := h0
        rw [step_intr_set_level K _ _ h.pool.alive h0]
      | zero =>
        rcases hj with hj | ⟨tail, hj, hel⟩ | ⟨tail, hj⟩
        · rw [hj] at hres
          exact absurd hres (by simp [restores, resumes])
        · exact (step_sema_down_loop_pos K (.waiter K.cur) _ _ h.pool.alive hj
            (by show (K.elems K.cur).value ≠ 0; rw [hel]; decide)).2.2.2.1
        · rw [hj] at hres
          exact absurd hres (by simp [restores, resumes, Instr.resumes])
    · show (step K).cur ≠ B
      obtain ⟨j, hj⟩ := h.pool.others K.cur (List.mem_cons_self _ _) hcur
      cases j with
      | succ j =>
        rw [restores_succ] at hj
        have h0 : ∃ tl, K.cont K.cur = Instr.intr_set_level intr_level.INTR_ON :: tl := by
          rcases hj with hj | ⟨tail, hj, _⟩ | ⟨tail, hj⟩
          · exact ⟨_, hj⟩
          · exact ⟨_, by rw [hj]; rfl⟩
          · exact ⟨_, by rw [hj]; rfl⟩
        obtain ⟨tl, h0⟩ := h0
        rw [step_intr_set_level K _ _ h.pool.alive h0]
        exact hcur
      | zero =>
        rcases hj with hj | ⟨tail, hj, hel⟩ | ⟨tail, hj⟩
        · rw [hj] at hres
          exact absurd hres (by simp [restores, resumes])
        · rw [(step_sema_down_loop_pos K (.waiter K.cur) _ _ h.pool.alive hj
            (by show (K.elems K.cur).value ≠ 0; rw [hel]; decide)).2.2.1]
          exact hcur
        · rw [hj] at hres
          exact absurd hres (by simp [restores, resumes, Instr.resumes])
    · apply advance_quiet B c l K _ _ hadv
      apply signal_at_zero
      intro _ hh
      obtain ⟨j, hj⟩ := h.pool.others K.cur (List.mem_cons_self _ _) hcur
      cases j with
      | succ j =>
        rw [restores_succ] at hj
        rcases hj with hj | ⟨tail, hj, _⟩ | ⟨tail, hj⟩ <;> rw [hj] at hh <;> simp at hh
      | zero =>
        rcases hj with hj | ⟨tail, hj, _⟩ | ⟨tail, hj⟩ <;> rw [hj] at hh <;>
          simp [restores] at hh

/-- Until the call has returned, a run leads to a state in which the
broadcasting thread is running, at the test of the loop, with the queue as
before. -/
theorem broadcast_reach_loop (B : Tid) (c l : Nat) (K : Kernel) (h : Broadcast B c l K)
    (hr : K.returned B = false) :
    ∃ us, Broadcast B c l (K.turns us) ∧ (K.turns us).cur = B ∧
      (K.turns us).cont B = [Instr.cond_broadcast c l] ∧
      ((K.turns us).conds c).waiters = (K.conds c).waiters := by
  by_cases hcur : K.cur = B
  · obtain ⟨j, hj⟩ := broadcast_pending B c l K h hr
    exact broadcast_pop B c l j K h hcur hj
  · obtain ⟨us1, a1, a2, a3, a4, a5⟩ := broadcast_unmask B c l K h hcur
    have hBr : B ∈ (K.turns us1).ready_list := by
      rcases List.mem_cons.1 a1.pool.present with e | e
      · exact absurd e.symm a3
      · exact e
    have e : (K.turns us1).turn (Turn.switch B) =
        thread_switch B ((K.turns us1).push [Instr.intr_set_level intr_level.INTR_ON]) := by
      show (if ((K.turns us1).panicked || decide ((K.turns us1).intr = intr_level.INTR_OFF) ||
          !decide (B ∈ (K.turns us1).ready_list)) = true then _ else _) = _
      rw [if_neg]
      simp [a1.pool.alive, a2, hBr]
    have hadv := broadcast_switch B c l (K.turns us1) a1 B
    have hc2 : ((K.turns us1).turn (Turn.switch B)).cont B = K.cont B := by
      rw [e]
      show upd (K.turns us1).cont (K.turns us1).cur _ B = _
      rw [upd_ne _ _ _ _ (Ne.symm a3), a4]
    have hr2 : ((K.turns us1).turn (Turn.switch B)).returned B = false := by
      unfold Kernel.returned at hr ⊢
      rw [hc2]
      exact hr
    obtain ⟨j, hj⟩ := broadcast_pending B c l _ hadv.1 hr2
    obtain ⟨us2, b1, b2, b3, b4⟩ :=
      broadcast_pop B c l j _ hadv.1 (by rw [e]; rfl) hj
    refine ⟨us1 ++ Turn.switch B :: us2, ?_, ?_, ?_, ?_⟩
    · rw [turns_append, turns_cons]; exact b1
    · rw [turns_append, turns_cons]; exact b2
    · rw [turns_append, turns_cons]; exact b3
    · rw [turns_append, turns_cons, b4, e]
      exact a5

/-- From every state inside the call a run leads to a state in which the call
has returned. -/
theorem broadcast_returns (B : Tid) (c l : Nat) :
    ∀ (n : Nat) (K : Kernel), Broadcast B c l K → (K.conds c).waiters.length = n →
      ∃ us, (K.turns us).returned B = true := by
  intro n
  induction n with
  | zero =>
    intro K h hn
    cases hr : K.returned B with
    | true => exact ⟨[], hr⟩
    | false =>
      obtain ⟨us, a1, a2, a3, a4⟩ := broadcast_reach_loop B c l K h hr
      have hq : ((K.turns us).conds c).waiters = [] := by
        rw [a4]; exact List.length_eq_zero.1 hn
      refine ⟨us ++ [Turn.step], ?_⟩
      rw [turns_append]
      have e : step (K.turns us) =
          { K.turns us with cont := upd (K.turns us).cont (K.turns us).cur [] } := by
        rw [step_cons _ _ [] a1.pool.alive (by rw [a2]; exact a3)]
        exact cond_broadcast_done c l _ hq
      show (step (K.turns us)).returned B = true
      rw [e]
      apply returned_of_restores _ B 0
      show upd (K.turns us).cont (K.turns us).cur [] B = _
      rw [← a2, upd_eq]
      rfl
  | succ n ih =>
    intro K h hn
    cases hr : K.returned B with
    | true => exact ⟨[], hr⟩
    | false =>
      obtain ⟨us, a1, a2, a3, a4⟩ := broadcast_reach_loop B c l K h hr
      have hq : ((K.turns us).conds c).waiters ≠ [] := by
        rw [a4]
        intro e
        rw [e] at hn
        simp at hn
      have hadv := broadcast_signal_turn B c l (K.turns us) a1 a2 a3 hq
      have hsig : signal_at c l (K.turns us) Turn.step = 1 := by
        unfold signal_at
        rw [if_pos ⟨rfl, a1.pool.alive, by rw [a2, a3]; rfl, hq⟩]
      rcases hadv.2.2 with ⟨_, w, ws1, hsort, hq1, _, _⟩ | ⟨h0, _⟩
      · have hlen : ((step (K.turns us)).conds c).waiters.length = n := by
          have := (list_sort_perm (cmp_sem_priority (K.turns us))
            ((K.turns us).conds c).waiters).length_eq
          rw [hsort, List.length_cons, a4, hn] at this
          rw [hq1]
          omega
        obtain ⟨us2, b⟩ := ih (step (K.turns us)) hadv.1 hlen
        refine ⟨us ++ Turn.step :: us2, ?_⟩
        rw [turns_append, turns_cons]
        exact b
      · rw [hsig] at h0
        exact absurd h0 (by decide)

/-- The invariant holds when the call is made: the holder `B` of the lock is
running with `cond_broadcast (c, l)` as its only pending instruction,
interrupts on; every ready thread has a restore of the interrupt level as its
only pending instruction; every queued element has its thread blocked on its
private semaphore, suspended in a `cond_wait` on this lock that was called
with nothing else pending. -/
theorem broadcast_at_call (B : Tid) (c l : Nat) (K : Kernel)
    (h1 : K.panicked = false) (h2 : K.in_intr = false) (h3 : 0 < K.nthreads)
    (h4 : (K.locks l).holder = some B) (h5 : (K.locks l).semaphore.value = 0)
    (h6 : (K.threads B).wait_on_lock = none)
    (h7 : K.idle_thread ∉ K.cur :: K.ready_list ∧ K.idle_thread ∉ (K.conds c).waiters)
    (h8 : (K.cur :: K.ready_list).Nodup) (h9 : K.cur = B)
    (h10 : K.cont B = [Instr.cond_broadcast c l]) (h11 : K.intr = intr_level.INTR_ON)
    (h12 : ∀ t ∈ K.ready_list, K.cont t = [Instr.intr_set_level intr_level.INTR_ON])
    (h13 : (K.conds c).waiters.Nodup)
    (h14 : ∀ w ∈ (K.conds c).waiters, w ∉ K.cur :: K.ready_list ∧
      K.elems w = { value := 0, waiters := [w] } ∧
      K.cont w = [Instr.sema_down_loop (.waiter w) intr_level.INTR_ON, Instr.lock_acquire l]) :
    Broadcast B c l K :=
  { pool :=
      { alive := h1
        context := h2
        records := h3
        holder := h4
        taken := h5
        unblocked := h6
        regular := h7
        distinct := h8
        present := by rw [h9]; exact List.mem_cons_self _ _
        caller := ⟨0, Or.inl h10⟩
        others := by
          intro t ht htB
          rcases List.mem_cons.1 ht with e | e
          · exact absurd (e.trans h9) htB
          · exact ⟨1, Or.inl (h12 t e)⟩
        queue := h13
        waiting := fun w hw => ⟨(h14 w hw).1, (h14 w hw).2.1, [], (h14 w hw).2.2⟩ }
    resume := by
      intro t ht
      rw [h12 t ht]
      rfl
    masked := by
      intro e
      rw [h11] at e
      exact absurd e (by decide) }

/-! ## A broadcast among threads that do not disturb it -/

theorem act_cont_other (K : Kernel) (a : Action) (t : Tid) (h : t ≠ K.cur) :
    (K.act a).cont t = K.cont t := by
  cases a with
  | call i =>
    simp only [Kernel.act]
    split
    · rfl
    · exact exec_cont_other i K t h
  | step => exact step_cont_other K t h
  | timer =>
    simp only [Kernel.act]
    split
    · rfl
    · rw [thread_yield_cont, push_cont_other _ _ _ h]

theorem signal_by_zero (B : Tid) (c l : Nat) (K : Kernel) (a : Action)
    (h : a = Action.step → K.panicked = false → K.cur = B →
      (K.cont B).head? = some (Instr.cond_broadcast c l) → (K.conds c).waiters = []) :
    signal_by B c l K a = 0 := by
  unfold signal_by
  rw [if_neg]
  intro ⟨a1, a2, a3, a4, a5⟩
  exact a5 (h a1 a2 a3 a4)

/-- The call after a transition that leaves the queue, the private semaphores
of the queued elements, the holder of the lock and the interrupt context
alone. -/
theorem calling_of_frame (B : Tid) (c l : Nat) (K K1 : Kernel) (h : Calling B c l K)
    (hi : K1.in_intr = K.in_intr) (hh : (K1.locks l).holder = (K.locks l).holder)
    (hq : (K1.conds c).waiters = (K.conds c).waiters)
    (he : ∀ w ∈ (K.conds c).waiters, K1.elems w = K.elems w)
    (hc : ∃ pre, (∀ i ∈ pre, ∃ lv, i = Instr.intr_set_level lv) ∧
      (K1.cont B = pre ++ [Instr.cond_broadcast c l] ∨
        (K1.cont B = pre ∧ (K.conds c).waiters = []))) : Calling B c l K1 :=
  { context := hi.trans h.context
    holder := hh.trans h.holder
    pending := by rw [hq]; exact hc
    queue := by rw [hq]; exact h.queue
    waiting := by
      rw [hq]
      intro w hw
      exact ⟨(h.waiting w hw).1, (he w hw).trans (h.waiting w hw).2⟩ }

/-- A transition taken while another thread runs, which leaves the call
alone. -/
theorem calling_env (B : Tid) (c l : Nat) (obs : List Tid) (K : Kernel) (a : Action)
    (h : Calling B c l K) (hcur : K.cur ≠ B)
    (hl : leaves_alone c l obs K (K.act a) = true) : Proceeds B c l obs K a := by
  simp only [leaves_alone, Bool.and_eq_true, decide_eq_true_eq, List.all_eq_true,
    Bool.not_eq_true', decide_eq_false_iff_not] at hl
  obtain ⟨⟨⟨h1, h2⟩, h3⟩, h4⟩ := hl
  refine ⟨?_, ?_, Or.inr ⟨?_, h2, h4⟩⟩
  · refine calling_of_frame B c l K _ h (act_in_intr K a) h1 h2 (fun w hw => (h3 w hw).1) ?_
    rw [act_cont_other K a B (Ne.symm hcur)]
    exact h.pending
  · intro w hw
    rw [h2] at hw
    exact (h3 w hw).2
  · exact signal_by_zero B c l K a (fun _ _ e => absurd e hcur)

/-- The timer preempts the broadcasting thread. -/
theorem calling_timer (B : Tid) (c l : Nat) (obs : List Tid) (K : Kernel)
    (h : Calling B c l K) (hcur : K.cur = B) : Proceeds B c l obs K Action.timer := by
  have hs : signal_by B c l K Action.timer = 0 :=
    signal_by_zero B c l K _ (fun e => by cases e)
  have e : K.act Action.timer =
      if (K.panicked || decide (K.intr = intr_level.INTR_OFF)) = true then K
      else thread_yield (K.push [Instr.intr_set_level intr_level.INTR_ON]) := rfl
  unfold Proceeds
  rw [e]
  split
  · exact ⟨h, fun _ _ => rfl, Or.inr ⟨hs, rfl, fun e _ => by omega⟩⟩
  · refine ⟨?_, fun w _ => by simp, Or.inr ⟨hs, by simp, fun e _ => by simp⟩⟩
    refine calling_of_frame B c l K _ h (by simp) (by simp) (by simp) (fun w _ => by simp) ?_
    obtain ⟨pre, hp, hc⟩ := h.pending
    refine ⟨Instr.intr_set_level intr_level.INTR_ON :: pre, ?_, ?_⟩
    · intro i hi
      rcases List.mem_cons.1 hi with e1 | e1
      · exact ⟨_, e1⟩
      · exact hp i e1
    · rw [thread_yield_cont, ← hcur, push_cont_cur, hcur]
      rcases hc with hc | ⟨hc, hq⟩
      · exact Or.inl (by rw [hc]; rfl)
      · exact Or.inr ⟨by rw [hc]; rfl, hq⟩

theorem test_max_priority_cont_cur (lv : intr_level) (K : Kernel) :
    (test_max_priority lv K).cont K.cur = K.cont K.cur ∨
      (test_max_priority lv K).cont K.cur = Instr.intr_set_level lv :: K.cont K.cur := by
  unfold test_max_priority
  split
  · right
    rw [thread_yield_cont, push_cont_cur]
    rfl
  · left
    rfl

/-- A step of the broadcasting thread. -/
theorem calling_step (B : Tid) (c l : Nat) (obs : List Tid) (K : Kernel)
    (h : Calling B c l K) (hcur : K.cur = B) : Proceeds B c l obs K Action.step := by
  show Calling B c l (step K) ∧
    (∀ w ∈ ((step K).conds c).waiters, ((step K).threads w).priority = (K.threads w).priority) ∧
    ((signal_by B c l K Action.step = 1 ∧ ∃ w ws1,
        list_sort (cmp_sem_priority K) (K.conds c).waiters = w :: ws1 ∧
          ((step K).conds c).waiters = ws1 ∧
          ((step K).elems w).value = (K.elems w).value + 1 ∧
          ∀ e, e ≠ w → (step K).elems e = K.elems e) ∨
      (signal_by B c l K Action.step = 0 ∧ ((step K).conds c).waiters = (K.conds c).waiters ∧
        ∀ e ∈ obs, ((step K).elems e).value ≠ (K.elems e).value + 1))
  cases hp : K.panicked with
  | true =>
    have e : step K = K := by
      unfold step
      rw [if_pos hp]
    rw [e]
    exact ⟨h, fun _ _ => rfl,
      Or.inr ⟨signal_by_zero B c l K _ (fun _ e2 => by rw [hp] at e2; cases e2), rfl,
        fun e _ => by omega⟩⟩
  | false =>
    obtain ⟨pre, hpre, hc⟩ := h.pending
    cases pre with
    | cons i pre1 =>
      obtain ⟨lv, hi⟩ := hpre i (List.mem_cons_self _ _)
      subst hi
      have h0 : ∃ tl, K.cont K.cur = Instr.intr_set_level lv :: tl ∧
          ((tl = pre1 ++ [Instr.cond_broadcast c l]) ∨ (tl = pre1 ∧ (K.conds c).waiters = [])) := by
        rw [hcur]
        rcases hc with hc | ⟨hc, hq⟩
        · exact ⟨_, by rw [hc]; rfl, Or.inl rfl⟩
        · exact ⟨_, hc, Or.inr ⟨rfl, hq⟩⟩
      obtain ⟨tl, h0, htl⟩ := h0
      rw [step_intr_set_level K lv tl hp h0]
      refine ⟨?_, fun _ _ => rfl, Or.inr ⟨?_, rfl, fun e _ => by
        show (K.elems e).value ≠ _
        omega⟩⟩
      · refine calling_of_frame B c l K _ h rfl rfl rfl (fun _ _ => rfl) ?_
        refine ⟨pre1, fun i hi => hpre i (List.mem_cons_of_mem _ hi), ?_⟩
        show upd K.cont K.cur tl B = _ ∨ (upd K.cont K.cur tl B = _ ∧ _)
        rw [hcur, upd_eq]
        rcases htl with e | ⟨e, hq⟩
        · exact Or.inl e
        · exact Or.inr ⟨e, hq⟩
      · apply signal_by_zero
        intro _ _ _ hh
        rw [← hcur, h0] at hh
        simp at hh
    | nil =>
      rcases hc with hc | ⟨hc, hq⟩
      · have hc1 : K.cont B = [Instr.cond_broadcast c l] := hc
        by_cases hq : (K.conds c).waiters = []
        · have e : step K = { K with cont := upd K.cont K.cur [] } := by
            rw [step_cons K _ [] hp (by rw [hcur]; exact hc1)]
            exact cond_broadcast_done c l _ hq
          rw [e]
          refine ⟨?_, fun _ _ => rfl, Or.inr ⟨signal_by_zero B c l K _ (fun _ _ _ _ => hq), rfl,
            fun e _ => by
              show (K.elems e).value ≠ _
              omega⟩⟩
          refine calling_of_frame B c l K _ h rfl rfl rfl (fun _ _ => rfl) ?_
          refine ⟨[], fun i hi => absurd hi (List.not_mem_nil _), Or.inr ⟨?_, hq⟩⟩
          show upd K.cont K.cur [] B = []
          rw [hcur, upd_eq]
        · cases hsort : list_sort (cmp_sem_priority K) (K.conds c).waiters with
          | nil => exact absurd (list_sort_eq_nil _ _ hsort) hq
          | cons w ws1 =>
            have hperm : List.Perm (w :: ws1) (K.conds c).waiters := by
              rw [← hsort]; exact list_sort_perm _ _
            have hw : w ∈ (K.conds c).waiters := hperm.subset (List.mem_cons_self _ _)
            have hnd : (w :: ws1).Nodup := hperm.nodup_iff.2 h.queue
            obtain ⟨hwB, hel⟩ := h.waiting w hw
            obtain ⟨Ku, e, u1, _, u3, u4, u5, u6, u7, u8, _, _, u11, _, _⟩ :=
              cond_broadcast_signal B c l K w ws1 [] hp h.context hcur h.holder hc1 hsort hel
            have hcB : (step K).cont B = K.cont B ∨
                (step K).cont B = Instr.intr_set_level K.intr :: K.cont B := by
              have := test_max_priority_cont_cur K.intr Ku
              rw [← e, u1, u3] at this
              exact this
            have hel1 : (step K).elems = Ku.elems := by rw [e]; simp
            have hq1 : ((step K).conds c).waiters = ws1 := by rw [e]; simpa using u6
            refine ⟨?_, ?_, Or.inl ⟨?_, w, ws1, rfl, hq1, ?_, ?_⟩⟩
            · exact
                { context := by rw [e]; simpa [u11] using h.context
                  holder := by rw [e]; simpa [u7] using h.holder
                  pending := by
                    rcases hcB with hcB | hcB
                    · exact ⟨[], fun i hi => absurd hi (List.not_mem_nil _),
                        Or.inl (by rw [hcB, hc1]; rfl)⟩
                    · refine ⟨[Instr.intr_set_level K.intr], ?_, Or.inl (by rw [hcB, hc1]; rfl)⟩
                      intro i hi
                      exact ⟨_, List.mem_singleton.1 hi⟩
                  queue := by rw [hq1]; exact (List.nodup_cons.1 hnd).2
                  waiting := by
                    rw [hq1]
                    intro x hx
                    have hxq := hperm.subset (List.mem_cons_of_mem _ hx)
                    have hxw : x ≠ w := fun e2 => (List.nodup_cons.1 hnd).1 (e2 ▸ hx)
                    refine ⟨(h.waiting x hxq).1, ?_⟩
                    rw [hel1, u5 x hxw]
                    exact (h.waiting x hxq).2 }
            · intro x _
              rw [e]
              simpa using u8 x
            · unfold signal_by
              rw [if_pos ⟨rfl, hp, hcur, by rw [hc1]; rfl, hq⟩]
            · rw [hel1, u4, hel]
            · intro x hx
              rw [hel1]
              exact u5 x hx
      · have e : step K = K := step_nil K (by rw [hcur]; exact hc)
        rw [e]
        exact ⟨h, fun _ _ => rfl, Or.inr ⟨signal_by_zero B c l K _ (fun _ _ _ _ => hq), rfl,
          fun e _ => by omega⟩⟩

/-- Every transition of a run in which the broadcast is not disturbed. -/
theorem calling_act (B : Tid) (c l : Nat) (obs : List Tid) (K : Kernel) (a : Action)
    (h : Calling B c l K)
    (hu : (if K.cur = B then !a.is_call else leaves_alone c l obs K (K.act a)) = true) :
    Proceeds B c l obs K a := by
  by_cases hcur : K.cur = B
  · rw [if_pos hcur] at hu
    cases a with
    | call i => simp [Action.is_call] at hu
    | step => exact calling_step B c l obs K h hcur
    | timer => exact calling_timer B c l obs K h hcur
  · rw [if_neg hcur] at hu
    exact calling_env B c l obs K a h hcur hu

theorem calling_front (B : Tid) (c l : Nat) (K : Kernel) (h : Calling B c l K) (w : Tid)
    (hw : w ∈ (K.conds c).waiters) : front_priority K w = (K.threads w).priority := by
  unfold front_priority
  rw [(h.waiting w hw).2]

/-- Every run in which the broadcast is not disturbed: the call is still as
`Calling` says and no thread of a queued element has changed priority; each
call of `cond_signal` has taken one element off the queue; the elements whose
private semaphore has been upped, in the order of the ups, followed by the
queue at the end, are the elements of the queue at the start, each once; the
ups are in descending order of priority, and no element left has a higher
priority than one that was upped. -/
theorem calling_along (B : Tid) (c l : Nat) (obs : List Tid) (hobs : obs.Nodup)
    (as : List Action) :
    ∀ K, Calling B c l K → (∀ w ∈ (K.conds c).waiters, w ∈ obs) →
      undisturbed B c l obs K as = true →
      Calling B c l (K.run as) ∧
      (∀ w ∈ ((K.run as).conds c).waiters,
        ((K.run as).threads w).priority = (K.threads w).priority) ∧
      signals_over B c l K as + ((K.run as).conds c).waiters.length =
        (K.conds c).waiters.length ∧
      (ups_over obs K as ++ ((K.run as).conds c).waiters).Perm (K.conds c).waiters ∧
      (ups_over obs K as).Pairwise
        (fun a b => (K.threads b).priority ≤ (K.threads a).priority) ∧
      ∀ a ∈ ups_over obs K as, ∀ q ∈ ((K.run as).conds c).waiters,
        (K.threads q).priority ≤ (K.threads a).priority := by
  induction as with
  | nil =>
    intro K h _ _
    exact ⟨h, fun _ _ => rfl, by simp [signals_over, Kernel.run],
      by simp [ups_over, Kernel.run], by simp [ups_over],
      by simp [ups_over]⟩
  | cons x as ih =>
    intro K h hsub hu
    have hu1 : (if K.cur = B then !x.is_call else leaves_alone c l obs K (K.act x)) = true ∧
        undisturbed B c l obs (K.act x) as = true := by
      have : ((if K.cur = B then !x.is_call else leaves_alone c l obs K (K.act x)) &&
          undisturbed B c l obs (K.act x) as) = true := hu
      simpa only [Bool.and_eq_true] using this
    obtain ⟨h1, hprio, heff⟩ := calling_act B c l obs K x h hu1.1
    have hrun : K.run (x :: as) = (K.act x).run as := rfl
    rw [hrun]
    rcases heff with ⟨hsig, w, ws1, hsort, hq1, hv, hoth⟩ | ⟨hsig, hq1, hv⟩
    · have hperm : List.Perm (w :: ws1) (K.conds c).waiters := by
        rw [← hsort]; exact list_sort_perm _ _
      have hw : w ∈ (K.conds c).waiters := hperm.subset (List.mem_cons_self _ _)
      have hsub1 : ∀ e ∈ ((K.act x).conds c).waiters, e ∈ (K.conds c).waiters := by
        intro e he
        rw [hq1] at he
        exact hperm.subset (List.mem_cons_of_mem _ he)
      obtain ⟨i1, i2, i3, i4, i5, i6⟩ :=
        ih (K.act x) h1 (fun e he => hsub e (hsub1 e he)) hu1.2
      have hup : upped_by_act obs K x = [w] := by
        unfold upped_by_act
        apply filter_eq_singleton _ w (by simpa using hv) _ obs hobs (hsub w hw)
        intro e he
        rw [hoth e he]
        simp
      have hmax : ∀ e ∈ (K.conds c).waiters, (K.threads e).priority ≤ (K.threads w).priority := by
        intro e he
        have := (list_sort_head (cmp_sem_priority K) (front_priority K)
          (cmp_sem_priority_iff K) _ w ws1 hsort).1 e he
        rw [calling_front B c l K h e he, calling_front B c l K h w hw] at this
        exact this
      have hlog : ∀ a ∈ ups_over obs (K.act x) as, a ∈ ((K.act x).conds c).waiters :=
        fun a ha => i4.subset (List.mem_append_left _ ha)
      have hfin : ∀ q ∈ (((K.act x).run as).conds c).waiters,
          q ∈ ((K.act x).conds c).waiters :=
        fun q hq => i4.subset (List.mem_append_right _ hq)
      refine ⟨i1, fun u hu2 => (i2 u hu2).trans (hprio u (hfin u hu2)), ?_, ?_, ?_, ?_⟩
      · show signal_by B c l K x + signals_over B c l (K.act x) as + _ = _
        rw [hsig, ← hperm.length_eq, List.length_cons, ← hq1]
        omega
      · show (upped_by_act obs K x ++ ups_over obs (K.act x) as ++ _).Perm _
        rw [hup, List.append_assoc, List.singleton_append]
        exact (List.Perm.cons w (by rw [← hq1]; exact i4)).trans hperm
      · show (upped_by_act obs K x ++ ups_over obs (K.act x) as).Pairwise _
        rw [hup, List.singleton_append, List.pairwise_cons]
        refine ⟨fun a ha => hmax a (hsub1 a (hlog a ha)), ?_⟩
        apply i5.imp_of_mem
        intro a b ha hb hab
        rw [← hprio a (hlog a ha), ← hprio b (hlog b hb)]
        exact hab
      · intro a ha q hq
        have ha1 : a ∈ upped_by_act obs K x ++ ups_over obs (K.act x) as := ha
        rw [hup, List.singleton_append] at ha1
        rcases List.mem_cons.1 ha1 with e | e
        · rw [e]
          exact hmax q (hsub1 q (hfin q hq))
        · rw [← hprio a (hlog a e), ← hprio q (hfin q hq)]
          exact i6 a e q hq
    · have hsub1 : ∀ e ∈ ((K.act x).conds c).waiters, e ∈ (K.conds c).waiters := by
        intro e he
        rw [hq1] at he
        exact he
      obtain ⟨i1, i2, i3, i4, i5, i6⟩ :=
        ih (K.act x) h1 (fun e he => hsub e (hsub1 e he)) hu1.2
      have hup : upped_by_act obs K x = [] := by
        unfold upped_by_act
        rw [List.filter_eq_nil_iff]
        intro e he
        simpa using hv e he
      have hlog : ∀ a ∈ ups_over obs (K.act x) as, a ∈ ((K.act x).conds c).waiters :=
        fun a ha => i4.subset (List.mem_append_left _ ha)
      have hfin : ∀ q ∈ (((K.act x).run as).conds c).waiters,
          q ∈ ((K.act x).conds c).waiters :=
        fun q hq => i4.subset (List.mem_append_right _ hq)
      refine ⟨i1, fun u hu2 => (i2 u hu2).trans (hprio u (hfin u hu2)), ?_, ?_, ?_, ?_⟩
      · show signal_by B c l K x + signals_over B c l (K.act x) as + _ = _
        rw [hsig, ← hq1]
        omega
      · show (upped_by_act obs K x ++ ups_over obs (K.act x) as ++ _).Perm _
        rw [hup, List.nil_append, ← hq1]
        exact i4
      · show (upped_by_act obs K x ++ ups_over obs (K.act x) as).Pairwise _
        rw [hup, List.nil_append]
        apply i5.imp_of_mem
        intro a b ha hb hab
        rw [← hprio a (hlog a ha), ← hprio b (hlog b hb)]
        exact hab
      · intro a ha q hq
        have ha1 : a ∈ upped_by_act obs K x ++ ups_over obs (K.act x) as := ha
        rw [hup, List.nil_append] at ha1
        rw [← hprio a (hlog a ha1), ← hprio q (hfin q hq)]
        exact i6 a ha1 q hq

/-- The state of the closed system is a state of the call. -/
theorem broadcast_calling (B : Tid) (c l : Nat) (K : Kernel) (h : Broadcast B c l K) :
    Calling B c l K :=
  { context := h.pool.context
    holder := h.pool.holder
    pending := by
      obtain ⟨j, hj⟩ := h.pool.caller
      refine ⟨restores j, ?_, hj⟩
      intro i hi
      exact ⟨_, List.eq_of_mem_replicate hi⟩
    queue := h.pool.queue
    waiting := fun w hw => ⟨(broadcast_queued B c l K h w hw).1, (h.pool.waiting w hw).2.1⟩ }

theorem calling_returned (B : Tid) (c l : Nat) (K : Kernel) (h : Calling B c l K)
    (hr : K.returned B = true) : (K.conds c).waiters = [] := by
  obtain ⟨pre, _, hc⟩ := h.pending
  rcases hc with hc | ⟨_, hq⟩
  · unfold Kernel.returned at hr
    rw [hc, List.all_append] at hr
    simp [Instr.is_restore] at hr
  · exact hq

/-- In the closed system, a transition taken while a thread other than the
broadcasting thread runs leaves the call alone. -/
theorem broadcast_leaves_alone (B : Tid) (c l : Nat) (obs : List Tid) (K : Kernel)
    (h : Broadcast B c l K) (hcur : K.cur ≠ B) (x : Turn) :
    leaves_alone c l obs K (K.turn x) = true := by
  have hadv := broadcast_advance B c l K h x
  have hs : signal_at c l K x = 0 := by
    apply signal_at_zero
    intro _ hh
    obtain ⟨j, hj⟩ := h.pool.others K.cur (List.mem_cons_self _ _) hcur
    cases j with
    | succ j =>
      rw [restores_succ] at hj
      rcases hj with hj | ⟨tail, hj, _⟩ | ⟨tail, hj⟩ <;> rw [hj] at hh <;> simp at hh
    | zero =>
      rcases hj with hj | ⟨tail, hj, _⟩ | ⟨tail, hj⟩ <;> rw [hj] at hh <;>
        simp [restores] at hh
  have hq := advance_quiet B c l K _ x hadv hs
  simp only [leaves_alone, Bool.and_eq_true, decide_eq_true_eq, List.all_eq_true,
    Bool.not_eq_true', decide_eq_false_iff_not]
  refine ⟨⟨⟨?_, hq⟩, ?_⟩, ?_⟩
  · rw [hadv.1.pool.holder, h.pool.holder]
  · intro w hw
    constructor
    · rw [(h.pool.waiting w hw).2.1]
      exact (hadv.1.pool.waiting w (by rw [hq]; exact hw)).2.1
    · exact hadv.2.1 w (broadcast_queued B c l K h w hw).1
  · intro e _
    rcases hadv.2.2 with ⟨h1, _⟩ | ⟨_, _, h3⟩
    · rw [hs] at h1
      exact absurd h1 (by decide)
    · exact h3 e

/-- In the closed system, no run of steps and timer preemptions disturbs the
broadcast. -/
theorem broadcast_undisturbed (B : Tid) (c l : Nat) (obs : List Tid) (as : List Action) :
    ∀ K, Broadcast B c l K → (∀ a ∈ as, a.is_call = false) →
      undisturbed B c l obs K as = true := by
  induction as with
  | nil => intro K _ _; rfl
  | cons a as ih =>
    intro K h hn
    have ha := hn a (List.mem_cons_self _ _)
    obtain ⟨x, hx⟩ : ∃ x : Turn, K.act a = K.turn x := by
      cases a with
      | call i => simp [Action.is_call] at ha
      | step => exact ⟨Turn.step, rfl⟩
      | timer => exact ⟨Turn.timer, rfl⟩
    have h1 : Broadcast B c l (K.act a) := by
      rw [hx]; exact (broadcast_advance B c l K h x).1
    have h2 := ih (K.act a) h1 (fun b hb => hn b (List.mem_cons_of_mem _ hb))
    show ((if K.cur = B then !a.is_call else leaves_alone c l obs K (K.act a)) &&
      undisturbed B c l obs (K.act a) as) = true
    rw [h2, Bool.and_true]
    by_cases hcur : K.cur = B
    · rw [if_pos hcur, ha]; rfl
    · rw [if_neg hcur, hx]
      exact broadcast_leaves_alone B c l obs K h hcur x

/-! ## Claims -/

/-- C1.  Take a semaphore whose counter is in the range of an `unsigned`, any
sequence `ops` of `sema_init` / `sema_down` / `sema_try_down` / `sema_up`
operations on it (by whichever threads, a `sema_down` possibly in several
passes through its loop), and any further such operation `i`.  Before and
after `i` the counter is in range, and if `i` is a down operation it either
leaves the counter alone or finds it positive and lowers it by exactly one as
an integer: the decrement never wraps below zero. -/
theorem sema_value_never_wraps (s : SemaRef) (K : Kernel) (ops : List Instr) (i : Instr)
    (hK : (K.getSema s).value < UINT_RANGE)
    (hops : ∀ j ∈ ops, j.is_sema_op s = true) (hi : i.is_sema_op s = true) :
    ((exec_seq ops K).getSema s).value < UINT_RANGE ∧
      ((exec_seq (ops ++ [i]) K).getSema s).value < UINT_RANGE ∧
      (i.is_down = true →
        ((exec_seq (ops ++ [i]) K).getSema s).value = ((exec_seq ops K).getSema s).value ∨
          (0 < ((exec_seq ops K).getSema s).value ∧
            (((exec_seq (ops ++ [i]) K).getSema s).value : Int) =
              (((exec_seq ops K).getSema s).value : Int) - 1)) := by
  have h1 := exec_seq_value_lt s ops K hops hK
  have h2 := exec_sema_op_value s (exec_seq ops K) i hi h1
  have e : exec_seq (ops ++ [i]) K = exec i (exec_seq ops K) := by
    simp [exec_seq, List.foldl_append]
  rw [e]
  exact ⟨h1, h2.1, h2.2⟩

/-- Witness for C1: on a semaphore at zero, thread 2 initialises it to 1,
downs it, tries to down it again and ups it; the next operation is a
`sema_down`. -/
theorem sema_value_never_wraps_witness :
    ((Kernel.boot false pri_3_7 3 2 [1]).getSema (.sema 0)).value < UINT_RANGE ∧
      ((exec_seq demo_sema_ops (Kernel.boot false pri_3_7 3 2 [1])).getSema (.sema 0)).value <
          UINT_RANGE ∧
        ((exec_seq (demo_sema_ops ++ [Instr.sema_down (.sema 0)])
              (Kernel.boot false pri_3_7 3 2 [1])).getSema (.sema 0)).value < UINT_RANGE ∧
          ((Instr.sema_down (.sema 0)).is_down = true →
            ((exec_seq (demo_sema_ops ++ [Instr.sema_down (.sema 0)])
                  (Kernel.boot false pri_3_7 3 2 [1])).getSema (.sema 0)).value =
                ((exec_seq demo_sema_ops
                  (Kernel.boot false pri_3_7 3 2 [1])).getSema (.sema 0)).value ∨
              (0 < ((exec_seq demo_sema_ops
                    (Kernel.boot false pri_3_7 3 2 [1])).getSema (.sema 0)).value ∧
                (((exec_seq (demo_sema_ops ++ [Instr.sema_down (.sema 0)])
                      (Kernel.boot false pri_3_7 3 2 [1])).getSema (.sema 0)).value : Int) =
                  (((exec_seq demo_sema_ops
                    (Kernel.boot false pri_3_7 3 2 [1])).getSema (.sema 0)).value : Int) - 1)) :=
  ⟨by decide,
    sema_value_never_wraps (.sema 0) (Kernel.boot false pri_3_7 3 2 [1]) demo_sema_ops
      (Instr.sema_down (.sema 0)) (by decide) (by decide) (by decide)⟩

/-- C2 (code defect).  With `thread_mlfqs` set, a run of `handoff_trace` in
which every call respects its precondition ends with all three lock calls
returned, the semaphore of the lock at 0 and the holder absent: thread 2
completed its `lock_acquire` (holder 2 after thirteen transitions) inside the
`sema_up` of thread 1, whose `lock_release` then cleared the holder.  Under
the donation policy the same run ends with holder 2. -/
theorem lock_release_mlfqs_clears_new_holder :
    ((((Kernel.boot true pri_3_7 3 2 [1]).run (handoff_trace.take 13)).locks 0).holder = some 2 ∧
        ((Kernel.boot true pri_3_7 3 2 [1]).run (handoff_trace.take 13)).cont 2 = []) ∧
      ((((Kernel.boot true pri_3_7 3 2 [1]).run handoff_trace).locks 0).holder = none ∧
        (((Kernel.boot true pri_3_7 3 2 [1]).run handoff_trace).locks 0).semaphore.value = 0 ∧
        ((Kernel.boot true pri_3_7 3 2 [1]).run handoff_trace).cont 1 = [] ∧
        ((Kernel.boot true pri_3_7 3 2 [1]).run handoff_trace).panicked = false) ∧
      ((((Kernel.boot false pri_3_7 3 2 [1]).run handoff_trace).locks 0).holder = some 2 ∧
        (((Kernel.boot false pri_3_7 3 2 [1]).run handoff_trace).locks 0).semaphore.value = 0) := by
  decide

/-- C8 (code defect).  With `thread_mlfqs` set, `lock_acquire` by the thread
that holds the lock fails no assertion: the kernel does not halt, the caller
is put on the waiter list of the lock and blocked, and another thread runs.
Under the donation policy the same call halts the kernel. -/
theorem lock_acquire_mlfqs_reacquire_blocks :
    ((((Kernel.boot true pri_3_7 3 2 [1]).run (reacquire_trace.take 3)).locks 0).holder = some 2 ∧
        ((Kernel.boot true pri_3_7 3 2 [1]).run (reacquire_trace.take 3)).cur = 2) ∧
      (((Kernel.boot true pri_3_7 3 2 [1]).run reacquire_trace).panicked = false ∧
        (((Kernel.boot true pri_3_7 3 2 [1]).run reacquire_trace).threads 2).status =
          thread_status.THREAD_BLOCKED ∧
        (((Kernel.boot true pri_3_7 3 2 [1]).run reacquire_trace).locks 0).semaphore.waiters = [2] ∧
        ((Kernel.boot true pri_3_7 3 2 [1]).run reacquire_trace).cur = 1) ∧
      ((Kernel.boot false pri_3_7 3 2 [1]).run reacquire_trace).panicked = true := by
  decide

/-- C9 (code defect).  With `thread_mlfqs` set, `lock_release` by a thread
that does not hold the lock fails no assertion: the kernel does not halt, the
semaphore of the lock goes from 0 to 1 and the holder from thread 2 to absent.
Under the donation policy the same call halts the kernel with holder and
counter unchanged. -/
theorem lock_release_mlfqs_by_non_holder :
    ((((Kernel.boot true pri_3_7 3 2 [1]).run (foreign_release_trace.take 6)).locks 0).holder =
          some 2 ∧
        (((Kernel.boot true pri_3_7 3 2 [1]).run (foreign_release_trace.take 6)).locks
          0).semaphore.value = 0 ∧
        ((Kernel.boot true pri_3_7 3 2 [1]).run (foreign_release_trace.take 6)).cur = 1) ∧
      (((Kernel.boot true pri_3_7 3 2 [1]).run (foreign_release_trace ++ [Action.step])).panicked =
          false ∧
        (((Kernel.boot true pri_3_7 3 2 [1]).run (foreign_release_trace ++ [Action.step])).locks
          0).holder = none ∧
        (((Kernel.boot true pri_3_7 3 2 [1]).run (foreign_release_trace ++ [Action.step])).locks
          0).semaphore.value = 1) ∧
      (((Kernel.boot false pri_3_7 3 2 [1]).run foreign_release_trace).panicked = true ∧
        (((Kernel.boot false pri_3_7 3 2 [1]).run foreign_release_trace).locks 0).holder = some 2 ∧
        (((Kernel.boot false pri_3_7 3 2 [1]).run foreign_release_trace).locks
          0).semaphore.value = 0) := by
  decide

/-- C3.  `sema_up` on a semaphore with waiters (in whatever order, at
whatever priorities): some waiter `t` whose effective priority is at least
that of every waiter is taken off the list and made ready (it is on the ready
list or already dispatched by the preemption check), the waiters left are
exactly the others, each as often as before, the counter is incremented (by
one, as long as it is below the maximum of an `unsigned`), and no thread that
was neither running nor ready has its record changed except `t`.  With two
waiters at priorities 10 and 5, in either order, the one at 10 is woken.  With
no waiter, `sema_up` is the increment followed by the preemption check. -/
theorem sema_up_wakes_highest_waiter (K : Kernel) (s : SemaRef) :
    ((K.getSema s).waiters ≠ [] →
      ∃ t rest,
        t ∈ (K.getSema s).waiters ∧
          (∀ u ∈ (K.getSema s).waiters, (K.threads u).priority ≤ (K.threads t).priority) ∧
          List.Perm (t :: rest) (K.getSema s).waiters ∧
          (sema_up s K).getSema s =
            { value := uint_inc (K.getSema s).value, waiters := rest } ∧
          ((sema_up s K).threads t).status ≠ thread_status.THREAD_BLOCKED ∧
          (t ∈ (sema_up s K).ready_list ∨ (sema_up s K).cur = t) ∧
          ∀ u, u ≠ t → u ≠ K.cur → u ∉ K.ready_list → u ≠ K.idle_thread →
            (sema_up s K).threads u = K.threads u) ∧
      ((K.getSema s).value + 1 < UINT_RANGE →
        ((sema_up s K).getSema s).value = (K.getSema s).value + 1) ∧
      (∀ a b, (K.threads a).priority = 10 → (K.threads b).priority = 5 →
        (K.getSema s).waiters = [a, b] ∨ (K.getSema s).waiters = [b, a] →
        ((sema_up s K).getSema s).waiters = [b] ∧
          (a ∈ (sema_up s K).ready_list ∨ (sema_up s K).cur = a)) ∧
      ((K.getSema s).waiters = [] →
        sema_up s K =
          test_max_priority K.intr
            (Kernel.setSema { K with intr := intr_level.INTR_OFF } s
              { value := uint_inc (K.getSema s).value, waiters := [] })) := by
  have main : (K.getSema s).waiters ≠ [] →
      ∃ t rest,
        t ∈ (K.getSema s).waiters ∧
          (∀ u ∈ (K.getSema s).waiters, (K.threads u).priority ≤ (K.threads t).priority) ∧
          List.Perm (t :: rest) (K.getSema s).waiters ∧
          (sema_up s K).getSema s =
            { value := uint_inc (K.getSema s).value, waiters := rest } ∧
          ((sema_up s K).threads t).status ≠ thread_status.THREAD_BLOCKED ∧
          (t ∈ (sema_up s K).ready_list ∨ (sema_up s K).cur = t) ∧
          ∀ u, u ≠ t → u ≠ K.cur → u ∉ K.ready_list → u ≠ K.idle_thread →
            (sema_up s K).threads u = K.threads u := by
    intro hne
    cases hsort : list_sort (cmp_priority K) (K.getSema s).waiters with
    | nil => exact absurd (list_sort_eq_nil _ _ hsort) hne
    | cons t rest =>
      obtain ⟨hmax, hperm⟩ :=
        list_sort_head (cmp_priority K) (fun u => (K.threads u).priority)
          (cmp_priority_iff K) _ t rest hsort
      refine ⟨t, rest, hperm.subset (by simp), hmax, hperm, ?_, ?_, ?_, ?_⟩
      · rw [sema_up_cons K s t rest hsort, getSema_test_max_priority, getSema_setSema_same]
      · rw [sema_up_cons K s t rest hsort]
        apply test_max_priority_status
        cases s <;> simp [Kernel.setSema, thread_unblock, upd]
      · rw [sema_up_cons K s t rest hsort]
        apply test_max_priority_mem
        cases s <;> simp [Kernel.setSema, thread_unblock]
      · intro u h1 h2 h3 h4
        rw [sema_up_cons K s t rest hsort]
        refine (test_max_priority_threads_other _ _ u ?_ ?_ ?_).trans ?_
        · cases s <;> simpa [Kernel.setSema, thread_unblock] using h2
        · cases s <;> simp [Kernel.setSema, thread_unblock, h1, h3]
        · cases s <;> simpa [Kernel.setSema, thread_unblock] using h4
        · cases s <;> simp [Kernel.setSema, thread_unblock, upd, h1]
  refine ⟨main, ?_, ?_, ?_⟩
  · intro hv
    rw [sema_up_value]
    unfold uint_inc
    unfold UINT_RANGE at hv
    omega
  · intro a b ha hb hw
    have hne : (K.getSema s).waiters ≠ [] := by rcases hw with h | h <;> simp [h]
    obtain ⟨t, rest, hmem, hmax, hperm, hsem, _, hready, _⟩ := main hne
    have hta : t = a := by
      rcases hw with h | h <;> rw [h] at hmem hmax <;> simp at hmem <;>
        rcases hmem with rfl | rfl
      · rfl
      · have := hmax a (by simp); omega
      · have := hmax a (by simp); omega
      · rfl
    subst hta
    have hrest : rest = [b] := by
      rcases hw with h | h <;> rw [h] at hperm
      · exact List.perm_singleton.1 (List.perm_cons t |>.1 hperm)
      · exact List.perm_singleton.1
          (List.perm_cons t |>.1 (hperm.trans (List.Perm.swap t b [])))
    rw [hsem]
    exact ⟨hrest, hready⟩
  · exact sema_up_nil K s

/-- Witness for C3: threads 1 (priority 5) and 2 (priority 10) are queued in
this order on semaphore `0`. -/
theorem sema_up_wakes_highest_waiter_witness :
    ((two_waiters [1, 2]).getSema (.sema 0)).waiters ≠ [] ∧
      ((sema_up (.sema 0) (two_waiters [1, 2])).getSema (.sema 0)).waiters = [1] ∧
      (2 ∈ (sema_up (.sema 0) (two_waiters [1, 2])).ready_list ∨
        (sema_up (.sema 0) (two_waiters [1, 2])).cur = 2) :=
  ⟨by decide,
    (sema_up_wakes_highest_waiter (two_waiters [1, 2]) (.sema 0)).2.2.1 2 1 (by decide)
      (by decide) (Or.inr (by decide))⟩

/-- C10.  `cond_signal` by the holder of the lock, outside interrupt context,
on a condition variable with waiters, each of whose private semaphores has
exactly its waiting thread queued: one entry `w` is taken off `cond.waiters`,
the entries left are exactly the others, the call is `sema_up` on the private
semaphore of `w` and of no other (its counter is incremented, its thread `tw`
is taken off its list and made ready, every other semaphore is untouched), and
the priority of `tw` is at least that of the thread blocked on any entry, in
whatever order the entries are queued.  With no waiter the state is
unchanged. -/
theorem cond_signal_wakes_highest_waiter (K : Kernel) (c l : Nat)
    (hintr : K.in_intr = false) (hheld : (K.locks l).holder = some K.cur) :
    ((K.conds c).waiters ≠ [] →
      (∀ e ∈ (K.conds c).waiters, ∃ t, (K.elems e).waiters = [t]) →
      ∃ w rest tw,
        w ∈ (K.conds c).waiters ∧
          List.Perm (w :: rest) (K.conds c).waiters ∧
          ((cond_signal c l K).conds c).waiters = rest ∧
          (K.elems w).waiters = [tw] ∧
          cond_signal c l K =
            sema_up (.waiter w) { K with conds := upd K.conds c { waiters := rest } } ∧
          (cond_signal c l K).elems w = { value := uint_inc (K.elems w).value, waiters := [] } ∧
          (∀ r, r ≠ SemaRef.waiter w → (cond_signal c l K).getSema r = K.getSema r) ∧
          ((cond_signal c l K).threads tw).status ≠ thread_status.THREAD_BLOCKED ∧
          (tw ∈ (cond_signal c l K).ready_list ∨ (cond_signal c l K).cur = tw) ∧
          (∀ e ∈ (K.conds c).waiters, ∀ te, (K.elems e).waiters = [te] →
            (K.threads te).priority ≤ (K.threads tw).priority) ∧
          (cond_signal c l K).panicked = K.panicked) ∧
      ((K.conds c).waiters = [] → cond_signal c l K = K) := by
  have hheld2 : lock_held_by_current_thread l K = true := by
    simp [lock_held_by_current_thread, hheld]
  constructor
  · intro hne hall
    cases hsort : list_sort (cmp_sem_priority K) (K.conds c).waiters with
    | nil => exact absurd (list_sort_eq_nil _ _ hsort) hne
    | cons w rest =>
      obtain ⟨hmax, hperm⟩ :=
        list_sort_head (cmp_sem_priority K) (front_priority K) (cmp_sem_priority_iff K) _ w rest
          hsort
      have hw : w ∈ (K.conds c).waiters := hperm.subset (by simp)
      obtain ⟨tw, htw⟩ := hall w hw
      have hcs : cond_signal c l K =
          sema_up (.waiter w) { K with conds := upd K.conds c { waiters := rest } } := by
        unfold cond_signal
        simp only [hintr, hheld2, hsort]
        simp
      have hsort2 : list_sort
          (cmp_priority { K with conds := upd K.conds c { waiters := rest } })
          (Kernel.getSema { K with conds := upd K.conds c { waiters := rest } }
            (.waiter w)).waiters = tw :: [] := by
        show list_sort _ (K.elems w).waiters = [tw]
        rw [htw]
        rfl
      have hup := sema_up_cons _ (.waiter w) tw [] hsort2
      refine ⟨w, rest, tw, hw, hperm, ?_, htw, hcs, ?_, ?_, ?_, ?_, ?_, ?_⟩
      · rw [hcs, sema_up_conds]
        simp [upd]
      · rw [hcs]
        have := sema_up_value { K with conds := upd K.conds c { waiters := rest } } (.waiter w)
        have h2 : (sema_up (.waiter w)
            { K with conds := upd K.conds c { waiters := rest } }).getSema (.waiter w) =
            { value := uint_inc (K.elems w).value, waiters := [] } := by
          rw [hup, getSema_test_max_priority, getSema_setSema_same]
          rfl
        exact h2
      · intro r hr
        rw [hcs, getSema_sema_up_ne _ _ _ (Ne.symm hr)]
        cases r <;> rfl
      · rw [hcs, hup]
        apply test_max_priority_status
        simp [Kernel.setSema, thread_unblock, upd]
      · rw [hcs, hup]
        apply test_max_priority_mem
        simp [Kernel.setSema, thread_unblock]
      · intro e he te hte
        have := hmax e he
        simpa [front_priority, hte, htw] using this
      · rw [hcs, sema_up_panicked]
  · intro hnil
    unfold cond_signal
    simp [hintr, hheld2, hnil, list_sort]

/-- Witness for C10: the elements of threads 1 (priority 5) and 2 (priority
10) are queued in this order; the element of thread 2 is signalled. -/
theorem cond_signal_wakes_highest_waiter_witness :
    (two_cond_waiters [1, 2]).in_intr = false ∧
      ((two_cond_waiters [1, 2]).locks 0).holder = some (two_cond_waiters [1, 2]).cur ∧
      ((two_cond_waiters [1, 2]).conds 0).waiters ≠ [] ∧
      (∀ e ∈ ((two_cond_waiters [1, 2]).conds 0).waiters,
        ∃ t, ((two_cond_waiters [1, 2]).elems e).waiters = [t]) ∧
      ((cond_signal 0 0 (two_cond_waiters [1, 2])).conds 0).waiters = [1] ∧
      (cond_signal 0 0 (two_cond_waiters [1, 2])).elems 2 = { value := 1, waiters := [] } ∧
      ∃ w rest tw,
        w ∈ ((two_cond_waiters [1, 2]).conds 0).waiters ∧
          List.Perm (w :: rest) ((two_cond_waiters [1, 2]).conds 0).waiters ∧
          ((cond_signal 0 0 (two_cond_waiters [1, 2])).conds 0).waiters = rest ∧
          ((two_cond_waiters [1, 2]).elems w).waiters = [tw] :=
  ⟨rfl, rfl, by decide, fun e _ => ⟨e, rfl⟩, by decide, by decide,
    let ⟨w, rest, tw, h1, h2, h3, h4, _⟩ :=
      (cond_signal_wakes_highest_waiter (two_cond_waiters [1, 2]) 0 0 rfl rfl).1 (by decide)
        (fun e _ => ⟨e, rfl⟩)
    ⟨w, rest, tw, h1, h2, h3, h4⟩⟩

/-- C7.  Under either policy, the statements with which `lock_acquire`
returns leave `lock.holder` equal to the running thread, still running, so
that `lock_held_by_current_thread` is true for it and false for every other
thread, and on the donation path its `wait_on_lock` is absent.  The call does
return: on a free lock after one further step of the caller; on a lock that is
taken the caller is suspended with exactly these statements pending, and once
it is resumed with the counter positive it passes them in two steps.  After a
thread called `lock_release`, whatever other threads do and however often it
is preempted, as long as it calls nothing itself: once nothing of the call is
pending any more the holder is not that thread and
`lock_held_by_current_thread` is false for it. -/
theorem lock_acquire_returns_as_holder (K : Kernel) (l : Nat) :
    (((exec (.lock_acquire_ret l) K).locks l).holder = some K.cur ∧
        (exec (.lock_acquire_ret l) K).cur = K.cur ∧
        lock_held_by_current_thread l (exec (.lock_acquire_ret l) K) = true ∧
        (∀ T, T ≠ K.cur →
          lock_held_by_current_thread l { exec (.lock_acquire_ret l) K with cur := T } = false) ∧
        ((exec (.lock_acquire_ret l) K).threads K.cur).wait_on_lock = none) ∧
      (∀ lv,
        ((exec (.lock_acquire_mlfqs_ret l lv) K).locks l).holder = some K.cur ∧
          (exec (.lock_acquire_mlfqs_ret l lv) K).cur = K.cur ∧
          lock_held_by_current_thread l (exec (.lock_acquire_mlfqs_ret l lv) K) = true ∧
          ∀ T, T ≠ K.cur →
            lock_held_by_current_thread l
              { exec (.lock_acquire_mlfqs_ret l lv) K with cur := T } = false) ∧
      (K.panicked = false → K.in_intr = false → (K.locks l).holder = none →
        (K.locks l).semaphore.value ≠ 0 →
        (step (exec (.lock_acquire l) K)).cont K.cur = K.cont K.cur ∧
          (step (exec (.lock_acquire l) K)).cur = K.cur ∧
          ((step (exec (.lock_acquire l) K)).locks l).holder = some K.cur ∧
          (step (exec (.lock_acquire l) K)).panicked = false ∧
          (K.thread_mlfqs = false →
            ((step (exec (.lock_acquire l) K)).threads K.cur).wait_on_lock = none)) ∧
      (K.in_intr = false → (K.locks l).holder ≠ some K.cur →
        (K.locks l).semaphore.value = 0 →
        (exec (.lock_acquire l) K).cont K.cur =
            Instr.sema_down_loop (.lock l)
                (if K.thread_mlfqs then intr_level.INTR_OFF else K.intr) ::
              (if K.thread_mlfqs then Instr.lock_acquire_mlfqs_ret l K.intr
                else Instr.lock_acquire_ret l) ::
              K.cont K.cur ∧
          K.cur ∈ ((exec (.lock_acquire l) K).locks l).semaphore.waiters ∧
          ((exec (.lock_acquire l) K).locks l).holder = (K.locks l).holder) ∧
      (∀ lv r rest, K.panicked = false → (K.locks l).semaphore.value ≠ 0 →
        K.cont K.cur = Instr.sema_down_loop (.lock l) lv :: r :: rest →
        (r = Instr.lock_acquire_ret l ∨ ∃ lv2, r = Instr.lock_acquire_mlfqs_ret l lv2) →
        (step (step K)).cont K.cur = rest ∧ (step (step K)).cur = K.cur ∧
          ((step (step K)).locks l).holder = some K.cur) ∧
      (K.panicked = false → K.cont K.cur = [] → K.cur ≠ K.idle_thread →
        ∀ as, no_call_by K.cur (K.act (.call (.lock_release l))) as = true →
          ((K.act (.call (.lock_release l))).run as).cont K.cur = [] →
          (((K.act (.call (.lock_release l))).run as).locks l).holder ≠ some K.cur ∧
            lock_held_by_current_thread l
              { (K.act (.call (.lock_release l))).run as with cur := K.cur } = false) := by
  refine ⟨?_, ?_, ?_, ?_, ?_, ?_⟩
  · refine ⟨?_, ?_, ?_, ?_, ?_⟩ <;>
      simp [exec, lock_acquire_ret, lock_held_by_current_thread, Kernel.setHolder,
        Kernel.setThread, upd]
    intro T hT e
    exact hT e.symm
  · intro lv
    refine ⟨?_, ?_, ?_, ?_⟩ <;>
      simp [exec, lock_acquire_mlfqs_ret, lock_held_by_current_thread, Kernel.setHolder, upd]
    intro T hT e
    exact hT e.symm
  · intro hp hi hh hv
    cases hm : K.thread_mlfqs <;>
      simp [exec, lock_acquire, lock_acquire_donate, hm, hh, hi, hp, lock_held_by_current_thread,
        sema_down, sema_down_loop, hv, step, Kernel.push, Kernel.setSema, Kernel.getSema, upd,
        lock_acquire_ret, lock_acquire_mlfqs_ret, Kernel.setHolder, Kernel.setThread,
        Kernel.PANIC]
  · intro hi hh hv
    have hheld : ∀ K1 : Kernel, K1.cur = K.cur → K1.locks = K.locks →
        lock_held_by_current_thread l K1 = false := by
      intro K1 e1 e2
      simp [lock_held_by_current_thread, e1, e2, hh]
    have hblock : ∀ (K1 : Kernel) (lv : intr_level), K1.cur = K.cur → K1.locks = K.locks →
        K1.in_intr = false →
        (sema_down (.lock l) K1).cont K.cur =
            Instr.sema_down_loop (.lock l) K1.intr :: K1.cont K.cur ∧
          K.cur ∈ ((sema_down (.lock l) K1).locks l).semaphore.waiters ∧
          ((sema_down (.lock l) K1).locks l).holder = (K.locks l).holder := by
      intro K1 lv e1 e2 e3
      have hv1 : (Kernel.getSema { K1 with intr := intr_level.INTR_OFF } (.lock l)).value = 0 := by
        show (K1.locks l).semaphore.value = 0
        rw [e2]; exact hv
      unfold sema_down
      rw [if_neg (by simp [e3])]
      unfold sema_down_loop
      rw [if_pos hv1]
      refine ⟨?_, ?_, ?_⟩
      · rw [thread_block_cont, ← e1]
        simp [Kernel.push, upd, Kernel.setSema]
      · have := (list_insert_ordered_perm (cmp_priority { K1 with intr := intr_level.INTR_OFF })
          K1.cur (K1.locks l).semaphore.waiters).symm.subset (List.mem_cons_self _ _)
        simpa [thread_block, schedule, Kernel.push, Kernel.setSema, Kernel.getSema,
          Kernel.setThread, upd, e1] using this
      · simp [e2]
    rcases Bool.eq_false_or_eq_true K.thread_mlfqs with hm | hm
    · have := hblock
        ({ K with intr := intr_level.INTR_OFF }.push [Instr.lock_acquire_mlfqs_ret l K.intr])
        K.intr (by simp) (by simp) (by simp [hi])
      rw [exec, lock_acquire_mlfqs l K hm, if_pos hm, if_pos hm]
      have e := push_cont_cur { K with intr := intr_level.INTR_OFF }
        [Instr.lock_acquire_mlfqs_ret l K.intr]
      rw [show ({ K with intr := intr_level.INTR_OFF } : Kernel).cur = K.cur from rfl] at e
      rw [e] at this
      exact this
    · have := hblock ((lock_acquire_donate l K).push [Instr.lock_acquire_ret l]) K.intr
        (by simp) (by simp) (by simp [hi])
      rw [exec, lock_acquire_donation l K hm, if_neg (by simp [hi]),
        if_neg (by simp [hheld (lock_acquire_donate l K) (by simp) (by simp)]),
        if_neg (by simp [hm]), if_neg (by simp [hm])]
      have e := push_cont_cur (lock_acquire_donate l K) [Instr.lock_acquire_ret l]
      rw [lock_acquire_donate_cur, lock_acquire_donate_cont] at e
      rw [e, push_intr, lock_acquire_donate_intr] at this
      exact this
  · intro lv r rest hp hv hc hr
    exact lock_acquire_resume K l lv r rest hp hv hc hr
  · intro hp hc hidle as hn hcont
    have hact : K.act (.call (.lock_release l)) = lock_release l K := by
      simp [Kernel.act, hp, hc, hidle, Instr.callable, exec]
    rw [hact] at hn hcont ⊢
    have h := released_run K.cur l as (lock_release l K) (lock_release_released l K hc) hn hcont
    exact ⟨h, by simpa [lock_held_by_current_thread] using h⟩

/-- Witness for C7: thread 2 calls `lock_acquire` on the free lock `0`; one
step later the call has returned and thread 2 is the holder. -/
theorem lock_acquire_returns_as_holder_witness :
    (Kernel.boot false pri_3_7 3 2 [1]).panicked = false ∧
      (Kernel.boot false pri_3_7 3 2 [1]).in_intr = false ∧
      ((Kernel.boot false pri_3_7 3 2 [1]).locks 0).holder = none ∧
      ((Kernel.boot false pri_3_7 3 2 [1]).locks 0).semaphore.value ≠ 0 ∧
      (step (exec (.lock_acquire 0) (Kernel.boot false pri_3_7 3 2 [1]))).cont
          (Kernel.boot false pri_3_7 3 2 [1]).cur =
        (Kernel.boot false pri_3_7 3 2 [1]).cont (Kernel.boot false pri_3_7 3 2 [1]).cur ∧
      (step (exec (.lock_acquire 0) (Kernel.boot false pri_3_7 3 2 [1]))).cur =
        (Kernel.boot false pri_3_7 3 2 [1]).cur ∧
      ((step (exec (.lock_acquire 0) (Kernel.boot false pri_3_7 3 2 [1]))).locks 0).holder =
        some (Kernel.boot false pri_3_7 3 2 [1]).cur ∧
      (step (exec (.lock_acquire 0) (Kernel.boot false pri_3_7 3 2 [1]))).panicked = false ∧
      ((Kernel.boot false pri_3_7 3 2 [1]).thread_mlfqs = false →
        ((step (exec (.lock_acquire 0) (Kernel.boot false pri_3_7 3 2 [1]))).threads
          (Kernel.boot false pri_3_7 3 2 [1]).cur).wait_on_lock = none) :=
  ⟨rfl, rfl, rfl, by decide,
    (lock_acquire_returns_as_holder (Kernel.boot false pri_3_7 3 2 [1]) 0).2.2.1 rfl rfl rfl
      (by decide)⟩

/-- The thread woken by `lock_release` is not always the next holder: the
wake-up is Mesa style.  In the run `regrab_trace` thread 1 holds lock `0`
and thread 2, the only and so the highest-priority waiter, is blocked in
`lock_acquire`.  The `lock_release` of thread 1 (ninth transition) wakes
thread 2 and leaves the lock free, but thread 2 does not outrank thread 1, so
it is not dispatched; thread 1 calls `lock_acquire` again and is the next
holder.  When thread 2 runs at last it finds the counter at zero and blocks
again. -/
theorem lock_release_waiter_not_next_holder :
    ((((Kernel.boot false pri_5_2_1 4 1 [2, 3]).run (regrab_trace.take 8)).locks 0).holder =
          some 1 ∧
        (((Kernel.boot false pri_5_2_1 4 1 [2, 3]).run (regrab_trace.take 8)).locks
          0).semaphore.waiters = [2]) ∧
      ((((Kernel.boot false pri_5_2_1 4 1 [2, 3]).run (regrab_trace.take 9)).locks 0).holder =
          none ∧
        (((Kernel.boot false pri_5_2_1 4 1 [2, 3]).run (regrab_trace.take 9)).locks
          0).semaphore = { value := 1, waiters := [] } ∧
        ((Kernel.boot false pri_5_2_1 4 1 [2, 3]).run (regrab_trace.take 9)).ready_list =
          [3, 2] ∧
        ((Kernel.boot false pri_5_2_1 4 1 [2, 3]).run (regrab_trace.take 9)).cur = 1) ∧
      ((((Kernel.boot false pri_5_2_1 4 1 [2, 3]).run (regrab_trace.take 11)).locks 0).holder =
        some 1) ∧
      ((((Kernel.boot false pri_5_2_1 4 1 [2, 3]).run regrab_trace).locks 0).holder = some 1 ∧
        (((Kernel.boot false pri_5_2_1 4 1 [2, 3]).run regrab_trace).locks 0).semaphore.waiters =
          [2] ∧
        (((Kernel.boot false pri_5_2_1 4 1 [2, 3]).run regrab_trace).threads 2).status =
          thread_status.THREAD_BLOCKED ∧
        ((Kernel.boot false pri_5_2_1 4 1 [2, 3]).run regrab_trace).panicked = false) := by
  decide

/-- The donation path of `lock_release` run without preemption between its
statements, on lock `l`, by its holder: the donors left are those that do not wait on `l` (none of them
waits on `l`, and every donor that waits on another lock is kept); the
effective priority of the caller is the maximum of its base priority and the
priorities of the donors left; the holder is cleared; the counter is
incremented.  With waiters, a waiter `W` of maximal priority is taken off the
list and made ready.  It is the next holder when it gets to run first: if it
outranks the caller and every ready thread, the preemption check dispatches it
and, suspended as it was in `lock_acquire` with the counter at zero, it
completes `lock_acquire` in two steps. -/
theorem lock_release_unpreempted (K : Kernel) (l : Nat)
    (hm : K.thread_mlfqs = false) (hh : (K.locks l).holder = some K.cur) :
    (∀ d ∈ ((lock_release l K).threads K.cur).donations,
        ((lock_release l K).threads d).wait_on_lock ≠ some l) ∧
      (∀ d ∈ (K.threads K.cur).donations, (K.threads d).wait_on_lock ≠ some l →
        d ∈ ((lock_release l K).threads K.cur).donations) ∧
      ((lock_release l K).threads K.cur).priority =
        (((lock_release l K).threads K.cur).donations.map fun d =>
          (K.threads d).priority).foldl max (K.threads K.cur).init_priority ∧
      ((lock_release l K).locks l).holder = none ∧
      ((lock_release l K).locks l).semaphore.value = uint_inc (K.locks l).semaphore.value ∧
      ((K.locks l).semaphore.waiters ≠ [] →
        ∃ W rest,
          W ∈ (K.locks l).semaphore.waiters ∧
            (∀ u ∈ (K.locks l).semaphore.waiters,
              ((lock_release l K).threads u).priority ≤
                ((lock_release l K).threads W).priority) ∧
            List.Perm (W :: rest) (K.locks l).semaphore.waiters ∧
            ((lock_release l K).locks l).semaphore.waiters = rest ∧
            (W ∈ (lock_release l K).ready_list ∨ (lock_release l K).cur = W) ∧
            (K.cur ≠ W → K.panicked = false → (K.locks l).semaphore.value = 0 →
              (∀ r, r ∈ K.ready_list ∨ r = K.cur → r ≠ W →
                ((lock_release l K).threads r).priority <
                  ((lock_release l K).threads W).priority) →
              (∃ lv rest1,
                K.cont W =
                  Instr.sema_down_loop (.lock l) lv :: Instr.lock_acquire_ret l :: rest1) →
              (lock_release l K).cur = W ∧
                ((step (step (lock_release l K))).locks l).holder = some W)) := by
  have hheld : lock_held_by_current_thread l K = true := by
    simp [lock_held_by_current_thread, hh]
  have hrel : lock_release l K =
      sema_up (.lock l) ((refresh_priority (remove_with_lock l K)).setHolder l none) := by
    rw [lock_release_donation l K hm, hheld]
    simp
  have hdon : ((lock_release l K).threads K.cur).donations =
      (K.threads K.cur).donations.filter fun d =>
        decide ((K.threads d).wait_on_lock ≠ some l) := by
    rw [hrel]
    simp [refresh_priority, refresh_priority_of, remove_with_lock, Kernel.setThread, upd]
  have hwait : ∀ d, ((lock_release l K).threads d).wait_on_lock = (K.threads d).wait_on_lock := by
    intro d
    rw [hrel]
    simp only [sema_up_thread_wait_on_lock, setHolder_threads, refresh_priority,
      refresh_priority_of_wait_on_lock]
    simp only [remove_with_lock, Kernel.setThread, upd]
    split <;> simp_all
  have hprio : ∀ u, ((lock_release l K).threads u).priority =
      (((refresh_priority (remove_with_lock l K)).setHolder l none).threads u).priority := by
    intro u
    rw [hrel]
    simp
  refine ⟨?_, ?_, ?_, ?_, ?_, ?_⟩
  · intro d hd
    rw [hdon] at hd
    rw [hwait]
    simpa using (List.mem_filter.1 hd).2
  · intro d hd hw
    rw [hdon]
    exact List.mem_filter.2 ⟨hd, by simpa using hw⟩
  · rw [hdon, hprio]
    simp only [refresh_priority, refresh_priority_of, remove_with_lock, Kernel.setThread, upd,
      Kernel.setHolder, if_true]
    congr 1
    apply List.map_congr_left
    intro d _
    split <;> simp_all
  · rw [hrel]
    simp [holder_setHolder]
  · rw [hrel]
    have := sema_up_value ((refresh_priority (remove_with_lock l K)).setHolder l none) (.lock l)
    simpa [Kernel.getSema, Kernel.setHolder, upd] using this
  · intro hne
    have hgs : (Kernel.getSema ((refresh_priority (remove_with_lock l K)).setHolder l none)
        (.lock l)) = (K.locks l).semaphore := by
      simp [Kernel.getSema, Kernel.setHolder, upd]
    cases hsort : list_sort
        (cmp_priority ((refresh_priority (remove_with_lock l K)).setHolder l none))
        (K.locks l).semaphore.waiters with
    | nil => exact absurd (list_sort_eq_nil _ _ hsort) hne
    | cons W rest =>
      have hsort2 : list_sort
          (cmp_priority ((refresh_priority (remove_with_lock l K)).setHolder l none))
          (Kernel.getSema ((refresh_priority (remove_with_lock l K)).setHolder l none)
            (.lock l)).waiters = W :: rest := by
        rw [hgs]; exact hsort
      obtain ⟨hmax, hperm⟩ :=
        list_sort_head _ (fun u =>
            (((refresh_priority (remove_with_lock l K)).setHolder l none).threads u).priority)
          (cmp_priority_iff _) _ W rest hsort
      have hup := sema_up_cons _ (.lock l) W rest hsort2
      refine ⟨W, rest, hperm.subset (by simp), ?_, hperm, ?_, ?_, ?_⟩
      · intro u hu
        rw [hprio, hprio]
        exact hmax u hu
      · rw [hrel]
        have : (sema_up (.lock l)
            ((refresh_priority (remove_with_lock l K)).setHolder l none)).getSema (.lock l) =
            { value := uint_inc (Kernel.getSema
                ((refresh_priority (remove_with_lock l K)).setHolder l none) (.lock l)).value,
              waiters := rest } := by
          rw [hup, getSema_test_max_priority, getSema_setSema_same]
        exact congrArg semaphore.waiters this
      · rw [hrel, hup]
        apply test_max_priority_mem
        simp [Kernel.setSema, thread_unblock]
      · intro hW hp hv hout hcont
        obtain ⟨lv, rest1, hcont⟩ := hcont
        have hcur : (lock_release l K).cur = W := by
          rw [hrel]
          apply sema_up_dispatch _ _ W rest hsort2
          · intro r hr hne2
            have := hout r (by simpa using hr) hne2
            rw [hprio, hprio] at this
            exact this
          · simpa using hW
        refine ⟨hcur, ?_⟩
        have hc2 : (lock_release l K).cont W =
            Instr.sema_down_loop (.lock l) lv :: Instr.lock_acquire_ret l :: rest1 := by
          rw [lock_release_cont_other l K W (Ne.symm hW), hcont]
        have hp2 : (lock_release l K).panicked = false := by
          rw [hrel]; simpa using hp
        have hv2 : ((lock_release l K).locks l).semaphore.value ≠ 0 := by
          have := sema_up_value ((refresh_priority (remove_with_lock l K)).setHolder l none)
            (.lock l)
          rw [← hrel, hgs, hv] at this
          have e : ((lock_release l K).locks l).semaphore.value = 1 := this
          rw [e]; simp
        rw [← hcur] at hc2
        have := (lock_acquire_resume (lock_release l K) l lv _ rest1 hp2 hv2 hc2 (Or.inl rfl)).2.2
        rw [hcur] at this
        exact this

/-- C14.  `sema_try_down` on a semaphore whose counter is in the range of an
`unsigned`, in whatever state and context: it returns true exactly when the
counter is positive at the call; then the counter is lowered by exactly one,
otherwise it is unchanged; the waiter list is unchanged, every other
semaphore is unchanged, the caller is still the running thread, no thread
record, ready list or pending instruction changes (the caller is neither
queued nor blocked), and the interrupt level is what it was on entry. -/
theorem sema_try_down_contract (K : Kernel) (s : SemaRef)
    (hK : (K.getSema s).value < UINT_RANGE) :
    ((exec (.sema_try_down s) K).retval K.cur = true ↔ 0 < (K.getSema s).value) ∧
      ((exec (.sema_try_down s) K).retval K.cur = true →
        ((exec (.sema_try_down s) K).getSema s).value + 1 = (K.getSema s).value) ∧
      ((exec (.sema_try_down s) K).retval K.cur = false →
        ((exec (.sema_try_down s) K).getSema s).value = (K.getSema s).value) ∧
      ((exec (.sema_try_down s) K).getSema s).waiters = (K.getSema s).waiters ∧
      (∀ r, r ≠ s → (exec (.sema_try_down s) K).getSema r = K.getSema r) ∧
      (exec (.sema_try_down s) K).cur = K.cur ∧
      (exec (.sema_try_down s) K).threads = K.threads ∧
      (exec (.sema_try_down s) K).ready_list = K.ready_list ∧
      (exec (.sema_try_down s) K).cont = K.cont ∧
      (exec (.sema_try_down s) K).intr = K.intr ∧
      (exec (.sema_try_down s) K).panicked = K.panicked := by
  unfold UINT_RANGE at hK
  show ((sema_try_down s K).retval K.cur = true ↔ _) ∧
    ((sema_try_down s K).retval K.cur = true → _) ∧
    ((sema_try_down s K).retval K.cur = false → _) ∧ _
  rw [sema_try_down_retval]
  refine ⟨by simp, ?_, ?_, ?_, ?_, by simp [exec], by simp [exec], by simp [exec], by simp [exec],
    by simp [exec], by simp [exec]⟩
  · intro h
    have hv : 0 < (K.getSema s).value := by simpa using h
    show ((sema_try_down s K).getSema s).value + 1 = _
    rw [sema_try_down_sema, if_neg (by omega), uint_dec_pos _ hv hK]
    show (K.getSema s).value - 1 + 1 = _
    omega
  · intro h
    have hv : (K.getSema s).value = 0 := by simpa using h
    show ((sema_try_down s K).getSema s).value = _
    rw [sema_try_down_sema, if_pos hv, hv]
  · show ((sema_try_down s K).getSema s).waiters = _
    rw [sema_try_down_sema]
  · intro r hr
    exact getSema_sema_try_down_ne s r K (Ne.symm hr)

/-- Witness for C14: `sema_try_down` on a semaphore at 1 returns true and
leaves it at 0; on a semaphore at 0 with a waiter it returns false and leaves
counter and waiter list alone. -/
theorem sema_try_down_contract_witness :
    ((sema_at 1 []).getSema (.sema 0)).value < UINT_RANGE ∧
      (exec (.sema_try_down (.sema 0)) (sema_at 1 [])).retval 2 = true ∧
      (exec (.sema_try_down (.sema 0)) (sema_at 1 [])).getSema (.sema 0) =
        { value := 0, waiters := [] } ∧
      (exec (.sema_try_down (.sema 0)) (sema_at 0 [1])).retval 2 = false ∧
      (exec (.sema_try_down (.sema 0)) (sema_at 0 [1])).getSema (.sema 0) =
        { value := 0, waiters := [1] } ∧
      ((exec (.sema_try_down (.sema 0)) (sema_at 1 [])).retval (sema_at 1 []).cur = true ↔
        0 < ((sema_at 1 []).getSema (.sema 0)).value) :=
  ⟨by decide, by decide, by decide, by decide, by decide,
    (sema_try_down_contract (sema_at 1 []) (.sema 0) (by decide)).1⟩

/-- C15.  `lock_try_acquire` on a lock whose counter is in the range of an
`unsigned`.  Called by the holder of the lock it halts the kernel by
assertion, the state otherwise untouched.  Called by any other thread it
returns true exactly when the counter of the lock is positive; then the
counter is lowered by one and the holder is the caller; when it returns false
the lock (holder, counter, waiter list) is unchanged.  In both cases no thread
record changes (donor lists, priorities, status), the caller is still running
with nothing new pending, the waiter list and every other lock are unchanged,
and the kernel does not halt. -/
theorem lock_try_acquire_contract (K : Kernel) (l : Nat)
    (hK : (K.locks l).semaphore.value < UINT_RANGE) :
    ((K.locks l).holder = some K.cur → exec (.lock_try_acquire l) K = K.PANIC) ∧
      ((K.locks l).holder ≠ some K.cur →
        ((exec (.lock_try_acquire l) K).retval K.cur = true ↔
            0 < (K.locks l).semaphore.value) ∧
          ((exec (.lock_try_acquire l) K).retval K.cur = true →
            ((exec (.lock_try_acquire l) K).locks l).semaphore.value + 1 =
                (K.locks l).semaphore.value ∧
              ((exec (.lock_try_acquire l) K).locks l).holder = some K.cur) ∧
          ((exec (.lock_try_acquire l) K).retval K.cur = false →
            (exec (.lock_try_acquire l) K).locks l = K.locks l) ∧
          ((exec (.lock_try_acquire l) K).locks l).semaphore.waiters =
            (K.locks l).semaphore.waiters ∧
          (∀ m, m ≠ l → (exec (.lock_try_acquire l) K).locks m = K.locks m) ∧
          (exec (.lock_try_acquire l) K).threads = K.threads ∧
          (exec (.lock_try_acquire l) K).cur = K.cur ∧
          (exec (.lock_try_acquire l) K).ready_list = K.ready_list ∧
          (exec (.lock_try_acquire l) K).cont = K.cont ∧
          (exec (.lock_try_acquire l) K).intr = K.intr ∧
          (exec (.lock_try_acquire l) K).panicked = K.panicked) := by
  unfold UINT_RANGE at hK
  constructor
  · intro hh
    exact lock_try_acquire_held K l hh
  · intro hh
    by_cases hv : (K.locks l).semaphore.value = 0
    · have e : exec (.lock_try_acquire l) K = K.ret false := lock_try_acquire_zero K l hh hv
      rw [e]
      have hr : (K.ret false).retval K.cur = false := by simp [Kernel.ret, upd]
      rw [hr]
      refine ⟨by simp [hv], by simp, fun _ => rfl, rfl, fun _ _ => rfl, rfl, rfl, rfl, rfl, rfl,
        rfl⟩
    · have hpos : 0 < (K.locks l).semaphore.value := Nat.pos_of_ne_zero hv
      have e : exec (.lock_try_acquire l) K =
          (sema_try_down (.lock l) K).setHolder l (some K.cur) :=
        lock_try_acquire_pos K l hh hpos
      have hsem : ((exec (.lock_try_acquire l) K).locks l).semaphore =
          { value := uint_dec (K.locks l).semaphore.value,
            waiters := (K.locks l).semaphore.waiters } := by
        show (exec (.lock_try_acquire l) K).getSema (.lock l) = _
        rw [e, getSema_setHolder, sema_try_down_sema,
          if_neg (show ¬ (K.getSema (.lock l)).value = 0 from hv)]
        rfl
      have hr : (exec (.lock_try_acquire l) K).retval K.cur = true := by
        rw [e, setHolder_retval, sema_try_down_retval]
        simpa using hpos
      rw [hr, hsem]
      refine ⟨by simp [hpos], fun _ => ⟨?_, ?_⟩, by simp, rfl, ?_, ?_, ?_, ?_, ?_, ?_, ?_⟩
      · show uint_dec (K.locks l).semaphore.value + 1 = _
        rw [uint_dec_pos _ hpos hK]
        omega
      · rw [e, holder_setHolder, if_pos rfl]
      · intro m hm
        rw [e, sema_try_down_pos K (.lock l) hpos]
        simp [Kernel.setHolder, Kernel.ret, Kernel.setSema, upd, hm]
      · rw [e, setHolder_threads, sema_try_down_threads]
      · rw [e, setHolder_cur, sema_try_down_cur]
      · rw [e, setHolder_ready_list, sema_try_down_ready_list]
      · rw [e, setHolder_cont, sema_try_down_cont]
      · rw [e, setHolder_intr, sema_try_down_intr]
      · rw [e, setHolder_panicked, sema_try_down_panicked]
/-- Witness for C15: on a free lock (counter 1) `lock_try_acquire` by thread 2
returns true, the counter is 0 and the holder thread 2; on a lock held by
thread 1 it returns false and leaves the lock alone; on a lock held by thread
2 itself it halts the kernel. -/
theorem lock_try_acquire_contract_witness :
    ((lock_at none 1).locks 0).semaphore.value < UINT_RANGE ∧
      (exec (.lock_try_acquire 0) (lock_at none 1)).retval 2 = true ∧
      (exec (.lock_try_acquire 0) (lock_at none 1)).locks 0 =
        { holder := some 2, semaphore := { value := 0, waiters := [] } } ∧
      (exec (.lock_try_acquire 0) (lock_at (some 1) 0)).retval 2 = false ∧
      (exec (.lock_try_acquire 0) (lock_at (some 1) 0)).locks 0 =
        { holder := some 1, semaphore := { value := 0, waiters := [] } } ∧
      (exec (.lock_try_acquire 0) (lock_at (some 2) 0)).panicked = true ∧
      (((lock_at none 1).locks 0).holder = some (lock_at none 1).cur →
        exec (.lock_try_acquire 0) (lock_at none 1) = (lock_at none 1).PANIC) :=
  ⟨by decide, by decide, by decide, by decide, by decide, by decide,
    (lock_try_acquire_contract (lock_at none 1) 0 (by decide)).1⟩

/-- C13.  `sema_init (s, N)` with `N` an `unsigned`, outside interrupt
context, followed by any `N` down operations `ops` on `s` (`sema_down` or
`sema_try_down`, in any mix) and no `sema_up`.  After the first `k ≤ N` of
them the counter is `N - k` (so each of the first `N` finds it positive) and
the waiter list is empty; the caller is still the running thread, nothing is
pending for it, and no thread record or ready list has changed (no operation
blocked); each `sema_try_down` among them returned true.  After the `N`-th
the counter is 0.  One more `sema_try_down` returns false and changes neither
counter nor waiter list nor any thread.  One more `sema_down` finds the
counter at 0: it is the blocking of the caller with the caller queued on the
waiter list and the test of the loop pending, the counter stays 0, and (if the
caller is a regular thread, neither on the ready list nor the idle thread) its
status is blocked and another thread runs. -/
theorem sema_admits_n_downs (K : Kernel) (s : SemaRef) (N : Nat) (ops : List Instr)
    (hN : N < UINT_RANGE) (hi : K.in_intr = false)
    (hops : ∀ i ∈ ops, i.is_down_on s = true) (hlen : ops.length = N) :
    (∀ k, k ≤ N →
      (exec_seq (ops.take k) (exec (.sema_init s N) K)).getSema s =
          { value := N - k, waiters := [] } ∧
        (exec_seq (ops.take k) (exec (.sema_init s N) K)).cur = K.cur ∧
        (exec_seq (ops.take k) (exec (.sema_init s N) K)).cont = K.cont ∧
        (exec_seq (ops.take k) (exec (.sema_init s N) K)).threads = K.threads ∧
        (exec_seq (ops.take k) (exec (.sema_init s N) K)).ready_list = K.ready_list ∧
        (exec_seq (ops.take k) (exec (.sema_init s N) K)).intr = K.intr ∧
        (exec_seq (ops.take k) (exec (.sema_init s N) K)).panicked = K.panicked) ∧
      (∀ k, k < N → ops[k]? = some (Instr.sema_try_down s) →
        (exec_seq (ops.take (k + 1)) (exec (.sema_init s N) K)).retval K.cur = true) ∧
      ((exec_seq ops (exec (.sema_init s N) K)).getSema s).value = 0 ∧
      ((exec (.sema_try_down s) (exec_seq ops (exec (.sema_init s N) K))).retval K.cur = false ∧
        (exec (.sema_try_down s) (exec_seq ops (exec (.sema_init s N) K))).getSema s =
          { value := 0, waiters := [] } ∧
        (exec (.sema_try_down s) (exec_seq ops (exec (.sema_init s N) K))).cur = K.cur ∧
        (exec (.sema_try_down s) (exec_seq ops (exec (.sema_init s N) K))).cont = K.cont ∧
        (exec (.sema_try_down s) (exec_seq ops (exec (.sema_init s N) K))).threads =
          K.threads) ∧
      (exec (.sema_down s) (exec_seq ops (exec (.sema_init s N) K)) =
          thread_block
            ((Kernel.setSema
              { exec_seq ops (exec (.sema_init s N) K) with intr := intr_level.INTR_OFF } s
              { value := 0, waiters := [K.cur] }).push [Instr.sema_down_loop s K.intr]) ∧
        (exec (.sema_down s) (exec_seq ops (exec (.sema_init s N) K))).getSema s =
          { value := 0, waiters := [K.cur] } ∧
        (exec (.sema_down s) (exec_seq ops (exec (.sema_init s N) K))).cont K.cur =
          Instr.sema_down_loop s K.intr :: K.cont K.cur ∧
        (exec (.sema_down s) (exec_seq ops (exec (.sema_init s N) K))).panicked = K.panicked ∧
        (K.cur ∉ K.ready_list → K.cur ≠ K.idle_thread →
          ((exec (.sema_down s) (exec_seq ops (exec (.sema_init s N) K))).threads K.cur).status =
              thread_status.THREAD_BLOCKED ∧
            (exec (.sema_down s) (exec_seq ops (exec (.sema_init s N) K))).cur ≠ K.cur)) := by
  unfold UINT_RANGE at hN
  have h0 : (exec (.sema_init s N) K).getSema s = { value := N, waiters := [] } := by
    simp [exec, sema_init, getSema_setSema_same]
  have h0i : (exec (.sema_init s N) K).in_intr = false := by
    simp [exec, sema_init, hi]
  have hf : (exec (.sema_init s N) K).cur = K.cur ∧ (exec (.sema_init s N) K).cont = K.cont ∧
      (exec (.sema_init s N) K).threads = K.threads ∧
      (exec (.sema_init s N) K).ready_list = K.ready_list ∧
      (exec (.sema_init s N) K).intr = K.intr ∧
      (exec (.sema_init s N) K).panicked = K.panicked ∧
      (exec (.sema_init s N) K).idle_thread = K.idle_thread := by
    simp [exec, sema_init]
  obtain ⟨f1, f2, f3, f4, f5, f6, f7⟩ := hf
  have pre : ∀ k, k ≤ N →
      (exec_seq (ops.take k) (exec (.sema_init s N) K)).getSema s =
          { value := N - k, waiters := [] } ∧
        (exec_seq (ops.take k) (exec (.sema_init s N) K)).cur = K.cur ∧
        (exec_seq (ops.take k) (exec (.sema_init s N) K)).cont = K.cont ∧
        (exec_seq (ops.take k) (exec (.sema_init s N) K)).threads = K.threads ∧
        (exec_seq (ops.take k) (exec (.sema_init s N) K)).ready_list = K.ready_list ∧
        (exec_seq (ops.take k) (exec (.sema_init s N) K)).intr = K.intr ∧
        (exec_seq (ops.take k) (exec (.sema_init s N) K)).panicked = K.panicked ∧
        (exec_seq (ops.take k) (exec (.sema_init s N) K)).in_intr = false := by
    intro k hk
    have hl : (ops.take k).length = k := by
      rw [List.length_take, hlen]
      omega
    obtain ⟨g1, g2, g3, g4, g5, g6, g7, g8⟩ :=
      exec_seq_downs s (ops.take k) (exec (.sema_init s N) K)
        (fun i hi => hops i (List.mem_of_mem_take hi)) h0i (by rw [h0, hl]; exact hk)
        (by rw [h0]; exact hN)
    rw [h0, hl] at g1
    exact ⟨g1, g2.trans f1, g3.trans f2, g4.trans f3, g5.trans f4, g6.trans f5, g7.trans f6,
      g8.trans h0i⟩
  have hall : ops.take N = ops := by
    rw [← hlen]
    exact List.take_length ops
  obtain ⟨e1, e2, e3, e4, e5, e6, e7, e8⟩ := pre N (le_refl N)
  rw [hall] at e1 e2 e3 e4 e5 e6 e7 e8
  rw [Nat.sub_self] at e1
  have ev : ((exec_seq ops (exec (.sema_init s N) K)).getSema s).value = 0 := by rw [e1]
  have hidle : (exec_seq ops (exec (.sema_init s N) K)).idle_thread = K.idle_thread := by
    rw [exec_seq_idle_thread, f7]
  refine ⟨?_, ?_, ev, ?_, ?_⟩
  · intro k hk
    obtain ⟨g1, g2, g3, g4, g5, g6, g7, _⟩ := pre k hk
    exact ⟨g1, g2, g3, g4, g5, g6, g7⟩
  · intro k hk hop
    obtain ⟨g1, g2, _⟩ := pre k (le_of_lt hk)
    have ht : ops.take (k + 1) = ops.take k ++ [Instr.sema_try_down s] := by
      rw [List.take_succ, hop]
      rfl
    have e : exec_seq (ops.take (k + 1)) (exec (.sema_init s N) K) =
        exec (.sema_try_down s) (exec_seq (ops.take k) (exec (.sema_init s N) K)) := by
      rw [ht]
      simp [exec_seq, List.foldl_append]
    rw [e, ← g2]
    show (sema_try_down s _).retval _ = true
    rw [sema_try_down_retval, g1]
    simp
    omega
  · refine ⟨?_, ?_, ?_, ?_, ?_⟩
    · rw [← e2]
      show (sema_try_down s _).retval _ = false
      rw [sema_try_down_retval, ev]
      simp
    · show (sema_try_down s _).getSema s = _
      rw [sema_try_down_sema, if_pos ev, e1]
    · show (sema_try_down s _).cur = _
      rw [sema_try_down_cur]
      exact e2
    · show (sema_try_down s _).cont = _
      rw [sema_try_down_cont]
      exact e3
    · show (sema_try_down s _).threads = _
      rw [sema_try_down_threads]
      exact e4
  · have hins : list_insert_ordered (cmp_priority (exec_seq ops (exec (.sema_init s N) K)))
        (exec_seq ops (exec (.sema_init s N) K)).cur
        ((exec_seq ops (exec (.sema_init s N) K)).getSema s).waiters = [K.cur] := by
      rw [e1, e2]
      rfl
    have hz2 : exec (.sema_down s) (exec_seq ops (exec (.sema_init s N) K)) =
        thread_block
          ((Kernel.setSema
            { exec_seq ops (exec (.sema_init s N) K) with intr := intr_level.INTR_OFF } s
            { value := 0, waiters := [K.cur] }).push [Instr.sema_down_loop s K.intr]) := by
      show sema_down s _ = _
      rw [sema_down_zero _ s e8 ev, hins, ev, e6]
    refine ⟨hz2, ?_, ?_, ?_, ?_⟩
    · rw [hz2, getSema_thread_block, getSema_push, getSema_setSema_same]
    · have := sema_down_cont_blocked s (exec_seq ops (exec (.sema_init s N) K)) e8 ev
      rw [e2, e6, e3] at this
      exact this
    · rw [hz2]
      simp [e7]
    · intro hr hidl
      have := thread_block_blocked
        ((Kernel.setSema
          { exec_seq ops (exec (.sema_init s N) K) with intr := intr_level.INTR_OFF } s
          { value := 0, waiters := [K.cur] }).push [Instr.sema_down_loop s K.intr])
        (by simpa [e2, e5] using hr) (by simpa [e2, hidle] using hidl)
      rw [hz2]
      simpa [e2] using this

/-- Witness for C13: semaphore `0` initialised to 3; a `sema_down`, a
`sema_try_down` and a `sema_down` leave it at 0 with thread 2 still running;
the fourth down operation blocks thread 2 (or, as `sema_try_down`, returns
false). -/
theorem sema_admits_n_downs_witness :
    ((exec_seq three_downs (exec (.sema_init (.sema 0) 3)
        (Kernel.boot false pri_3_7 3 2 [1]))).getSema (.sema 0)).value = 0 ∧
      (exec_seq three_downs (exec (.sema_init (.sema 0) 3)
        (Kernel.boot false pri_3_7 3 2 [1]))).cur = 2 ∧
      ((exec (.sema_down (.sema 0)) (exec_seq three_downs (exec (.sema_init (.sema 0) 3)
        (Kernel.boot false pri_3_7 3 2 [1])))).threads 2).status =
          thread_status.THREAD_BLOCKED ∧
      (exec (.sema_down (.sema 0)) (exec_seq three_downs (exec (.sema_init (.sema 0) 3)
        (Kernel.boot false pri_3_7 3 2 [1])))).cur = 1 ∧
      ((exec (.sema_try_down (.sema 0)) (exec_seq three_downs (exec (.sema_init (.sema 0) 3)
          (Kernel.boot false pri_3_7 3 2 [1])))).retval
            (Kernel.boot false pri_3_7 3 2 [1]).cur = false ∧
        (exec (.sema_try_down (.sema 0)) (exec_seq three_downs (exec (.sema_init (.sema 0) 3)
          (Kernel.boot false pri_3_7 3 2 [1])))).getSema (.sema 0) =
            { value := 0, waiters := [] } ∧
        (exec (.sema_try_down (.sema 0)) (exec_seq three_downs (exec (.sema_init (.sema 0) 3)
          (Kernel.boot false pri_3_7 3 2 [1])))).cur = (Kernel.boot false pri_3_7 3 2 [1]).cur ∧
        (exec (.sema_try_down (.sema 0)) (exec_seq three_downs (exec (.sema_init (.sema 0) 3)
          (Kernel.boot false pri_3_7 3 2 [1])))).cont = (Kernel.boot false pri_3_7 3 2 [1]).cont ∧
        (exec (.sema_try_down (.sema 0)) (exec_seq three_downs (exec (.sema_init (.sema 0) 3)
          (Kernel.boot false pri_3_7 3 2 [1])))).threads =
            (Kernel.boot false pri_3_7 3 2 [1]).threads) :=
  ⟨by decide, by decide, by decide, by decide,
    (sema_admits_n_downs (Kernel.boot false pri_3_7 3 2 [1]) (.sema 0) 3 three_downs (by decide)
      (by decide) (by decide) (by decide)).2.2.2.1⟩

/-- C18.  `sema_down`, outside interrupt context, on a semaphore whose counter
is 0 and whose waiter list is sorted by descending effective priority: the
waiter list splits into a front part `l1` and a back part `l2`, and afterwards
it is `l1`, the caller, `l2`: the caller is inserted once (it occurs one more
time than before), the existing waiters keep their order, every waiter in
front of the caller has a priority greater than or equal to the caller's
(waiters of equal priority stay in front), every waiter behind it has a
smaller priority, and the list is still sorted by descending priority.  The
counter is still 0 and no priority has changed. -/
theorem sema_down_inserts_by_priority (K : Kernel) (s : SemaRef)
    (hi : K.in_intr = false) (hv : (K.getSema s).value = 0)
    (hs : (K.getSema s).waiters.Pairwise fun a b =>
      (K.threads b).priority ≤ (K.threads a).priority) :
    ∃ l1 l2, (K.getSema s).waiters = l1 ++ l2 ∧
      ((exec (.sema_down s) K).getSema s).waiters = l1 ++ K.cur :: l2 ∧
      (∀ e ∈ l1, (K.threads K.cur).priority ≤ (K.threads e).priority) ∧
      (∀ e ∈ l2, (K.threads e).priority < (K.threads K.cur).priority) ∧
      (((exec (.sema_down s) K).getSema s).waiters.Pairwise fun a b =>
        ((exec (.sema_down s) K).threads b).priority ≤
          ((exec (.sema_down s) K).threads a).priority) ∧
      ((exec (.sema_down s) K).getSema s).waiters.count K.cur =
        (K.getSema s).waiters.count K.cur + 1 ∧
      ((exec (.sema_down s) K).getSema s).value = 0 ∧
      ∀ u, ((exec (.sema_down s) K).threads u).priority = (K.threads u).priority := by
  obtain ⟨l1, l2, h1, h2, h3, h4, h5⟩ :=
    list_insert_ordered_split (cmp_priority K) (fun u => (K.threads u).priority) K.cur
      (fun e => cmp_priority_iff K K.cur e) (K.getSema s).waiters hs
  have hw : ((exec (.sema_down s) K).getSema s) =
      { value := (K.getSema s).value,
        waiters := list_insert_ordered (cmp_priority K) K.cur (K.getSema s).waiters } := by
    show (sema_down s K).getSema s = _
    rw [sema_down_zero K s hi hv, getSema_thread_block, getSema_push, getSema_setSema_same]
  have hp : ∀ u, ((exec (.sema_down s) K).threads u).priority = (K.threads u).priority := by
    intro u
    exact sema_down_thread_priority s K u
  refine ⟨l1, l2, h1, ?_, h3, h4, ?_, ?_, ?_, hp⟩
  · rw [hw]
    exact h2
  · simp only [hp]
    rw [hw]
    exact h5
  · rw [hw]
    show (list_insert_ordered (cmp_priority K) K.cur (K.getSema s).waiters).count K.cur = _
    rw [(list_insert_ordered_perm (cmp_priority K) K.cur (K.getSema s).waiters).count_eq]
    simp
  · rw [hw]
    exact hv

/-- Witness for C18: threads at priorities 9, 5, 5, 2 are queued; the caller,
at priority 5, goes behind the two waiters at 5 and in front of the one at
2. -/
theorem sema_down_inserts_by_priority_witness :
    (sorted_waiters.getSema (.sema 0)).waiters = [1, 2, 3, 4] ∧
      ((exec (.sema_down (.sema 0)) sorted_waiters).getSema (.sema 0)).waiters =
        [1, 2, 3, 5, 4] ∧
      ∃ l1 l2, (sorted_waiters.getSema (.sema 0)).waiters = l1 ++ l2 ∧
        ((exec (.sema_down (.sema 0)) sorted_waiters).getSema (.sema 0)).waiters =
          l1 ++ sorted_waiters.cur :: l2 :=
  ⟨by decide, by decide,
    let ⟨l1, l2, h1, h2, _⟩ :=
      sema_down_inserts_by_priority sorted_waiters (.sema 0) (by decide) (by decide) (by decide)
    ⟨l1, l2, h1, h2⟩⟩

/-- C16.  A semaphore at 0 on which thread `A` is suspended in `sema_down`
(the test of the loop pending) and is the waiter that `sema_up` wakes; the
running thread `B` calls `sema_up`.  Afterwards the counter is 1, `A` is off
the waiter list and ready (or already dispatched), its pending instructions
untouched.  Whenever `A` then resumes with the semaphore as `sema_up` left it,
its re-check finds the counter positive: one step completes the `sema_down`
(nothing of it is pending, `A` is still running), the counter is 0 and `A` is
not on the waiter list.  If `A` outranks `B` and the ready threads, `sema_up`
dispatches it at once and this is the very next step.  If instead the counter
is 0 again when `A` resumes (another thread took the unit), the step does not
decrement: it is the blocking of `A`, queued on the waiter list again with the
test of the loop pending, and the counter stays 0. -/
theorem sema_up_hands_unit_to_waiter (K : Kernel) (s : SemaRef) (A : Tid) (rest : List Tid)
    (lv : intr_level) (tail : List Instr)
    (hv : (K.getSema s).value = 0)
    (hsort : list_sort (cmp_priority K) (K.getSema s).waiters = A :: rest)
    (hA : A ∉ rest) (hcur : K.cur ≠ A)
    (hcont : K.cont A = Instr.sema_down_loop s lv :: tail) :
    ((exec (.sema_up s) K).getSema s = { value := 1, waiters := rest } ∧
        (exec (.sema_up s) K).cont A = Instr.sema_down_loop s lv :: tail ∧
        ((exec (.sema_up s) K).threads A).status ≠ thread_status.THREAD_BLOCKED ∧
        (A ∈ (exec (.sema_up s) K).ready_list ∨ (exec (.sema_up s) K).cur = A)) ∧
      (∀ K2 : Kernel, K2.getSema s = (exec (.sema_up s) K).getSema s → K2.cur = A →
        K2.panicked = false → K2.cont A = Instr.sema_down_loop s lv :: tail →
        (step K2).getSema s = { value := 0, waiters := rest } ∧
          A ∉ ((step K2).getSema s).waiters ∧
          (step K2).cont A = tail ∧ (step K2).cur = A ∧ (step K2).intr = lv ∧
          (step K2).threads = K2.threads) ∧
      (K.panicked = false →
        (∀ r, r ∈ K.ready_list ∨ r = K.cur → r ≠ A →
          (K.threads r).priority < (K.threads A).priority) →
        (exec (.sema_up s) K).cur = A ∧
          (step (exec (.sema_up s) K)).getSema s = { value := 0, waiters := rest } ∧
          (step (exec (.sema_up s) K)).cont A = tail ∧
          (step (exec (.sema_up s) K)).cur = A) ∧
      (∀ K2 : Kernel, (K2.getSema s).value = 0 → K2.cur = A → K2.panicked = false →
        K2.cont A = Instr.sema_down_loop s lv :: tail →
        step K2 =
            thread_block
              ((Kernel.setSema { K2 with cont := upd K2.cont A tail } s
                { value := 0,
                  waiters := list_insert_ordered (cmp_priority K2) A (K2.getSema s).waiters }).push
                [Instr.sema_down_loop s lv]) ∧
          ((step K2).getSema s).value = 0 ∧
          A ∈ ((step K2).getSema s).waiters ∧
          (step K2).cont A = Instr.sema_down_loop s lv :: tail ∧
          (A ∉ K2.ready_list → A ≠ K2.idle_thread →
            ((step K2).threads A).status = thread_status.THREAD_BLOCKED ∧
              (step K2).cur ≠ A)) := by
  have hup := sema_up_cons K s A rest hsort
  have h1 : (exec (.sema_up s) K).getSema s = { value := 1, waiters := rest } := by
    show (sema_up s K).getSema s = _
    rw [hup, getSema_test_max_priority, getSema_setSema_same, hv, uint_inc_zero]
  have h2 : (exec (.sema_up s) K).cont A = Instr.sema_down_loop s lv :: tail := by
    show (sema_up s K).cont A = _
    rw [sema_up_cont_other s K A (Ne.symm hcur), hcont]
  have hstep : ∀ K2 : Kernel, K2.getSema s = (exec (.sema_up s) K).getSema s → K2.cur = A →
      K2.panicked = false → K2.cont A = Instr.sema_down_loop s lv :: tail →
      (step K2).getSema s = { value := 0, waiters := rest } ∧
        A ∉ ((step K2).getSema s).waiters ∧
        (step K2).cont A = tail ∧ (step K2).cur = A ∧ (step K2).intr = lv ∧
        (step K2).threads = K2.threads := by
    intro K2 e1 e2 e3 e4
    rw [h1] at e1
    obtain ⟨g1, g2, g3, g4, g5, _, _⟩ :=
      step_sema_down_loop_pos K2 s lv tail e3 (by rw [e2]; exact e4) (by rw [e1]; simp)
    rw [e1] at g1
    rw [e2] at g2 g3
    have g1' : (step K2).getSema s = { value := 0, waiters := rest } := by
      rw [g1]
      show ({ value := uint_dec 1, waiters := rest } : semaphore) = _
      rw [uint_dec_one]
    refine ⟨g1', ?_, g2, g3, g4, g5⟩
    rw [g1']
    exact hA
  refine ⟨⟨h1, h2, ?_, ?_⟩, hstep, ?_, ?_⟩
  · show ((sema_up s K).threads A).status ≠ _
    rw [hup]
    apply test_max_priority_status
    cases s <;> simp [Kernel.setSema, thread_unblock, upd]
  · show A ∈ (sema_up s K).ready_list ∨ (sema_up s K).cur = A
    rw [hup]
    apply test_max_priority_mem
    cases s <;> simp [Kernel.setSema, thread_unblock]
  · intro hp hout
    have hd : (exec (.sema_up s) K).cur = A := sema_up_dispatch K s A rest hsort hout hcur
    have hpp : (exec (.sema_up s) K).panicked = false := by
      show (sema_up s K).panicked = false
      rw [sema_up_panicked, hp]
    obtain ⟨g1, _, g3, g4, _, _⟩ := hstep (exec (.sema_up s) K) rfl hd hpp h2
    exact ⟨hd, g1, g3, g4⟩
  · intro K2 e1 e2 e3 e4
    subst e2
    obtain ⟨g1, g2, g3, _, g5⟩ := step_sema_down_loop_zero K2 s lv tail e3 e4 e1
    rw [e1] at g1
    refine ⟨g1, by rw [g2], ?_, g3, g5⟩
    rw [g2]
    exact (list_insert_ordered_perm (cmp_priority K2) K2.cur (K2.getSema s).waiters).symm.subset
      (List.mem_cons_self _ _)

/-- Witness for C16.  Scenario A: thread 2 is blocked on semaphore `0`,
thread 1 calls `sema_up`, thread 2 resumes and the counter is 0 with no
waiter.  And a run in which the unit is taken before the waiter resumes:
thread 1 finds the counter at 0 and is blocked again. -/
theorem sema_up_hands_unit_to_waiter_witness :
    (((Kernel.boot false pri_3_7 3 2 [1]).run (scenario_a_trace.take 3)).getSema (.sema 0) =
        { value := 0, waiters := [2] } ∧
      ((Kernel.boot false pri_3_7 3 2 [1]).run (scenario_a_trace.take 3)).cur = 1 ∧
      ((Kernel.boot false pri_3_7 3 2 [1]).run (scenario_a_trace.take 4)).getSema (.sema 0) =
        { value := 1, waiters := [] } ∧
      ((Kernel.boot false pri_3_7 3 2 [1]).run scenario_a_trace).getSema (.sema 0) =
        { value := 0, waiters := [] } ∧
      ((Kernel.boot false pri_3_7 3 2 [1]).run scenario_a_trace).cont 2 = [] ∧
      ((Kernel.boot false pri_3_7 3 2 [1]).run scenario_a_trace).cur = 2) ∧
      (((Kernel.boot false pri_3_7 3 1 [2]).run (unit_taken_trace.take 3)).getSema (.sema 0) =
          { value := 1, waiters := [] } ∧
        ((Kernel.boot false pri_3_7 3 1 [2]).run (unit_taken_trace.take 5)).getSema (.sema 0) =
          { value := 0, waiters := [] } ∧
        ((Kernel.boot false pri_3_7 3 1 [2]).run (unit_taken_trace.take 5)).cur = 1 ∧
        ((Kernel.boot false pri_3_7 3 1 [2]).run unit_taken_trace).getSema (.sema 0) =
          { value := 0, waiters := [1] } ∧
        (((Kernel.boot false pri_3_7 3 1 [2]).run unit_taken_trace).threads 1).status =
          thread_status.THREAD_BLOCKED) ∧
      ((exec (.sema_up (.sema 0))
          ((Kernel.boot false pri_3_7 3 2 [1]).run (scenario_a_trace.take 3))).getSema (.sema 0) =
          { value := 1, waiters := [] } ∧
        (exec (.sema_up (.sema 0))
          ((Kernel.boot false pri_3_7 3 2 [1]).run (scenario_a_trace.take 3))).cont 2 =
          [Instr.sema_down_loop (.sema 0) intr_level.INTR_ON] ∧
        ((exec (.sema_up (.sema 0))
          ((Kernel.boot false pri_3_7 3 2 [1]).run (scenario_a_trace.take 3))).threads 2).status ≠
          thread_status.THREAD_BLOCKED ∧
        (2 ∈ (exec (.sema_up (.sema 0))
            ((Kernel.boot false pri_3_7 3 2 [1]).run (scenario_a_trace.take 3))).ready_list ∨
          (exec (.sema_up (.sema 0))
            ((Kernel.boot false pri_3_7 3 2 [1]).run (scenario_a_trace.take 3))).cur = 2)) :=
  ⟨by decide, by decide,
    (sema_up_hands_unit_to_waiter
      ((Kernel.boot false pri_3_7 3 2 [1]).run (scenario_a_trace.take 3)) (.sema 0) 2 []
      intr_level.INTR_ON [] (by decide) (by decide) (by decide) (by decide) (by decide)).1⟩

/-- C19 (code defect).  Thread 2 (priority 10), holder of lock `0`, calls
`cond_wait` on a condition variable whose queue holds the element of thread 1
(priority 5, blocked on it): a queue sorted by descending priority.  When
`cond_wait` inserts the new element no thread is queued on its private
semaphore yet, so `cmp_sem_priority` reads the `priority` field through the
tail sentinel of an empty list, a word `j` that belongs to no thread.  The
place of the new element is decided by that word: in front of the element of
thread 1 exactly when `5 < j`, whatever the priority of the caller.  With
`j = 0` the queue is element 1, element 2; one step later thread 2 is blocked
on its private semaphore, and the queue is in ascending order of the
priorities of the waiting threads (5, then 10). -/
theorem cond_wait_orders_by_sentinel_word :
    (∀ j : Int,
      ((exec (.cond_wait 0 0) (cond_wait_state j)).conds 0).waiters =
        if 5 < j then [2, 1] else [1, 2]) ∧
      (((cond_wait_state 0).conds 0).waiters = [1] ∧
        ((cond_wait_state 0).locks 0).holder = some (cond_wait_state 0).cur ∧
        (cond_wait_state 0).cur = 2 ∧
        ((cond_wait_state 0).threads 1).priority = 5 ∧
        ((cond_wait_state 0).threads 2).priority = 10) ∧
      (((step (exec (.cond_wait 0 0) (cond_wait_state 0))).conds 0).waiters = [1, 2] ∧
        (step (exec (.cond_wait 0 0) (cond_wait_state 0))).elems 1 =
          { value := 0, waiters := [1] } ∧
        (step (exec (.cond_wait 0 0) (cond_wait_state 0))).elems 2 =
          { value := 0, waiters := [2] } ∧
        ((step (exec (.cond_wait 0 0) (cond_wait_state 0))).threads 1).priority = 5 ∧
        ((step (exec (.cond_wait 0 0) (cond_wait_state 0))).threads 2).priority = 10 ∧
        ((step (exec (.cond_wait 0 0) (cond_wait_state 0))).threads 2).status =
          thread_status.THREAD_BLOCKED ∧
        (step (exec (.cond_wait 0 0) (cond_wait_state 0))).panicked = false ∧
        ¬ ((step (exec (.cond_wait 0 0) (cond_wait_state 0))).conds 0).waiters.Pairwise
          fun a b =>
            front_priority (step (exec (.cond_wait 0 0) (cond_wait_state 0))) b ≤
              front_priority (step (exec (.cond_wait 0 0) (cond_wait_state 0))) a) := by
  refine ⟨?_, by decide, by decide⟩
  intro j
  show ((cond_wait 0 0 (cond_wait_state j)).conds 0).waiters = _
  rw [cond_wait_waiters (cond_wait_state j) 0 0 rfl rfl
    (by show (2 : Tid) ∉ ([1] : List Tid); decide)]
  show list_insert_ordered _ 2 [1] = _
  have h : front_priority (cond_wait_state j) 1 = 5 := rfl
  have hj : (cond_wait_state j).junk (cond_wait_state j).cur = j := rfl
  simp only [list_insert_ordered, h, hj]
  by_cases hlt : 5 < j <;> simp [hlt]

/-- C20 (code defect).  On the second path of `lock_release` (taken when
`thread_mlfqs` is set) the semaphore is upped with the holder still in place,
whatever the state, and the statement that follows clears the holder whoever
it is.  In the run `handoff_trace` under `thread_mlfqs`, thread 1 holds lock
`0` with thread 2 blocked on it and calls `lock_release` (the eleventh
transition): the preemption check inside `sema_up` lets thread 2 run while
thread 1 has the rest of `lock_release` pending and is still the recorded
holder; thread 2 completes its `lock_acquire` (holder 2 after the thirteenth
transition) and later blocks elsewhere; thread 1 resumes and overwrites the
holder: with `lock_release` returned the holder is absent, not thread 2, and
the counter is 0.  Under the donation policy the holder is cleared before the
semaphore is upped and the same run ends with holder 2. -/
theorem lock_release_mlfqs_ups_before_clearing :
    (∀ (K : Kernel) (l : Nat),
      lock_release l { K with thread_mlfqs := true } =
          sema_up (.lock l)
            ({ K with thread_mlfqs := true, intr := intr_level.INTR_OFF }.push
              [Instr.lock_release_mlfqs_ret l K.intr]) ∧
        (({ K with thread_mlfqs := true, intr := intr_level.INTR_OFF }.push
          [Instr.lock_release_mlfqs_ret l K.intr]).locks l).holder = (K.locks l).holder) ∧
      (∀ (K : Kernel) (l : Nat) (lv : intr_level),
        ((exec (.lock_release_mlfqs_ret l lv) K).locks l).holder = none) ∧
      ((Kernel.boot true pri_3_7 3 2 [1]).run (handoff_trace.take 10)).locks 0 =
        { holder := some 1, semaphore := { value := 0, waiters := [2] } } ∧
      (((Kernel.boot true pri_3_7 3 2 [1]).run (handoff_trace.take 11)).locks 0 =
          { holder := some 1, semaphore := { value := 1, waiters := [] } } ∧
        ((Kernel.boot true pri_3_7 3 2 [1]).run (handoff_trace.take 11)).cur = 2 ∧
        ((Kernel.boot true pri_3_7 3 2 [1]).run (handoff_trace.take 11)).cont 1 =
          [Instr.intr_set_level intr_level.INTR_OFF,
            Instr.lock_release_mlfqs_ret 0 intr_level.INTR_ON]) ∧
      (((Kernel.boot true pri_3_7 3 2 [1]).run (handoff_trace.take 13)).locks 0 =
          { holder := some 2, semaphore := { value := 0, waiters := [] } } ∧
        ((Kernel.boot true pri_3_7 3 2 [1]).run (handoff_trace.take 13)).cont 2 = [] ∧
        ((Kernel.boot true pri_3_7 3 2 [1]).run (handoff_trace.take 13)).cont 1 =
          [Instr.intr_set_level intr_level.INTR_OFF,
            Instr.lock_release_mlfqs_ret 0 intr_level.INTR_ON]) ∧
      (((Kernel.boot true pri_3_7 3 2 [1]).run handoff_trace).cont 1 = [] ∧
        ((Kernel.boot true pri_3_7 3 2 [1]).run handoff_trace).cur = 1 ∧
        ((Kernel.boot true pri_3_7 3 2 [1]).run handoff_trace).locks 0 =
          { holder := none, semaphore := { value := 0, waiters := [] } } ∧
        ((Kernel.boot true pri_3_7 3 2 [1]).run handoff_trace).panicked = false) ∧
      (((Kernel.boot false pri_3_7 3 2 [1]).run (handoff_trace.take 11)).locks 0 =
          { holder := none, semaphore := { value := 1, waiters := [] } } ∧
        ((Kernel.boot false pri_3_7 3 2 [1]).run handoff_trace).cont 1 = [] ∧
        ((Kernel.boot false pri_3_7 3 2 [1]).run handoff_trace).locks 0 =
          { holder := some 2, semaphore := { value := 0, waiters := [] } }) := by
  refine ⟨?_, ?_, by decide, by decide, by decide, by decide, by decide⟩
  · intro K l
    exact ⟨lock_release_mlfqs l { K with thread_mlfqs := true } rfl, rfl⟩
  · intro K l lv
    simp [exec, lock_release_mlfqs_ret, holder_setHolder]

/-- C12.  `cond_wait (c, l)` by the running thread `C`.  Called by a thread
that does not hold the lock it halts the kernel by assertion.  Called by the
holder, outside interrupt context: it is `lock_release` called in the state
in which the private semaphore of `C` is initialised to 0 and its element is
queued on the condition variable while `C` is still the holder, with the
`sema_down` on the private semaphore and the `lock_acquire` pending behind
it.  When the call first gives up the processor or comes to the `sema_down`,
the counter of the lock has been upped, the element is queued, `C` is not
queued on its private semaphore, and the holder has been cleared (first path)
or the statement that clears it is pending in front of the `sema_down`
(second path).  From then on, whatever the threads do, as long as `C` makes
no new call: whenever `C` is about to block on its private semaphore or is
suspended on it, `C` is not the holder of the lock; and the transition with
which the call returns leaves `C` as the holder.  The call does return once
`C` is resumed with its private semaphore upped and the lock free: three
steps later nothing of the call is pending and `C` is the holder. -/
theorem cond_wait_releases_before_blocking (K : Kernel) (c l : Nat) :
    ((K.locks l).holder ≠ some K.cur → exec (.cond_wait c l) K = K.PANIC) ∧
      (K.in_intr = false → (K.locks l).holder = some K.cur →
        (exec (.cond_wait c l) K =
            lock_release l
              ((cond_wait_enqueue c K).push
                [Instr.sema_down (.waiter K.cur), Instr.lock_acquire l]) ∧
          ((cond_wait_enqueue c K).locks l).holder = some K.cur ∧
          K.cur ∈ ((cond_wait_enqueue c K).conds c).waiters ∧
          (cond_wait_enqueue c K).elems K.cur = { value := 0, waiters := [] }) ∧
        (((exec (.cond_wait c l) K).locks l).semaphore.value =
            uint_inc (K.locks l).semaphore.value ∧
          (exec (.cond_wait c l) K).elems K.cur = { value := 0, waiters := [] } ∧
          K.cur ∈ ((exec (.cond_wait c l) K).conds c).waiters ∧
          (K.thread_mlfqs = false → ((exec (.cond_wait c l) K).locks l).holder = none)) ∧
        (K.cont K.cur = [] →
          (∃ pre, (∀ i ∈ pre, ∃ lv, i = Instr.intr_set_level lv) ∧
            (exec (.cond_wait c l) K).cont K.cur =
              pre ++
                ((if K.thread_mlfqs then [Instr.lock_release_mlfqs_ret l K.intr] else []) ++
                  [Instr.sema_down (.waiter K.cur), Instr.lock_acquire l])) ∧
          ∀ as, no_call_by K.cur (exec (.cond_wait c l) K) as = true →
            (∀ i rest, ((exec (.cond_wait c l) K).run as).cont K.cur = i :: rest →
              (i = Instr.sema_down (.waiter K.cur) ∨
                ∃ lv, i = Instr.sema_down_loop (.waiter K.cur) lv) →
              (((exec (.cond_wait c l) K).run as).locks l).holder ≠ some K.cur) ∧
            ∀ as1 a, as = as1 ++ [a] →
              ((exec (.cond_wait c l) K).run as1).returned K.cur = false →
              ((exec (.cond_wait c l) K).run as).returned K.cur = true →
              (((exec (.cond_wait c l) K).run as).locks l).holder = some K.cur)) ∧
      (∀ lv rest, K.panicked = false → K.in_intr = false →
        K.cont K.cur =
          Instr.sema_down_loop (.waiter K.cur) lv :: Instr.lock_acquire l :: rest →
        (K.elems K.cur).value ≠ 0 → (K.locks l).holder = none →
        (K.locks l).semaphore.value ≠ 0 →
        (step (step (step K))).cont K.cur = rest ∧ (step (step (step K))).cur = K.cur ∧
          ((step (step (step K))).locks l).holder = some K.cur ∧
          (step (step (step K))).panicked = false) := by
  refine ⟨?_, ?_, ?_⟩
  · intro hh
    show cond_wait c l K = _
    unfold cond_wait
    split
    · rfl
    · rw [if_pos (by simp [lock_held_by_current_thread, hh])]
  · intro hi hh
    have hheld := cond_wait_held c l K hi hh
    have q1 : (cond_wait_enqueue c K).locks = K.locks := by
      simp [cond_wait_enqueue, sema_init, Kernel.setSema]
    have q2 : K.cur ∈ ((cond_wait_enqueue c K).conds c).waiters := by
      have := (list_insert_ordered_perm (cmp_sem_priority (sema_init (.waiter K.cur) 0 K)) K.cur
        (K.conds c).waiters).symm.subset (List.mem_cons_self _ _)
      simpa [cond_wait_enqueue, upd] using this
    have q3 : (cond_wait_enqueue c K).elems K.cur = { value := 0, waiters := [] } := by
      simp [cond_wait_enqueue, sema_init, Kernel.setSema, upd]
    refine ⟨⟨hheld, by rw [q1]; exact hh, q2, q3⟩, ⟨?_, ?_, ?_, ?_⟩, ?_⟩
    · show ((cond_wait c l K).locks l).semaphore.value = _
      rw [hheld, lock_release_value l _ (by rw [push_locks, push_cur, q1]; exact hh),
        push_locks, q1]
    · show (cond_wait c l K).elems K.cur = _
      rw [hheld, lock_release_elems, push_elems, q3]
    · show K.cur ∈ ((cond_wait c l K).conds c).waiters
      rw [hheld, lock_release_conds, push_conds]
      exact q2
    · intro hm
      obtain ⟨pre, _, h⟩ := lock_release_cont_cur l
        ((cond_wait_enqueue c K).push [Instr.sema_down (.waiter K.cur), Instr.lock_acquire l])
        (by rw [push_locks, push_cur, q1]; exact hh)
      show ((cond_wait c l K).locks l).holder = none
      rw [hheld]
      rcases h with ⟨_, _, h2⟩ | ⟨hm2, _⟩
      · exact h2
      · have : (cond_wait_enqueue c K).thread_mlfqs = K.thread_mlfqs := by
          simp [cond_wait_enqueue, sema_init]
        rw [push_thread_mlfqs, this, hm] at hm2
        exact absurd hm2 (by simp)
    · intro hc
      obtain ⟨body, hJ, _, pre, hpre, hcont, hb⟩ := cond_wait_enters c l K hi hh hc
      refine ⟨⟨pre, hpre, ?_⟩, ?_⟩
      · show (cond_wait c l K).cont K.cur = _
        rw [hcont]
        rcases hb with ⟨hm, _, rfl⟩ | ⟨hm, rfl⟩ <;> simp [hm]
      · intro as hn
        obtain ⟨⟨body1, hJ1⟩, h4⟩ :=
          in_cond_wait_run K.cur l as (exec (.cond_wait c l) K) body hJ hn
        exact ⟨fun i rest h1 h2 => hJ1.not_holder i rest h1 h2, h4⟩
  · intro lv rest hp hi hc hv hh hvl
    exact cond_wait_resumes K l lv rest hp hi hc hv hh hvl

/-- Witness for C12: in the run `cond_wait_trace` thread 2 holds lock `0` and
calls `cond_wait`; the lock is free and thread 2 not yet queued on its
private semaphore after the call, thread 2 is blocked on it one step later
with thread 1 free to take the lock, and at the end of the run thread 2 has
returned from `cond_wait` as the holder. -/
theorem cond_wait_releases_before_blocking_witness :
    (((Kernel.boot false pri_3_7 3 2 [1]).run (cond_wait_trace.take 2)).in_intr = false ∧
        (((Kernel.boot false pri_3_7 3 2 [1]).run (cond_wait_trace.take 2)).locks 0).holder =
          some ((Kernel.boot false pri_3_7 3 2 [1]).run (cond_wait_trace.take 2)).cur ∧
        ((Kernel.boot false pri_3_7 3 2 [1]).run (cond_wait_trace.take 2)).cont
          ((Kernel.boot false pri_3_7 3 2 [1]).run (cond_wait_trace.take 2)).cur = [] ∧
        ((Kernel.boot false pri_3_7 3 2 [1]).run (cond_wait_trace.take 2)).cur = 2) ∧
      (((Kernel.boot false pri_3_7 3 2 [1]).run (cond_wait_trace.take 3)).locks 0 =
          { holder := none, semaphore := { value := 1, waiters := [] } } ∧
        ((Kernel.boot false pri_3_7 3 2 [1]).run (cond_wait_trace.take 4)).elems 2 =
          { value := 0, waiters := [2] } ∧
        ((Kernel.boot false pri_3_7 3 2 [1]).run (cond_wait_trace.take 7)).locks 0 =
          { holder := some 1, semaphore := { value := 0, waiters := [] } } ∧
        ((Kernel.boot false pri_3_7 3 2 [1]).run cond_wait_trace).cont 2 = [] ∧
        ((Kernel.boot false pri_3_7 3 2 [1]).run cond_wait_trace).panicked = false) ∧
      (((exec (.cond_wait 0 0)
          ((Kernel.boot false pri_3_7 3 2 [1]).run (cond_wait_trace.take 2))).run
            ((cond_wait_trace.drop 3).take 10 ++ [Action.step])).locks 0).holder =
        some ((Kernel.boot false pri_3_7 3 2 [1]).run (cond_wait_trace.take 2)).cur :=
  ⟨by decide, by decide,
    (((cond_wait_releases_before_blocking
      ((Kernel.boot false pri_3_7 3 2 [1]).run (cond_wait_trace.take 2)) 0 0).2.1 (by decide)
      (by decide)).2.2 (by decide)).2 ((cond_wait_trace.drop 3).take 10 ++ [Action.step])
      (by decide) |>.2 ((cond_wait_trace.drop 3).take 10) Action.step rfl (by decide)
      (by decide)⟩

/-- C17. The semaphore ping-pong of `sema_self_test` and `sema_test_helper`,
with `n` rounds: in every state that a run of the two threads reaches, under
either policy and whatever the priorities, the kernel has not halted, one of
the two threads is running and the two are not both blocked (neither by their
status nor as waiters of the semaphores); a run from there completes all the
rounds of both threads; and whenever the main thread has completed its rounds
so has the helper, and both semaphores are at 0 with no waiter. -/
theorem sema_self_test_completes (mlfqs : Bool) (pri : Tid → Int) (n : Nat) (ts : List Turn) :
    ((sema_self_test mlfqs pri n).turns ts).panicked = false ∧
      (((sema_self_test mlfqs pri n).turns ts).cur = 1 ∨
        ((sema_self_test mlfqs pri n).turns ts).cur = 2) ∧
      ¬ ((((sema_self_test mlfqs pri n).turns ts).threads 1).status =
            thread_status.THREAD_BLOCKED ∧
          (((sema_self_test mlfqs pri n).turns ts).threads 2).status =
            thread_status.THREAD_BLOCKED) ∧
      ¬ ((((sema_self_test mlfqs pri n).turns ts).semas 0).waiters ≠ [] ∧
          (((sema_self_test mlfqs pri n).turns ts).semas 1).waiters ≠ []) ∧
      (((sema_self_test mlfqs pri n).turns ts).returned 1 = true →
        ((sema_self_test mlfqs pri n).turns ts).returned 2 = true ∧
          ((sema_self_test mlfqs pri n).turns ts).semas 0 = { value := 0, waiters := [] } ∧
          ((sema_self_test mlfqs pri n).turns ts).semas 1 = { value := 0, waiters := [] }) ∧
      ∃ us,
        (((sema_self_test mlfqs pri n).turns ts).turns us).returned 1 = true ∧
          (((sema_self_test mlfqs pri n).turns ts).turns us).returned 2 = true ∧
          (((sema_self_test mlfqs pri n).turns ts).turns us).semas 0 =
            { value := 0, waiters := [] } ∧
          (((sema_self_test mlfqs pri n).turns ts).turns us).semas 1 =
            { value := 0, waiters := [] } := by
  obtain ⟨h, _⟩ := ping_pong_turns ts _ (ping_pong_init mlfqs pri n)
  refine ⟨h.sched.base.alive, h.sched.base.running, ?_, ?_, ping_pong_returned _ h, ?_⟩
  · rintro ⟨b1, b2⟩
    rcases h.sched.base.running with e | e
    · have := h.sched.base.status_cur
      rw [e, b1] at this
      exact absurd this (by decide)
    · have := h.sched.base.status_cur
      rw [e, b2] at this
      exact absurd this (by decide)
  · obtain ⟨jm, jh, cm, ch, _, _, ph⟩ := h.forms
    rintro ⟨w0, w1⟩
    rcases (phase_waiters _ _ cm ch ph).1 with e | e
    · exact w0 e
    · exact w1 e
  · obtain ⟨us, g1, g2⟩ := ping_pong_finish _ _ h (le_refl _)
    exact ⟨us, ping_pong_done _ g1 g2⟩

theorem sema_self_test_completes_witness :
    ((sema_self_test false (fun _ => 31) 1).turns
          [Turn.step, Turn.step, Turn.step, Turn.step, Turn.step, Turn.timer, Turn.step]).cont 1 =
        [] ∧
      ((sema_self_test false (fun _ => 31) 1).turns
          [Turn.step, Turn.step, Turn.step, Turn.step, Turn.step, Turn.timer, Turn.step]).semas 1 =
        { value := 0, waiters := [] } ∧
      ∃ us,
        ((sema_self_test false (fun _ => 31) 10).turns us).returned 1 = true ∧
          ((sema_self_test false (fun _ => 31) 10).turns us).returned 2 = true ∧
          ((sema_self_test false (fun _ => 31) 10).turns us).semas 0 =
            { value := 0, waiters := [] } ∧
          ((sema_self_test false (fun _ => 31) 10).turns us).semas 1 =
            { value := 0, waiters := [] } :=
  ⟨by decide, by decide, (sema_self_test_completes false (fun _ => 31) 10 []).2.2.2.2.2⟩

/-- C5, amended.  Under the donation policy, `lock_release` of lock `l` by
its holder, when no other thread runs between the statements of the call
(`lock_release_preempted` with no transition in between): the donors left are
those that do not wait on `l` (none of them waits on `l`, and every donor that
waits on another lock is kept); the effective priority of the caller is the
maximum of its base priority and the priorities of the donors left; the holder
is cleared; the counter is incremented.  With waiters, a waiter `W` of maximal
priority is taken off the list and made ready.  It is the next holder when it
gets to run first: if it outranks the caller and every ready thread, the
preemption check dispatches it and, suspended as it was in `lock_acquire` with
the counter at zero, it completes `lock_acquire` in two steps. -/
theorem lock_release_donation_effects (K : Kernel) (l : Nat)
    (hm : K.thread_mlfqs = false) (hh : (K.locks l).holder = some K.cur) :
    (∀ d ∈ ((lock_release_preempted l [] K).threads K.cur).donations,
        ((lock_release_preempted l [] K).threads d).wait_on_lock ≠ some l) ∧
      (∀ d ∈ (K.threads K.cur).donations, (K.threads d).wait_on_lock ≠ some l →
        d ∈ ((lock_release_preempted l [] K).threads K.cur).donations) ∧
      ((lock_release_preempted l [] K).threads K.cur).priority =
        (((lock_release_preempted l [] K).threads K.cur).donations.map fun d =>
          (K.threads d).priority).foldl max (K.threads K.cur).init_priority ∧
      ((lock_release_preempted l [] K).locks l).holder = none ∧
      ((lock_release_preempted l [] K).locks l).semaphore.value =
        uint_inc (K.locks l).semaphore.value ∧
      ((K.locks l).semaphore.waiters ≠ [] →
        ∃ W rest,
          W ∈ (K.locks l).semaphore.waiters ∧
            (∀ u ∈ (K.locks l).semaphore.waiters,
              ((lock_release_preempted l [] K).threads u).priority ≤
                ((lock_release_preempted l [] K).threads W).priority) ∧
            List.Perm (W :: rest) (K.locks l).semaphore.waiters ∧
            ((lock_release_preempted l [] K).locks l).semaphore.waiters = rest ∧
            (W ∈ (lock_release_preempted l [] K).ready_list ∨
              (lock_release_preempted l [] K).cur = W) ∧
            (K.cur ≠ W → K.panicked = false → (K.locks l).semaphore.value = 0 →
              (∀ r, r ∈ K.ready_list ∨ r = K.cur → r ≠ W →
                ((lock_release_preempted l [] K).threads r).priority <
                  ((lock_release_preempted l [] K).threads W).priority) →
              (∃ lv rest1,
                K.cont W =
                  Instr.sema_down_loop (.lock l) lv :: Instr.lock_acquire_ret l :: rest1) →
              (lock_release_preempted l [] K).cur = W ∧
                ((step (step (lock_release_preempted l [] K))).locks l).holder = some W)) := by
  rw [lock_release_preempted_nil l K hm]
  exact lock_release_unpreempted K l hm hh

/-- Witness for C5 (Scenario C): thread 1 (base priority 3, raised to 7)
holds lock `0` on which thread 2 (priority 7) is blocked; thread 1 calls
`lock_release` and is not preempted inside it.  It is back at priority 3,
thread 2 runs and is the holder two steps later. -/
theorem lock_release_donation_effects_witness :
    ((Kernel.boot false pri_3_7 3 2 [1]).run (handoff_trace.take 10)).thread_mlfqs = false ∧
      (((Kernel.boot false pri_3_7 3 2 [1]).run (handoff_trace.take 10)).locks 0).holder =
        some ((Kernel.boot false pri_3_7 3 2 [1]).run (handoff_trace.take 10)).cur ∧
      (((Kernel.boot false pri_3_7 3 2 [1]).run (handoff_trace.take 10)).threads 1).priority = 7 ∧
      ((lock_release_preempted 0 []
        ((Kernel.boot false pri_3_7 3 2 [1]).run (handoff_trace.take 10))).threads
          1).priority = 3 ∧
      ((step (step (lock_release_preempted 0 []
        ((Kernel.boot false pri_3_7 3 2 [1]).run (handoff_trace.take 10))))).locks 0).holder =
        some 2 ∧
      ((lock_release_preempted 0 []
        ((Kernel.boot false pri_3_7 3 2 [1]).run (handoff_trace.take 10))).locks 0).holder =
        none :=
  ⟨by decide, by decide, by decide, by decide, by decide,
    (lock_release_donation_effects
      ((Kernel.boot false pri_3_7 3 2 [1]).run (handoff_trace.take 10)) 0 (by decide)
      (by decide)).2.2.2.1⟩

/-- C11.  Thread `B`, holder of lock `l`, is inside a call of
`cond_broadcast (c, l)`, and each element queued on the condition variable has
its thread blocked on its private semaphore (`Calling`).

Along every run of the kernel, whichever threads call, step or are preempted,
in which `B` makes no new call and the transitions of the other threads leave
alone the holder of the lock, the queue, and the private semaphores and
priorities of the queued threads (`undisturbed`): every call of `cond_signal`
made by the loop takes one element off the queue; the private semaphores that
have been upped, in the order of the ups, followed by the queue, are the
elements that were queued at the start, each once; the ups are in descending
order of the priorities of the waiting threads, and no element still queued
has a higher priority than one whose semaphore was upped.  Once the call has
returned the queue is empty, the loop has made exactly as many calls of
`cond_signal` as there were elements, and the private semaphore of each of
them has been upped exactly once.

When the other threads that can run have been woken by this broadcast, are
about to call `lock_acquire` on the lock, or have nothing pending
(`Broadcast`), the same holds along every run in which the running thread
executes its next instruction, the timer preempts it, or any ready thread is
dispatched in its place; the kernel never halts, and from every state of such
a run some run leads to the return of the call. -/
theorem cond_broadcast_signals_all_in_order (B : Tid) (c l : Nat) (K : Kernel)
    (hC : Calling B c l K) :
    (∀ as : List Action, undisturbed B c l (K.conds c).waiters K as = true →
        signals_over B c l K as + ((K.run as).conds c).waiters.length =
          (K.conds c).waiters.length ∧
        (ups_over (K.conds c).waiters K as ++ ((K.run as).conds c).waiters).Perm
          (K.conds c).waiters ∧
        (ups_over (K.conds c).waiters K as).Pairwise
          (fun a b => (K.threads b).priority ≤ (K.threads a).priority) ∧
        (∀ a ∈ ups_over (K.conds c).waiters K as, ∀ q ∈ ((K.run as).conds c).waiters,
          (K.threads q).priority ≤ (K.threads a).priority) ∧
        ((K.run as).returned B = true →
          ((K.run as).conds c).waiters = [] ∧
            signals_over B c l K as = (K.conds c).waiters.length ∧
            (ups_over (K.conds c).waiters K as).Perm (K.conds c).waiters ∧
            ∀ w ∈ (K.conds c).waiters, (ups_over (K.conds c).waiters K as).count w = 1)) ∧
      (Broadcast B c l K → ∀ ts : List Turn,
        (K.turns ts).panicked = false ∧
          signals_along c l K ts + ((K.turns ts).conds c).waiters.length =
            (K.conds c).waiters.length ∧
          (ups_along (K.conds c).waiters K ts ++ ((K.turns ts).conds c).waiters).Perm
            (K.conds c).waiters ∧
          (ups_along (K.conds c).waiters K ts).Pairwise
            (fun a b => (K.threads b).priority ≤ (K.threads a).priority) ∧
          (∀ a ∈ ups_along (K.conds c).waiters K ts, ∀ q ∈ ((K.turns ts).conds c).waiters,
            (K.threads q).priority ≤ (K.threads a).priority) ∧
          ((K.turns ts).returned B = true →
            ((K.turns ts).conds c).waiters = [] ∧
              signals_along c l K ts = (K.conds c).waiters.length ∧
              (ups_along (K.conds c).waiters K ts).Perm (K.conds c).waiters ∧
              ∀ w ∈ (K.conds c).waiters,
                (ups_along (K.conds c).waiters K ts).count w = 1) ∧
          ∃ us, (K.turns (ts ++ us)).returned B = true) := by
  constructor
  · intro as hu
    obtain ⟨h1, _, h3, h4, h5, h6⟩ :=
      calling_along B c l (K.conds c).waiters hC.queue as K hC (fun _ h => h) hu
    refine ⟨h3, h4, h5, h6, ?_⟩
    intro hr
    have hq := calling_returned B c l _ h1 hr
    rw [hq] at h3 h4
    rw [List.append_nil] at h4
    refine ⟨hq, by simpa using h3, h4, ?_⟩
    intro w hw
    exact List.count_eq_one_of_mem (h4.nodup_iff.2 hC.queue) (h4.symm.subset hw)
  · intro hB ts
    obtain ⟨h1, _, h3, h4, h5, h6⟩ :=
      broadcast_along B c l (K.conds c).waiters hB.pool.queue ts K hB (fun _ h => h)
    refine ⟨h1.pool.alive, h3, h4, h5, h6, ?_, ?_⟩
    · intro hr
      have hq := broadcast_returned B c l _ h1 hr
      rw [hq] at h3 h4
      rw [List.append_nil] at h4
      refine ⟨hq, by simpa using h3, h4, ?_⟩
      intro w hw
      exact List.count_eq_one_of_mem (h4.nodup_iff.2 hB.pool.queue) (h4.symm.subset hw)
    · obtain ⟨us, hus⟩ := broadcast_returns B c l _ (K.turns ts) h1 rfl
      exact ⟨us, by rw [turns_append]; exact hus⟩

/-- Witness for C11: thread 3 (priority 7) holds lock `0` and calls
`cond_broadcast` on condition variable `0`, on which the threads 2 and 1 wait,
while thread 4 is ready: under the donation policy and under the second policy
with thread 4 at priority 1, and under the second policy with thread 4 at the
priority of thread 3.  In each case some run leads to the return of the call,
and then the queue is empty, two calls of `cond_signal` have been made, and
the private semaphores of thread 2 and of thread 1 have been upped, in that
order.  In the last case, ten steps of the threads do not disturb the
broadcast, and the calls of `cond_signal` made along them and the elements
still queued are two together. -/
theorem cond_broadcast_signals_all_in_order_witness :
    (Broadcast 3 0 0 (broadcast_state false) ∧
        ∃ us, ((broadcast_state false).turns us).returned 3 = true ∧
          (((broadcast_state false).turns us).conds 0).waiters = [] ∧
          signals_along 0 0 (broadcast_state false) us = 2 ∧
          ups_along [2, 1] (broadcast_state false) us = [2, 1]) ∧
      (Broadcast 3 0 0 (broadcast_state true) ∧
        ∃ us, ((broadcast_state true).turns us).returned 3 = true ∧
          (((broadcast_state true).turns us).conds 0).waiters = [] ∧
          signals_along 0 0 (broadcast_state true) us = 2 ∧
          ups_along [2, 1] (broadcast_state true) us = [2, 1]) ∧
      (Broadcast 3 0 0 broadcast_tie_state ∧
        ∃ us, (broadcast_tie_state.turns us).returned 3 = true ∧
          ((broadcast_tie_state.turns us).conds 0).waiters = [] ∧
          signals_along 0 0 broadcast_tie_state us = 2 ∧
          ups_along [2, 1] broadcast_tie_state us = [2, 1]) ∧
      (Calling 3 0 0 broadcast_tie_state ∧
        undisturbed 3 0 0 [2, 1] broadcast_tie_state (List.replicate 10 Action.step) = true ∧
        signals_over 3 0 0 broadcast_tie_state (List.replicate 10 Action.step) +
            ((broadcast_tie_state.run (List.replicate 10 Action.step)).conds 0).waiters.length =
          2) := by
  have key : ∀ S : Kernel, Broadcast 3 0 0 S → (S.conds 0).waiters = [2, 1] →
      (S.threads 1).priority < (S.threads 2).priority →
      ∃ us, (S.turns us).returned 3 = true ∧ ((S.turns us).conds 0).waiters = [] ∧
        signals_along 0 0 S us = 2 ∧ ups_along [2, 1] S us = [2, 1] := by
    intro S hS hq hp
    have hthm := (cond_broadcast_signals_all_in_order 3 0 0 S (broadcast_calling 3 0 0 S hS)).2 hS
    obtain ⟨us, hus⟩ := (hthm []).2.2.2.2.2.2
    rw [List.nil_append] at hus
    obtain ⟨_, _, _, a4, _, a6, _⟩ := hthm us
    obtain ⟨b1, b2, b3, _⟩ := a6 hus
    rw [hq] at a4 b2 b3
    exact ⟨us, hus, b1, b2, perm_pair_sorted _ _ 2 1 b3 a4 hp⟩
  have hd : Broadcast 3 0 0 (broadcast_state false) :=
    broadcast_at_call 3 0 0 _ (by decide) (by decide) (by decide) (by decide) (by decide)
      (by decide) (by decide) (by decide) (by decide) (by decide) (by decide) (by decide)
      (by decide) (by decide)
  have hm : Broadcast 3 0 0 (broadcast_state true) :=
    broadcast_at_call 3 0 0 _ (by decide) (by decide) (by decide) (by decide) (by decide)
      (by decide) (by decide) (by decide) (by decide) (by decide) (by decide) (by decide)
      (by decide) (by decide)
  have ht : Broadcast 3 0 0 broadcast_tie_state :=
    broadcast_at_call 3 0 0 _ (by decide) (by decide) (by decide) (by decide) (by decide)
      (by decide) (by decide) (by decide) (by decide) (by decide) (by decide) (by decide)
      (by decide) (by decide)
  have hq : (broadcast_tie_state.conds 0).waiters = [2, 1] := by decide
  have hu : undisturbed 3 0 0 [2, 1] broadcast_tie_state (List.replicate 10 Action.step) =
      true :=
    broadcast_undisturbed 3 0 0 [2, 1] _ _ ht (by decide)
  have hopen := (cond_broadcast_signals_all_in_order 3 0 0 broadcast_tie_state
    (broadcast_calling 3 0 0 _ ht)).1 (List.replicate 10 Action.step) (by rw [hq]; exact hu)
  rw [hq] at hopen
  exact ⟨⟨hd, key _ hd (by decide) (by decide)⟩, ⟨hm, key _ hm (by decide) (by decide)⟩,
    ⟨ht, key _ ht (by decide) (by decide)⟩, broadcast_calling 3 0 0 _ ht, hu, hopen.1⟩

end Synch
